import Mathlib

/-!
Wren on the Flipper Zero: a shallow embedding of `applications/wren_app/wren/wren.c`.

The interpreter keeps everything in one byte array `the_store` of
`store_capacity = 4096` bytes: code grows up from the bottom, the dictionary
grows down from the top, the operand stack of the virtual machine lives in
between.  The two cursors `code_idx` and `dict_idx` are themselves the first
two words of that array.

Modelling conventions

* Memory is one natural number read as a little-endian string of bytes
  (byte `p` is the `p`-th base-256 digit); the target, an ARM Cortex-M4, is
  little-endian and `wValue` is `int32_t`, `wIndex` is `uint16_t`, a function
  pointer has 4 bytes.  Offsets are offsets from `the_store`; offsets at or
  above `store_capacity` stand for the memory that follows the array, which
  the C code must not touch.
* A `wValue` is kept as its bit pattern, a natural number below `2^32`;
  `sval` gives the signed reading.  Signed overflow wraps.
* Every loop of the C code that is not obviously bounded takes a `fuel`
  argument; running out of fuel, and C undefined behaviour that the model does
  not follow (division by zero, an unknown opcode), give `none`.
-/

namespace Wren

/-! ## Unaligned little-endian accessors -/

/-- Bit pattern modulus of `wValue` / `wUvalu` (32 bits). -/
def wmod : Nat := 4294967296

/-- The `n` bytes at offset `p`, as a little-endian number. -/
def fetch_bytes (n : Nat) (m p : Nat) : Nat := (m >>> (8 * p)) % (1 <<< (8 * n))

/-- Replace the `n` bytes at offset `p` by the low `n` bytes of `v`. -/
def write_bytes (n : Nat) (m p v : Nat) : Nat :=
  m ^^^ ((fetch_bytes n m p ^^^ (v % (1 <<< (8 * n)))) <<< (8 * p))

/-- Read `the_store[p]`. -/
def fetch_u8 (m p : Nat) : Nat := (m >>> (8 * p)) % 256

/-- Write `the_store[p] = (uint8_t)v`. -/
def write_u8 (m p v : Nat) : Nat := m ^^^ ((fetch_u8 m p ^^^ (v % 256)) <<< (8 * p))

/-- Source `fetch_wX`: a `wIndex` (uint16) at byte offset `p`. -/
def fetch_wX (m p : Nat) : Nat := (m >>> (8 * p)) % 65536

/-- Source `write_wX`. -/
def write_wX (m p v : Nat) : Nat := m ^^^ ((fetch_wX m p ^^^ (v % 65536)) <<< (8 * p))

/-- Source `fetch_2i`: an `int16_t` at `p`, returned as its 16-bit pattern. -/
def fetch_2i (m p : Nat) : Nat := (m >>> (8 * p)) % 65536

/-- Source `write_2i`. -/
def write_2i (m p v : Nat) : Nat := m ^^^ ((fetch_2i m p ^^^ (v % 65536)) <<< (8 * p))

/-- Source `fetch_wV`: a `wValue` at `p`, returned as its 32-bit pattern. -/
def fetch_wV (m p : Nat) : Nat := (m >>> (8 * p)) % 4294967296

/-- Source `write_wV`. -/
def write_wV (m p v : Nat) : Nat := m ^^^ ((fetch_wV m p ^^^ (v % 4294967296)) <<< (8 * p))

/-- Source `fetch_wP`: a function pointer (4 bytes on the target). -/
def fetch_wP (m p : Nat) : Nat := (m >>> (8 * p)) % 4294967296

/-- Source `write_wP`. -/
def write_wP (m p v : Nat) : Nat := m ^^^ ((fetch_wP m p ^^^ (v % 4294967296)) <<< (8 * p))

/-- Signed reading of a 32-bit pattern. -/
def sval (v : Nat) : Int := if v < 2147483648 then (v : Int) else (v : Int) - 4294967296

/-- The 32-bit pattern of an integer (two's complement). -/
def wval (i : Int) : Nat := (i % 4294967296).toNat

/-- Sign extension of an 8-bit pattern to 32 bits (`int8_t` to `wValue`). -/
def sext8 (b : Nat) : Nat := if b < 128 then b else b + 4294967040

/-- Sign extension of a 16-bit pattern to 32 bits (`int16_t` to `wValue`). -/
def sext16 (h : Nat) : Nat := if h < 32768 then h else h + 4294901760

/-! ## Interpreter state -/

/-- Capacity of `the_store` in bytes. -/
def store_capacity : Nat := 4096

/-- The C `EOF`. -/
def EOF : Int := -1

/-- The sentinel `unread = EOF - 1` of the one-character lookahead. -/
def unread : Int := -2

/-- All the file-scope variables of `wren.c`, plus the three byte streams it
talks to: `in_file` (the script being read by `ch`), `stdin_` (read by the
`GETC` instruction) and `out` (everything written to `stdout`, in order). -/
structure State where
  the_store : Nat
  complaint : Option String
  prev_instruc : Nat
  input_char : Int
  token : Int
  token_value : Nat
  token_name : List Nat
  in_file : List Nat
  stdin_ : List Nat
  out : List Nat

/-- The state of a freshly loaded program: statics are zero, `input_char`
starts as `unread`. -/
def fresh (script : List Nat) (input : List Nat) : State :=
  { the_store := 0, complaint := none, prev_instruc := 0, input_char := unread,
    token := 0, token_value := 0, token_name := [], in_file := script,
    stdin_ := input, out := [] }

/-- Source `complain`: only the first message of a command is kept. -/
def complain (s : State) (msg : String) : State :=
  match s.complaint with
  | none => { s with complaint := some msg }
  | some _ => s

/-- The macro `code_idx`: word 0 of the store. -/
def code_idx (s : State) : Nat := fetch_wV s.the_store 0

/-- The macro `dict_idx`: word 1 of the store. -/
def dict_idx (s : State) : Nat := fetch_wV s.the_store 4

/-- Assignment to `code_idx`. -/
def set_code_idx (s : State) (v : Nat) : State :=
  { s with the_store := write_wV s.the_store 0 v }

/-- Assignment to `dict_idx`. -/
def set_dict_idx (s : State) (v : Nat) : State :=
  { s with the_store := write_wV s.the_store 4 v }

/-- Source `available`; the sum is computed in `unsigned` and wraps. -/
def available (s : State) (amount : Nat) : Bool × State :=
  if (code_idx s + amount) % 4294967296 ≤ dict_idx s then (true, s)
  else (false, complain s "Store exhausted")

/-! ## Dictionary headers -/

/-- Values of `NameKind`. -/
def a_primitive : Nat := 0
/-- Kind of a procedure defined by `fun`. -/
def a_procedure : Nat := 1
/-- Kind of a global defined by `let`. -/
def a_global : Nat := 2
/-- Kind of a parameter. -/
def a_local : Nat := 3
/-- Kind of a host function. -/
def a_cfunction : Nat := 4

/-- Size of the packed `struct Header` without the name. -/
def sizeof_Header : Nat := 3

/-- Source `get_header_kind`. -/
def get_header_kind (m h : Nat) : Nat := fetch_u8 m (h + 2) / 16

/-- Source `get_header_name_length`. -/
def get_header_name_length (m h : Nat) : Nat := fetch_u8 m (h + 2) % 16 + 1

/-- Source `get_header_binding`. -/
def get_header_binding (m h : Nat) : Nat := fetch_wX m h

/-- Source `get_header_prim_arity`. -/
def get_header_prim_arity (m h : Nat) : Nat := fetch_u8 m h

/-- Source `get_header_prim_opcode`. -/
def get_header_prim_opcode (m h : Nat) : Nat := fetch_u8 m (h + 1)

/-- Source `set_header_kind_lnm1`; `name_length - 1` is taken as `uint8_t`. -/
def set_header_kind_lnm1 (m h kind name_length : Nat) : Nat :=
  write_u8 m (h + 2) ((kind % 256) * 16 % 256 ||| ((name_length + 255) % 256) % 16)

/-- Source `set_header_binding`. -/
def set_header_binding (m h binding : Nat) : Nat := write_wX m h binding

/-- Source `next_header`. -/
def next_header (m h : Nat) : Nat := h + sizeof_Header + get_header_name_length m h

/-- Little-endian number of a byte string. -/
def pack : List Nat → Nat
  | [] => 0
  | b :: bs => b % 256 + 256 * pack bs

/-- Source `memcpy(dst, name, length)` for a byte string. -/
def write_string (m p : Nat) (bytes : List Nat) : Nat :=
  write_bytes bytes.length m p (pack bytes)

/-- Source `bind`: push a header on the dictionary, or complain and return
`none`.  The C asserts `1 <= length <= 16`, `kind <= a_cfunction`,
`binding <= 65535`. -/
def bind (s : State) (name : List Nat) (kind binding : Nat) : Option Nat × State :=
  let length := name.length
  match available s (sizeof_Header + length) with
  | (true, s) =>
    let h := (dict_idx s + 4294967296 - (sizeof_Header + length) % 4294967296) % 4294967296
    let s := set_dict_idx s h
    let m := set_header_kind_lnm1 s.the_store h kind length
    let m := set_header_binding m h binding
    let m := write_string m (h + sizeof_Header) name
    (some h, { s with the_store := m })
  | (false, s) => (none, s)

/-- The loop of source `lookup` over the headers in `[dict, end_)` of memory
`m`.  Every header is at least 4 bytes long, so `fuel = end_ - dict` lets the
loop run to the end. -/
def lookup_loop (m : Nat) (name : List Nat) (end_ : Nat) : Nat → Nat → Option Nat
  | 0, _ => none
  | fuel + 1, dict =>
    if dict < end_ then
      if get_header_name_length m dict = name.length
          ∧ fetch_bytes name.length m (dict + sizeof_Header) = pack name then
        some dict
      else lookup_loop m name end_ fuel (next_header m dict)
    else none

/-- Source `lookup`: the first header in `[dict, end_)` whose name is `name`. -/
def lookup (m dict end_ : Nat) (name : List Nat) : Option Nat :=
  lookup_loop m name end_ (end_ - dict) dict

/-- Source `get_proc_arity`. -/
def get_proc_arity (m binding : Nat) : Nat := fetch_u8 m binding

/-! ## Opcodes -/

def HALT : Nat := 0
def PUSH : Nat := 1
def POP : Nat := 2
def PUSH_STRING : Nat := 3
def GLOBAL_FETCH : Nat := 4
def GLOBAL_STORE : Nat := 5
def LOCAL_FETCH : Nat := 6
def TCALL : Nat := 7
def CALL : Nat := 8
def RETURN : Nat := 9
def BRANCH : Nat := 10
def JUMP : Nat := 11
def ADD : Nat := 12
def SUB : Nat := 13
def MUL : Nat := 14
def DIV : Nat := 15
def MOD : Nat := 16
def UMUL : Nat := 17
def UDIV : Nat := 18
def UMOD : Nat := 19
def NEGATE : Nat := 20
def EQ : Nat := 21
def LT : Nat := 22
def ULT : Nat := 23
def AND : Nat := 24
def OR : Nat := 25
def XOR : Nat := 26
def SLA : Nat := 27
def SRA : Nat := 28
def SRL : Nat := 29
def GETC : Nat := 30
def PUTC : Nat := 31
def REFB : Nat := 32
def REFV : Nat := 33
def SETV : Nat := 34
def LOCAL_FETCH_0 : Nat := 35
def LOCAL_FETCH_1 : Nat := 36
def PUSHW : Nat := 37
def PUSHB : Nat := 38
def CCALL : Nat := 39
def REFX : Nat := 40
def SETX : Nat := 41
def SETB : Nat := 42

/-- Source `PRIM_HEADER(opcode, arity, name_length)` followed by the name. -/
def prim_header (opcode arity : Nat) (name : List Nat) : List Nat :=
  [arity, opcode, a_primitive * 16 ||| (name.length - 1) % 16] ++ name

/-- Source `primitive_dictionary`, as a list of bytes. -/
def primitive_bytes : List Nat :=
  prim_header UMUL 2 [117, 109, 117, 108] ++
  prim_header UDIV 2 [117, 100, 105, 118] ++
  prim_header UMOD 2 [117, 109, 111, 100] ++
  prim_header ULT 2 [117, 108, 116] ++
  prim_header SLA 2 [115, 108, 97] ++
  prim_header SRA 2 [115, 114, 97] ++
  prim_header SRL 2 [115, 114, 108] ++
  prim_header GETC 0 [103, 101, 116, 99] ++
  prim_header PUTC 1 [112, 117, 116, 99] ++
  prim_header REFV 1 [114, 101, 102, 118] ++
  prim_header SETV 2 [115, 101, 116, 118] ++
  prim_header REFX 1 [114, 101, 102, 120] ++
  prim_header SETX 2 [115, 101, 116, 120] ++
  prim_header SETB 2 [115, 101, 116, 98]

/-- The read-only array `primitive_dictionary` as a memory image. -/
def primitive_dictionary : Nat := pack primitive_bytes

/-- `sizeof primitive_dictionary`. -/
def sizeof_primitive_dictionary : Nat := primitive_bytes.length

/-! ## Output helpers and host functions -/

/-- The bytes of a C string literal. -/
def bytes_of (str : String) : List Nat := str.data.map Char.toNat

/-- Decimal digits of `n`, most significant first (at most `fuel` digits). -/
def decimal_loop : Nat → Nat → List Nat → List Nat
  | 0, _, acc => acc
  | fuel + 1, n, acc =>
    if n / 10 = 0 then (48 + n % 10) :: acc
    else decimal_loop fuel (n / 10) ((48 + n % 10) :: acc)

/-- What `printf("%lu", v)` writes for a 32-bit `unsigned long`. -/
def decimal (n : Nat) : List Nat := decimal_loop 10 n []

/-- What `printf("%d", i)` writes for an `int`. -/
def decimal_int (i : Int) : List Nat :=
  if i < 0 then 45 :: decimal_loop 10 (-i).toNat [] else decimal_loop 10 i.toNat []

/-- Source `strlen` at offset `p`, looking only inside the store. -/
def strlen_loop (m : Nat) : Nat → Nat → Option Nat
  | 0, _ => none
  | fuel + 1, p =>
    if fetch_u8 m p = 0 then some 0
    else (strlen_loop m fuel (p + 1)).map (fun n => n + 1)

/-- Source `strlen((const char *)&the_store[p])`; `none` when no NUL is found
before the end of the store. -/
def strlen (m p : Nat) : Option Nat := strlen_loop m (store_capacity - p) p

/-- The bytes of the C string at `p`. -/
def read_string (m p : Nat) : Option (List Nat) :=
  (strlen m p).map (fun n => (List.range n).map (fun i => fetch_u8 m (p + i)))

/-- The value of the function pointer `moo`.  Host functions are known to the
store only through the 4 bytes `write_wP` leaves there; the model uses a
handle in place of the machine address. -/
def moo_ptr : Nat := 1

/-- Source `moo`: prints the C string at `a1` and returns 0. -/
def moo (s : State) (a1 : Nat) : Option (Nat × State) :=
  (read_string s.the_store a1).map
    (fun str => (0, { s with out := s.out ++ bytes_of "moo: " ++ str ++ bytes_of ".\r\n" }))

/-- The call `(*fn)(a1, ..., an)`: only `moo` is a known host function, and
it is modelled at the one argument it is declared with; a call of it with
another number of arguments has no result in the model. -/
def host_apply (fn : Nat) (args : List Nat) (s : State) : Option (Nat × State) :=
  if fn = moo_ptr then
    match args with
    | [a1] => moo s a1
    | _ => none
  else none

/-- Source `ccall`: `args[arity-1]` is passed first, `args[0]` last; an arity
above 7 calls nothing and returns 0. `fn` is the host function, which
receives the arguments and the interpreter it may act on. -/
def ccall (fn : List Nat → State → Option (Nat × State)) (s : State) (args arity : Nat) :
    Option (Nat × State) :=
  if arity ≤ 7 then
    fn ((List.range arity).reverse.map (fun i => fetch_wV s.the_store (args + 4 * i))) s
  else some (0, s)

/-! ## The virtual machine -/

/-- Outcome of one trip round the `for (;;) switch (*pc++)` of `run`. -/
inductive Step where
  | next (pc sp bp : Nat) (s : State)
  | done (v : Nat) (s : State)
  | undefined

/-- The label `stack_overflow` of `run`. -/
def stack_overflow (s : State) : Step := Step.done 0 (complain s "Stack overflow")

/-- The common shape `need(1); *--sp = v;` of the pushing instructions. -/
def push (end_ pc sp bp : Nat) (s : State) (v : Nat) : Step :=
  if sp < end_ + 4 then stack_overflow s
  else Step.next pc (sp - 4) bp { s with the_store := write_wV s.the_store (sp - 4) v }

/-- The shape `sp[1] = v; ++sp;` of the binary operators. -/
def binop (pc sp bp : Nat) (s : State) (v : Nat) : Step :=
  Step.next pc (sp + 4) bp { s with the_store := write_wV s.the_store (sp + 4) v }

/-- The shape `sp[0] = v;` of the unary operators. -/
def unop (pc sp bp : Nat) (s : State) (v : Nat) : Step :=
  Step.next pc sp bp { s with the_store := write_wV s.the_store sp v }

/-- The loop `while (*cont == JUMP) { ++cont; cont += fetch_wX(cont); }` of
`CALL`; `cont` grows at every turn, and the search stays inside the store. -/
def skip_jumps (m : Nat) : Nat → Nat → Option Nat
  | 0, _ => none
  | fuel + 1, cont =>
    if store_capacity ≤ cont then none
    else if fetch_u8 m cont = JUMP then skip_jumps m fuel (cont + 1 + fetch_wX m (cont + 1))
    else some cont

/-- One instruction of source `run`, executed at `pc` with stack pointer `sp`
and base pointer `bp`; `end_` is the end of the code being run. The host
functions are not part of `wren.c`: `host fn` is the function that the
pointer `fn`, found in a C function record, stands for. -/
def step_with (host : Nat → List Nat → State → Option (Nat × State)) (end_ pc sp bp : Nat)
    (s : State) : Step :=
  let m := s.the_store
  let op := fetch_u8 m pc
  let pc := pc + 1
  let a := fetch_wV m (sp + 4)
  let b := fetch_wV m sp
  if op = HALT then Step.done b s
  else if op = PUSH then push end_ (pc + 4) sp bp s (fetch_wV m pc)
  else if op = PUSHW then push end_ (pc + 2) sp bp s (sext16 (fetch_2i m pc))
  else if op = PUSHB then push end_ (pc + 1) sp bp s (sext8 (fetch_u8 m pc))
  else if op = POP then Step.next pc (sp + 4) bp s
  else if op = PUSH_STRING then
    if sp < end_ + 4 then stack_overflow s
    else
      match strlen m pc with
      | some n => push end_ (pc + n + 1) sp bp s (pc % 4294967296)
      | none => Step.undefined
  else if op = GLOBAL_FETCH then push end_ (pc + 2) sp bp s (fetch_wV m (fetch_wX m pc))
  else if op = GLOBAL_STORE then
    Step.next (pc + 2) sp bp { s with the_store := write_wV m (fetch_wX m pc) b }
  else if op = LOCAL_FETCH_0 then push end_ pc sp bp s (fetch_wV m bp)
  else if op = LOCAL_FETCH_1 then push end_ pc sp bp s (fetch_wV m (bp - 4))
  else if op = LOCAL_FETCH then push end_ (pc + 1) sp bp s (fetch_wV m (bp - 4 * fetch_u8 m pc))
  else if op = TCALL then
    let binding := fetch_wX m pc
    let n := get_proc_arity m binding
    let frame_info := fetch_wV m (sp + 4 * n)
    let m := write_bytes (4 * n) m (bp + 4 - 4 * n) (fetch_bytes (4 * n) m sp)
    let sp := bp - 4 * n
    Step.next (binding + 1) sp bp { s with the_store := write_wV m sp frame_info }
  else if op = CALL then
    match skip_jumps m store_capacity (pc + 2) with
    | none => Step.undefined
    | some cont =>
      if fetch_u8 m cont = RETURN then
        Step.next (pc - 1) sp bp { s with the_store := write_u8 m (pc - 1) TCALL }
      else
        let binding := fetch_wX m pc
        let n := get_proc_arity m binding
        if sp < end_ + 4 then stack_overflow s
        else
          let sp := sp - 4
          let m := write_wX m sp bp
          let m := write_wX m (sp + 2) cont
          Step.next (binding + 1) sp (sp + 4 * n) { s with the_store := m }
  else if op = CCALL then
    let binding := fetch_wX m pc
    let n := get_proc_arity m binding
    match ccall (host (fetch_wP m (binding + 1))) s sp n with
    | none => Step.undefined
    | some (result, s) =>
      if n = 0 then
        if sp < end_ + 4 then stack_overflow s
        else Step.next (pc + 2) (sp - 4) bp
               { s with the_store := write_wV s.the_store (sp - 4) result }
      else Step.next (pc + 2) (sp + 4 * (n - 1)) bp
             { s with the_store := write_wV s.the_store (sp + 4 * (n - 1)) result }
  else if op = RETURN then
    let f0 := fetch_wX m (sp + 4)
    let f1 := fetch_wX m (sp + 6)
    Step.next f1 bp f0 { s with the_store := write_wV m bp b }
  else if op = BRANCH then
    if b = 0 then Step.next (pc + fetch_wX m pc) (sp + 4) bp s
    else Step.next (pc + 2) (sp + 4) bp s
  else if op = JUMP then Step.next (pc + fetch_wX m pc) sp bp s
  else if op = ADD then binop pc sp bp s ((a + b) % 4294967296)
  else if op = SUB then binop pc sp bp s ((a + 4294967296 - b) % 4294967296)
  else if op = MUL then binop pc sp bp s ((a * b) % 4294967296)
  else if op = DIV then
    if b = 0 ∨ (a = 2147483648 ∧ b = 4294967295) then Step.undefined
    else binop pc sp bp s (wval (Int.tdiv (sval a) (sval b)))
  else if op = MOD then
    if b = 0 ∨ (a = 2147483648 ∧ b = 4294967295) then Step.undefined
    else binop pc sp bp s (wval (Int.tmod (sval a) (sval b)))
  else if op = UMUL then binop pc sp bp s ((a * b) % 4294967296)
  else if op = UDIV then
    if b = 0 then Step.undefined else binop pc sp bp s (a / b)
  else if op = UMOD then
    if b = 0 then Step.undefined else binop pc sp bp s (a % b)
  else if op = NEGATE then unop pc sp bp s ((4294967296 - b) % 4294967296)
  else if op = EQ then binop pc sp bp s (if a = b then 1 else 0)
  else if op = LT then binop pc sp bp s (if sval a < sval b then 1 else 0)
  else if op = ULT then binop pc sp bp s (if a < b then 1 else 0)
  else if op = AND then binop pc sp bp s (a &&& b)
  else if op = OR then binop pc sp bp s (a ||| b)
  else if op = XOR then binop pc sp bp s (a ^^^ b)
  else if op = SLA then
    if 32 ≤ b then Step.undefined else binop pc sp bp s ((a <<< b) % 4294967296)
  else if op = SRA then
    if 32 ≤ b then Step.undefined else binop pc sp bp s (wval (sval a >>> b))
  else if op = SRL then
    if 32 ≤ b then Step.undefined else binop pc sp bp s (a >>> b)
  else if op = GETC then
    if sp < end_ + 4 then stack_overflow s
    else
      match s.stdin_ with
      | [] => push end_ pc sp bp s 4294967295
      | c :: rest => push end_ pc sp bp { s with stdin_ := rest } (c % 256)
  else if op = PUTC then Step.next pc sp bp { s with out := s.out ++ [b % 256] }
  else if op = REFB then
    unop pc sp bp s (if b < store_capacity then fetch_u8 m b else 0)
  else if op = REFV then
    unop pc sp bp s (if b ≤ store_capacity - 4 then fetch_wV m b else 0)
  else if op = SETV then
    Step.next pc (sp + 4) bp
      (if a ≤ store_capacity - 4 then { s with the_store := write_wV m a b } else s)
  else if op = REFX then
    unop pc sp bp s (if b ≤ store_capacity - 2 then fetch_wX m b else 0)
  else if op = SETX then
    Step.next pc (sp + 4) bp
      (if a ≤ store_capacity - 2 then { s with the_store := write_wX m a b } else s)
  else if op = SETB then
    Step.next pc (sp + 4) bp
      (if a < store_capacity then { s with the_store := write_u8 m a b } else s)
  else Step.undefined

/-- One instruction of source `run` with the host functions of this
repository, of which `moo` is the only one. -/
def step (end_ pc sp bp : Nat) (s : State) : Step := step_with host_apply end_ pc sp bp s

/-- The `for (;;)` of source `run`. -/
def run_loop (end_ : Nat) : Nat → Nat → Nat → Nat → State → Option (Nat × State)
  | 0, _, _, _, _ => none
  | fuel + 1, pc, sp, bp, s =>
    match step end_ pc sp bp s with
    | Step.next pc sp bp s => run_loop end_ fuel pc sp bp s
    | Step.done v s => some (v, s)
    | Step.undefined => none

/-- Source `run`: run the code at `pc`; the stack starts at the first aligned
cell at or below `dict_ptr` (the store is taken to be word-aligned). -/
def run (fuel pc end_ : Nat) (s : State) : Option (Nat × State) :=
  let sp := dict_idx s / 4 * 4
  run_loop end_ fuel pc sp sp s

/-! ## The assembler -/

/-- Source `gen`: emit an opcode and remember where (`prev_instruc` is a
`wIndex`). In `the_store[code_idx++] = opcode` the byte goes to the old
`code_idx`, which is then incremented; the model stores the byte first. Only
for `code_idx < 4`, where the byte lies inside the word of `code_idx` itself,
does the order of the two stores matter, and the C leaves it open there. -/
def gen (s : State) (opcode : Nat) : State :=
  match available s 1 with
  | (true, s) =>
    let ci := code_idx s
    set_code_idx { s with prev_instruc := ci % 65536, the_store := write_u8 s.the_store ci opcode }
      (ci + 1)
  | (false, s) => s

/-- Source `gen_ubyte`. -/
def gen_ubyte (s : State) (b : Nat) : State :=
  match available s 1 with
  | (true, s) =>
    let ci := code_idx s
    set_code_idx { s with the_store := write_u8 s.the_store ci b } (ci + 1)
  | (false, s) => s

/-- Source `gen_sbyte`; `b` is the 8-bit pattern of the `int8_t`. -/
def gen_sbyte (s : State) (b : Nat) : State :=
  match available s 1 with
  | (true, s) =>
    let ci := code_idx s
    set_code_idx { s with the_store := write_u8 s.the_store ci b } (ci + 1)
  | (false, s) => s

/-- Source `gen_ushort`. -/
def gen_ushort (s : State) (u : Nat) : State :=
  match available s 2 with
  | (true, s) =>
    let ci := code_idx s
    set_code_idx { s with the_store := write_wX s.the_store ci u } (ci + 2)
  | (false, s) => s

/-- Source `gen_sshort`; `u` is the 16-bit pattern of the `int16_t`. -/
def gen_sshort (s : State) (u : Nat) : State :=
  match available s 2 with
  | (true, s) =>
    let ci := code_idx s
    set_code_idx { s with the_store := write_2i s.the_store ci u } (ci + 2)
  | (false, s) => s

/-- Source `gen_value`. -/
def gen_value (s : State) (v : Nat) : State :=
  match available s 4 with
  | (true, s) =>
    let ci := code_idx s
    set_code_idx { s with the_store := write_wV s.the_store ci v } (ci + 4)
  | (false, s) => s

/-- Source `gen_pointer`. -/
def gen_pointer (s : State) (v : Nat) : State :=
  match available s 4 with
  | (true, s) =>
    let ci := code_idx s
    set_code_idx { s with the_store := write_wP s.the_store ci v } (ci + 4)
  | (false, s) => s

/-- Source `forward_ref`: returns the `wIndex` of the two bytes left open. -/
def forward_ref (s : State) : Nat × State :=
  (code_idx s % 65536, set_code_idx s (code_idx s + 2))

/-- Source `resolve`. -/
def resolve (s : State) (ref : Nat) : State :=
  { s with the_store := write_wX s.the_store ref (code_idx s + 4294967296 - ref) }

/-- Source `block_prev`. -/
def block_prev (s : State) : State := { s with prev_instruc := 0 }

/-! ## Scanning -/

/-- Source `ch`: the current character, read from `in_file` when needed;
`char` is unsigned on the target. -/
def ch (s : State) : Int × State :=
  if s.input_char = unread then
    match s.in_file with
    | [] => (EOF, { s with input_char := EOF })
    | b :: rest => (((b % 256 : Nat) : Int), { s with input_char := ((b % 256 : Nat) : Int), in_file := rest })
  else (s.input_char, s)

/-- Source `next_char`. -/
def next_char (s : State) : State :=
  if s.input_char ≠ EOF then { s with input_char := unread } else s

/-- Source `skip_line`. -/
def skip_line : Nat → State → Option State
  | 0, _ => none
  | fuel + 1, s =>
    match ch s with
    | (c, s) => if c ≠ 10 ∧ c ≠ EOF then skip_line fuel (next_char s) else some s

/-- The C `isdigit`. -/
def isdigit (c : Int) : Bool := 48 ≤ c ∧ c ≤ 57

/-- The C `isalpha` in the "C" locale. -/
def isalpha (c : Int) : Bool := (65 ≤ c ∧ c ≤ 90) ∨ (97 ≤ c ∧ c ≤ 122)

/-- The C `isalnum`. -/
def isalnum (c : Int) : Bool := isalpha c || isdigit c

/-- The C `isxdigit`. -/
def isxdigit (c : Int) : Bool := isdigit c || (65 ≤ c ∧ c ≤ 70) || (97 ≤ c ∧ c ≤ 102)

/-- The C `toupper`. -/
def toupper (c : Int) : Int := if 97 ≤ c ∧ c ≤ 122 then c - 32 else c

/-- Source `hex_char_value`. -/
def hex_char_value (c : Int) : Nat := if c ≤ 57 then (c - 48).toNat else (toupper c - 55).toNat

/-- The `for` loop over the hexadecimal digits in source `next`; returns
`digit_count`. -/
def lex_hex : Nat → Nat → State → Option (Nat × State)
  | 0, _, _ => none
  | fuel + 1, digit_count, s =>
    match ch s with
    | (c, s) =>
      if isxdigit c then
        lex_hex fuel (digit_count + 1)
          (next_char { s with token_value := (16 * s.token_value + hex_char_value c) % 4294967296 })
      else some (digit_count, s)

/-- The `do ... while (isdigit(ch()))` loop of source `next`. -/
def lex_number : Nat → State → Option State
  | 0, _ => none
  | fuel + 1, s =>
    match ch s with
    | (c, s) =>
      let tv := (10 * s.token_value + c.toNat - 48) % 4294967296
      match ch (next_char { s with token_value := tv }) with
      | (c, s) =>
        if c = 120 ∧ tv = 0 then
          match lex_hex fuel 0 (next_char s) with
          | none => none
          | some (digit_count, s) =>
            if digit_count = 0 then some (complain s "Invalid Hex Number")
            else if digit_count > 8 then some (complain s "Numeric overflow")
            else some s
        else if 2147483648 ≤ tv then some (complain s "Numeric overflow")
        else if isdigit c then lex_number fuel s
        else some s

/-- The `do ... while (isalnum(ch()) || ch() == '_')` loop of source `next`;
`name` is what has been stored in `token_name` so far. -/
def lex_ident : Nat → List Nat → State → Option (List Nat × State)
  | 0, _, _ => none
  | fuel + 1, name, s =>
    if name.length = 16 then some (name, complain s "Identifier too long")
    else
      match ch s with
      | (c, s) =>
        match ch (next_char s) with
        | (c', s) =>
          if isalnum c' ∨ c' = 95 then lex_ident fuel (name ++ [c.toNat]) s
          else some (name ++ [c.toNat], s)

/-- The keyword tokens of source `next`. -/
def keyword (name : List Nat) : Int :=
  if name = bytes_of "then" then 116
  else if name = bytes_of "forget" then 111
  else if name = bytes_of "let" then 108
  else if name = bytes_of "if" then 105
  else if name = bytes_of "fun" then 102
  else if name = bytes_of "else" then 101
  else 97

/-- The `for (; ch() != '\''; next_char())` loop of source `next`; `p` is the
pointer `s` of the C code. -/
def lex_string : Nat → Nat → State → Option State
  | 0, _, _ => none
  | fuel + 1, p, s =>
    match ch s with
    | (c, s) =>
      if c = 39 then
        let s := next_char s
        some { s with the_store := write_u8 s.the_store p 0, token := 39 }
      else if c = EOF then some { complain s "Unterminated string" with token := EOF }
      else
        match available s (p + 2 - code_idx s) with
        | (false, s) => some { s with token := 10 }
        | (true, s) =>
          lex_string fuel (p + 1) (next_char { s with the_store := write_u8 s.the_store p c.toNat })

/-- The characters that are tokens by themselves. -/
def is_operator_char (c : Int) : Bool :=
  c = 43 ∨ c = 45 ∨ c = 42 ∨ c = 47 ∨ c = 37 ∨ c = 60 ∨ c = 38 ∨ c = 124 ∨ c = 94 ∨
  c = 40 ∨ c = 41 ∨ c = 61 ∨ c = 58 ∨ c = 59 ∨ c = 10 ∨ c = EOF

/-- Source `next`: read the next token. -/
def next : Nat → State → Option State
  | 0, _ => none
  | fuel + 1, s =>
    match ch s with
    | (c, s) =>
      if isdigit c then lex_number fuel { s with token := PUSH, token_value := 0 }
      else if isalpha c ∨ c = 95 then
        match lex_ident fuel [] s with
        | none => none
        | some (name, s) => some { s with token_name := name, token := keyword name }
      else if c = 39 then
        let s := next_char s
        lex_string fuel (code_idx s + 1) s
      else if is_operator_char c then some (next_char { s with token := c })
      else if c = 32 ∨ c = 9 ∨ c = 13 then next fuel (next_char s)
      else if c = 35 then
        match skip_line fuel s with
        | none => none
        | some s => next fuel s
      else some { complain s "Lexical error" with token := 10 }

/-! ## Parsing and compiling -/

/-- Source `expect`. -/
def expect (s : State) (expected : Int) (plaint : String) : Bool × State :=
  if s.token = expected then (true, s) else (false, complain s plaint)

/-- Source `skip_newline`. -/
def skip_newline : Nat → State → Option State
  | 0, _ => none
  | fuel + 1, s =>
    if s.complaint.isNone ∧ s.token = 10 then
      match next fuel s with
      | none => none
      | some s => skip_newline fuel s
    else some s

/-- A header found by `lookup`, in the user dictionary (inside the store) or
in the read-only `primitive_dictionary`. -/
inductive HeaderRef where
  | user (h : Nat)
  | prim (h : Nat)

/-- The two lookups of `parse_factor`: the user dictionary first, the
primitives as a fallback. -/
def lookup_both (s : State) : Option HeaderRef :=
  match lookup s.the_store (dict_idx s) store_capacity s.token_name with
  | some h => some (HeaderRef.user h)
  | none =>
    match lookup primitive_dictionary 0 sizeof_primitive_dictionary s.token_name with
    | some h => some (HeaderRef.prim h)
    | none => none

/-- The memory a header lives in. -/
def header_memory (s : State) : HeaderRef → Nat × Nat
  | HeaderRef.user h => (s.the_store, h)
  | HeaderRef.prim h => (primitive_dictionary, h)

/-- The `case PUSH` of `parse_factor`: the narrowest push for `token_value`. -/
def gen_literal (s : State) : State :=
  let v := s.token_value
  if sval v < 128 ∧ sval v ≥ -128 then gen_sbyte (gen s PUSHB) (v % 256)
  else if sval v < 32768 ∧ sval v ≥ -32768 then gen_sshort (gen s PUSHW) (v % 65536)
  else gen_value (gen s PUSH) v

/-- The peephole of the unary minus in `parse_factor`. -/
def gen_negate (s : State) : State :=
  let m := s.the_store
  let ci := code_idx s
  if s.prev_instruc ≠ 0 then
    if fetch_u8 m s.prev_instruc = PUSH then
      { s with the_store := write_wV m (ci - 4) ((4294967296 - fetch_wV m (ci - 4)) % 4294967296) }
    else if fetch_u8 m s.prev_instruc = PUSHW then
      { s with the_store := write_2i m (ci - 2) ((65536 - fetch_2i m (ci - 2)) % 65536) }
    else if fetch_u8 m s.prev_instruc = PUSHB then
      { s with the_store := write_u8 m (ci - 1) ((256 - fetch_u8 m (ci - 1)) % 256) }
    else gen s NEGATE
  else gen s NEGATE

/-- The operator table of `parse_expr`: left precedence and opcode. -/
def binary_operator (token : Int) : Option (Int × Nat) :=
  if token = 59 then some (1, POP)
  else if token = 58 then some (3, GLOBAL_STORE)
  else if token = 38 then some (5, AND)
  else if token = 124 then some (5, OR)
  else if token = 94 then some (5, XOR)
  else if token = 60 then some (7, LT)
  else if token = 61 then some (7, EQ)
  else if token = 43 then some (9, ADD)
  else if token = 45 then some (9, SUB)
  else if token = 42 then some (11, MUL)
  else if token = 47 then some (11, DIV)
  else if token = 37 then some (11, MOD)
  else none

/-- What `printf(" rcv: %c %d\r\n", token, token)` writes. -/
def rcv_message (token : Int) : List Nat :=
  bytes_of " rcv: " ++ [(token % 256).toNat] ++ [32] ++ decimal_int token ++ [13, 10]

mutual

/-- Source `parse_arguments`. -/
def parse_arguments : Nat → Nat → State → Option State
  | 0, _, _ => none
  | fuel + 1, arity, s =>
    if arity = 0 then some s
    else
      match parse_expr fuel 20 s with
      | none => none
      | some s => parse_arguments fuel (arity - 1) s

/-- Source `parse_factor`. -/
def parse_factor : Nat → State → Option State
  | 0, _ => none
  | fuel + 1, s =>
    match skip_newline fuel s with
    | none => none
    | some s =>
      if s.token = 1 then next fuel (gen_literal s)
      else if s.token = 39 then
        let s := gen s PUSH_STRING
        match strlen s.the_store (code_idx s) with
        | none => none
        | some n => next fuel (set_code_idx s (code_idx s + n + 1))
      else if s.token = 97 then
        match lookup_both s with
        | none => some (complain s "Unknown identifier")
        | some h =>
          match next fuel s with
          | none => none
          | some s =>
            let kind := get_header_kind (header_memory s h).1 (header_memory s h).2
            if kind = a_global then
              let s := gen s GLOBAL_FETCH
              some (gen_ushort s (get_header_binding (header_memory s h).1 (header_memory s h).2))
            else if kind = a_local then
              if get_header_binding (header_memory s h).1 (header_memory s h).2 = 0 then
                some (gen s LOCAL_FETCH_0)
              else if get_header_binding (header_memory s h).1 (header_memory s h).2 = 1 then
                some (gen s LOCAL_FETCH_1)
              else
                let s := gen s LOCAL_FETCH
                some (gen_ubyte s (get_header_binding (header_memory s h).1 (header_memory s h).2))
            else if kind = a_procedure then
              let binding := get_header_binding (header_memory s h).1 (header_memory s h).2
              match parse_arguments fuel (get_proc_arity s.the_store binding) s with
              | none => none
              | some s => some (gen_ushort (gen s CALL) binding)
            else if kind = a_cfunction then
              let binding := get_header_binding (header_memory s h).1 (header_memory s h).2
              match parse_arguments fuel (get_proc_arity s.the_store binding) s with
              | none => none
              | some s => some (gen_ushort (gen s CCALL) binding)
            else if kind = a_primitive then
              let arity := get_header_prim_arity (header_memory s h).1 (header_memory s h).2
              match parse_arguments fuel arity s with
              | none => none
              | some s =>
                some (gen s (get_header_prim_opcode (header_memory s h).1 (header_memory s h).2))
            else none
      else if s.token = 105 then
        match next fuel s with
        | none => none
        | some s =>
          match parse_expr fuel 0 s with
          | none => none
          | some s =>
            match forward_ref (gen s BRANCH) with
            | (branch, s) =>
              match skip_newline fuel s with
              | none => none
              | some s =>
                match expect s 116 "Expected 'then'" with
                | (false, s) => some s
                | (true, s) =>
                  match next fuel s with
                  | none => none
                  | some s =>
                    match parse_expr fuel 3 s with
                    | none => none
                    | some s =>
                      match forward_ref (gen s JUMP) with
                      | (jump, s) =>
                        match skip_newline fuel s with
                        | none => none
                        | some s =>
                          match expect s 101 "Expected 'else'" with
                          | (false, s) => some s
                          | (true, s) =>
                            match next fuel s with
                            | none => none
                            | some s =>
                              match parse_expr fuel 3 (resolve s branch) with
                              | none => none
                              | some s => some (block_prev (resolve s jump))
      else if s.token = 42 then
        match next fuel s with
        | none => none
        | some s =>
          match parse_factor fuel s with
          | none => none
          | some s => some (gen s REFB)
      else if s.token = 45 then
        match next fuel s with
        | none => none
        | some s =>
          match parse_factor fuel s with
          | none => none
          | some s => some (gen_negate s)
      else if s.token = 40 then
        match next fuel s with
        | none => none
        | some s =>
          match parse_expr fuel 0 s with
          | none => none
          | some s =>
            match expect s 41 "Syntax error: expected ')'" with
            | (true, s) => next fuel s
            | (false, s) => some s
      else
        let s := complain s "Syntax error: expected a factor"
        some { s with out := s.out ++ rcv_message s.token }

/-- Source `parse_expr`. -/
def parse_expr : Nat → Int → State → Option State
  | 0, _, _ => none
  | fuel + 1, precedence, s =>
    if s.complaint.isSome then some s
    else
      match parse_factor fuel s with
      | none => none
      | some s => parse_expr_loop fuel precedence s

/-- The `while (!complaint)` loop of source `parse_expr`. -/
def parse_expr_loop : Nat → Int → State → Option State
  | 0, _, _ => none
  | fuel + 1, precedence, s =>
    if s.complaint.isSome then some s
    else
      match (if precedence = 0 then skip_newline fuel s else some s) with
      | none => none
      | some s =>
        match binary_operator s.token with
        | none => some s
        | some (l, rator) =>
          if l < precedence ∨ s.complaint.isSome then some s
          else
            match next fuel s with
            | none => none
            | some s =>
              match skip_newline fuel s with
              | none => none
              | some s =>
                if rator = POP then
                  match parse_expr fuel (l + 1) (gen s rator) with
                  | none => none
                  | some s => parse_expr_loop fuel precedence s
                else if rator = GLOBAL_STORE then
                  if s.prev_instruc ≠ 0 ∧ fetch_u8 s.the_store s.prev_instruc = GLOBAL_FETCH then
                    let addr := fetch_wX s.the_store (s.prev_instruc + 1)
                    match parse_expr fuel l (set_code_idx s s.prev_instruc) with
                    | none => none
                    | some s => parse_expr_loop fuel precedence (gen_ushort (gen s GLOBAL_STORE) addr)
                  else some (complain s "Not an l-value")
                else
                  match parse_expr fuel (l + 1) s with
                  | none => none
                  | some s => parse_expr_loop fuel precedence (gen s rator)

end

/-- Source `parse_done`. -/
def parse_done (s : State) : State :=
  if s.token ≠ EOF ∧ s.token ≠ 10 then complain s "Syntax error: unexpected token" else s

/-- Source `scratch_expr`: compile an expression at `code_ptr`, rewind
`code_idx`, and run the code unless something complained. -/
def scratch_expr (fuel : Nat) (s : State) : Option (Nat × State) :=
  let start := code_idx s
  match parse_expr fuel (-1) s with
  | none => none
  | some s =>
    let s := gen (parse_done s) HALT
    let end_ := code_idx s
    let s := set_code_idx s start
    if s.complaint.isSome then some (0, s) else run fuel start end_ s

/-- Source `run_expr`; `outp` says whether the `FILE *` is non-null. -/
def run_expr (fuel : Nat) (outp : Bool) (s : State) : Option State :=
  match scratch_expr fuel s with
  | none => none
  | some (v, s) =>
    if s.complaint.isNone ∧ outp then some { s with out := s.out ++ decimal v ++ [10] }
    else some s

/-- Source `run_let`. -/
def run_let (fuel : Nat) (s : State) : Option State :=
  match expect s 97 "Expected identifier" with
  | (false, s) => some s
  | (true, s) =>
    match available s 4 with
    | (false, s) => some s
    | (true, s) =>
      let cell := code_idx s
      let s := gen_value s 0
      let s := (bind s s.token_name a_global cell).2
      match next fuel s with
      | none => none
      | some s =>
        match expect s 61 "Expected '='" with
        | (false, s) => some s
        | (true, s) =>
          match next fuel s with
          | none => none
          | some s =>
            match scratch_expr fuel s with
            | none => none
            | some (v, s) => some { s with the_store := write_wV s.the_store cell v }

/-- Source `run_forget`. -/
def run_forget (fuel : Nat) (s : State) : Option State :=
  match expect s 97 "Expected identifier" with
  | (false, s) => some s
  | (true, s) =>
    let h := lookup s.the_store (dict_idx s) store_capacity s.token_name
    let s :=
      match h with
      | none => complain s "Unknown identifier"
      | some h =>
        let k := get_header_kind s.the_store h
        if k ≠ a_global ∧ k ≠ a_procedure ∧ k ≠ a_cfunction then complain s "Not a definition"
        else s
    match next fuel s with
    | none => none
    | some s =>
      let s := parse_done s
      match s.complaint, h with
      | none, some h =>
        let cp := get_header_binding s.the_store h
        let dp := next_header s.the_store h
        if 0 < cp ∧ cp ≤ dp ∧ dp ≤ store_capacity then
          some (set_dict_idx (set_code_idx s cp) dp)
        else some (complain s "Dictionary corrupted")
      | _, _ => some s

/-- The loop `while (token == 'a')` of `run_fun`, binding the parameters;
`arity` is a `uint8_t`. -/
def bind_parameters : Nat → Nat → State → Option (Nat × State)
  | 0, _, _ => none
  | fuel + 1, arity, s =>
    if s.token = 97 then
      match next fuel (bind s s.token_name a_local arity).2 with
      | none => none
      | some s => bind_parameters fuel ((arity + 1) % 256) s
    else some (arity, s)

/-- Source `run_fun`. -/
def run_fun (fuel : Nat) (s : State) : Option State :=
  match expect s 97 "Expected identifier" with
  | (false, s) => some s
  | (true, s) =>
    let di := dict_idx s % 65536
    let ci := code_idx s % 65536
    match bind s s.token_name a_procedure (code_idx s) with
    | (f, s) =>
      match next fuel s with
      | none => none
      | some s =>
        let r : Option State :=
          match f with
          | none => some s
          | some _ =>
            let di := dict_idx s % 65536
            match bind_parameters fuel 0 s with
            | none => none
            | some (arity, s) =>
              match expect s 61 "Expected '='" with
              | (false, s) => some (set_dict_idx s di)
              | (true, s) =>
                match next fuel s with
                | none => none
                | some s =>
                  match parse_expr fuel (-1) (gen_ubyte s arity) with
                  | none => none
                  | some s => some (set_dict_idx (gen (parse_done s) RETURN) di)
        match r with
        | none => none
        | some s =>
          if s.complaint.isSome then some (set_code_idx (set_dict_idx s di) ci) else some s

/-- Source `run_command`. -/
def run_command (fuel : Nat) (outp : Bool) (s : State) : Option State :=
  match skip_newline fuel s with
  | none => none
  | some s =>
    let r : Option State :=
      if s.token = 102 then
        match next fuel s with
        | none => none
        | some s => run_fun fuel s
      else if s.token = 108 then
        match next fuel s with
        | none => none
        | some s => run_let fuel s
      else if s.token = 111 then
        match next fuel s with
        | none => none
        | some s => run_forget fuel s
      else run_expr fuel outp s
    match r with
    | none => none
    | some s =>
      match s.complaint with
      | none => some s
      | some msg =>
        match skip_line fuel { s with out := s.out ++ bytes_of msg ++ [13, 10] } with
        | none => none
        | some s => next fuel s

/-- The loop of `wren_load_file`. -/
def load_loop : Nat → State → Option State
  | 0, _ => none
  | fuel + 1, s =>
    if s.token = EOF then some s
    else
      match run_command fuel false s with
      | none => none
      | some s =>
        match skip_newline fuel s with
        | none => none
        | some s => load_loop fuel { s with complaint := none }

/-- Source `wren_load_file`; the script is the state's `in_file`. -/
def wren_load_file (fuel : Nat) (s : State) : Option State :=
  match next fuel { next_char s with complaint := none } with
  | none => none
  | some s =>
    match load_loop fuel s with
    | none => none
    | some s => some { s with input_char := unread }

/-- One turn of the loop of `wren_read_eval_print_loop`. -/
def repl_turn (fuel : Nat) (s : State) : Option State :=
  match run_command fuel true s with
  | none => none
  | some s =>
    match skip_newline fuel { s with out := s.out ++ bytes_of "> " } with
    | none => none
    | some s => some { s with complaint := none }

/-- The loop of `wren_read_eval_print_loop`. -/
def repl_loop : Nat → State → Option State
  | 0, _ => none
  | fuel + 1, s =>
    if s.token = EOF then some s
    else
      match repl_turn fuel s with
      | none => none
      | some s => repl_loop fuel s

/-- What `wren_read_eval_print_loop` does before its loop. -/
def repl_start (fuel : Nat) (s : State) : Option State :=
  next fuel { next_char { s with out := s.out ++ bytes_of "> " } with complaint := none }

/-- Source `wren_read_eval_print_loop`. -/
def wren_read_eval_print_loop (fuel : Nat) (s : State) : Option State :=
  match repl_start fuel s with
  | none => none
  | some s =>
    match repl_loop fuel s with
    | none => none
    | some s => some { s with out := s.out ++ [10] }

/-- Source `wren_bind_c_function`. -/
def wren_bind_c_function (s : State) (name : List Nat) (fn arity : Nat) : State :=
  let s := (bind s name a_cfunction (code_idx s)).2
  gen_pointer (gen_ubyte s arity) fn

/-- Source `wren_initialize`. -/
def wren_initialize (s : State) : State :=
  let s := { s with the_store := write_wV s.the_store 8 0 }
  let s := { s with the_store := write_wV s.the_store 12 store_capacity }
  let s := set_dict_idx s store_capacity
  let s := (bind s [99, 112] a_global 0).2
  let s := (bind s [100, 112] a_global 4).2
  let s := (bind s [99, 48] a_global 8).2
  let s := (bind s [100, 48] a_global 12).2
  let s := set_code_idx s 16
  wren_bind_c_function s [109, 111, 111] moo_ptr 1

/-! ## Vocabulary of the statements -/

/-- The relation between a state `s` and the state `s'` reached by emitting
`n` bytes of code at offset `c`: the code cursor has moved to `c + n`, the
dictionary cursor and every byte from offset 8 on outside `[c, c + n)` are
untouched, and so are the complaint and the standard streams. -/
structure Emitted (s s' : State) (c n : Nat) : Prop where
  code : code_idx s' = c + n
  dict : dict_idx s' = dict_idx s
  frame : ∀ k q, 8 ≤ q → (q + k ≤ c ∨ c + n ≤ q) →
    fetch_bytes k s'.the_store q = fetch_bytes k s.the_store q
  complaint : s'.complaint = s.complaint
  stdin_ : s'.stdin_ = s.stdin_
  out : s'.out = s.out

/-- The common body of the emitters `gen`, `gen_ubyte`, ... when there is
room: `n` bytes written at `code_ptr`, `code_idx += n`, and `prev_instruc`
set to `p`. -/
def emit (n : Nat) (s : State) (v p : Nat) : State :=
  set_code_idx
    { s with the_store := write_bytes n s.the_store (code_idx s) v, prev_instruc := p }
    (code_idx s + n)

/-- The code of a push of the word `v` lies at `pc` and is `len` bytes long:
`PUSHB`, `PUSHW` or `PUSH` followed by an immediate that sign-extends to `v`. -/
def PushAt (m pc v len : Nat) : Prop :=
  (fetch_u8 m pc = PUSHB ∧ len = 2 ∧ sext8 (fetch_u8 m (pc + 1)) = v) ∨
  (fetch_u8 m pc = PUSHW ∧ len = 3 ∧ sext16 (fetch_2i m (pc + 1)) = v) ∨
  (fetch_u8 m pc = PUSH ∧ len = 5 ∧ fetch_wV m (pc + 1) = v)

/-- The number a string of decimal digit characters denotes, read from the
left with `acc` as the value so far. -/
def digits_value (acc : Nat) (cs : List Nat) : Nat :=
  cs.foldl (fun a c => 10 * a + (c - 48)) acc

/-- Every character of `cs` is one of `'0'..'9'`. -/
def all_digits (cs : List Nat) : Prop := ∀ c ∈ cs, 48 ≤ c ∧ c ≤ 57

/-- The store `wren_initialize` leaves behind when it starts from the
all-zero store of a fresh program. -/
def init_store : Nat := ( wren_initialize (fresh [] [])).the_store

/-- The state `s` with the store and the complaint of `t`. -/
def with_store (s t : State) : State :=
  { s with the_store := t.the_store, complaint := t.complaint }

/-- State of a prompt session on `script` when `n` commands have been run:
`wren_initialize`, the start of `wren_read_eval_print_loop`, and `n` turns of
its loop. -/
def repl_after (fuel : Nat) (script : List Nat) : Nat → Option State
  | 0 => repl_start fuel ( wren_initialize (fresh script []))
  | n + 1 => (repl_after fuel script n).bind (repl_turn fuel)

/-- What command number `n` (from 0) of the session writes to `stdout`, the
prompt that follows it excluded. -/
def command_output (fuel : Nat) (script : List Nat) (n : Nat) : Option (List Nat) :=
  (repl_after fuel script n).bind
    (fun s => (run_command fuel true s).map (fun s' => s'.out.drop s.out.length))

/-- The complaint latched when command number `n` of the session ends. -/
def command_complaint (fuel : Nat) (script : List Nat) (n : Nat) : Option (Option String) :=
  (repl_after fuel script n).bind
    (fun s => (run_command fuel true s).map (fun s' => s'.complaint))

/-- The value `scratch_expr` returns for command number `n` of the session,
a top-level expression. -/
def command_value (fuel : Nat) (script : List Nat) (n : Nat) : Option Nat :=
  (repl_after fuel script n).bind (fun s => (scratch_expr fuel s).map (fun r => r.1))

/-- The text of the decimal literal for `k`: its digits, after a `-` when `k`
is negative. -/
def literal_text (k : Int) : List Nat :=
  if k < 0 then 45 :: decimal (-k).toNat else decimal k.toNat

/-- The state of a prompt session on `script` after `wren_initialize` and the
first prompt, when no token has been read yet. -/
def prompt_state (script input : List Nat) : State :=
  { the_store := init_store, complaint := none, prev_instruc := 0, input_char := unread,
    token := 0, token_value := 0, token_name := [], in_file := script, stdin_ := input,
    out := bytes_of "> " }

/-- What the lexer leaves alone between `s` and `s'`: the store, the
complaint, the standard streams and `prev_instruc`. -/
structure Lexed (s s' : State) : Prop where
  the_store : s'.the_store = s.the_store
  complaint : s'.complaint = s.complaint
  prev_instruc : s'.prev_instruc = s.prev_instruc
  stdin_ : s'.stdin_ = s.stdin_
  out : s'.out = s.out

/-- The state `s` after the stack write `sp[..] = v` at offset `p`. -/
def poke (s : State) (p v : Nat) : State := { s with the_store := write_wV s.the_store p v }

/-- What `ADD`, `SUB` and `MUL` compute from `sp[1]` and `sp[0]`. -/
def alu (op a b : Nat) : Nat :=
  if op = ADD then (a + b) % 4294967296
  else if op = SUB then (a + 4294967296 - b) % 4294967296
  else (a * b) % 4294967296

/-- The digit string `d0 :: ds` is a decimal numeral of at most ten digits
for `v`, and `v` is a valid non-negative `wValue`. -/
structure Numeral (d0 : Nat) (ds : List Nat) (v : Nat) : Prop where
  digits : all_digits (d0 :: ds)
  value : digits_value 0 (d0 :: ds) = v
  small : v < 2147483648
  short : ds.length ≤ 9

/-- The text `a o1 b o2 c` of an expression with three decimal literals and
two one-character operators, separated by single blanks and ended by a
newline. -/
def expr3_text (a o1 b o2 c : Nat) : List Nat :=
  decimal a ++ 32 :: o1 :: 32 :: (decimal b ++ 32 :: o2 :: 32 :: (decimal c ++ [10]))

/-- The byte length of a push instruction: the opcode and the immediate of
`PUSH`, `PUSHW` or `PUSHB`. -/
def push_length (op : Nat) : Nat := if op = PUSH then 5 else if op = PUSHW then 3 else 2

/-- The instruction `op k` lies at `pc` in the store `m`, for `op` one of
`PUSH`, `PUSHW` (when `k` fits an `int16_t`) and `PUSHB` (when `k` fits an
`int8_t`): the opcode byte, then `k` in two's complement in 4, 2 or 1 bytes. -/
def push_encoded (m pc op : Nat) (k : Int) : Prop :=
  fetch_u8 m pc = op ∧
    ((op = PUSH ∧ fetch_wV m (pc + 1) = wval k) ∨
     (op = PUSHW ∧ -32768 ≤ k ∧ k ≤ 32767 ∧ fetch_2i m (pc + 1) = wval k % 65536) ∨
     (op = PUSHB ∧ -128 ≤ k ∧ k ≤ 127 ∧ fetch_u8 m (pc + 1) = wval k % 256))

/-- A store holding `PUSHB -5` at offset 8, `PUSHW -5` at offset 10 and
`PUSH -5` at offset 13, and a state with that store. -/
def three_pushes : State :=
  { fresh [] [] with
    the_store := write_wV (write_u8 (write_2i (write_u8 (write_u8 (write_u8 0 8 PUSHB) 9 251)
      10 PUSHW) 11 65531) 13 PUSH) 14 4294967291 }

/-- The two cursors `(code_idx, dict_idx)` of a state. -/
def cursors (s : State) : Nat × Nat := (code_idx s, dict_idx s)

/-- The outcome of an instruction has the cursors `c`: the state it carries
on with, or stops in, has them (nothing is asked of an undefined outcome). -/
def Step.keeps (c : Nat × Nat) : Step → Prop
  | Step.next _ _ _ s => cursors s = c
  | Step.done _ s => cursors s = c
  | Step.undefined => True

/-- The addresses the instruction at `pc` stores to through an operand lie
above the cursor cells, which are the first 8 bytes of the store: the operand
of `GLOBAL_STORE`, the address popped by `SETV`, `SETX` and `SETB`, and the
frame `TCALL` moves the arguments to, are at offset 8 or more. -/
def clear_of_cursors (pc sp bp : Nat) (s : State) : Bool :=
  decide (fetch_u8 s.the_store pc = GLOBAL_STORE → 8 ≤ fetch_wX s.the_store (pc + 1)) &&
  decide (fetch_u8 s.the_store pc = SETV ∨ fetch_u8 s.the_store pc = SETX ∨
      fetch_u8 s.the_store pc = SETB → 8 ≤ fetch_wV s.the_store (sp + 4)) &&
  decide (fetch_u8 s.the_store pc = TCALL →
      8 + 4 * get_proc_arity s.the_store (fetch_wX s.the_store (pc + 1)) ≤ bp)

/-- Every instruction of the run of at most `fuel` steps from `pc`, `sp` and
`bp` in the state `s` is executed with `pc`, `sp` and `bp` at offset 8 or
more and stays clear of the cursor cells. -/
def run_clear (end_ : Nat) : Nat → Nat → Nat → Nat → State → Bool
  | 0, _, _, _, _ => true
  | fuel + 1, pc, sp, bp, s =>
    decide (8 ≤ pc ∧ 8 ≤ sp ∧ 8 ≤ bp) && clear_of_cursors pc sp bp s &&
      match step end_ pc sp bp s with
      | Step.next pc sp bp s => run_clear end_ fuel pc sp bp s
      | Step.done _ _ => true
      | Step.undefined => true

/-- The state in which `scratch_expr` leaves the compiler, `S` being the
state `parse_expr` returned: `parse_done` has looked at the token, `HALT` is
appended, and `code_idx` is set back to `start`. -/
def rewound (start : Nat) (S : State) : State := set_code_idx (gen (parse_done S) HALT) start

/-- The state an `Option State` holds; the empty state stands in when the
fuel ran out. -/
def state_of (o : Option State) : State := o.getD (fresh [] [])

/-- The state in which the VM is started on the command `5 + 7` typed at the
first prompt: the first token has been read, the expression compiled, and
`code_idx` set back. -/
def five_plus_seven : State :=
  rewound 21 (state_of (parse_expr 30 (-1) (state_of (repl_after 30 (bytes_of "5 + 7\n") 0))))

/-- The state in which the command `1 +` typed at the first prompt is run:
the first token has been read. -/
def one_plus : State := state_of (repl_after 30 (bytes_of "1 +\n") 0)

/-- The state in which the command `5 + 7` typed at the first prompt is run:
the first token has been read. -/
def five_plus_seven_typed : State := state_of (repl_after 30 (bytes_of "5 + 7\n") 0)

/-- The complaint latched when command number `n` of the session ends, and
what the command wrote to `stdout`. -/
def command_result (fuel : Nat) (script : List Nat) (n : Nat) :
    Option (Option String × List Nat) :=
  (repl_after fuel script n).bind
    (fun s => (run_command fuel true s).map (fun s' => (s'.complaint, s'.out.drop s.out.length)))

/-- The two lines of scenario S4 with `fact k` as the expression. -/
def fact_script (k : Nat) : List Nat :=
  bytes_of "fun fact n = if n then n * fact (n - 1) else 1\nfact " ++ decimal k ++ [10]

/-- The two lines of scenario S5. -/
def sum_script : List Nat :=
  bytes_of "fun sum n a = if n then sum (n - 1) (a + n) else a\nsum 1000 0\n"

/-- The state after the command `cp : -1` typed at the first prompt:
`code_idx` is `2^32 - 1`. -/
def after_cp_minus_one : State := state_of (repl_after 40 (bytes_of "cp : -1\n") 1)

/-- The state after the command `dp : 22` typed at the first prompt: one
byte is left between `code_idx = 21` and `dict_idx = 22`. -/
def nearly_full : State := state_of (repl_after 40 (bytes_of "dp : 22\n") 1)

/-- The state after the command `cp : 4 ; dp : 11` typed at the first
prompt: both cursors point into the first bytes of the store. -/
def low_cursors : State := state_of (repl_after 40 (bytes_of "cp : 4 ; dp : 11\n") 1)


/-- The state in which `run_let` is entered for the command `let x` typed at
the first prompt: the token is the identifier `x`, and the character that
follows it is the newline. -/
def let_x_entered : State := state_of ((repl_after 40 (bytes_of "let x\n") 0).bind (next 40))

/-- The state in which `run_forget` is entered for the second command of the
session `let a = 1`, `forget a`: the token is the identifier `a`. -/
def forget_a_entered : State :=
  state_of ((repl_after 40 (bytes_of "let a = 1\nforget a\n") 1).bind (next 40))

/-- The state in which the command `fun f x = x +` typed at the first prompt
is run: the token `fun` has been read. -/
def fun_without_operand : State := state_of (repl_after 40 (bytes_of "fun f x = x +\n") 0)

/-- The first offset past what the lexer may have stored for the token it
holds: a string token is stored from `code_idx + 1` on, and the NUL of an
empty string is written at `code_idx + 1` without a test on the room. -/
def pending_end (s : State) : Nat := if s.token = 39 then code_idx s + 2 else code_idx s

/-- From offset 8 on, past the two cursor words, the memories `m` and `m'`
differ only inside `[lo, hi)`. -/
def Touched (lo hi : Nat) (m m' : Nat) : Prop :=
  ∀ k q, 8 ≤ q → (q + k ≤ lo ∨ hi ≤ q) → fetch_bytes k m' q = fetch_bytes k m q

/-- The relation between the states before and after a piece of the compiler
that ends with no complaint: none was latched before, `code_idx` has not
decreased and is at most `S + 2`, `dict_idx` is as it was, and from offset 8
on every store went below the dictionary or below what `code_idx` and the
lexer have reached. -/
structure Compiled (s s' : State) : Prop where
  before : s.complaint = none
  code : code_idx s ≤ code_idx s'
  pend : pending_end s ≤ pending_end s'
  bound : code_idx s' ≤ store_capacity + 2
  dict : dict_idx s' = dict_idx s
  touched : Touched 8 (max (dict_idx s) (pending_end s')) s.the_store s'.the_store

/-- What is known of `prev_instruc` after a piece of compiled code that
started at `c0` or later: it is 0, or the offset of an opcode the compiler
emitted, at most 3 bytes before `code_idx` unless it is the opcode of a
longer instruction, which is not `GLOBAL_FETCH` and, if `PUSH`, has its four
operand bytes. -/
def PrevOK (c0 : Nat) (s : State) : Prop :=
  s.prev_instruc ≠ 0 → c0 ≤ s.prev_instruc ∧ s.prev_instruc < code_idx s ∧
    (code_idx s ≤ s.prev_instruc + 3 ∨
      (fetch_u8 s.the_store s.prev_instruc ≠ GLOBAL_FETCH ∧
        (fetch_u8 s.the_store s.prev_instruc = PUSH → s.prev_instruc + 5 ≤ code_idx s)))

/-- The states in which the compiler is at work on a body: `code_idx` is past
the cursor words and the three bytes below it, and the cursors are in range. -/
def Good (s : State) : Prop :=
  11 ≤ code_idx s ∧ code_idx s ≤ store_capacity + 2 ∧ dict_idx s ≤ store_capacity

/-- What a factor or an expression compiled with no complaint has done: it
is `Compiled`, it has emitted at least one byte, two when it starts at a
string token, and `prev_instruc` lies in what it emitted. -/
def Parsed (s s' : State) : Prop :=
  Compiled s s' ∧ code_idx s + 1 ≤ code_idx s' ∧
    (s.token = 39 → code_idx s + 2 ≤ code_idx s') ∧ PrevOK (code_idx s) s'

/-- The property of `parse_arguments` with the given fuel. -/
def ArgumentsSpec (fuel : Nat) : Prop :=
  ∀ arity s s', parse_arguments fuel arity s = some s' → s'.complaint = none → Good s →
    Compiled s s'

/-- The property of `parse_factor` with the given fuel. -/
def FactorSpec (fuel : Nat) : Prop :=
  ∀ s s', parse_factor fuel s = some s' → s'.complaint = none → Good s → Parsed s s'

/-- The property of `parse_expr` with the given fuel. -/
def ExprSpec (fuel : Nat) : Prop :=
  ∀ p s s', parse_expr fuel p s = some s' → s'.complaint = none → Good s → Parsed s s'

/-- The property of the loop of `parse_expr` with the given fuel, entered
after a factor that started at `c0` or later. -/
def LoopSpec (fuel : Nat) : Prop :=
  ∀ p c0 s s', parse_expr_loop fuel p s = some s' → s'.complaint = none → Good s →
    11 ≤ c0 → c0 ≤ code_idx s → PrevOK c0 s → Compiled s s' ∧ PrevOK c0 s'

/-- The state in which the command `fun f x = x + 1` typed at the first
prompt is run: the token is `fun`. -/
def fun_f_typed : State := state_of (repl_after 40 (bytes_of "fun f x = x + 1\n") 0)

/-- The characters the lexer has still to read, the current one first: the
lookahead `input_char` when it holds a character, then the bytes of
`in_file` as `ch` will deliver them. -/
def upcoming (s : State) : List Int :=
  if s.input_char = unread then s.in_file.map (fun b => ((b % 256 : Nat) : Int))
  else if s.input_char = EOF then []
  else s.input_char :: s.in_file.map (fun b => ((b % 256 : Nat) : Int))

/-- A hexadecimal digit, of either letter case. -/
def is_xdigit (c : Nat) : Prop := (48 ≤ c ∧ c ≤ 57) ∨ (65 ≤ c ∧ c ≤ 70) ∨ (97 ≤ c ∧ c ≤ 102)

/-- The value of a hexadecimal digit. -/
def xdigit_value (c : Nat) : Nat :=
  if c ≤ 57 then c - 48 else if c ≤ 70 then c - 55 else c - 87

/-- The number a string of hexadecimal digits denotes, most significant
digit first. -/
def hex_value (ds : List Nat) : Nat := ds.foldl (fun acc d => 16 * acc + xdigit_value d) 0

/-- A character of an identifier: a letter, a digit or `_`. -/
def is_ident_char (c : Nat) : Prop :=
  (65 ≤ c ∧ c ≤ 90) ∨ (97 ≤ c ∧ c ≤ 122) ∨ (48 ≤ c ∧ c ≤ 57) ∨ c = 95

/-- A character an identifier can start with: a letter or `_`. -/
def is_ident_start (c : Nat) : Prop := (65 ≤ c ∧ c ≤ 90) ∨ (97 ≤ c ∧ c ≤ 122) ∨ c = 95

/-- The six keywords of the language. -/
def keywords : List (List Nat) :=
  [bytes_of "then", bytes_of "forget", bytes_of "let", bytes_of "if", bytes_of "fun",
    bytes_of "else"]

instance (c : Nat) : Decidable (is_xdigit c) :=
  inferInstanceAs (Decidable ((48 ≤ c ∧ c ≤ 57) ∨ (65 ≤ c ∧ c ≤ 70) ∨ (97 ≤ c ∧ c ≤ 102)))

instance (c : Nat) : Decidable (is_ident_char c) :=
  inferInstanceAs
    (Decidable ((65 ≤ c ∧ c ≤ 90) ∨ (97 ≤ c ∧ c ≤ 122) ∨ (48 ≤ c ∧ c ≤ 57) ∨ c = 95))

instance (c : Nat) : Decidable (is_ident_start c) :=
  inferInstanceAs (Decidable ((65 ≤ c ∧ c ≤ 90) ∨ (97 ≤ c ∧ c ≤ 122) ∨ c = 95))
/-- The state left by the command `cp : 4090` typed at the first prompt. -/
def after_cp_4090 : State := state_of (repl_after 40 (bytes_of "cp : 4090\n") 1)

/-- The dictionary of `s` knows `name` as a word of kind `kind` with the
binding `binding`: `lookup` from `dict_idx` to the end of the store finds a
header for it that says so. -/
def bound_as (s : State) (name : List Nat) (kind binding : Nat) : Prop :=
  ∃ h, lookup s.the_store (dict_idx s) store_capacity name = some h ∧
    get_header_kind s.the_store h = kind ∧ get_header_binding s.the_store h = binding
/-- A machine about to execute `SETV` at offset 30 with the value 7 on top of
the stack, at 4000, and the address 100 below it. -/
def setv_machine : State :=
  { fresh [] [] with the_store := write_wV (write_wV (write_u8 0 30 SETV) 4004 100) 4000 7 }

/-- The bytes of the store proper, `the_store[0 .. store_capacity - 1]`, as a
number. -/
def arena (m : Nat) : Nat := fetch_bytes store_capacity m 0

/-- A machine about to execute `REFV` at offset 30 with the address 5000, past
the end of the store, on top of the stack at 4000. -/
def refv_machine : State :=
  { fresh [] [] with the_store := write_wV (write_u8 0 30 REFV) 4000 5000 }

/-- The instruction at `pc` is one of the pushing instructions: `PUSH`,
`PUSHW`, `PUSHB`, `PUSH_STRING`, `GLOBAL_FETCH`, `LOCAL_FETCH`,
`LOCAL_FETCH_0`, `LOCAL_FETCH_1`, `GETC`, or a `CALL` that is not a tail call
(the instruction its jumps lead to is not `RETURN`). -/
def pushes (m pc : Nat) : Prop :=
  fetch_u8 m pc ∈ [PUSH, PUSHW, PUSHB, PUSH_STRING, GLOBAL_FETCH, LOCAL_FETCH, LOCAL_FETCH_0,
    LOCAL_FETCH_1, GETC] ∨
  (fetch_u8 m pc = CALL ∧
    ∃ cont, skip_jumps m store_capacity (pc + 3) = some cont ∧ fetch_u8 m cont ≠ RETURN)

/-- The outcome of an instruction leaves the stack pointer at or above `e`
(nothing is asked of a run that ends there). -/
def Step.above (e : Nat) : Step → Prop
  | Step.next _ sp _ _ => e ≤ sp
  | Step.done _ _ => True
  | Step.undefined => True

/-- The machine of `run` after `n` instructions, or the outcome that ended the
run before. -/
def run_steps (end_ : Nat) : Nat → Nat → Nat → Nat → State → Step
  | 0, pc, sp, bp, s => Step.next pc sp bp s
  | n + 1, pc, sp, bp, s =>
    match step end_ pc sp bp s with
    | Step.next pc sp bp s => run_steps end_ n pc sp bp s
    | r => r

/-- The registers of a machine that goes on: `pc`, `sp`, `bp`, and the opcode
at `pc`. -/
def Step.regs : Step → Option (Nat × Nat × Nat × Nat)
  | Step.next pc sp bp s => some (pc, sp, bp, fetch_u8 s.the_store pc)
  | Step.done _ _ => none
  | Step.undefined => none

/-- A session in which `f` overwrites the saved base pointer of its caller's
frame, the half-word at 4044, with 8. -/
def frame_smash : List Nat := bytes_of "fun f x = setx 4044 8\nfun g x = f x + 1\ng 1\n"

/-- The state in which the VM is started on the command `g 1` of
`frame_smash`: the expression is compiled at 38, `HALT` appended, and
`code_idx` set back; the code ends at 44. -/
def frame_smash_vm : State :=
  rewound 38 (state_of (parse_expr 40 (-1) (state_of (repl_after 40 frame_smash 2))))

/-- The state in which the command `300` typed at the first prompt is
compiled: the token is the literal. -/
def literal_300 : State := state_of (repl_after 40 (bytes_of "300\n") 0)

/-- The code `parse_expr` emits for command number `n` of the session, a
top-level expression: the offset it starts at, the complaint latched, and
the bytes from there to the new `code_idx`. -/
def compiled_code (fuel : Nat) (script : List Nat) (n : Nat) :
    Option (Nat × Option String × List Nat) :=
  (repl_after fuel script n).bind (fun s => (parse_expr fuel (-1) s).map (fun t =>
    (code_idx s, t.complaint,
      (List.range (code_idx t - code_idx s)).map (fun i => fetch_u8 t.the_store (code_idx s + i)))))

/-- The state an instruction goes on with or stops in, when its outcome is
defined. -/
def Step.state : Step → Option State
  | Step.next _ _ _ s => some s
  | Step.done _ s => some s
  | Step.undefined => none

/-- A machine about to execute `TCALL` at offset 30 to the procedure at 40,
of arity 2, with the arguments 11 and 22 in the cells at 4008 and 4004, the
second on top, under the frame-info word 99 at 4012; `bp` is 4016, the
running procedure having arity 1. -/
def tcall_machine : State :=
  { fresh [] [] with
    the_store := write_wV (write_wV (write_wV (write_u8 (write_wX (write_u8 0 30 TCALL) 31 40) 40 2)
      4004 22) 4008 11) 4012 99 }

/-- A machine about to execute `CCALL` at offset 30 on the C function record
at 40, of arity 2 and with the pointer of `moo` in it, with the arguments 11
and 22 in the cells at 4004 and 4000, the second on top. -/
def ccall_machine : State :=
  { fresh [] [] with
    the_store := write_wV (write_wV (write_wP (write_u8 (write_wX (write_u8 0 30 CCALL) 31 40) 40 2)
      41 moo_ptr) 4000 22) 4004 11 }

/-- The machine about to execute the `CCALL` of the command `moo 'hi'` typed
at the first prompt: the code at 21 is `PUSH_STRING`, the bytes `hi` and
their NUL, then `CCALL` at 25 with the record of `moo`, at 16, as operand; the
address 22 of the string has been pushed and lies at 4064. -/
def moo_called : State :=
  state_of (run_steps 29 1 21 4068 4068
    (rewound 21 (state_of (parse_expr 30 (-1)
      (state_of (repl_after 30 (bytes_of "moo 'hi'\n") 0)))))).state

/-- A host function of any arity that returns its first parameter and leaves
the interpreter alone. -/
def first_parameter (args : List Nat) (s : State) : Option (Nat × State) :=
  some (args.headD 0, s)

/-- A session that fills the store and then compiles a conditional: the
definition `fun f = '...'` with a string of 4039 letters `a`, whose body takes
the code up to 4063 while the header of `f` takes the dictionary down to 4066,
and then the commands `if 1 then 2 else 3` and `f`. -/
def full_store_script : List Nat :=
  bytes_of "fun f = '" ++ List.replicate 4039 97 ++ bytes_of "'\nif 1 then 2 else 3\nf\n"

/-- The state in which the second command of `full_store_script` is
compiled: three bytes are free between `code_idx` and `dict_idx`. -/
def full_store : State := state_of (repl_after 4100 full_store_script 1)

/-- The four bytes of the store at `p`. -/
def bytes_at (s : State) (p : Nat) : List Nat :=
  (List.range 4).map (fun i => fetch_u8 s.the_store (p + i))

/-- The session `let x = y`, `x` typed at the first prompt, `y` being
unknown. -/
def let_x_unknown : List Nat := bytes_of "let x = y\nx\n"

/-- The text `if c then a else b` with three decimal literals, separated by
single blanks and ended by a newline. -/
def if_text (c a b : Nat) : List Nat :=
  [105, 102, 32] ++ (decimal c ++ 32 :: ([116, 104, 101, 110] ++ 32 ::
    (decimal a ++ 32 :: ([101, 108, 115, 101] ++ 32 :: (decimal b ++ [10])))))

/-- The name of parameter number `j`: `p` followed by the decimal digits of
`j`. -/
def param_name (j : Nat) : List Nat := 112 :: decimal j

/-- The text ` p0 p1 ... p(n-1)` of `n` parameters, a blank before each. -/
def params_text : Nat → List Nat
  | 0 => []
  | n + 1 => params_text n ++ 32 :: param_name n

/-- The command `fun sel p0 ... p(n-1) = p_i`. -/
def sel_definition (n i : Nat) : List Nat :=
  bytes_of "fun sel" ++ params_text n ++ bytes_of " = " ++ param_name i ++ [10]

/-- The text of the arguments of a call, decimal literals with a blank
between them, up to the end of the line. -/
def args_text : List Nat → List Nat
  | [] => [10]
  | [a] => decimal a ++ [10]
  | a :: b :: rest => decimal a ++ 32 :: args_text (b :: rest)

/-- The state of a prompt session after the command
`fun sel p0 ... p(n-1) = p_i`, when the name `sel` of a call has been read on
the next line and the blank after it is the current character. -/
def sel_called (n i : Nat) : State :=
  state_of (repl_after 60 (sel_definition n i ++ bytes_of "sel ") 1)

/-- The state `sel_called n i` with the literal arguments `args` and the end
of the line as the input that follows: the top-level call
`sel a0 ... a(n-1)` is about to be compiled. -/
def sel_call (n i : Nat) (args : List Nat) : State :=
  { sel_called n i with in_file := args_text args }

/-- Where the body of `sel`, which starts at 22, has its `RETURN`: the fetch
of the parameters 0 and 1 takes one byte, of the others two. -/
def sel_return (i : Nat) : Nat := if i < 2 then 23 else 24

/-- The opcode that fetches parameter `i`. -/
def local_fetch_op (i : Nat) : Nat :=
  if i = 0 then LOCAL_FETCH_0 else if i = 1 then LOCAL_FETCH_1 else LOCAL_FETCH

/-- What the call of `sel` relies on in the state `s` left by its definition
with `n` parameters and the body `p_i`: the name read is `sel`, a procedure
bound to 21 whose arity byte is `n`; the body is the fetch of parameter `i`
and `RETURN`; the code ends after it and the dictionary starts at 4064. -/
def sel_ready (n i : Nat) (s : State) : Prop :=
  s.complaint = none ∧ s.token = 97 ∧ s.token_name = bytes_of "sel" ∧ s.input_char = 32 ∧
  code_idx s = sel_return i + 1 ∧ dict_idx s = 4064 ∧
  lookup s.the_store 4064 store_capacity (bytes_of "sel") = some 4064 ∧
  get_header_kind s.the_store 4064 = a_procedure ∧ get_header_binding s.the_store 4064 = 21 ∧
  get_proc_arity s.the_store 21 = n ∧ fetch_u8 s.the_store 22 = local_fetch_op i ∧
  (2 ≤ i → fetch_u8 s.the_store 23 = i) ∧ fetch_u8 s.the_store (sel_return i) = RETURN

instance (n i : Nat) (s : State) : Decidable (sel_ready n i s) :=
  inferInstanceAs (Decidable (_ ∧ _))

/-- The code from `pc` to `e` in the store `m` is the pushes of the words
`vs`, in order. -/
def PushesAt (m : Nat) : Nat → List Nat → Nat → Prop
  | pc, [], e => pc = e
  | pc, v :: vs, e => ∃ len, 2 ≤ len ∧ len ≤ 5 ∧ PushAt m pc v len ∧ PushesAt m (pc + len) vs e

/-- What the lexer of `s` has still to read is the literals `vs`, a blank
before each, and the end of the line. -/
def Pending (s : State) : List Nat → Prop
  | [] => s.input_char = 10 ∧ s.in_file = []
  | v :: vs => s.input_char = 32 ∧ s.in_file = args_text (v :: vs)

/-- All the fields of a state, for the comparison of two states. -/
def State.fields (s : State) :
    Nat × Option String × Nat × Int × Int × Nat × List Nat × List Nat × List Nat × List Nat :=
  (s.the_store, s.complaint, s.prev_instruc, s.input_char, s.token, s.token_value, s.token_name,
    s.in_file, s.stdin_, s.out)

/-- The state in which `run_let`, entered in the state `s`, calls
`scratch_expr`: the cell is reserved, the name is bound, and `=` and the first
token of the initializer have been read. There is none when `run_let`
returns before. -/
def let_operand (fuel : Nat) (s : State) : Option State :=
  match expect s 97 "Expected identifier" with
  | (false, _) => none
  | (true, s) =>
    match available s 4 with
    | (false, _) => none
    | (true, s) =>
      let cell := code_idx s
      let s := gen_value s 0
      let s := (bind s s.token_name a_global cell).2
      match next fuel s with
      | none => none
      | some s =>
        match expect s 61 "Expected '='" with
        | (false, _) => none
        | (true, s) => next fuel s

/-- The machine that `scratch_expr`, called in the state `s`, starts: the
offset at which the compiled code ends, and the state in which `run` is
entered at `code_idx s`. There is none when the expression does not compile. -/
def scratch_machine (fuel : Nat) (s : State) : Option (Nat × State) :=
  match parse_expr fuel (-1) s with
  | none => none
  | some S =>
    if (rewound (code_idx s) S).complaint.isSome then none
    else some (code_idx (gen (parse_done S) HALT), rewound (code_idx s) S)

/-- The machine that the command run in the state `s` starts: that of the
initializer of a `let`, or that of the expression the command is. A `fun` and
a `forget` start none. -/
def command_machine (fuel : Nat) (s : State) : Option (Nat × State) :=
  match skip_newline fuel s with
  | none => none
  | some s =>
    if s.token = 102 ∨ s.token = 111 then none
    else if s.token = 108 then ((next fuel s).bind (let_operand fuel)).bind (scratch_machine fuel)
    else scratch_machine fuel s

/-- The two cursor cells and the bytes of `[lo, hi)` are the same in the
memories `m` and `m'`. -/
def same_block (lo hi m m' : Nat) : Bool :=
  fetch_bytes 8 m' 0 == fetch_bytes 8 m 0 &&
    fetch_bytes (hi - lo) m' lo == fetch_bytes (hi - lo) m lo

/-- The command run in the state `s` is a definition of `name`, by `let` or
by `fun`: the token is one of the two keywords, `name` is what the lexer
holds after the token that follows, and the command ends with no complaint.
Moreover the run of its initializer, if it makes one, leaves the two cursor
cells and the headers below `d`, which are the bytes of `[dict_idx, d)`, as
they were when it started. -/
def defines (fuel d : Nat) (name : List Nat) (s : State) : Prop :=
  (s.token = 102 ∨ s.token = 108) ∧
  (next fuel s).map (fun t => t.token_name) = some name ∧
  (run_command fuel true s).map (fun s' => s'.complaint) = some none ∧
  ∀ e V r, command_machine fuel s = some (e, V) → run fuel (code_idx V) e V = some r →
    same_block (dict_idx V) d V.the_store r.2.the_store = true

/-- The header that the definition of `name`, made when the cursors were
`(c, d)`, has pushed is in the dictionary of `s` as it was made: it lies
below `d`, `lookup` of `name` finds it, and its binding and the length of its
name are those of the definition. The cursors of `s` are in order, past the
cells of the four globals, and no complaint is latched. -/
def Defined (c d : Nat) (name : List Nat) (s : State) : Prop :=
  16 ≤ code_idx s ∧ code_idx s ≤ dict_idx s ∧ dict_idx s + (3 + name.length) ≤ d ∧
  d ≤ store_capacity ∧ s.complaint = none ∧
  lookup s.the_store (dict_idx s) store_capacity name = some (d - (3 + name.length)) ∧
  get_header_binding s.the_store (d - (3 + name.length)) = c ∧
  get_header_name_length s.the_store (d - (3 + name.length)) = name.length
/-- The command run in the state `s` is `forget name`, and it ends with no
complaint: the token is the keyword, `name` is what the lexer holds after the
token that follows. -/
def forgets (fuel : Nat) (name : List Nat) (s : State) : Prop :=
  s.token = 111 ∧ (next fuel s).map (fun t => t.token_name) = some name ∧
  (run_command fuel true s).map (fun s' => s'.complaint) = some none
/-- The four commands `let x = 1`, `fun f n = n + x`, `let y = f 2`,
`forget x`. -/
def define_and_forget : List Nat :=
  bytes_of "let x = 1\nfun f n = n + x\nlet y = f 2\nforget x\n"

/-- The state in which command number `k` of `define_and_forget` is run. -/
def define_and_forget_at (k : Nat) : State := state_of (repl_after 40 define_and_forget k)

/-- The highest offset `code_idx` may have reached: `code_idx`, or `S + 2`
when `code_idx` is below it (two bytes are left open by `forward_ref` with no
test on the room). -/
def reach (s : State) : Nat := max (code_idx s) (store_capacity + 2)

/-- The states in which the compiler and the lexer store nothing into the two
cursor cells: `code_idx` is past the cells of the four globals, `dict_idx` is
inside the store, `prev_instruc` is 0 or an offset past those cells and
inside the store, and `code_idx` is at most `S + 2` as long as no complaint
is latched. -/
def Safe (s : State) : Prop :=
  16 ≤ code_idx s ∧ dict_idx s ≤ store_capacity ∧
  (s.prev_instruc = 0 ∨ (16 ≤ s.prev_instruc ∧ s.prev_instruc ≤ store_capacity)) ∧
  (s.complaint = none → code_idx s ≤ store_capacity + 2)

/-- The relation between the states before and after a piece of the
compiler, whether it complains or not: the state after is `Safe`, `dict_idx`
is as it was, `code_idx` has grown past `S + 2` by `n` at most, and a
complaint that was latched still is. -/
structure Kept (n : Nat) (s s' : State) : Prop where
  safe : Safe s'
  dict : dict_idx s' = dict_idx s
  grown : reach s' ≤ reach s + n
  latched : s.complaint.isSome = true → s'.complaint.isSome = true

/-- The cursors are in order, `code_idx <= dict_idx <= S`, and
`prev_instruc` is 0 or an offset past the cells of the four globals and
inside the store. -/
def Ordered (s : State) : Prop :=
  code_idx s ≤ dict_idx s ∧ dict_idx s ≤ store_capacity ∧
  (s.prev_instruc = 0 ∨ (16 ≤ s.prev_instruc ∧ s.prev_instruc ≤ store_capacity))

theorem testBit_fetch_bytes (n m p i : Nat) :
    (fetch_bytes n m p).testBit i = (decide (i < 8 * n) && m.testBit (8 * p + i)) := by
  unfold fetch_bytes
  rw [Nat.one_shiftLeft, Nat.testBit_mod_two_pow, Nat.testBit_shiftRight]

theorem testBit_write_bytes (n m p v j : Nat) :
    (write_bytes n m p v).testBit j =
      if 8 * p ≤ j ∧ j < 8 * p + 8 * n then v.testBit (j - 8 * p) else m.testBit j := by
  unfold write_bytes
  rw [Nat.testBit_xor, Nat.testBit_shiftLeft, Nat.testBit_xor, testBit_fetch_bytes,
    Nat.one_shiftLeft, Nat.testBit_mod_two_pow]
  by_cases h1 : 8 * p ≤ j
  · by_cases h2 : j < 8 * p + 8 * n
    · have h3 : j - 8 * p < 8 * n := by omega
      have h4 : 8 * p + (j - 8 * p) = j := by omega
      simp [h1, h2, h3, h4]
    · have h3 : ¬ (j - 8 * p < 8 * n) := by omega
      simp [h1, h2, h3]
  · simp [h1]

theorem fetch_bytes_write_bytes_same (n m p v : Nat) :
    fetch_bytes n (write_bytes n m p v) p = v % (1 <<< (8 * n)) := by
  apply Nat.eq_of_testBit_eq
  intro i
  rw [testBit_fetch_bytes, testBit_write_bytes, Nat.one_shiftLeft, Nat.testBit_mod_two_pow]
  by_cases h : i < 8 * n
  · have h2 : 8 * p ≤ 8 * p + i ∧ 8 * p + i < 8 * p + 8 * n := by omega
    simp [h, h2]
  · simp [h]

theorem fetch_bytes_write_bytes_disjoint (k n m p v q : Nat) (h : q + k ≤ p ∨ p + n ≤ q) :
    fetch_bytes k (write_bytes n m p v) q = fetch_bytes k m q := by
  apply Nat.eq_of_testBit_eq
  intro i
  rw [testBit_fetch_bytes, testBit_fetch_bytes, testBit_write_bytes]
  by_cases hi : i < 8 * k
  · have h2 : ¬ (8 * p ≤ 8 * q + i ∧ 8 * q + i < 8 * p + 8 * n) := by omega
    simp [hi, h2]
  · simp [hi]

theorem fetch_u8_eq (m p : Nat) : fetch_u8 m p = fetch_bytes 1 m p := rfl
theorem fetch_wX_eq (m p : Nat) : fetch_wX m p = fetch_bytes 2 m p := rfl
theorem fetch_2i_eq (m p : Nat) : fetch_2i m p = fetch_bytes 2 m p := rfl
theorem fetch_wV_eq (m p : Nat) : fetch_wV m p = fetch_bytes 4 m p := rfl
theorem fetch_wP_eq (m p : Nat) : fetch_wP m p = fetch_bytes 4 m p := rfl
theorem write_u8_eq (m p v : Nat) : write_u8 m p v = write_bytes 1 m p v := rfl
theorem write_wX_eq (m p v : Nat) : write_wX m p v = write_bytes 2 m p v := rfl
theorem write_2i_eq (m p v : Nat) : write_2i m p v = write_bytes 2 m p v := rfl
theorem write_wV_eq (m p v : Nat) : write_wV m p v = write_bytes 4 m p v := rfl
theorem write_wP_eq (m p v : Nat) : write_wP m p v = write_bytes 4 m p v := rfl

theorem fetch_bytes_lt (n m p : Nat) : fetch_bytes n m p < 1 <<< (8 * n) := by
  unfold fetch_bytes
  apply Nat.mod_lt
  rw [Nat.one_shiftLeft]
  exact Nat.two_pow_pos _

theorem code_idx_lt (s : State) : code_idx s < 4294967296 := fetch_bytes_lt 4 s.the_store 0

theorem dict_idx_lt (s : State) : dict_idx s < 4294967296 := fetch_bytes_lt 4 s.the_store 4

theorem Emitted.refl (s : State) (c : Nat) (h : code_idx s = c) : Emitted s s c 0 :=
  ⟨by simpa using h, rfl, fun _ _ _ _ => rfl, rfl, rfl, rfl⟩

theorem Emitted.trans {s s' s'' : State} {c n k : Nat}
    (h1 : Emitted s s' c n) (h2 : Emitted s' s'' (c + n) k) : Emitted s s'' c (n + k) where
  code := by rw [h2.code]; omega
  dict := h2.dict.trans h1.dict
  frame := fun j q h8 hq => by
    rw [h2.frame j q h8 (by omega), h1.frame j q h8 (by omega)]
  complaint := h2.complaint.trans h1.complaint
  stdin_ := h2.stdin_.trans h1.stdin_
  out := h2.out.trans h1.out

theorem emit_spec (n : Nat) (s : State) (v c p : Nat) (hc : code_idx s = c) (h8 : 8 ≤ c)
    (hroom : c + n ≤ dict_idx s) :
    Emitted s (emit n s v p) c n ∧
      fetch_bytes n (emit n s v p).the_store c = v % (1 <<< (8 * n)) ∧
      (emit n s v p).prev_instruc = p := by
  have hd := dict_idx_lt s
  subst hc
  refine ⟨⟨?_, ?_, ?_, rfl, rfl, rfl⟩, ?_, rfl⟩
  · simp only [emit, code_idx, set_code_idx, fetch_wV_eq, write_wV_eq,
      fetch_bytes_write_bytes_same]
    exact Nat.mod_eq_of_lt (by simp only [code_idx, fetch_wV_eq] at hroom h8 ⊢; omega)
  · simp only [emit, dict_idx, set_code_idx, fetch_wV_eq, write_wV_eq]
    rw [fetch_bytes_write_bytes_disjoint _ _ _ _ _ _ (by omega),
      fetch_bytes_write_bytes_disjoint _ _ _ _ _ _ (by omega)]
  · intro k q hq hqc
    simp only [emit, set_code_idx, write_wV_eq]
    rw [fetch_bytes_write_bytes_disjoint _ _ _ _ _ _ (by omega),
      fetch_bytes_write_bytes_disjoint _ _ _ _ _ _ (by omega)]
  · simp only [emit, set_code_idx, write_wV_eq]
    rw [fetch_bytes_write_bytes_disjoint _ _ _ _ _ _ (by omega), fetch_bytes_write_bytes_same]

theorem available_ok (s : State) (n : Nat) (h : code_idx s + n ≤ dict_idx s) :
    available s n = (true, s) := by
  have hd := dict_idx_lt s
  have : (code_idx s + n) % 4294967296 = code_idx s + n := Nat.mod_eq_of_lt (by omega)
  simp [available, this, h]

theorem gen_eq (s : State) (op : Nat) (h : code_idx s + 1 ≤ dict_idx s) :
    gen s op = emit 1 s op (code_idx s % 65536) := by
  simp [gen, available_ok s 1 h, emit, write_u8_eq]

theorem gen_ubyte_eq (s : State) (b : Nat) (h : code_idx s + 1 ≤ dict_idx s) :
    gen_ubyte s b = emit 1 s b s.prev_instruc := by
  simp [gen_ubyte, available_ok s 1 h, emit, write_u8_eq]

theorem gen_sbyte_eq (s : State) (b : Nat) (h : code_idx s + 1 ≤ dict_idx s) :
    gen_sbyte s b = emit 1 s b s.prev_instruc := by
  simp [gen_sbyte, available_ok s 1 h, emit, write_u8_eq]

theorem gen_ushort_eq (s : State) (u : Nat) (h : code_idx s + 2 ≤ dict_idx s) :
    gen_ushort s u = emit 2 s u s.prev_instruc := by
  simp [gen_ushort, available_ok s 2 h, emit, write_wX_eq]

theorem gen_sshort_eq (s : State) (u : Nat) (h : code_idx s + 2 ≤ dict_idx s) :
    gen_sshort s u = emit 2 s u s.prev_instruc := by
  simp [gen_sshort, available_ok s 2 h, emit, write_2i_eq]

theorem gen_value_eq (s : State) (v : Nat) (h : code_idx s + 4 ≤ dict_idx s) :
    gen_value s v = emit 4 s v s.prev_instruc := by
  simp [gen_value, available_ok s 4 h, emit, write_wV_eq]

theorem step_push (end_ pc sp bp : Nat) (s : State) (v len : Nat)
    (h : PushAt s.the_store pc v len) :
    step end_ pc sp bp s = push end_ (pc + len) sp bp s v := by
  rcases h with ⟨h1, h2, h3⟩ | ⟨h1, h2, h3⟩ | ⟨h1, h2, h3⟩
  · subst h2
    simp [step, step_with, h1, h3, PUSHB, HALT, PUSH, PUSHW, Nat.add_assoc]
  · subst h2
    simp [step, step_with, h1, h3, PUSHB, HALT, PUSH, PUSHW, Nat.add_assoc]
  · subst h2
    simp [step, step_with, h1, h3, PUSHB, HALT, PUSH, PUSHW, Nat.add_assoc]

theorem push_room (end_ pc sp bp : Nat) (s : State) (v : Nat) (h : end_ + 4 ≤ sp) :
    push end_ pc sp bp s v =
      Step.next pc (sp - 4) bp { s with the_store := write_wV s.the_store (sp - 4) v } := by
  have : ¬ sp < end_ + 4 := by omega
  simp [push, this]

theorem step_halt (end_ pc sp bp : Nat) (s : State) (h : fetch_u8 s.the_store pc = HALT) :
    step end_ pc sp bp s = Step.done (fetch_wV s.the_store sp) s := by
  simp [step, step_with, h]

/-- Running `push v; HALT`. -/
theorem run_push_halt (fuel end_ pc sp bp : Nat) (s : State) (v len : Nat)
    (hv : v < 4294967296)
    (hp : PushAt s.the_store pc v len) (hh : fetch_u8 s.the_store (pc + len) = HALT)
    (he : pc + len + 1 ≤ end_) (hs : end_ + 4 ≤ sp) :
    run_loop end_ (fuel + 2) pc sp bp s =
      some (v, { s with the_store := write_wV s.the_store (sp - 4) v }) := by
  have h1 : fetch_u8 (write_wV s.the_store (sp - 4) v) (pc + len) = HALT := by
    rw [fetch_u8_eq, write_wV_eq, fetch_bytes_write_bytes_disjoint _ _ _ _ _ _ (by omega),
      ← fetch_u8_eq, hh]
  have h2 : fetch_wV (write_wV s.the_store (sp - 4) v) (sp - 4) = v := by
    rw [fetch_wV_eq, write_wV_eq, fetch_bytes_write_bytes_same]
    exact Nat.mod_eq_of_lt hv
  rw [run_loop, step_push _ _ _ _ _ _ _ hp, push_room _ _ _ _ _ _ hs]
  simp only []
  rw [run_loop, step_halt _ _ _ _ _ h1]
  simp only [h2]

theorem sext8_mod (v : Nat) (hv : v < 4294967296) (h : sval v < 128 ∧ sval v ≥ -128) :
    sext8 (v % 256 % (1 <<< (8 * 1))) = v := by
  have e : (1 <<< (8 * 1)) = 256 := by decide
  rw [e]
  unfold sval at h
  unfold sext8
  split_ifs at h ⊢ <;> omega

theorem sext16_mod (v : Nat) (hv : v < 4294967296) (h : sval v < 32768 ∧ sval v ≥ -32768) :
    sext16 (v % 65536 % (1 <<< (8 * 2))) = v := by
  have e : (1 <<< (8 * 2)) = 65536 := by decide
  rw [e]
  unfold sval at h
  unfold sext16
  split_ifs at h ⊢ <;> omega

/-- Two emitters in a row: an opcode, then an immediate of `n` bytes. -/
theorem emit_emit_spec (n : Nat) (s : State) (op imm c p q : Nat) (hc : code_idx s = c)
    (h8 : 8 ≤ c) (hroom : c + 1 + n ≤ dict_idx s) :
    Emitted s (emit n (emit 1 s op p) imm q) c (1 + n) ∧
      fetch_u8 (emit n (emit 1 s op p) imm q).the_store c = op % 256 ∧
      fetch_bytes n (emit n (emit 1 s op p) imm q).the_store (c + 1) = imm % (1 <<< (8 * n)) ∧
      (emit n (emit 1 s op p) imm q).prev_instruc = q := by
  obtain ⟨e1, c1, _⟩ := emit_spec 1 s op c p hc h8 (by omega)
  obtain ⟨e2, c2, p2⟩ := emit_spec n (emit 1 s op p) imm (c + 1) q e1.code (by omega)
    (by rw [e1.dict]; omega)
  refine ⟨e1.trans e2, ?_, c2, p2⟩
  rw [fetch_u8_eq, e2.frame 1 c h8 (by omega), c1]
  rfl

theorem gen_literal_spec (s : State) (c v : Nat) (hc : code_idx s = c) (h8 : 8 ≤ c)
    (hroom : c + 5 ≤ dict_idx s) (hv : s.token_value = v) (hv32 : v < 4294967296) :
    ∃ len, 2 ≤ len ∧ len ≤ 5 ∧ Emitted s (gen_literal s) c len ∧
      PushAt (gen_literal s).the_store c v len ∧ (gen_literal s).prev_instruc = c % 65536 := by
  unfold gen_literal
  simp only [hv]
  have g1 : ∀ op, gen s op = emit 1 s op (c % 65536) := fun op => by
    rw [gen_eq s op (by omega), hc]
  have p1 : ∀ op, (emit 1 s op (c % 65536)).prev_instruc = c % 65536 := fun op => rfl
  have r1 : ∀ op n, n ≤ 4 → code_idx (emit 1 s op (c % 65536)) + n
      ≤ dict_idx (emit 1 s op (c % 65536)) := fun op n hn => by
    obtain ⟨e1, _, _⟩ := emit_spec 1 s op c (c % 65536) hc h8 (by omega)
    rw [e1.code, e1.dict]; omega
  split_ifs with hb hw
  · rw [g1, gen_sbyte_eq _ _ (r1 _ 1 (by omega)), p1]
    obtain ⟨e, c1, c2, p⟩ := emit_emit_spec 1 s PUSHB (v % 256) c (c % 65536) (c % 65536) hc h8
      (by omega)
    refine ⟨2, by omega, by omega, e, Or.inl ⟨c1, rfl, ?_⟩, p⟩
    rw [fetch_u8_eq, c2]
    exact sext8_mod v hv32 hb
  · rw [g1, gen_sshort_eq _ _ (r1 _ 2 (by omega)), p1]
    obtain ⟨e, c1, c2, p⟩ := emit_emit_spec 2 s PUSHW (v % 65536) c (c % 65536) (c % 65536) hc h8
      (by omega)
    refine ⟨3, by omega, by omega, e, Or.inr (Or.inl ⟨c1, rfl, ?_⟩), p⟩
    rw [fetch_2i_eq, c2]
    exact sext16_mod v hv32 hw
  · rw [g1, gen_value_eq _ _ (r1 _ 4 (by omega)), p1]
    obtain ⟨e, c1, c2, p⟩ := emit_emit_spec 4 s PUSH v c (c % 65536) (c % 65536) hc h8
      (by omega)
    refine ⟨5, by omega, by omega, e, Or.inr (Or.inr ⟨c1, rfl, ?_⟩), p⟩
    rw [fetch_wV_eq, c2]
    exact Nat.mod_eq_of_lt hv32

theorem next_newline (fuel : Nat) (s : State) (h : s.input_char = 10) :
    next (fuel + 1) s = some { s with token := 10, input_char := unread } := by
  simp [next, ch, h, unread, isdigit, isalpha, is_operator_char, next_char, EOF]

theorem emit_lexer (n : Nat) (s : State) (v p : Nat) :
    (emit n s v p).input_char = s.input_char ∧ (emit n s v p).token = s.token ∧
    (emit n s v p).token_value = s.token_value ∧ (emit n s v p).token_name = s.token_name ∧
    (emit n s v p).in_file = s.in_file := ⟨rfl, rfl, rfl, rfl, rfl⟩

theorem complain_lexer (s : State) (msg : String) :
    (complain s msg).input_char = s.input_char ∧ (complain s msg).token = s.token ∧
    (complain s msg).token_value = s.token_value ∧ (complain s msg).token_name = s.token_name ∧
    (complain s msg).in_file = s.in_file := by
  unfold complain
  cases s.complaint <;> exact ⟨rfl, rfl, rfl, rfl, rfl⟩

theorem gen_lexer (s : State) (op : Nat) :
    (gen s op).input_char = s.input_char ∧ (gen s op).token = s.token ∧
    (gen s op).token_value = s.token_value ∧ (gen s op).token_name = s.token_name ∧
    (gen s op).in_file = s.in_file := by
  unfold gen available
  split_ifs
  · exact ⟨rfl, rfl, rfl, rfl, rfl⟩
  · exact complain_lexer s _

theorem gen_sbyte_lexer (s : State) (b : Nat) :
    (gen_sbyte s b).input_char = s.input_char ∧ (gen_sbyte s b).token = s.token ∧
    (gen_sbyte s b).token_value = s.token_value ∧ (gen_sbyte s b).token_name = s.token_name ∧
    (gen_sbyte s b).in_file = s.in_file := by
  unfold gen_sbyte available
  split_ifs
  · exact ⟨rfl, rfl, rfl, rfl, rfl⟩
  · exact complain_lexer s _

theorem gen_sshort_lexer (s : State) (b : Nat) :
    (gen_sshort s b).input_char = s.input_char ∧ (gen_sshort s b).token = s.token ∧
    (gen_sshort s b).token_value = s.token_value ∧ (gen_sshort s b).token_name = s.token_name ∧
    (gen_sshort s b).in_file = s.in_file := by
  unfold gen_sshort available
  split_ifs
  · exact ⟨rfl, rfl, rfl, rfl, rfl⟩
  · exact complain_lexer s _

theorem gen_value_lexer (s : State) (b : Nat) :
    (gen_value s b).input_char = s.input_char ∧ (gen_value s b).token = s.token ∧
    (gen_value s b).token_value = s.token_value ∧ (gen_value s b).token_name = s.token_name ∧
    (gen_value s b).in_file = s.in_file := by
  unfold gen_value available
  split_ifs
  · exact ⟨rfl, rfl, rfl, rfl, rfl⟩
  · exact complain_lexer s _

theorem gen_literal_lexer (s : State) :
    (gen_literal s).input_char = s.input_char ∧ (gen_literal s).token = s.token ∧
    (gen_literal s).token_value = s.token_value ∧ (gen_literal s).token_name = s.token_name ∧
    (gen_literal s).in_file = s.in_file := by
  unfold gen_literal
  simp only []
  split_ifs
  · obtain ⟨a1, a2, a3, a4, a5⟩ := gen_sbyte_lexer (gen s PUSHB) (s.token_value % 256)
    obtain ⟨b1, b2, b3, b4, b5⟩ := gen_lexer s PUSHB
    exact ⟨a1.trans b1, a2.trans b2, a3.trans b3, a4.trans b4, a5.trans b5⟩
  · obtain ⟨a1, a2, a3, a4, a5⟩ := gen_sshort_lexer (gen s PUSHW) (s.token_value % 65536)
    obtain ⟨b1, b2, b3, b4, b5⟩ := gen_lexer s PUSHW
    exact ⟨a1.trans b1, a2.trans b2, a3.trans b3, a4.trans b4, a5.trans b5⟩
  · obtain ⟨a1, a2, a3, a4, a5⟩ := gen_value_lexer (gen s PUSH) s.token_value
    obtain ⟨b1, b2, b3, b4, b5⟩ := gen_lexer s PUSH
    exact ⟨a1.trans b1, a2.trans b2, a3.trans b3, a4.trans b4, a5.trans b5⟩

/-- `parse_factor` on a literal token compiles the push and reads on. -/
theorem parse_factor_literal (fuel : Nat) (s : State) (ht : s.token = 1) :
    parse_factor (fuel + 2) s = next (fuel + 1) (gen_literal s) := by
  have h10 : ¬ (s.complaint.isNone ∧ s.token = 10) := by simp [ht]
  simp [parse_factor, skip_newline, ht]

/-- A literal followed by the end of the line, as a whole expression. -/
theorem parse_expr_literal_line (fuel : Nat) (s : State) (hc : s.complaint = none)
    (ht : s.token = 1) (hi : s.input_char = 10) :
    parse_expr (fuel + 3) (-1) s =
      some { gen_literal s with token := 10, input_char := unread } := by
  rw [parse_expr]
  simp only [hc, Option.isSome_none, Bool.false_eq_true, if_false]
  rw [parse_factor_literal fuel s ht, next_newline fuel _ ((gen_literal_lexer s).1.trans hi)]
  simp only []
  rw [parse_expr_loop]
  simp [binary_operator]

theorem PushAt.frame {m m' : Nat} {pc v len : Nat} (h : PushAt m pc v len)
    (hf : ∀ k q, pc ≤ q → q + k ≤ pc + len → fetch_bytes k m' q = fetch_bytes k m q) :
    PushAt m' pc v len := by
  rcases h with ⟨h1, h2, h3⟩ | ⟨h1, h2, h3⟩ | ⟨h1, h2, h3⟩
  · refine Or.inl ⟨?_, h2, ?_⟩
    · rw [fetch_u8_eq, hf 1 pc (by omega) (by omega), ← fetch_u8_eq, h1]
    · rw [fetch_u8_eq, hf 1 (pc + 1) (by omega) (by omega), ← fetch_u8_eq, h3]
  · refine Or.inr (Or.inl ⟨?_, h2, ?_⟩)
    · rw [fetch_u8_eq, hf 1 pc (by omega) (by omega), ← fetch_u8_eq, h1]
    · rw [fetch_2i_eq, hf 2 (pc + 1) (by omega) (by omega), ← fetch_2i_eq, h3]
  · refine Or.inr (Or.inr ⟨?_, h2, ?_⟩)
    · rw [fetch_u8_eq, hf 1 pc (by omega) (by omega), ← fetch_u8_eq, h1]
    · rw [fetch_wV_eq, hf 4 (pc + 1) (by omega) (by omega), ← fetch_wV_eq, h3]

theorem set_code_idx_spec (s : State) (v : Nat) (hv : v < 4294967296) :
    code_idx (set_code_idx s v) = v ∧ dict_idx (set_code_idx s v) = dict_idx s ∧
      ∀ k q, 4 ≤ q → fetch_bytes k (set_code_idx s v).the_store q = fetch_bytes k s.the_store q := by
  refine ⟨?_, ?_, ?_⟩
  · simp only [code_idx, set_code_idx, fetch_wV_eq, write_wV_eq, fetch_bytes_write_bytes_same]
    exact Nat.mod_eq_of_lt hv
  · simp only [dict_idx, set_code_idx, fetch_wV_eq, write_wV_eq]
    rw [fetch_bytes_write_bytes_disjoint _ _ _ _ _ _ (by omega)]
  · intro k q hq
    simp only [set_code_idx, write_wV_eq]
    rw [fetch_bytes_write_bytes_disjoint _ _ _ _ _ _ (by omega)]

/-- A stack write at or above offset 8 leaves both cursors alone. -/
theorem cursors_write_wV (s : State) (p v : Nat) (hp : 8 ≤ p) :
    code_idx { s with the_store := write_wV s.the_store p v } = code_idx s ∧
    dict_idx { s with the_store := write_wV s.the_store p v } = dict_idx s := by
  constructor
  · simp only [code_idx, fetch_wV_eq, write_wV_eq]
    rw [fetch_bytes_write_bytes_disjoint _ _ _ _ _ _ (by omega)]
  · simp only [dict_idx, fetch_wV_eq, write_wV_eq]
    rw [fetch_bytes_write_bytes_disjoint _ _ _ _ _ _ (by omega)]

theorem digits_value_ge (cs : List Nat) (acc : Nat) : acc ≤ digits_value acc cs := by
  induction cs generalizing acc with
  | nil => exact Nat.le_refl _
  | cons c cs ih =>
    have := ih (10 * acc + (c - 48))
    simp only [digits_value, List.foldl_cons] at this ⊢
    omega

theorem ch_unread_cons (s : State) (b : Nat) (rest : List Nat) (hb : b < 256)
    (hi : s.input_char = unread) (hf : s.in_file = b :: rest) :
    ch s = ((b : Int), { s with input_char := (b : Int), in_file := rest }) := by
  simp [ch, hi, hf, Nat.mod_eq_of_lt hb]

theorem ch_read (s : State) (b : Nat) (hi : s.input_char = (b : Int)) :
    ch s = ((b : Int), s) := by
  have : (b : Int) ≠ unread := by unfold unread; omega
  simp [ch, hi, this]

theorem isdigit_cast (b : Nat) : isdigit (b : Int) = true ↔ 48 ≤ b ∧ b ≤ 57 := by
  simp [isdigit]

theorem next_char_cast (s : State) (b : Nat) (hi : s.input_char = (b : Int)) :
    next_char s = { s with input_char := unread } := by
  have : (b : Int) ≠ EOF := by unfold EOF; omega
  simp [next_char, hi, this]

theorem ch_next_char (s : State) (b r : Nat) (rest : List Nat) (hi : s.input_char = (b : Int))
    (hf : s.in_file = r :: rest) (hr : r < 256) :
    ch (next_char s) = ((r : Int), { s with input_char := (r : Int), in_file := rest }) := by
  rw [next_char_cast s b hi, ch_unread_cons { s with input_char := unread } r rest hr rfl hf]

/-- The digit loop of the lexer on a string of digits that ends before a
character `r` which is neither a digit nor `x`. -/
theorem lex_number_digits (ds : List Nat) (hds : all_digits ds) (r : Nat) (rest : List Nat)
    (hr : r < 256) (hrd : ¬ (48 ≤ r ∧ r ≤ 57)) (hrx : r ≠ 120) :
    ∀ (d0 : Nat) (s : State) (fuel : Nat), 48 ≤ d0 → d0 ≤ 57 → s.input_char = (d0 : Int) →
      s.in_file = ds ++ r :: rest →
      digits_value (10 * s.token_value + (d0 - 48)) ds < 2147483648 →
      ds.length + 1 ≤ fuel →
      lex_number fuel s = some { s with
        token_value := digits_value (10 * s.token_value + (d0 - 48)) ds,
        input_char := (r : Int), in_file := rest } := by
  induction ds with
  | nil =>
    intro d0 s fuel h0 h1 hi hf hv hfuel
    obtain ⟨f, rfl⟩ : ∃ f, fuel = f + 1 := ⟨fuel - 1, by omega⟩
    simp only [digits_value, List.foldl_nil] at hv
    have e1 : (10 * s.token_value + d0 - 48) % 4294967296 = 10 * s.token_value + (d0 - 48) := by
      omega
    have hx : ¬ ((r : Int) = 120 ∧ 10 * s.token_value + (d0 - 48) = 0) := by
      intro h; apply hrx; have := h.1; omega
    have hd : isdigit (r : Int) = false := by
      rw [Bool.eq_false_iff]; intro h; exact hrd ((isdigit_cast r).1 h)
    have hlt : ¬ (2147483648 ≤ 10 * s.token_value + (d0 - 48)) := by omega
    rw [lex_number, ch_read s d0 hi]
    simp only [Int.toNat_ofNat, e1]
    rw [ch_next_char { s with token_value := 10 * s.token_value + (d0 - 48) } d0 r rest hi hf hr]
    simp only [hx, if_false, hlt, hd, Bool.false_eq_true]
    rfl
  | cons d ds ih =>
    intro d0 s fuel h0 h1 hi hf hv hfuel
    obtain ⟨f, rfl⟩ : ∃ f, fuel = f + 1 := ⟨fuel - 1, by omega⟩
    have hdd := hds d (List.mem_cons_self _ _)
    have hmono := digits_value_ge ds (10 * (10 * s.token_value + (d0 - 48)) + (d - 48))
    simp only [digits_value, List.foldl_cons] at hv hmono
    have e1 : (10 * s.token_value + d0 - 48) % 4294967296 = 10 * s.token_value + (d0 - 48) := by
      omega
    have hx : ¬ ((d : Int) = 120 ∧ 10 * s.token_value + (d0 - 48) = 0) := by
      intro h; have := h.1; omega
    have hd : isdigit (d : Int) = true := (isdigit_cast d).2 hdd
    have hlt : ¬ (2147483648 ≤ 10 * s.token_value + (d0 - 48)) := by omega
    rw [lex_number, ch_read s d0 hi]
    simp only [Int.toNat_ofNat, e1]
    rw [ch_next_char { s with token_value := 10 * s.token_value + (d0 - 48) } d0 d
      (ds ++ r :: rest) hi hf (by omega)]
    simp only [hx, if_false, hlt, hd, if_true]
    rw [ih (fun c hc => hds c (List.mem_cons_of_mem _ hc)) d
      { s with token_value := 10 * s.token_value + (d0 - 48), input_char := (d : Int),
               in_file := ds ++ r :: rest } f hdd.1 hdd.2 rfl rfl
      hv (by simp at hfuel; omega)]
    rfl

/-- A number token: digits up to a character that is neither a digit nor `x`. -/
theorem next_number (fuel : Nat) (s : State) (d0 : Nat) (ds : List Nat) (r : Nat)
    (rest : List Nat) (hi : s.input_char = unread) (hf : s.in_file = (d0 :: ds) ++ r :: rest)
    (hds : all_digits (d0 :: ds)) (hr : r < 256) (hrd : ¬ (48 ≤ r ∧ r ≤ 57)) (hrx : r ≠ 120)
    (hv : digits_value 0 (d0 :: ds) < 2147483648) (hfuel : ds.length + 2 ≤ fuel) :
    next fuel s = some { s with token := 1, token_value := digits_value 0 (d0 :: ds),
                                input_char := (r : Int), in_file := rest } := by
  obtain ⟨f, rfl⟩ : ∃ f, fuel = f + 1 := ⟨fuel - 1, by omega⟩
  have h0 := hds d0 (List.mem_cons_self _ _)
  have hd : isdigit (d0 : Int) = true := (isdigit_cast d0).2 h0
  rw [next, ch_unread_cons s d0 (ds ++ r :: rest) (by omega) hi hf]
  simp only [hd, if_true]
  rw [lex_number_digits ds (fun c hc => hds c (List.mem_cons_of_mem _ hc)) r rest hr hrd hrx d0
    { s with input_char := (d0 : Int), in_file := ds ++ r :: rest, token := (PUSH : Nat),
             token_value := 0 } f h0.1 h0.2 rfl rfl
    (by simpa [digits_value] using hv) (by omega)]
  simp [digits_value, PUSH]

/-- A blank before the next token. -/
theorem next_blank (fuel : Nat) (s : State) (rest : List Nat) (hi : s.input_char = unread)
    (hf : s.in_file = 32 :: rest) :
    next (fuel + 1) s = next fuel { s with in_file := rest } := by
  rw [next, ch_unread_cons s 32 rest (by omega) hi hf]
  have e : next_char { s with input_char := (32 : Int), in_file := rest }
      = { s with in_file := rest } := by
    cases s
    simp only at hi
    simp [next_char, EOF, hi]
  simp [isdigit, isalpha, is_operator_char, EOF, e]

/-- A blank that is already the current character. -/
theorem next_blank_read (fuel : Nat) (s : State) (hi : s.input_char = 32) :
    next (fuel + 1) s = next fuel { s with input_char := unread } := by
  rw [next, ch_read s 32 (by simpa using hi)]
  have e : next_char s = { s with input_char := unread } := next_char_cast s 32 (by simpa using hi)
  simp [isdigit, isalpha, is_operator_char, EOF, e]

/-- A one-character token. -/
theorem next_operator (fuel : Nat) (s : State) (op : Nat) (rest : List Nat)
    (hi : s.input_char = unread) (hf : s.in_file = op :: rest) (hop : op < 256)
    (h : is_operator_char (op : Int) = true) :
    next (fuel + 1) s = some { s with token := (op : Int), in_file := rest } := by
  have h1 : isdigit (op : Int) = false := by
    rw [Bool.eq_false_iff, Ne, isdigit_cast]
    simp [is_operator_char, EOF] at h
    omega
  have h2 : isalpha (op : Int) = false := by
    simp [is_operator_char, EOF] at h
    simp [isalpha]
    omega
  have h3 : (op : Int) ≠ 95 ∧ (op : Int) ≠ 39 := by
    simp [is_operator_char, EOF] at h
    omega
  rw [next, ch_unread_cons s op rest hop hi hf]
  have e : next_char { s with input_char := (op : Int), in_file := rest, token := (op : Int) }
      = { s with token := (op : Int), in_file := rest } := by
    rw [next_char_cast _ op rfl]
    cases s
    simp only at hi
    simp [hi]
  simp [h1, h2, h3, h, e]

theorem decimal_loop_digits (fuel : Nat) : ∀ (n : Nat) (acc : List Nat), all_digits acc →
    all_digits (decimal_loop fuel n acc) := by
  induction fuel with
  | zero => intro n acc h; exact h
  | succ f ih =>
    intro n acc h
    have h' : all_digits ((48 + n % 10) :: acc) := by
      intro c hc
      rcases List.mem_cons.1 hc with rfl | hc
      · omega
      · exact h c hc
    rw [decimal_loop]
    split_ifs
    · exact h'
    · exact ih _ _ h'

theorem decimal_loop_value (fuel : Nat) : ∀ (n : Nat) (acc : List Nat), n < 10 ^ fuel →
    digits_value 0 (decimal_loop fuel n acc) = digits_value n acc := by
  induction fuel with
  | zero =>
    intro n acc h
    have : n = 0 := by simpa using h
    subst this
    rfl
  | succ f ih =>
    intro n acc h
    rw [decimal_loop]
    split_ifs with h0
    · have : n < 10 := by omega
      simp only [digits_value, List.foldl_cons]
      congr 1
      omega
    · rw [ih _ _ (by rw [pow_succ] at h; omega)]
      simp only [digits_value, List.foldl_cons]
      congr 1
      omega

theorem decimal_loop_ne_nil (fuel : Nat) (n : Nat) (acc : List Nat) :
    decimal_loop (fuel + 1) n acc ≠ [] := by
  induction fuel generalizing n acc with
  | zero => rw [decimal_loop]; split_ifs <;> simp [decimal_loop]
  | succ f ih =>
    rw [decimal_loop]
    split_ifs
    · simp
    · exact ih _ _

theorem decimal_loop_length (fuel : Nat) : ∀ (n : Nat) (acc : List Nat),
    (decimal_loop fuel n acc).length ≤ fuel + acc.length := by
  induction fuel with
  | zero => intro n acc; simp [decimal_loop]
  | succ f ih =>
    intro n acc
    rw [decimal_loop]
    split_ifs
    · simp; omega
    · have := ih (n / 10) ((48 + n % 10) :: acc)
      simp at this
      omega

/-- The decimal text of a 32-bit number: at least one digit, at most ten,
and it denotes the number. -/
theorem decimal_spec (n : Nat) (h : n < 4294967296) :
    ∃ d0 ds, decimal n = d0 :: ds ∧ all_digits (d0 :: ds) ∧ digits_value 0 (d0 :: ds) = n ∧
      ds.length ≤ 9 := by
  have h1 : decimal n ≠ [] := decimal_loop_ne_nil 9 n []
  have h2 : all_digits (decimal n) := decimal_loop_digits 10 n [] (fun c hc => by simp at hc)
  have h3 : digits_value 0 (decimal n) = n := by
    have := decimal_loop_value 10 n [] (by omega)
    simpa [digits_value] using this
  have h4 : (decimal n).length ≤ 10 := by
    have := decimal_loop_length 10 n []
    simpa using this
  cases hd : decimal n with
  | nil => exact absurd hd h1
  | cons d0 ds =>
    rw [hd] at h2 h3 h4
    exact ⟨d0, ds, rfl, h2, h3, by simp at h4; omega⟩

theorem complain_with_store (s t : State) (msg : String) :
    complain (with_store s t) msg = with_store s (complain t msg) := by
  obtain ⟨m, c, p, i, tk, tv, tn, f, si, o⟩ := t
  cases c <;> rfl

theorem available_with_store (s t : State) (n : Nat) :
    available (with_store s t) n = ((available t n).1, with_store s (available t n).2) := by
  unfold available
  have e1 : code_idx (with_store s t) = code_idx t := rfl
  have e2 : dict_idx (with_store s t) = dict_idx t := rfl
  rw [e1, e2]
  split_ifs
  · rfl
  · simp only [complain_with_store]

theorem bind_with_store (s t : State) (name : List Nat) (kind binding : Nat) :
    (bind (with_store s t) name kind binding).2 = with_store s (bind t name kind binding).2 := by
  unfold bind
  simp only [available_with_store]
  rcases h : available t (sizeof_Header + name.length) with ⟨b, t'⟩
  cases b <;> rfl

theorem gen_ubyte_with_store (s t : State) (b : Nat) :
    gen_ubyte (with_store s t) b = with_store s (gen_ubyte t b) := by
  unfold gen_ubyte
  simp only [available_with_store]
  rcases h : available t 1 with ⟨b, t'⟩
  cases b <;> rfl

theorem gen_pointer_with_store (s t : State) (b : Nat) :
    gen_pointer (with_store s t) b = with_store s (gen_pointer t b) := by
  unfold gen_pointer
  simp only [available_with_store]
  rcases h : available t 4 with ⟨b, t'⟩
  cases b <;> rfl

theorem wren_initialize_with_store (s t : State) :
    wren_initialize (with_store s t) = with_store s ( wren_initialize t) := by
  unfold wren_initialize wren_bind_c_function
  have e : ∀ (s t : State) v, set_dict_idx (with_store s t) v = with_store s (set_dict_idx t v) :=
    fun _ _ _ => rfl
  have e' : ∀ (s t : State) v, set_code_idx (with_store s t) v = with_store s (set_code_idx t v) :=
    fun _ _ _ => rfl
  have e1 : ∀ (s t : State) (m : Nat),
      ({ the_store := m, complaint := (with_store s t).complaint,
         prev_instruc := (with_store s t).prev_instruc, input_char := (with_store s t).input_char,
         token := (with_store s t).token, token_value := (with_store s t).token_value,
         token_name := (with_store s t).token_name, in_file := (with_store s t).in_file,
         stdin_ := (with_store s t).stdin_, out := (with_store s t).out } : State)
        = with_store s { t with the_store := m } := fun _ _ _ => rfl
  have e3 : ∀ (s t : State), (with_store s t).the_store = t.the_store := fun _ _ => rfl
  have e2 : ∀ (s t : State), code_idx (with_store s t) = code_idx t := fun _ _ => rfl
  simp only [e3, e1, e, e', bind_with_store, gen_ubyte_with_store, gen_pointer_with_store, e2]

set_option maxRecDepth 100000 in
theorem init_complaint : ( wren_initialize (fresh [] [])).complaint = none := by
  decide!

theorem wren_initialize_fresh (script input : List Nat) :
    wren_initialize (fresh script input) = { fresh script input with the_store := init_store } := by
  have e : fresh script input = with_store (fresh script input) (fresh [] []) := rfl
  rw [e, wren_initialize_with_store]
  unfold with_store
  rw [init_complaint]
  rfl

set_option maxRecDepth 100000 in
theorem init_store_cursors : fetch_wV init_store 0 = 21 ∧ fetch_wV init_store 4 = 4070 := by
  decide!

/-- What is left of `scratch_expr` when the expression has been compiled to a
single push. -/
theorem scratch_of_push (fuel : Nat) (s S : State) (c v len : Nat)
    (hp : parse_expr (fuel + 2) (-1) s = some S) (hci : code_idx s = c) (h8 : 8 ≤ c)
    (hroom : c + 10 ≤ dict_idx s / 4 * 4) (hlen : len ≤ 5) (hv32 : v < 4294967296)
    (E : Emitted s S c len) (P : PushAt S.the_store c v len) (hc : s.complaint = none)
    (ht : S.token = 10) :
    ∃ s', scratch_expr (fuel + 2) s = some (v, s') ∧ s'.complaint = none ∧ s'.out = s.out ∧
      code_idx s' = c ∧ dict_idx s' = dict_idx s ∧ s'.token = 10 ∧
      s'.input_char = S.input_char ∧ s'.in_file = S.in_file := by
  have hdm : dict_idx s / 4 * 4 ≤ dict_idx s := Nat.div_mul_le_self _ 4
  have hcl := code_idx_lt s
  unfold scratch_expr
  rw [hp]
  simp only []
  have hpd : parse_done S = S := by simp [parse_done, ht]
  rw [hpd, gen_eq S HALT (by rw [E.code, E.dict]; omega)]
  obtain ⟨E2, C2, -⟩ := emit_spec 1 S HALT (c + len) (code_idx S % 65536) E.code (by omega)
    (by rw [E.dict]; omega)
  generalize hs2 : emit 1 S HALT (code_idx S % 65536) = s2 at E2 C2
  have t2 : s2.token = 10 := by subst hs2; exact ht
  have i2 : s2.input_char = S.input_char := by subst hs2; rfl
  have f2 : s2.in_file = S.in_file := by subst hs2; rfl
  obtain ⟨S1, S2, S3⟩ := set_code_idx_spec s2 (code_idx s) hcl
  generalize hs3 : set_code_idx s2 (code_idx s) = s3 at S1 S2 S3
  have c3 : s3.complaint = none := by
    subst hs3; exact (E2.complaint.trans (E.complaint.trans hc))
  have o3 : s3.out = s.out := by subst hs3; exact (E2.out.trans E.out)
  have t3 : s3.token = 10 := by subst hs3; exact t2
  have i3 : s3.input_char = S.input_char := by subst hs3; exact i2
  have f3 : s3.in_file = S.in_file := by subst hs3; exact f2
  have d3 : dict_idx s3 = dict_idx s := by rw [S2, E2.dict, E.dict]
  have P3 : PushAt s3.the_store c v len := by
    apply P.frame
    intro k q h1 h2
    rw [S3 k q (by omega), E2.frame k q (by omega) (by omega)]
  have H3 : fetch_u8 s3.the_store (c + len) = HALT := by
    rw [fetch_u8_eq, S3 1 _ (by omega), C2]; rfl
  rw [E2.code]
  simp only [c3, Option.isSome_none, Bool.false_eq_true, if_false]
  unfold run
  rw [d3, hci, run_push_halt fuel (c + len + 1) c _ _ s3 v len hv32 P3 H3 (by omega)
    (by omega)]
  obtain ⟨w1, w2⟩ := cursors_write_wV s3 (dict_idx s / 4 * 4 - 4) v (by omega)
  exact ⟨_, rfl, c3, o3, by rw [w1, S1, hci], by rw [w2, d3], t3, i3, f3⟩

theorem gen_negate_lexer (s : State) :
    (gen_negate s).input_char = s.input_char ∧ (gen_negate s).token = s.token ∧
    (gen_negate s).token_value = s.token_value ∧ (gen_negate s).token_name = s.token_name ∧
    (gen_negate s).in_file = s.in_file := by
  unfold gen_negate
  simp only []
  split_ifs
  · exact ⟨rfl, rfl, rfl, rfl, rfl⟩
  · exact ⟨rfl, rfl, rfl, rfl, rfl⟩
  · exact ⟨rfl, rfl, rfl, rfl, rfl⟩
  · exact gen_lexer s NEGATE
  · exact gen_lexer s NEGATE

/-- Writing `n` bytes at `p` inside the code of a push keeps the relation
`Emitted` with the state before the push. -/
theorem Emitted.patched {s0 s : State} {c len : Nat} (E : Emitted s0 s c len) (n p v : Nat)
    (h8 : 8 ≤ c) (hp : c ≤ p) (hpn : p + n ≤ c + len) :
    Emitted s0 { s with the_store := write_bytes n s.the_store p v } c len where
  code := by
    rw [← E.code]
    simp only [code_idx, fetch_wV_eq]
    rw [fetch_bytes_write_bytes_disjoint _ _ _ _ _ _ (by omega)]
  dict := by
    rw [← E.dict]
    simp only [dict_idx, fetch_wV_eq]
    rw [fetch_bytes_write_bytes_disjoint _ _ _ _ _ _ (by omega)]
  frame := fun k q hq hqc => by
    rw [← E.frame k q hq hqc]
    simp only []
    rw [fetch_bytes_write_bytes_disjoint _ _ _ _ _ _ (by omega)]
  complaint := E.complaint
  stdin_ := E.stdin_
  out := E.out

theorem sext8_lt (b v : Nat) (h : sext8 b = v) (hv : v < 2147483648) : b < 128 ∧ b = v := by
  unfold sext8 at h
  split_ifs at h <;> omega

theorem sext16_lt (b v : Nat) (h : sext16 b = v) (hv : v < 2147483648) : b < 32768 ∧ b = v := by
  unfold sext16 at h
  split_ifs at h <;> omega

/-- The unary-minus peephole on a push of a non-negative word negates the
immediate in place. -/
theorem gen_negate_spec (s0 s : State) (c v len : Nat) (E : Emitted s0 s c len) (h8 : 8 ≤ c)
    (hprev : s.prev_instruc = c) (P : PushAt s.the_store c v len) (hv : v < 2147483648) :
    Emitted s0 (gen_negate s) c len ∧
      PushAt (gen_negate s).the_store c ((4294967296 - v) % 4294967296) len := by
  subst hprev
  have hne : ¬ s.prev_instruc = 0 := by omega
  unfold gen_negate
  simp only [ne_eq, hne, not_false_eq_true, if_true, E.code]
  rcases P with ⟨h1, h2, h3⟩ | ⟨h1, h2, h3⟩ | ⟨h1, h2, h3⟩
  · subst h2
    obtain ⟨hb, hbv⟩ := sext8_lt _ _ h3 hv
    have e1 : ¬ (PUSHB = PUSH) := by decide
    have e2 : ¬ (PUSHB = PUSHW) := by decide
    simp only [h1, e1, e2, if_false, if_true, Nat.add_sub_cancel, write_u8_eq]
    have e3 : s.prev_instruc + 2 - 1 = s.prev_instruc + 1 := by omega
    rw [e3]
    refine ⟨E.patched 1 (s.prev_instruc + 1) _ h8 (by omega) (by omega), Or.inl ⟨?_, rfl, ?_⟩⟩
    · rw [fetch_u8_eq, fetch_bytes_write_bytes_disjoint _ _ _ _ _ _ (by omega), ← fetch_u8_eq, h1]
    · rw [fetch_u8_eq, fetch_bytes_write_bytes_same]
      have e : (1 <<< (8 * 1)) = 256 := by decide
      rw [e]
      unfold sext8
      split_ifs <;> omega
  · subst h2
    obtain ⟨hb, hbv⟩ := sext16_lt _ _ h3 hv
    have e1 : ¬ (PUSHW = PUSH) := by decide
    simp only [h1, e1, if_false, if_true, write_2i_eq]
    have e3 : s.prev_instruc + 3 - 2 = s.prev_instruc + 1 := by omega
    rw [e3]
    refine ⟨E.patched 2 (s.prev_instruc + 1) _ h8 (by omega) (by omega), Or.inr (Or.inl ⟨?_, rfl, ?_⟩)⟩
    · rw [fetch_u8_eq, fetch_bytes_write_bytes_disjoint _ _ _ _ _ _ (by omega), ← fetch_u8_eq, h1]
    · rw [fetch_2i_eq, fetch_bytes_write_bytes_same]
      have e : (1 <<< (8 * 2)) = 65536 := by decide
      rw [e]
      unfold sext16
      split_ifs <;> omega
  · subst h2
    simp only [h1, if_true, write_wV_eq]
    have e3 : s.prev_instruc + 5 - 4 = s.prev_instruc + 1 := by omega
    rw [e3]
    refine ⟨E.patched 4 (s.prev_instruc + 1) _ h8 (by omega) (by omega), Or.inr (Or.inr ⟨?_, rfl, ?_⟩)⟩
    · rw [fetch_u8_eq, fetch_bytes_write_bytes_disjoint _ _ _ _ _ _ (by omega), ← fetch_u8_eq, h1]
    · rw [fetch_wV_eq, fetch_bytes_write_bytes_same, h3]
      have e : (1 <<< (8 * 4)) = 4294967296 := by decide
      rw [e]
      omega

theorem repl_start_fresh (fuel : Nat) (script input : List Nat) :
    repl_start fuel ( wren_initialize (fresh script input)) = next fuel (prompt_state script input) := by
  rw [wren_initialize_fresh]
  unfold repl_start
  congr 1

theorem prompt_state_cursors (script input : List Nat) :
    code_idx (prompt_state script input) = 21 ∧ dict_idx (prompt_state script input) = 4070 :=
  init_store_cursors

/-- A top-level expression that compiles and runs without complaint: what
`run_command` does with it. -/
theorem run_command_expr (fuel : Nat) (outp : Bool) (s s' : State) (v : Nat)
    (h1 : s.token ≠ 10) (h2 : s.token ≠ 102) (h3 : s.token ≠ 108) (h4 : s.token ≠ 111)
    (hs : scratch_expr (fuel + 1) s = some (v, s')) (hc : s'.complaint = none) :
    run_command (fuel + 1) outp s =
      some (if outp then { s' with out := s'.out ++ decimal v ++ [10] } else s') := by
  have hsk : skip_newline (fuel + 1) s = some s := by simp [skip_newline, h1]
  unfold run_command
  rw [hsk]
  simp only [h2, h3, h4, if_false, run_expr, hs, hc, Option.isNone_none, true_and]
  cases outp <;> simp [hc]

theorem sval_of_nat (n : Nat) (h : n < 2147483648) : sval n = (n : Int) := by
  simp [sval, h]

theorem sval_neg (n : Nat) (h0 : 0 < n) (h : n < 2147483648) :
    sval ((4294967296 - n) % 4294967296) = -(n : Int) := by
  have e : (4294967296 - n) % 4294967296 = 4294967296 - n := Nat.mod_eq_of_lt (by omega)
  rw [e]
  unfold sval
  split_ifs <;> omega

/-- Round trip of a non-negative decimal literal typed at the prompt. -/
theorem literal_round_trip_pos (n : Nat) (hn : n < 2147483648) (fuel : Nat) (hf : 20 ≤ fuel) :
    command_complaint fuel (decimal n ++ [10]) 0 = some none ∧
      command_value fuel (decimal n ++ [10]) 0 = some n := by
  obtain ⟨f, rfl⟩ : ∃ f, fuel = f + 3 := ⟨fuel - 3, by omega⟩
  obtain ⟨d0, ds, hd, hall, hval, hlen⟩ := decimal_spec n (by omega)
  obtain ⟨hci, hdi⟩ := prompt_state_cursors (decimal n ++ [10]) []
  have hnext := next_number (f + 3) (prompt_state (decimal n ++ [10]) []) d0 ds 10 [] rfl
    (by simp [prompt_state, hd]) hall (by omega) (by omega) (by omega) (by rw [hval]; exact hn)
    (by omega)
  rw [hval] at hnext
  obtain ⟨s1, hnext, c1, t1, v1, i1, ci1, di1⟩ : ∃ s1 : State,
      next (f + 3) (prompt_state (decimal n ++ [10]) []) = some s1 ∧ s1.complaint = none ∧
      s1.token = 1 ∧ s1.token_value = n ∧ s1.input_char = 10 ∧ code_idx s1 = 21 ∧
      dict_idx s1 = 4070 := ⟨_, hnext, rfl, rfl, rfl, rfl, hci, hdi⟩
  obtain ⟨len, -, hl5, E, P, -⟩ := gen_literal_spec s1 21 n ci1 (by omega) (by omega) v1 (by omega)
  obtain ⟨s', hs, hc', -⟩ := scratch_of_push (f + 1) s1 _ 21 n len
    (parse_expr_literal_line f s1 c1 t1 i1) ci1 (by omega) (by rw [di1]; decide) hl5 (by omega)
    ⟨E.code, E.dict, E.frame, E.complaint, E.stdin_, E.out⟩ P c1 rfl
  have hrun := run_command_expr (f + 2) true s1 s' n (by rw [t1]; decide) (by rw [t1]; decide)
    (by rw [t1]; decide) (by rw [t1]; decide) hs hc'
  have hs3 : scratch_expr (f + 3) s1 = some (n, s') := hs
  have hrun3 : run_command (f + 3) true s1 = _ := hrun
  constructor
  · simp [command_complaint, repl_after, repl_start_fresh, hnext, hrun3, hc']
  · simp [command_value, repl_after, repl_start_fresh, hnext, hs3]

theorem Emitted.base {s1 s2 S : State} {c n : Nat} (E : Emitted s2 S c n)
    (h1 : s2.the_store = s1.the_store) (h2 : s2.complaint = s1.complaint)
    (h3 : s2.stdin_ = s1.stdin_) (h4 : s2.out = s1.out) : Emitted s1 S c n where
  code := E.code
  dict := by rw [E.dict]; simp only [dict_idx, h1]
  frame := fun k q h8 hq => by rw [E.frame k q h8 hq, h1]
  complaint := E.complaint.trans h2
  stdin_ := E.stdin_.trans h3
  out := E.out.trans h4

/-- A minus sign before a literal that ends the line, as a whole expression. -/
theorem parse_expr_negative_line (f : Nat) (s s2 : State) (hc : s.complaint = none)
    (ht : s.token = 45) (hnext : next (f + 2) s = some s2) (t2 : s2.token = 1)
    (i2 : s2.input_char = 10) :
    parse_expr (f + 4) (-1) s =
      some (gen_negate { gen_literal s2 with token := 10, input_char := unread }) := by
  have hsk : skip_newline (f + 2) s = some s := by simp [skip_newline, ht]
  have hpf : parse_factor (f + 3) s =
      some (gen_negate { gen_literal s2 with token := 10, input_char := unread }) := by
    rw [parse_factor, hsk]
    simp only [ht]
    rw [hnext]
    simp only []
    rw [parse_factor_literal f s2 t2, next_newline f _ ((gen_literal_lexer s2).1.trans i2)]
    simp
  rw [parse_expr]
  simp only [hc, Option.isSome_none, Bool.false_eq_true, if_false, hpf]
  rw [parse_expr_loop]
  have ht3 : (gen_negate { gen_literal s2 with token := 10, input_char := unread }).token = 10 :=
    (gen_negate_lexer _).2.1
  simp [binary_operator, ht3]

/-- Round trip of a negated decimal literal typed at the prompt. -/
theorem literal_round_trip_neg (n : Nat) (h0 : 0 < n) (hn : n < 2147483648) (fuel : Nat)
    (hf : 20 ≤ fuel) :
    command_complaint fuel (45 :: (decimal n ++ [10])) 0 = some none ∧
      command_value fuel (45 :: (decimal n ++ [10])) 0 = some ((4294967296 - n) % 4294967296) := by
  obtain ⟨f, rfl⟩ : ∃ f, fuel = f + 4 := ⟨fuel - 4, by omega⟩
  obtain ⟨d0, ds, hd, hall, hval, hlen⟩ := decimal_spec n (by omega)
  obtain ⟨hci, hdi⟩ := prompt_state_cursors (45 :: (decimal n ++ [10])) []
  have hop := next_operator (f + 3) (prompt_state (45 :: (decimal n ++ [10])) []) 45
    (decimal n ++ [10]) rfl (by simp [prompt_state]) (by omega) (by decide)
  obtain ⟨s1, hop, c1, t1, i1, f1, ci1, di1, p1⟩ : ∃ s1 : State,
      next (f + 4) (prompt_state (45 :: (decimal n ++ [10])) []) = some s1 ∧ s1.complaint = none ∧
      s1.token = 45 ∧ s1.input_char = unread ∧ s1.in_file = (d0 :: ds) ++ [10] ∧
      code_idx s1 = 21 ∧ dict_idx s1 = 4070 ∧ s1.out = bytes_of "> " :=
    ⟨_, hop, rfl, rfl, rfl, by rw [← hd], hci, hdi, rfl⟩
  have hnum := next_number (f + 2) s1 d0 ds 10 [] i1 f1 hall (by omega) (by omega) (by omega)
    (by rw [hval]; exact hn) (by omega)
  rw [hval] at hnum
  obtain ⟨s2, hnum, t2, v2, i2, ci2, di2, m2, c2, si2, o2⟩ : ∃ s2 : State,
      next (f + 2) s1 = some s2 ∧ s2.token = 1 ∧ s2.token_value = n ∧ s2.input_char = 10 ∧
      code_idx s2 = 21 ∧ dict_idx s2 = 4070 ∧ s2.the_store = s1.the_store ∧
      s2.complaint = s1.complaint ∧ s2.stdin_ = s1.stdin_ ∧ s2.out = s1.out :=
    ⟨_, hnum, rfl, rfl, rfl, ci1, di1, rfl, rfl, rfl, rfl⟩
  obtain ⟨len, -, hl5, E, P, hp⟩ := gen_literal_spec s2 21 n ci2 (by omega) (by omega) v2
    (by omega)
  obtain ⟨EN, PN⟩ := gen_negate_spec s2 { gen_literal s2 with token := 10, input_char := unread }
    21 n len ⟨E.code, E.dict, E.frame, E.complaint, E.stdin_, E.out⟩ (by omega) hp P hn
  have hsnd : (gen_negate { gen_literal s2 with token := 10, input_char := unread }).token = 10 :=
    (gen_negate_lexer _).2.1
  obtain ⟨s', hs, hc', -⟩ := scratch_of_push (f + 2) s1 _ 21 ((4294967296 - n) % 4294967296) len
    (parse_expr_negative_line f s1 s2 c1 t1 hnum t2 i2) ci1 (by omega) (by rw [di1]; decide) hl5
    (Nat.mod_lt _ (by omega)) (EN.base m2 c2 si2 o2) PN c1 hsnd
  have hrun := run_command_expr (f + 3) true s1 s' _ (by rw [t1]; decide) (by rw [t1]; decide)
    (by rw [t1]; decide) (by rw [t1]; decide) hs hc'
  have hs3 : scratch_expr (f + 4) s1 = some (_, s') := hs
  have hrun3 : run_command (f + 4) true s1 = _ := hrun
  constructor
  · simp [command_complaint, repl_after, repl_start_fresh, hop, hrun3, hc']
  · simp [command_value, repl_after, repl_start_fresh, hop, hs3]

theorem Lexed.same (s : State) : Lexed s s := ⟨rfl, rfl, rfl, rfl, rfl⟩

theorem Lexed.cursors {s s' : State} (h : Lexed s s') :
    code_idx s' = code_idx s ∧ dict_idx s' = dict_idx s := by
  simp only [code_idx, dict_idx, h.the_store, and_self]

theorem Emitted.lexed {s S S' : State} {c n : Nat} (E : Emitted s S c n) (h : Lexed S S') :
    Emitted s S' c n where
  code := by rw [h.cursors.1, E.code]
  dict := by rw [h.cursors.2, E.dict]
  frame := fun k q h8 hq => by rw [h.the_store, E.frame k q h8 hq]
  complaint := h.complaint.trans E.complaint
  stdin_ := h.stdin_.trans E.stdin_
  out := h.out.trans E.out

theorem Emitted.of_lexed {s s1 S : State} {c n : Nat} (h : Lexed s s1) (E : Emitted s1 S c n) :
    Emitted s S c n :=
  E.base h.the_store h.complaint h.stdin_ h.out

theorem poke_fetch_same (s : State) (p v : Nat) (hv : v < 4294967296) :
    fetch_wV (poke s p v).the_store p = v := by
  simp only [poke, fetch_wV_eq, write_wV_eq, fetch_bytes_write_bytes_same]
  exact Nat.mod_eq_of_lt hv

theorem poke_fetch_disjoint (s : State) (p v k q : Nat) (h : q + k ≤ p ∨ p + 4 ≤ q) :
    fetch_bytes k (poke s p v).the_store q = fetch_bytes k s.the_store q := by
  simp only [poke, write_wV_eq]
  rw [fetch_bytes_write_bytes_disjoint _ _ _ _ _ _ h]

theorem poke_cursors (s : State) (p v : Nat) (hp : 8 ≤ p) :
    code_idx (poke s p v) = code_idx s ∧ dict_idx (poke s p v) = dict_idx s :=
  cursors_write_wV s p v hp

theorem alu_lt (op a b : Nat) : alu op a b < 4294967296 := by
  unfold alu
  split_ifs <;> exact Nat.mod_lt _ (by omega)

theorem run_push (f end_ pc sp bp : Nat) (s : State) (v len : Nat)
    (h : PushAt s.the_store pc v len) (hs : end_ + 4 ≤ sp) :
    run_loop end_ (f + 1) pc sp bp s = run_loop end_ f (pc + len) (sp - 4) bp (poke s (sp - 4) v) := by
  rw [run_loop, step_push _ _ _ _ _ _ _ h, push_room _ _ _ _ _ _ hs]
  rfl

theorem run_alu (f end_ pc sp bp : Nat) (s : State) (op : Nat)
    (h : fetch_u8 s.the_store pc = op) (hop : op = ADD ∨ op = SUB ∨ op = MUL) :
    run_loop end_ (f + 1) pc sp bp s =
      run_loop end_ f (pc + 1) (sp + 4) bp
        (poke s (sp + 4) (alu op (fetch_wV s.the_store (sp + 4)) (fetch_wV s.the_store sp))) := by
  rw [run_loop]
  rcases hop with rfl | rfl | rfl
  · simp [step, step_with, h, alu, binop, poke, ADD, HALT, PUSH, PUSHW, PUSHB, POP, PUSH_STRING, GLOBAL_FETCH,
      GLOBAL_STORE, LOCAL_FETCH_0, LOCAL_FETCH_1, LOCAL_FETCH, TCALL, CALL, CCALL, RETURN, BRANCH,
      JUMP]
  · simp [step, step_with, h, alu, binop, poke, ADD, SUB, HALT, PUSH, PUSHW, PUSHB, POP, PUSH_STRING,
      GLOBAL_FETCH, GLOBAL_STORE, LOCAL_FETCH_0, LOCAL_FETCH_1, LOCAL_FETCH, TCALL, CALL, CCALL,
      RETURN, BRANCH, JUMP]
  · simp [step, step_with, h, alu, binop, poke, ADD, SUB, MUL, HALT, PUSH, PUSHW, PUSHB, POP, PUSH_STRING,
      GLOBAL_FETCH, GLOBAL_STORE, LOCAL_FETCH_0, LOCAL_FETCH_1, LOCAL_FETCH, TCALL, CALL, CCALL,
      RETURN, BRANCH, JUMP]

theorem run_halt (f end_ pc sp bp : Nat) (s : State) (h : fetch_u8 s.the_store pc = HALT) :
    run_loop end_ (f + 1) pc sp bp s = some (fetch_wV s.the_store sp, s) := by
  rw [run_loop, step_halt _ _ _ _ _ h]

theorem PushAt.under_poke {s : State} {pc v len : Nat} (h : PushAt s.the_store pc v len) (p w : Nat)
    (hd : pc + len ≤ p) : PushAt (poke s p w).the_store pc v len :=
  h.frame (fun k q _ h2 => poke_fetch_disjoint s p w k q (by omega))

theorem poke_fetch_wV_disjoint (s : State) (p v q : Nat) (h : q + 4 ≤ p ∨ p + 4 ≤ q) :
    fetch_wV (poke s p v).the_store q = fetch_wV s.the_store q :=
  poke_fetch_disjoint s p v 4 q h

theorem poke_fetch_u8_disjoint (s : State) (p v q : Nat) (h : q + 1 ≤ p ∨ p + 4 ≤ q) :
    fetch_u8 (poke s p v).the_store q = fetch_u8 s.the_store q :=
  poke_fetch_disjoint s p v 1 q h

theorem run_push_at (f end_ pc t bp : Nat) (s : State) (v len : Nat)
    (h : PushAt s.the_store pc v len) (hs : end_ ≤ t) :
    run_loop end_ (f + 1) pc (t + 4) bp s = run_loop end_ f (pc + len) t bp (poke s t v) := by
  rw [run_push f end_ pc (t + 4) bp s v len h (by omega)]
  rfl

/-- Running `push x; push y; push z; op2; op1; HALT`. -/
theorem run_shape_right (f end_ pc t bp : Nat) (s : State) (x y z l1 l2 l3 op1 op2 : Nat)
    (hx : x < 4294967296) (hy : y < 4294967296) (hz : z < 4294967296)
    (P1 : PushAt s.the_store pc x l1) (P2 : PushAt s.the_store (pc + l1) y l2)
    (P3 : PushAt s.the_store (pc + l1 + l2) z l3)
    (O2 : fetch_u8 s.the_store (pc + l1 + l2 + l3) = op2)
    (O1 : fetch_u8 s.the_store (pc + l1 + l2 + l3 + 1) = op1)
    (H : fetch_u8 s.the_store (pc + l1 + l2 + l3 + 1 + 1) = HALT)
    (hop1 : op1 = ADD ∨ op1 = SUB ∨ op1 = MUL) (hop2 : op2 = ADD ∨ op2 = SUB ∨ op2 = MUL)
    (he : pc + l1 + l2 + l3 + 3 ≤ end_) (hs : end_ ≤ t) (h8 : 8 ≤ end_) :
    ∃ s', run_loop end_ (f + 6) pc (t + 4 + 4 + 4) bp s = some (alu op1 x (alu op2 y z), s') ∧
      s'.complaint = s.complaint ∧ s'.out = s.out ∧ code_idx s' = code_idx s ∧
      dict_idx s' = dict_idx s ∧ s'.token = s.token ∧ s'.input_char = s.input_char ∧
      s'.in_file = s.in_file := by
  have h2 := alu_lt op2 y z
  have h1 := alu_lt op1 x (alu op2 y z)
  rw [run_push_at (f + 5) end_ pc (t + 4 + 4) bp s x l1 P1 (by omega),
    run_push_at (f + 4) end_ (pc + l1) (t + 4) bp _ y l2 (P2.under_poke _ _ (by omega)) (by omega),
    run_push_at (f + 3) end_ (pc + l1 + l2) t bp _ z l3 ((P3.under_poke _ _ (by omega)).under_poke _ _
      (by omega)) (by omega),
    run_alu (f + 2) end_ (pc + l1 + l2 + l3) t bp _ op2 (by
      simp (disch := omega) only [poke_fetch_u8_disjoint]; exact O2) hop2,
    run_alu (f + 1) end_ (pc + l1 + l2 + l3 + 1) (t + 4) bp _ op1 (by
      simp (disch := omega) only [poke_fetch_u8_disjoint]; exact O1) hop1,
    run_halt f end_ (pc + l1 + l2 + l3 + 1 + 1) (t + 4 + 4) bp _ (by
      simp (disch := omega) only [poke_fetch_u8_disjoint]; exact H)]
  simp (disch := first | omega | assumption) only [poke_fetch_wV_disjoint, poke_fetch_same]
  exact ⟨_, rfl, rfl, rfl, by simp (disch := omega) only [poke_cursors],
    by simp (disch := omega) only [poke_cursors], rfl, rfl, rfl⟩

/-- Running `push x; push y; op1; push z; op2; HALT`. -/
theorem run_shape_left (f end_ pc t bp : Nat) (s : State) (x y z l1 l2 l3 op1 op2 : Nat)
    (hx : x < 4294967296) (hy : y < 4294967296) (hz : z < 4294967296)
    (P1 : PushAt s.the_store pc x l1) (P2 : PushAt s.the_store (pc + l1) y l2)
    (O1 : fetch_u8 s.the_store (pc + l1 + l2) = op1)
    (P3 : PushAt s.the_store (pc + l1 + l2 + 1) z l3)
    (O2 : fetch_u8 s.the_store (pc + l1 + l2 + 1 + l3) = op2)
    (H : fetch_u8 s.the_store (pc + l1 + l2 + 1 + l3 + 1) = HALT)
    (hop1 : op1 = ADD ∨ op1 = SUB ∨ op1 = MUL) (hop2 : op2 = ADD ∨ op2 = SUB ∨ op2 = MUL)
    (he : pc + l1 + l2 + l3 + 3 ≤ end_) (hs : end_ ≤ t) (h8 : 8 ≤ end_) :
    ∃ s', run_loop end_ (f + 6) pc (t + 4 + 4) bp s = some (alu op2 (alu op1 x y) z, s') ∧
      s'.complaint = s.complaint ∧ s'.out = s.out ∧ code_idx s' = code_idx s ∧
      dict_idx s' = dict_idx s ∧ s'.token = s.token ∧ s'.input_char = s.input_char ∧
      s'.in_file = s.in_file := by
  have h1 := alu_lt op1 x y
  have h2 := alu_lt op2 (alu op1 x y) z
  rw [run_push_at (f + 5) end_ pc (t + 4) bp s x l1 P1 (by omega),
    run_push_at (f + 4) end_ (pc + l1) t bp _ y l2 (P2.under_poke _ _ (by omega)) (by omega),
    run_alu (f + 3) end_ (pc + l1 + l2) t bp _ op1 (by
      simp (disch := omega) only [poke_fetch_u8_disjoint]; exact O1) hop1,
    run_push_at (f + 2) end_ (pc + l1 + l2 + 1) t bp _ z l3 (((P3.under_poke _ _ (by omega)).under_poke _ _
      (by omega)).under_poke _ _ (by omega)) (by omega),
    run_alu (f + 1) end_ (pc + l1 + l2 + 1 + l3) t bp _ op2 (by
      simp (disch := omega) only [poke_fetch_u8_disjoint]; exact O2) hop2,
    run_halt f end_ (pc + l1 + l2 + 1 + l3 + 1) (t + 4) bp _ (by
      simp (disch := omega) only [poke_fetch_u8_disjoint]; exact H)]
  simp (disch := first | omega | assumption) only [poke_fetch_wV_disjoint, poke_fetch_same]
  exact ⟨_, rfl, rfl, rfl, by simp (disch := omega) only [poke_cursors],
    by simp (disch := omega) only [poke_cursors], rfl, rfl, rfl⟩

theorem lexed_newline (f : Nat) (s : State) (hi : s.input_char = 10) :
    ∃ s', next (f + 1) s = some s' ∧ Lexed s s' ∧ s'.token = 10 ∧ s'.input_char = unread ∧
      s'.in_file = s.in_file :=
  ⟨_, next_newline f s hi, ⟨rfl, rfl, rfl, rfl, rfl⟩, rfl, rfl, rfl⟩

theorem lexed_operator (f : Nat) (s : State) (o : Nat) (rest : List Nat) (hi : s.input_char = 32)
    (hf : s.in_file = o :: rest) (ho : o < 256) (h : is_operator_char (o : Int) = true) :
    ∃ s', next (f + 2) s = some s' ∧ Lexed s s' ∧ s'.token = (o : Int) ∧
      s'.input_char = unread ∧ s'.in_file = rest := by
  rw [next_blank_read (f + 1) s hi,
    next_operator f { s with input_char := unread } o rest rfl hf ho h]
  exact ⟨_, rfl, ⟨rfl, rfl, rfl, rfl, rfl⟩, rfl, rfl, rfl⟩

theorem lexed_number (fuel : Nat) (s : State) (d0 : Nat) (ds : List Nat) (r : Nat)
    (rest : List Nat) (hi : s.input_char = unread)
    (hf : s.in_file = 32 :: ((d0 :: ds) ++ r :: rest))
    (hds : all_digits (d0 :: ds)) (hr : r < 256) (hrd : ¬ (48 ≤ r ∧ r ≤ 57)) (hrx : r ≠ 120)
    (hv : digits_value 0 (d0 :: ds) < 2147483648) (hfuel : ds.length + 3 ≤ fuel) :
    ∃ s', next fuel s = some s' ∧ Lexed s s' ∧ s'.token = 1 ∧
      s'.token_value = digits_value 0 (d0 :: ds) ∧ s'.input_char = (r : Int) ∧
      s'.in_file = rest := by
  obtain ⟨f, rfl⟩ : ∃ f, fuel = f + 1 := ⟨fuel - 1, by omega⟩
  rw [next_blank f s _ hi hf,
    next_number f { s with in_file := (d0 :: ds) ++ r :: rest } d0 ds r rest hi rfl hds hr hrd hrx
      hv (by omega)]
  exact ⟨_, rfl, ⟨rfl, rfl, rfl, rfl, rfl⟩, rfl, rfl, rfl, rfl⟩

theorem parse_expr_unfold (f : Nat) (p : Int) (s : State) (hc : s.complaint = none) :
    parse_expr (f + 1) p s = (parse_factor f s).bind (fun s' => parse_expr_loop f p s') := by
  rw [parse_expr]
  simp only [hc, Option.isSome_none, Bool.false_eq_true, if_false]
  cases parse_factor f s <;> rfl

/-- The operator loop stops at a token that is no operator, or binds less
tightly than `p`. -/
theorem loop_stop (f : Nat) (p : Int) (s : State) (hp : p ≠ 0)
    (h : binary_operator s.token = none ∨
      ∃ l r, binary_operator s.token = some (l, r) ∧ l < p) :
    parse_expr_loop (f + 1) p s = some s := by
  rw [parse_expr_loop]
  split_ifs with hc
  · rfl
  · simp only [hp, if_false]
    rcases h with h | ⟨l, r, h, hl⟩
    · rw [h]
    · rw [h]
      simp [hl]

/-- One turn of the operator loop for an arithmetic operator. -/
theorem loop_binop (f : Nat) (p : Int) (s s1 : State) (l : Int) (r : Nat)
    (hc : s.complaint = none) (hp : p ≠ 0) (hb : binary_operator s.token = some (l, r))
    (hl : ¬ l < p) (hr : r = ADD ∨ r = SUB ∨ r = MUL) (hn : next (f + 1) s = some s1)
    (ht1 : s1.token ≠ 10) :
    parse_expr_loop (f + 2) p s =
      (parse_expr (f + 1) (l + 1) s1).bind (fun s3 => parse_expr_loop (f + 1) p (gen s3 r)) := by
  have hsk : skip_newline (f + 1) s1 = some s1 := by simp [skip_newline, ht1]
  have r1 : ¬ r = POP := by rcases hr with rfl | rfl | rfl <;> decide
  have r2 : ¬ r = GLOBAL_STORE := by rcases hr with rfl | rfl | rfl <;> decide
  rw [parse_expr_loop]
  simp only [hc, Option.isSome_none, Bool.false_eq_true, if_false, hp, hb, hl, or_self, hn, hsk,
    r1, r2]
  cases parse_expr (f + 1) (l + 1) s1 <;> rfl

theorem gen_lexed_token (s : State) (op : Nat) :
    (gen s op).token = s.token ∧ (gen s op).input_char = s.input_char ∧
      (gen s op).in_file = s.in_file :=
  ⟨(gen_lexer s op).2.1, (gen_lexer s op).1, (gen_lexer s op).2.2.2.2⟩

/-- An opcode emitted after `n` bytes of code. -/
theorem Emitted.gen {s S : State} {c n : Nat} (E : Emitted s S c n) (op : Nat) (h8 : 8 ≤ c)
    (hroom : c + n + 1 ≤ dict_idx s) (hop : op < 256) :
    Emitted s (Wren.gen S op) c (n + 1) ∧ fetch_u8 (Wren.gen S op).the_store (c + n) = op := by
  rw [gen_eq S op (by rw [E.code, E.dict]; omega)]
  obtain ⟨E2, C2, -⟩ := emit_spec 1 S op (c + n) (code_idx S % 65536) E.code (by omega)
    (by rw [E.dict]; omega)
  refine ⟨E.trans E2, ?_⟩
  rw [fetch_u8_eq, C2]
  exact Nat.mod_eq_of_lt hop

/-- What is left of `scratch_expr` once the expression is compiled: `HALT` is
appended, `code_idx` goes back to where it was, and the code is run. -/
theorem scratch_of_parse (fuel : Nat) (s S : State) (c n v : Nat)
    (hp : parse_expr fuel (-1) s = some S) (hci : code_idx s = c) (h8 : 8 ≤ c)
    (hroom : c + n + 1 ≤ dict_idx s) (E : Emitted s S c n) (hc : s.complaint = none)
    (ht : S.token = 10)
    (hrun : ∀ s3 : State,
      (∀ k q, c ≤ q → q + k ≤ c + n → fetch_bytes k s3.the_store q = fetch_bytes k S.the_store q) →
      fetch_u8 s3.the_store (c + n) = HALT → code_idx s3 = c → dict_idx s3 = dict_idx s →
      ∃ s', run fuel c (c + n + 1) s3 = some (v, s') ∧ s'.complaint = s3.complaint ∧
        s'.out = s3.out ∧ code_idx s' = c ∧ dict_idx s' = dict_idx s ∧ s'.token = s3.token ∧
        s'.input_char = s3.input_char ∧ s'.in_file = s3.in_file) :
    ∃ s', scratch_expr fuel s = some (v, s') ∧ s'.complaint = none ∧ s'.out = s.out ∧
      code_idx s' = c ∧ dict_idx s' = dict_idx s ∧ s'.token = 10 ∧
      s'.input_char = S.input_char ∧ s'.in_file = S.in_file := by
  have hcl := code_idx_lt s
  have hdl := dict_idx_lt s
  unfold scratch_expr
  rw [hp]
  simp only []
  have hpd : parse_done S = S := by simp [parse_done, ht]
  rw [hpd]
  obtain ⟨E2, C2⟩ := E.gen HALT h8 hroom (by decide)
  generalize hs2 : gen S HALT = s2 at E2 C2
  have t2 : s2.token = 10 := by subst hs2; exact (gen_lexed_token S HALT).1.trans ht
  have i2 : s2.input_char = S.input_char := by subst hs2; exact (gen_lexed_token S HALT).2.1
  have f2 : s2.in_file = S.in_file := by subst hs2; exact (gen_lexed_token S HALT).2.2
  have F2 : ∀ k q, c ≤ q → q + k ≤ c + n →
      fetch_bytes k s2.the_store q = fetch_bytes k S.the_store q := by
    intro k q h1 h2
    subst hs2
    rw [gen_eq S HALT (by rw [E.code, E.dict]; omega)]
    obtain ⟨E3, -, -⟩ := emit_spec 1 S HALT (c + n) (code_idx S % 65536) E.code (by omega)
      (by rw [E.dict]; omega)
    exact E3.frame k q (by omega) (by omega)
  obtain ⟨S1, S2, S3⟩ := set_code_idx_spec s2 (code_idx s) hcl
  generalize hs3 : set_code_idx s2 (code_idx s) = s3 at S1 S2 S3
  have c3 : s3.complaint = none := by subst hs3; exact (E2.complaint.trans hc)
  have o3 : s3.out = s.out := by subst hs3; exact E2.out
  have t3 : s3.token = 10 := by subst hs3; exact t2
  have i3 : s3.input_char = S.input_char := by subst hs3; exact i2
  have f3 : s3.in_file = S.in_file := by subst hs3; exact f2
  have d3 : dict_idx s3 = dict_idx s := by rw [S2, E2.dict]
  have H3 : fetch_u8 s3.the_store (c + n) = HALT := by
    rw [fetch_u8_eq, S3 1 _ (by omega), ← fetch_u8_eq, C2]
  obtain ⟨s', r1, r2, r3, r4, r5, r6, r7, r8⟩ := hrun s3
    (fun k q h1 h2 => by rw [S3 k q (by omega), F2 k q h1 h2]) H3 (by rw [S1, hci]) d3
  rw [E2.code]
  simp only [c3, Option.isSome_none, Bool.false_eq_true, if_false]
  rw [hci]
  exact ⟨s', r1, r2.trans c3, r3.trans o3, r4, r5, r6.trans t3, r7.trans i3, r8.trans f3⟩

theorem decimal_numeral (n : Nat) (h : n < 2147483648) :
    ∃ d0 ds, decimal n = d0 :: ds ∧ Numeral d0 ds n := by
  obtain ⟨d0, ds, h1, h2, h3, h4⟩ := decimal_spec n (by omega)
  exact ⟨d0, ds, h1, ⟨h2, h3, h, h4⟩⟩

theorem Emitted.cast {s S : State} {c n c' n' : Nat} (E : Emitted s S c n) (hc : c = c')
    (hn : n = n') : Emitted s S c' n' := by
  subst hc; subst hn; exact E

theorem PushAt.emitted {s S : State} {pc v len c n : Nat} (P : PushAt s.the_store pc v len)
    (E : Emitted s S c n) (h8 : 8 ≤ pc) (h : pc + len ≤ c) : PushAt S.the_store pc v len :=
  P.frame (fun k q h1 h2 => E.frame k q (by omega) (by omega))

theorem fetch_u8_emitted {s S : State} {p c n : Nat} (E : Emitted s S c n) (h8 : 8 ≤ p)
    (h : p + 1 ≤ c) : fetch_u8 S.the_store p = fetch_u8 s.the_store p :=
  E.frame 1 p h8 (by omega)

/-- A literal operand after a blank: the lexer reads the number, and
`gen_literal` compiles the push. -/
theorem operand_step (fuel : Nat) (sX : State) (cX v d0 : Nat) (ds : List Nat) (r : Nat)
    (rest : List Nat) (hi : sX.input_char = unread)
    (hf : sX.in_file = 32 :: ((d0 :: ds) ++ r :: rest)) (N : Numeral d0 ds v)
    (hr : r < 256) (hrd : ¬ (48 ≤ r ∧ r ≤ 57)) (hrx : r ≠ 120)
    (hci : code_idx sX = cX) (h8 : 8 ≤ cX) (hroom : cX + 5 ≤ dict_idx sX) (hfuel : 12 ≤ fuel) :
    ∃ sD len, next fuel sX = some sD ∧ sD.token = 1 ∧ sD.complaint = sX.complaint ∧
      2 ≤ len ∧ len ≤ 5 ∧ Emitted sX (gen_literal sD) cX len ∧
      PushAt (gen_literal sD).the_store cX v len ∧ (gen_literal sD).input_char = (r : Int) ∧
      (gen_literal sD).in_file = rest := by
  obtain ⟨sD, nD, LD, tD, vD, iD, fD⟩ := lexed_number fuel sX d0 ds r rest hi hf N.digits hr hrd
    hrx (by rw [N.value]; exact N.small) (by have := N.short; omega)
  rw [N.value] at vD
  obtain ⟨len, h2, h5, E, P, -⟩ := gen_literal_spec sD cX v (by rw [LD.cursors.1, hci]) h8
    (by rw [LD.cursors.2]; exact hroom) vD (by have := N.small; omega)
  obtain ⟨l1, -, -, -, l5⟩ := gen_literal_lexer sD
  exact ⟨sD, len, nD, tD, LD.complaint, h2, h5, Emitted.of_lexed LD E, P, l1.trans iD,
    l5.trans fD⟩

theorem alu_op_lt (r : Nat) (h : r = ADD ∨ r = SUB ∨ r = MUL) : r < 256 := by
  rcases h with rfl | rfl | rfl <;> decide

/-- Compiling `a o1 b o2 c` when `o2` binds tighter than `o1`: the code is
`push a; push b; push c; op2; op1`. -/
theorem parse_shape_right (f : Nat) (s0 : State) (c va vb vc o1 o2 : Nat) (l1 l2 : Int)
    (r1 r2 : Nat) (dB dC : Nat) (dsB dsC : List Nat)
    (hc0 : s0.complaint = none) (ht0 : s0.token = 1) (hv0 : s0.token_value = va)
    (hva : va < 4294967296) (hi0 : s0.input_char = 32)
    (hf0 : s0.in_file = o1 :: 32 :: ((dB :: dsB) ++ 32 :: o2 :: 32 :: ((dC :: dsC) ++ 10 :: [])))
    (NB : Numeral dB dsB vb) (NC : Numeral dC dsC vc)
    (hci : code_idx s0 = c) (h8 : 8 ≤ c) (hroom : c + 18 ≤ dict_idx s0)
    (ho1 : o1 < 256) (hop1 : is_operator_char (o1 : Int) = true)
    (hb1 : binary_operator (o1 : Int) = some (l1, r1)) (hr1 : r1 = ADD ∨ r1 = SUB ∨ r1 = MUL)
    (hl1 : 0 ≤ l1)
    (ho2 : o2 < 256) (hop2 : is_operator_char (o2 : Int) = true)
    (hb2 : binary_operator (o2 : Int) = some (l2, r2)) (hr2 : r2 = ADD ∨ r2 = SUB ∨ r2 = MUL)
    (hshape : ¬ l2 < l1 + 1) (hfuel : 12 ≤ f) :
    ∃ S la lb lc, parse_expr (f + 8) (-1) s0 = some S ∧ Emitted s0 S c (la + lb + lc + 2) ∧
      la ≤ 5 ∧ lb ≤ 5 ∧ lc ≤ 5 ∧
      PushAt S.the_store c va la ∧ PushAt S.the_store (c + la) vb lb ∧
      PushAt S.the_store (c + la + lb) vc lc ∧
      fetch_u8 S.the_store (c + la + lb + lc) = r2 ∧
      fetch_u8 S.the_store (c + la + lb + lc + 1) = r1 ∧ S.token = 10 ∧
      S.input_char = unread ∧ S.in_file = [] := by
  -- operand a, operator o1
  obtain ⟨la, -, ha5, Ea, Pa, -⟩ := gen_literal_spec s0 c va hci h8 (by omega) hv0 hva
  obtain ⟨g1, -, -, -, g5⟩ := gen_literal_lexer s0
  obtain ⟨sA, nA, LA, tA, iA, fA⟩ := lexed_operator (f + 4) (gen_literal s0) o1 _ (g1.trans hi0)
    (g5.trans hf0) ho1 hop1
  have EA : Emitted s0 sA c la := Ea.lexed LA
  have cA : sA.complaint = none := EA.complaint.trans hc0
  -- operand b, operator o2
  obtain ⟨sB, lb, nB, tB, cB, -, hb5, EbA, Pb, iGB, fGB⟩ := operand_step (f + 6) sA (c + la) vb
    dB dsB 32 _ iA fA NB (by omega) (by omega) (by omega) EA.code (by omega)
    (by rw [EA.dict]; omega) (by omega)
  obtain ⟨sC, nC, LC, tC, iC, fC⟩ := lexed_operator (f + 2) (gen_literal sB) o2 _
    (by simpa using iGB) fGB ho2 hop2
  have EC : Emitted sA sC (c + la) lb := EbA.lexed LC
  have cC : sC.complaint = none := EC.complaint.trans cA
  -- operand c, end of line
  obtain ⟨sD, lc, nD, tD, cD, -, hc5, EcC, Pc, iGD, fGD⟩ := operand_step (f + 4) sC
    (c + la + lb) vc dC dsC 10 [] iC fC NC (by omega) (by omega) (by omega) EC.code (by omega)
    (by rw [EC.dict, EA.dict]; omega) (by omega)
  obtain ⟨sE, nE, LE, tE, iE, fE⟩ := lexed_newline (f + 1) (gen_literal sD) (by simpa using iGD)
  have EE : Emitted sC sE (c + la + lb) lc := EcC.lexed LE
  have dE : dict_idx sE = dict_idx s0 := by rw [EE.dict, EC.dict, EA.dict]
  -- the two opcodes
  obtain ⟨X1, O2⟩ := (Emitted.refl sE (c + la + lb + lc) EE.code).gen r2 (by omega)
    (by rw [dE]; omega) (alu_op_lt r2 hr2)
  obtain ⟨X2, O1⟩ := (Emitted.refl (gen sE r2) (c + la + lb + lc + 1) X1.code).gen r1 (by omega)
    (by rw [X1.dict, dE]; omega) (alu_op_lt r1 hr1)
  have XE : Emitted sE (gen (gen sE r2) r1) (c + la + lb + lc) 2 :=
    (X1.trans (X2.cast (by omega) rfl)).cast rfl (by omega)
  have XC : Emitted sC (gen (gen sE r2) r1) (c + la + lb) (lc + 2) := EE.trans XE
  have XA : Emitted sA (gen (gen sE r2) r1) (c + la) (lb + (lc + 2)) := EC.trans XC
  have X0 : Emitted s0 (gen (gen sE r2) r1) c (la + (lb + (lc + 2))) := EA.trans XA
  have tS : (gen (gen sE r2) r1).token = 10 :=
    (gen_lexed_token _ r1).1.trans ((gen_lexed_token _ r2).1.trans tE)
  have iS : (gen (gen sE r2) r1).input_char = unread :=
    (gen_lexed_token _ r1).2.1.trans ((gen_lexed_token _ r2).2.1.trans iE)
  have fS : (gen (gen sE r2) r1).in_file = [] :=
    (gen_lexed_token _ r1).2.2.trans ((gen_lexed_token _ r2).2.2.trans (fE.trans fGD))
  -- the parse
  have e1 : parse_expr (f + 8) (-1) s0 = _ := parse_expr_unfold (f + 7) (-1) s0 hc0
  have e2 : parse_factor (f + 7) s0 = _ := parse_factor_literal (f + 5) s0 ht0
  have e3 : parse_expr_loop (f + 7) (-1) sA = _ := loop_binop (f + 5) (-1) sA sB l1 r1 cA
    (by decide) (by rw [tA]; exact hb1) (by omega) hr1 nB (by rw [tB]; decide)
  have e4 : parse_expr (f + 6) (l1 + 1) sB = _ := parse_expr_unfold (f + 5) (l1 + 1) sB
    (cB.trans cA)
  have e5 : parse_factor (f + 5) sB = _ := parse_factor_literal (f + 3) sB tB
  have e6 : parse_expr_loop (f + 5) (l1 + 1) sC = _ := loop_binop (f + 3) (l1 + 1) sC sD l2 r2 cC
    (by omega) (by rw [tC]; exact hb2) hshape hr2 nD (by rw [tD]; decide)
  have e7 : parse_expr (f + 4) (l2 + 1) sD = _ := parse_expr_unfold (f + 3) (l2 + 1) sD
    (cD.trans cC)
  have e8 : parse_factor (f + 3) sD = _ := parse_factor_literal (f + 1) sD tD
  have e9 : parse_expr_loop (f + 3) (l2 + 1) sE = some sE := loop_stop (f + 2) (l2 + 1) sE
    (by omega) (Or.inl (by rw [tE]; rfl))
  have e10 : parse_expr_loop (f + 4) (l1 + 1) (gen sE r2) = some (gen sE r2) :=
    loop_stop (f + 3) (l1 + 1) _ (by omega) (Or.inl (by rw [(gen_lexed_token _ r2).1, tE]; rfl))
  have e11 : parse_expr_loop (f + 6) (-1) (gen (gen sE r2) r1) = some (gen (gen sE r2) r1) :=
    loop_stop (f + 5) (-1) _ (by decide) (Or.inl (by rw [tS]; rfl))
  have hparse : parse_expr (f + 8) (-1) s0 = some (gen (gen sE r2) r1) := by
    rw [e1, e2, nA, Option.some_bind, e3, e4, e5, nC, Option.some_bind, e6, e7, e8, nE,
      Option.some_bind, e9, Option.some_bind, e10, Option.some_bind, e11]
  refine ⟨_, la, lb, lc, hparse, X0.cast rfl (by omega), ha5, hb5, hc5, ?_, ?_, ?_, ?_, ?_, tS,
    iS, fS⟩
  · have : PushAt sA.the_store c va la := by rw [LA.the_store]; exact Pa
    exact this.emitted XA h8 (by omega)
  · have : PushAt sC.the_store (c + la) vb lb := by rw [LC.the_store]; exact Pb
    exact this.emitted XC (by omega) (by omega)
  · have : PushAt sE.the_store (c + la + lb) vc lc := by rw [LE.the_store]; exact Pc
    exact this.emitted XE (by omega) (by omega)
  · rw [fetch_u8_emitted X2 (by omega) (by omega)]
    exact O2
  · exact O1

/-- Compiling `a o1 b o2 c` when `o2` does not bind tighter than `o1`: the
code is `push a; push b; op1; push c; op2`. -/
theorem parse_shape_left (f : Nat) (s0 : State) (c va vb vc o1 o2 : Nat) (l1 l2 : Int)
    (r1 r2 : Nat) (dB dC : Nat) (dsB dsC : List Nat)
    (hc0 : s0.complaint = none) (ht0 : s0.token = 1) (hv0 : s0.token_value = va)
    (hva : va < 4294967296) (hi0 : s0.input_char = 32)
    (hf0 : s0.in_file = o1 :: 32 :: ((dB :: dsB) ++ 32 :: o2 :: 32 :: ((dC :: dsC) ++ 10 :: [])))
    (NB : Numeral dB dsB vb) (NC : Numeral dC dsC vc)
    (hci : code_idx s0 = c) (h8 : 8 ≤ c) (hroom : c + 18 ≤ dict_idx s0)
    (ho1 : o1 < 256) (hop1 : is_operator_char (o1 : Int) = true)
    (hb1 : binary_operator (o1 : Int) = some (l1, r1)) (hr1 : r1 = ADD ∨ r1 = SUB ∨ r1 = MUL)
    (hl1 : 0 ≤ l1)
    (ho2 : o2 < 256) (hop2 : is_operator_char (o2 : Int) = true)
    (hb2 : binary_operator (o2 : Int) = some (l2, r2)) (hr2 : r2 = ADD ∨ r2 = SUB ∨ r2 = MUL)
    (hl2 : 0 ≤ l2)
    (hshape : l2 < l1 + 1) (hfuel : 12 ≤ f) :
    ∃ S la lb lc, parse_expr (f + 8) (-1) s0 = some S ∧ Emitted s0 S c (la + lb + lc + 2) ∧
      la ≤ 5 ∧ lb ≤ 5 ∧ lc ≤ 5 ∧
      PushAt S.the_store c va la ∧ PushAt S.the_store (c + la) vb lb ∧
      fetch_u8 S.the_store (c + la + lb) = r1 ∧
      PushAt S.the_store (c + la + lb + 1) vc lc ∧
      fetch_u8 S.the_store (c + la + lb + 1 + lc) = r2 ∧ S.token = 10 ∧
      S.input_char = unread ∧ S.in_file = [] := by
  -- operand a, operator o1
  obtain ⟨la, -, ha5, Ea, Pa, -⟩ := gen_literal_spec s0 c va hci h8 (by omega) hv0 hva
  obtain ⟨g1, -, -, -, g5⟩ := gen_literal_lexer s0
  obtain ⟨sA, nA, LA, tA, iA, fA⟩ := lexed_operator (f + 4) (gen_literal s0) o1 _ (g1.trans hi0)
    (g5.trans hf0) ho1 hop1
  have EA : Emitted s0 sA c la := Ea.lexed LA
  have cA : sA.complaint = none := EA.complaint.trans hc0
  -- operand b, operator o2
  obtain ⟨sB, lb, nB, tB, cB, -, hb5, EbA, Pb, iGB, fGB⟩ := operand_step (f + 6) sA (c + la) vb
    dB dsB 32 _ iA fA NB (by omega) (by omega) (by omega) EA.code (by omega)
    (by rw [EA.dict]; omega) (by omega)
  obtain ⟨sC, nC, LC, tC, iC, fC⟩ := lexed_operator (f + 2) (gen_literal sB) o2 _
    (by simpa using iGB) fGB ho2 hop2
  have EC : Emitted sA sC (c + la) lb := EbA.lexed LC
  have cC : sC.complaint = none := EC.complaint.trans cA
  have dC' : dict_idx sC = dict_idx s0 := by rw [EC.dict, EA.dict]
  -- the opcode of o1
  obtain ⟨X1, O1⟩ := (Emitted.refl sC (c + la + lb) EC.code).gen r1 (by omega)
    (by rw [dC']; omega) (alu_op_lt r1 hr1)
  obtain ⟨t1, i1, f1⟩ := gen_lexed_token sC r1
  have c1 : (gen sC r1).complaint = none := X1.complaint.trans cC
  -- operand c, end of line
  obtain ⟨sD, lc, nD, tD, cD, -, hc5, EcS, Pc, iGD, fGD⟩ := operand_step (f + 5) (gen sC r1)
    (c + la + lb + 1) vc dC dsC 10 [] (i1.trans iC) (f1.trans fC) NC (by omega) (by omega)
    (by omega) X1.code (by omega) (by rw [X1.dict, dC']; omega) (by omega)
  obtain ⟨sE, nE, LE, tE, iE, fE⟩ := lexed_newline (f + 2) (gen_literal sD) (by simpa using iGD)
  have EE : Emitted (gen sC r1) sE (c + la + lb + 1) lc := EcS.lexed LE
  have dE : dict_idx sE = dict_idx s0 := by rw [EE.dict, X1.dict, dC']
  -- the opcode of o2
  obtain ⟨X2, O2⟩ := (Emitted.refl sE (c + la + lb + 1 + lc) EE.code).gen r2 (by omega)
    (by rw [dE]; omega) (alu_op_lt r2 hr2)
  have XS : Emitted (gen sC r1) (gen sE r2) (c + la + lb + 1) (lc + 1) :=
    EE.trans (X2.cast rfl (by omega))
  have XC : Emitted sC (gen sE r2) (c + la + lb) (1 + (lc + 1)) :=
    (X1.cast rfl (by omega)).trans XS
  have XA : Emitted sA (gen sE r2) (c + la) (lb + (1 + (lc + 1))) := EC.trans XC
  have X0 : Emitted s0 (gen sE r2) c (la + (lb + (1 + (lc + 1)))) := EA.trans XA
  have tS : (gen sE r2).token = 10 := (gen_lexed_token _ r2).1.trans tE
  have iS : (gen sE r2).input_char = unread := (gen_lexed_token _ r2).2.1.trans iE
  have fS : (gen sE r2).in_file = [] := (gen_lexed_token _ r2).2.2.trans (fE.trans fGD)
  -- the parse
  have e1 : parse_expr (f + 8) (-1) s0 = _ := parse_expr_unfold (f + 7) (-1) s0 hc0
  have e2 : parse_factor (f + 7) s0 = _ := parse_factor_literal (f + 5) s0 ht0
  have e3 : parse_expr_loop (f + 7) (-1) sA = _ := loop_binop (f + 5) (-1) sA sB l1 r1 cA
    (by decide) (by rw [tA]; exact hb1) (by omega) hr1 nB (by rw [tB]; decide)
  have e4 : parse_expr (f + 6) (l1 + 1) sB = _ := parse_expr_unfold (f + 5) (l1 + 1) sB
    (cB.trans cA)
  have e5 : parse_factor (f + 5) sB = _ := parse_factor_literal (f + 3) sB tB
  have e6 : parse_expr_loop (f + 5) (l1 + 1) sC = some sC := loop_stop (f + 4) (l1 + 1) sC
    (by omega) (Or.inr ⟨l2, r2, by rw [tC]; exact hb2, hshape⟩)
  have e7 : parse_expr_loop (f + 6) (-1) (gen sC r1) = _ := loop_binop (f + 4) (-1) (gen sC r1)
    sD l2 r2 c1 (by decide) (by rw [t1, tC]; exact hb2) (by omega) hr2 nD (by rw [tD]; decide)
  have e8 : parse_expr (f + 5) (l2 + 1) sD = _ := parse_expr_unfold (f + 4) (l2 + 1) sD
    (cD.trans c1)
  have e9 : parse_factor (f + 4) sD = _ := parse_factor_literal (f + 2) sD tD
  have e10 : parse_expr_loop (f + 4) (l2 + 1) sE = some sE := loop_stop (f + 3) (l2 + 1) sE
    (by omega) (Or.inl (by rw [tE]; rfl))
  have e11 : parse_expr_loop (f + 5) (-1) (gen sE r2) = some (gen sE r2) :=
    loop_stop (f + 4) (-1) _ (by decide) (Or.inl (by rw [tS]; rfl))
  have hparse : parse_expr (f + 8) (-1) s0 = some (gen sE r2) := by
    rw [e1, e2, nA, Option.some_bind, e3, e4, e5, nC, Option.some_bind, e6, Option.some_bind, e7,
      e8, e9, nE, Option.some_bind, e10, Option.some_bind, e11]
  refine ⟨_, la, lb, lc, hparse, X0.cast rfl (by omega), ha5, hb5, hc5, ?_, ?_, ?_, ?_, ?_, tS,
    iS, fS⟩
  · have : PushAt sA.the_store c va la := by rw [LA.the_store]; exact Pa
    exact this.emitted XA h8 (by omega)
  · have : PushAt sC.the_store (c + la) vb lb := by rw [LC.the_store]; exact Pb
    exact this.emitted XC (by omega) (by omega)
  · rw [fetch_u8_emitted XS (by omega) (by omega)]
    exact O1
  · have : PushAt sE.the_store (c + la + lb + 1) vc lc := by rw [LE.the_store]; exact Pc
    exact this.emitted X2 (by omega) (by omega)
  · exact O2

/-- The first command of a session, when it is an expression starting with a
number that compiles and runs without complaint. -/
theorem session_of_scratch (f : Nat) (script : List Nat) (s1 s' : State) (v : Nat)
    (hn : next (f + 1) (prompt_state script []) = some s1) (ht : s1.token = 1)
    (hs : scratch_expr (f + 1) s1 = some (v, s')) (hc : s'.complaint = none)
    (ho : s'.out = s1.out) :
    command_complaint (f + 1) script 0 = some none ∧ command_value (f + 1) script 0 = some v ∧
      command_output (f + 1) script 0 = some (decimal v ++ [10]) := by
  have hrun := run_command_expr f true s1 s' v (by rw [ht]; decide) (by rw [ht]; decide)
    (by rw [ht]; decide) (by rw [ht]; decide) hs hc
  refine ⟨?_, ?_, ?_⟩
  · simp [command_complaint, repl_after, repl_start_fresh, hn, hrun, hc]
  · simp [command_value, repl_after, repl_start_fresh, hn, hs]
  · simp [command_output, repl_after, repl_start_fresh, hn, hrun, ho]

/-- The session `a o1 b o2 c` when `o2` binds tighter than `o1`: the value is
`a o1 (b o2 c)`. -/
theorem expr3_right (a b c o1 o2 : Nat) (l1 l2 : Int) (r1 r2 : Nat) (fuel : Nat)
    (ha : a < 2147483648) (hb : b < 2147483648) (hc : c < 2147483648)
    (ho1 : o1 < 256) (hop1 : is_operator_char (o1 : Int) = true)
    (hb1 : binary_operator (o1 : Int) = some (l1, r1)) (hr1 : r1 = ADD ∨ r1 = SUB ∨ r1 = MUL)
    (hl1 : 0 ≤ l1)
    (ho2 : o2 < 256) (hop2 : is_operator_char (o2 : Int) = true)
    (hb2 : binary_operator (o2 : Int) = some (l2, r2)) (hr2 : r2 = ADD ∨ r2 = SUB ∨ r2 = MUL)
    (hshape : ¬ l2 < l1 + 1) (hfuel : 40 ≤ fuel) :
    command_complaint fuel (expr3_text a o1 b o2 c) 0 = some none ∧
      command_value fuel (expr3_text a o1 b o2 c) 0 = some (alu r1 a (alu r2 b c)) ∧
      command_output fuel (expr3_text a o1 b o2 c) 0 =
        some (decimal (alu r1 a (alu r2 b c)) ++ [10]) := by
  obtain ⟨f, rfl⟩ : ∃ f, fuel = f + 21 := ⟨fuel - 21, by omega⟩
  obtain ⟨dA, dsA, eA, NA⟩ := decimal_numeral a ha
  obtain ⟨dB, dsB, eB, NB⟩ := decimal_numeral b hb
  obtain ⟨dC, dsC, eC, NC⟩ := decimal_numeral c hc
  have etext : expr3_text a o1 b o2 c =
      (dA :: dsA) ++ 32 :: (o1 :: 32 :: ((dB :: dsB) ++ 32 :: o2 :: 32 ::
        ((dC :: dsC) ++ 10 :: []))) := by
    rw [expr3_text, eA, eB, eC]
  obtain ⟨hci, hdi⟩ := prompt_state_cursors (expr3_text a o1 b o2 c) []
  have hnext := next_number (f + 21) (prompt_state (expr3_text a o1 b o2 c) []) dA dsA 32 _ rfl
    etext NA.digits (by omega) (by omega) (by omega) (by rw [NA.value]; exact ha)
    (by have := NA.short; omega)
  rw [NA.value] at hnext
  obtain ⟨s1, hnext, c1, t1, v1, i1, f1, ci1, di1, o1'⟩ : ∃ s1 : State,
      next (f + 21) (prompt_state (expr3_text a o1 b o2 c) []) = some s1 ∧ s1.complaint = none ∧
      s1.token = 1 ∧ s1.token_value = a ∧ s1.input_char = 32 ∧
      s1.in_file = o1 :: 32 :: ((dB :: dsB) ++ 32 :: o2 :: 32 :: ((dC :: dsC) ++ 10 :: [])) ∧
      code_idx s1 = 21 ∧ dict_idx s1 = 4070 ∧ True :=
    ⟨_, hnext, rfl, rfl, rfl, rfl, rfl, hci, hdi, trivial⟩
  obtain ⟨S, la, lb, lc, hp, E, ha5, hb5, hc5, Pa, Pb, Pc, O2, O1, tS, -, -⟩ :=
    parse_shape_right (f + 13) s1 21 a b c o1 o2 l1 l2 r1 r2 dB dC dsB dsC c1 t1 v1 (by omega) i1
      f1 NB NC ci1 (by omega) (by rw [di1]; omega) ho1 hop1 hb1 hr1 hl1 ho2 hop2 hb2 hr2 hshape
      (by omega)
  obtain ⟨s', hs, hc', ho', -⟩ := scratch_of_parse (f + 21) s1 S 21 (la + lb + lc + 2)
    (alu r1 a (alu r2 b c)) hp ci1 (by omega) (by rw [di1]; omega) E c1 tS (by
      intro s3 F H c3 d3
      unfold run
      rw [d3, di1]
      obtain ⟨s', h1, h2, h3, h4, h5, h6, h7, h8⟩ := run_shape_right (f + 15)
        (21 + (la + lb + lc + 2) + 1) 21 4056 (4056 + 4 + 4 + 4) s3 a b c la lb lc r1 r2
        (by omega) (by omega) (by omega)
        (Pa.frame (fun k q h1 h2 => F k q (by omega) (by omega)))
        (Pb.frame (fun k q h1 h2 => F k q (by omega) (by omega)))
        (Pc.frame (fun k q h1 h2 => F k q (by omega) (by omega)))
        (by rw [fetch_u8_eq, F 1 _ (by omega) (by omega), ← fetch_u8_eq]; exact O2)
        (by rw [fetch_u8_eq, F 1 _ (by omega) (by omega), ← fetch_u8_eq]; exact O1)
        (by rw [← H]; congr 1; omega) hr1 hr2 (by omega) (by omega) (by omega)
      exact ⟨s', h1, h2, h3, h4.trans c3, h5.trans (d3.trans di1), h6, h7, h8⟩)
  exact session_of_scratch (f + 20) _ s1 s' _ hnext t1 hs hc' ho'

/-- The session `a o1 b o2 c` when `o2` does not bind tighter than `o1`: the
value is `(a o1 b) o2 c`. -/
theorem expr3_left (a b c o1 o2 : Nat) (l1 l2 : Int) (r1 r2 : Nat) (fuel : Nat)
    (ha : a < 2147483648) (hb : b < 2147483648) (hc : c < 2147483648)
    (ho1 : o1 < 256) (hop1 : is_operator_char (o1 : Int) = true)
    (hb1 : binary_operator (o1 : Int) = some (l1, r1)) (hr1 : r1 = ADD ∨ r1 = SUB ∨ r1 = MUL)
    (hl1 : 0 ≤ l1)
    (ho2 : o2 < 256) (hop2 : is_operator_char (o2 : Int) = true)
    (hb2 : binary_operator (o2 : Int) = some (l2, r2)) (hr2 : r2 = ADD ∨ r2 = SUB ∨ r2 = MUL)
    (hl2 : 0 ≤ l2)
    (hshape : l2 < l1 + 1) (hfuel : 40 ≤ fuel) :
    command_complaint fuel (expr3_text a o1 b o2 c) 0 = some none ∧
      command_value fuel (expr3_text a o1 b o2 c) 0 = some (alu r2 (alu r1 a b) c) ∧
      command_output fuel (expr3_text a o1 b o2 c) 0 =
        some (decimal (alu r2 (alu r1 a b) c) ++ [10]) := by
  obtain ⟨f, rfl⟩ : ∃ f, fuel = f + 21 := ⟨fuel - 21, by omega⟩
  obtain ⟨dA, dsA, eA, NA⟩ := decimal_numeral a ha
  obtain ⟨dB, dsB, eB, NB⟩ := decimal_numeral b hb
  obtain ⟨dC, dsC, eC, NC⟩ := decimal_numeral c hc
  have etext : expr3_text a o1 b o2 c =
      (dA :: dsA) ++ 32 :: (o1 :: 32 :: ((dB :: dsB) ++ 32 :: o2 :: 32 ::
        ((dC :: dsC) ++ 10 :: []))) := by
    rw [expr3_text, eA, eB, eC]
  obtain ⟨hci, hdi⟩ := prompt_state_cursors (expr3_text a o1 b o2 c) []
  have hnext := next_number (f + 21) (prompt_state (expr3_text a o1 b o2 c) []) dA dsA 32 _ rfl
    etext NA.digits (by omega) (by omega) (by omega) (by rw [NA.value]; exact ha)
    (by have := NA.short; omega)
  rw [NA.value] at hnext
  obtain ⟨s1, hnext, c1, t1, v1, i1, f1, ci1, di1, o1'⟩ : ∃ s1 : State,
      next (f + 21) (prompt_state (expr3_text a o1 b o2 c) []) = some s1 ∧ s1.complaint = none ∧
      s1.token = 1 ∧ s1.token_value = a ∧ s1.input_char = 32 ∧
      s1.in_file = o1 :: 32 :: ((dB :: dsB) ++ 32 :: o2 :: 32 :: ((dC :: dsC) ++ 10 :: [])) ∧
      code_idx s1 = 21 ∧ dict_idx s1 = 4070 ∧ True :=
    ⟨_, hnext, rfl, rfl, rfl, rfl, rfl, hci, hdi, trivial⟩
  obtain ⟨S, la, lb, lc, hp, E, ha5, hb5, hc5, Pa, Pb, O1, Pc, O2, tS, -, -⟩ :=
    parse_shape_left (f + 13) s1 21 a b c o1 o2 l1 l2 r1 r2 dB dC dsB dsC c1 t1 v1 (by omega) i1
      f1 NB NC ci1 (by omega) (by rw [di1]; omega) ho1 hop1 hb1 hr1 hl1 ho2 hop2 hb2 hr2 hl2
      hshape (by omega)
  obtain ⟨s', hs, hc', ho', -⟩ := scratch_of_parse (f + 21) s1 S 21 (la + lb + lc + 2)
    (alu r2 (alu r1 a b) c) hp ci1 (by omega) (by rw [di1]; omega) E c1 tS (by
      intro s3 F H c3 d3
      unfold run
      rw [d3, di1]
      obtain ⟨s', h1, h2, h3, h4, h5, h6, h7, h8⟩ := run_shape_left (f + 15)
        (21 + (la + lb + lc + 2) + 1) 21 4060 (4060 + 4 + 4) s3 a b c la lb lc r1 r2
        (by omega) (by omega) (by omega)
        (Pa.frame (fun k q h1 h2 => F k q (by omega) (by omega)))
        (Pb.frame (fun k q h1 h2 => F k q (by omega) (by omega)))
        (by rw [fetch_u8_eq, F 1 _ (by omega) (by omega), ← fetch_u8_eq]; exact O1)
        (Pc.frame (fun k q h1 h2 => F k q (by omega) (by omega)))
        (by rw [fetch_u8_eq, F 1 _ (by omega) (by omega), ← fetch_u8_eq]; exact O2)
        (by rw [← H]; congr 1; omega) hr1 hr2 (by omega) (by omega) (by omega)
      exact ⟨s', h1, h2, h3, h4.trans c3, h5.trans (d3.trans di1), h6, h7, h8⟩)
  exact session_of_scratch (f + 20) _ s1 s' _ hnext t1 hs hc' ho'

theorem cursors_write_bytes (s : State) (n p v : Nat) (hp : 8 ≤ p) :
    cursors { s with the_store := write_bytes n s.the_store p v } = cursors s := by
  simp only [cursors, code_idx, dict_idx, fetch_wV_eq]
  rw [fetch_bytes_write_bytes_disjoint _ _ _ _ _ _ (by omega),
    fetch_bytes_write_bytes_disjoint _ _ _ _ _ _ (by omega)]

theorem cursors_complain (s : State) (msg : String) : cursors (complain s msg) = cursors s := by
  unfold complain
  cases s.complaint <;> rfl

theorem keeps_push (end_ pc sp bp : Nat) (s : State) (v : Nat) (he : 8 ≤ end_) :
    (push end_ pc sp bp s v).keeps (cursors s) := by
  unfold push
  split_ifs with h
  · exact cursors_complain s _
  · exact cursors_write_bytes s 4 (sp - 4) v (by omega)

theorem keeps_binop (pc sp bp : Nat) (s : State) (v : Nat) (hs : 8 ≤ sp) :
    (binop pc sp bp s v).keeps (cursors s) :=
  cursors_write_bytes s 4 (sp + 4) v (by omega)

theorem keeps_unop (pc sp bp : Nat) (s : State) (v : Nat) (hs : 8 ≤ sp) :
    (unop pc sp bp s v).keeps (cursors s) :=
  cursors_write_bytes s 4 sp v hs

theorem ccall_store (fn : Nat) (s : State) (args arity r : Nat) (s' : State)
    (h : ccall (host_apply fn) s args arity = some (r, s')) : s'.the_store = s.the_store := by
  unfold ccall at h
  split_ifs at h with h1
  · unfold host_apply at h
    split_ifs at h with h2
    split at h
    · unfold moo at h
      simp only [Option.map_eq_some'] at h
      obtain ⟨str, -, e⟩ := h
      cases e
      rfl
    · cases h
  · cases h
    rfl

theorem keeps_ite (C : Nat × Nat) (c : Prop) [Decidable c] (x y : Step)
    (hx : c → x.keeps C) (hy : ¬ c → y.keeps C) : (if c then x else y).keeps C := by
  split_ifs with h
  · exact hx h
  · exact hy h

theorem cursors_of_store (s s' : State) (h : s'.the_store = s.the_store) :
    cursors s' = cursors s := by
  simp only [cursors, code_idx, dict_idx, h]

theorem cur_write_wV (s : State) (p v : Nat) (hp : 8 ≤ p) :
    cursors { s with the_store := write_wV s.the_store p v } = cursors s :=
  cursors_write_bytes s 4 p v hp

theorem cur_write_wX (s : State) (p v : Nat) (hp : 8 ≤ p) :
    cursors { s with the_store := write_wX s.the_store p v } = cursors s :=
  cursors_write_bytes s 2 p v hp

theorem cur_write_u8 (s : State) (p v : Nat) (hp : 8 ≤ p) :
    cursors { s with the_store := write_u8 s.the_store p v } = cursors s :=
  cursors_write_bytes s 1 p v hp

theorem keeps_tcall (pc sp bp : Nat) (s : State) (n v w : Nat) (h : 8 + 4 * n ≤ bp) :
    (Step.next pc sp bp { s with
      the_store := write_wV (write_bytes (4 * n) s.the_store (bp + 4 - 4 * n) w) (bp - 4 * n)
        v }).keeps (cursors s) :=
  (cur_write_wV { s with the_store := write_bytes (4 * n) s.the_store (bp + 4 - 4 * n) w }
    (bp - 4 * n) v (by omega)).trans (cursors_write_bytes s (4 * n) _ w (by omega))

theorem keeps_call (end_ pc sp bp : Nat) (s : State) (target n : Nat) (r : Option Nat)
    (he : 8 ≤ end_) (hpc : 8 ≤ pc) :
    (match r with
      | none => Step.undefined
      | some cont =>
        if fetch_u8 s.the_store cont = RETURN then
          Step.next (pc + 1 - 1) sp bp { s with the_store := write_u8 s.the_store (pc + 1 - 1) TCALL }
        else if sp < end_ + 4 then stack_overflow s
        else
          Step.next target (sp - 4) (sp - 4 + 4 * n) { s with
            the_store := write_wX (write_wX s.the_store (sp - 4) bp) (sp - 4 + 2)
              cont }).keeps (cursors s) := by
  cases r with
  | none => exact trivial
  | some cont =>
    simp only []
    split_ifs with h1 h2
    · exact cur_write_u8 s _ _ (by omega)
    · exact cursors_complain s _
    · exact (cur_write_wX { s with the_store := write_wX s.the_store (sp - 4) bp }
        (sp - 4 + 2) cont (by omega)).trans (cur_write_wX s _ _ (by omega))

theorem keeps_ccall (end_ pc sp bp : Nat) (s : State) (fn n : Nat) (he : 8 ≤ end_)
    (hsp : 8 ≤ sp) :
    (match ccall (host_apply fn) s sp n with
      | none => Step.undefined
      | some (result, s) =>
        if n = 0 then
          if sp < end_ + 4 then stack_overflow s
          else Step.next pc (sp - 4) bp
                 { s with the_store := write_wV s.the_store (sp - 4) result }
        else Step.next pc (sp + 4 * (n - 1)) bp { s with
          the_store := write_wV s.the_store (sp + 4 * (n - 1)) result }).keeps (cursors s) := by
  cases hc : ccall (host_apply fn) s sp n with
  | none => exact trivial
  | some p =>
    obtain ⟨result, s'⟩ := p
    have e := cursors_of_store s s' (ccall_store fn s sp n result s' hc)
    simp only []
    split_ifs with h1 h2
    · exact (cursors_complain s' _).trans e
    · exact (cur_write_wV s' _ _ (by omega)).trans e
    · exact (cur_write_wV s' _ _ (by omega)).trans e

theorem keeps_set (pc sp bp : Nat) (s : State) (c : Prop) [Decidable c] (m' : Nat)
    (h : cursors { s with the_store := m' } = cursors s) :
    (Step.next pc sp bp (if c then { s with the_store := m' } else s)).keeps (cursors s) := by
  show cursors (if c then { s with the_store := m' } else s) = cursors s
  split_ifs
  · exact h
  · rfl

theorem keeps_push_string (end_ pc sp bp : Nat) (s : State) (r : Option Nat) (he : 8 ≤ end_) :
    (match r with
      | some n => push end_ (pc + n + 1) sp bp s (pc % 4294967296)
      | none => Step.undefined).keeps (cursors s) := by
  cases r with
  | none => exact trivial
  | some n => exact keeps_push _ _ _ _ _ _ he

theorem keeps_getc (end_ pc sp bp : Nat) (s : State) (he : 8 ≤ end_) :
    (match s.stdin_ with
      | [] => push end_ pc sp bp s 4294967295
      | c :: rest => push end_ pc sp bp { s with stdin_ := rest } (c % 256)).keeps
        (cursors s) := by
  cases s.stdin_ with
  | nil => exact keeps_push _ _ _ _ _ _ he
  | cons c rest => exact keeps_push end_ pc sp bp { s with stdin_ := rest } _ he

theorem keeps_guarded (C : Nat × Nat) (c : Prop) [Decidable c] (y : Step) (hy : y.keeps C) :
    (if c then Step.undefined else y).keeps C :=
  keeps_ite C c _ _ (fun _ => trivial) (fun _ => hy)

/-- Every instruction that stays clear of the cursor cells leaves the cursors
as they are. -/
theorem step_keeps (end_ pc sp bp : Nat) (s : State) (he : 8 ≤ end_) (hpc : 8 ≤ pc)
    (hsp : 8 ≤ sp) (hbp : 8 ≤ bp) (hclear : clear_of_cursors pc sp bp s = true) :
    (step end_ pc sp bp s).keeps (cursors s) := by
  simp only [clear_of_cursors, Bool.and_eq_true, decide_eq_true_eq] at hclear
  obtain ⟨⟨hgs, hset⟩, htc⟩ := hclear
  have P : ∀ pc' s' v, (push end_ pc' sp bp s' v).keeps (cursors s') :=
    fun pc' s' v => keeps_push end_ pc' sp bp s' v he
  have B : ∀ pc' v, (binop pc' sp bp s v).keeps (cursors s) :=
    fun pc' v => keeps_binop pc' sp bp s v hsp
  have U : ∀ pc' v, (unop pc' sp bp s v).keeps (cursors s) :=
    fun pc' v => keeps_unop pc' sp bp s v hsp
  unfold step step_with
  lift_lets
  intro m op pc1 a b binding n frame_info m1 sp1 sp2 m2 f0 f1
  refine keeps_ite _ _ _ _ (fun _ => rfl) (fun _ => ?_)
  refine keeps_ite _ _ _ _ (fun _ => P _ _ _) (fun _ => ?_)
  refine keeps_ite _ _ _ _ (fun _ => P _ _ _) (fun _ => ?_)
  refine keeps_ite _ _ _ _ (fun _ => P _ _ _) (fun _ => ?_)
  refine keeps_ite _ _ _ _ (fun _ => rfl) (fun _ => ?_)
  refine keeps_ite _ _ _ _ (fun _ => keeps_ite _ _ _ _ (fun _ => cursors_complain s _)
    (fun _ => keeps_push_string end_ pc1 sp bp s _ he)) (fun _ => ?_)
  refine keeps_ite _ _ _ _ (fun _ => P _ _ _) (fun _ => ?_)
  refine keeps_ite _ _ _ _ (fun h => cur_write_wV s _ _ (hgs h)) (fun _ => ?_)
  refine keeps_ite _ _ _ _ (fun _ => P _ _ _) (fun _ => ?_)
  refine keeps_ite _ _ _ _ (fun _ => P _ _ _) (fun _ => ?_)
  refine keeps_ite _ _ _ _ (fun _ => P _ _ _) (fun _ => ?_)
  refine keeps_ite _ _ _ _ (fun h => keeps_tcall _ _ _ s n _ _ (htc h)) (fun _ => ?_)
  refine keeps_ite _ _ _ _ (fun _ => keeps_call end_ pc sp bp s (binding + 1) n _ he hpc)
    (fun _ => ?_)
  refine keeps_ite _ _ _ _ (fun _ => keeps_ccall end_ (pc1 + 2) sp bp s _ n he hsp) (fun _ => ?_)
  refine keeps_ite _ _ _ _ (fun _ => cur_write_wV s bp b hbp) (fun _ => ?_)
  refine keeps_ite _ _ _ _ (fun _ => keeps_ite _ _ _ _ (fun _ => rfl) (fun _ => rfl))
    (fun _ => ?_)
  refine keeps_ite _ _ _ _ (fun _ => rfl) (fun _ => ?_)
  refine keeps_ite _ _ _ _ (fun _ => B _ _) (fun _ => ?_)
  refine keeps_ite _ _ _ _ (fun _ => B _ _) (fun _ => ?_)
  refine keeps_ite _ _ _ _ (fun _ => B _ _) (fun _ => ?_)
  refine keeps_ite _ _ _ _ (fun _ => keeps_guarded _ _ _ (B _ _)) (fun _ => ?_)
  refine keeps_ite _ _ _ _ (fun _ => keeps_guarded _ _ _ (B _ _)) (fun _ => ?_)
  refine keeps_ite _ _ _ _ (fun _ => B _ _) (fun _ => ?_)
  refine keeps_ite _ _ _ _ (fun _ => keeps_guarded _ _ _ (B _ _)) (fun _ => ?_)
  refine keeps_ite _ _ _ _ (fun _ => keeps_guarded _ _ _ (B _ _)) (fun _ => ?_)
  refine keeps_ite _ _ _ _ (fun _ => U _ _) (fun _ => ?_)
  refine keeps_ite _ _ _ _ (fun _ => B _ _) (fun _ => ?_)
  refine keeps_ite _ _ _ _ (fun _ => B _ _) (fun _ => ?_)
  refine keeps_ite _ _ _ _ (fun _ => B _ _) (fun _ => ?_)
  refine keeps_ite _ _ _ _ (fun _ => B _ _) (fun _ => ?_)
  refine keeps_ite _ _ _ _ (fun _ => B _ _) (fun _ => ?_)
  refine keeps_ite _ _ _ _ (fun _ => B _ _) (fun _ => ?_)
  refine keeps_ite _ _ _ _ (fun _ => keeps_guarded _ _ _ (B _ _)) (fun _ => ?_)
  refine keeps_ite _ _ _ _ (fun _ => keeps_guarded _ _ _ (B _ _)) (fun _ => ?_)
  refine keeps_ite _ _ _ _ (fun _ => keeps_guarded _ _ _ (B _ _)) (fun _ => ?_)
  refine keeps_ite _ _ _ _ (fun _ => keeps_ite _ _ _ _ (fun _ => cursors_complain s _)
    (fun _ => keeps_getc end_ pc1 sp bp s he)) (fun _ => ?_)
  refine keeps_ite _ _ _ _ (fun _ => cursors_of_store s _ rfl) (fun _ => ?_)
  refine keeps_ite _ _ _ _ (fun _ => U _ _) (fun _ => ?_)
  refine keeps_ite _ _ _ _ (fun _ => U _ _) (fun _ => ?_)
  refine keeps_ite _ _ _ _
    (fun h => keeps_set _ _ _ s _ _ (cur_write_wV s _ _ (hset (Or.inl h)))) (fun _ => ?_)
  refine keeps_ite _ _ _ _ (fun _ => U _ _) (fun _ => ?_)
  refine keeps_ite _ _ _ _
    (fun h => keeps_set _ _ _ s _ _ (cur_write_wX s _ _ (hset (Or.inr (Or.inl h)))))
    (fun _ => ?_)
  refine keeps_ite _ _ _ _
    (fun h => keeps_set _ _ _ s _ _ (cur_write_u8 s _ _ (hset (Or.inr (Or.inr h)))))
    (fun _ => ?_)
  exact trivial

theorem ch_store (s : State) : (ch s).2.the_store = s.the_store := by
  unfold ch
  split_ifs
  · cases s.in_file <;> rfl
  · rfl

theorem next_char_store (s : State) : (next_char s).the_store = s.the_store := by
  unfold next_char
  split_ifs <;> rfl

theorem complain_store (s : State) (msg : String) : (complain s msg).the_store = s.the_store := by
  unfold complain
  cases s.complaint <;> rfl

theorem available_store (s : State) (n : Nat) : (available s n).2.the_store = s.the_store := by
  unfold available
  split_ifs
  · rfl
  · exact complain_store s _

theorem skip_line_store (fuel : Nat) : ∀ (s s' : State), skip_line fuel s = some s' →
    s'.the_store = s.the_store := by
  induction fuel with
  | zero => intro s s' h; cases h
  | succ f ih =>
    intro s s' h
    have hc := ch_store s
    rw [skip_line] at h
    generalize ch s = r at h hc
    obtain ⟨c, s1⟩ := r
    simp only [] at h hc
    split_ifs at h
    · rw [ih _ _ h, next_char_store, hc]
    · cases h
      exact hc

theorem lex_hex_store (fuel : Nat) : ∀ (k : Nat) (s : State) (k' : Nat) (s' : State),
    lex_hex fuel k s = some (k', s') → s'.the_store = s.the_store := by
  induction fuel with
  | zero => intro k s k' s' h; cases h
  | succ f ih =>
    intro k s k' s' h
    have hc := ch_store s
    rw [lex_hex] at h
    generalize ch s = r at h hc
    obtain ⟨c, s1⟩ := r
    simp only [] at h hc
    split_ifs at h
    · rw [ih _ _ _ _ h, next_char_store]
      exact hc
    · cases h
      exact hc

theorem lex_number_store (fuel : Nat) : ∀ (s s' : State), lex_number fuel s = some s' →
    s'.the_store = s.the_store := by
  induction fuel with
  | zero => intro s s' h; cases h
  | succ f ih =>
    intro s s' h
    have hc := ch_store s
    rw [lex_number] at h
    generalize ch s = r at h hc
    obtain ⟨c, s1⟩ := r
    simp only [] at h hc
    have hc2 := ch_store (next_char { s1 with
      token_value := (10 * s1.token_value + c.toNat - 48) % 4294967296 })
    generalize ch (next_char { s1 with
      token_value := (10 * s1.token_value + c.toNat - 48) % 4294967296 }) = r2 at h hc2
    obtain ⟨c2, s2⟩ := r2
    simp only [] at h hc2
    have e2 : s2.the_store = s.the_store := by rw [hc2, next_char_store]; exact hc
    split_ifs at h
    · generalize hh : lex_hex f 0 (next_char s2) = r3 at h
      cases r3 with
      | none => cases h
      | some p =>
        obtain ⟨k, s3⟩ := p
        have e3 : s3.the_store = s.the_store := by
          rw [lex_hex_store f _ _ _ _ hh, next_char_store, e2]
        simp only [] at h
        split_ifs at h <;> cases h
        · rw [complain_store, e3]
        · rw [complain_store, e3]
        · exact e3
    · cases h
      rw [complain_store, e2]
    · rw [ih _ _ h, e2]
    · cases h
      exact e2

theorem lex_ident_store (fuel : Nat) : ∀ (name : List Nat) (s : State) (name' : List Nat)
    (s' : State), lex_ident fuel name s = some (name', s') → s'.the_store = s.the_store := by
  induction fuel with
  | zero => intro name s name' s' h; cases h
  | succ f ih =>
    intro name s name' s' h
    rw [lex_ident] at h
    split_ifs at h
    · cases h
      exact complain_store s _
    · have hc := ch_store s
      generalize ch s = r at h hc
      obtain ⟨c, s1⟩ := r
      simp only [] at h hc
      have hc2 := ch_store (next_char s1)
      generalize ch (next_char s1) = r2 at h hc2
      obtain ⟨c2, s2⟩ := r2
      simp only [] at h hc2
      have e2 : s2.the_store = s.the_store := by rw [hc2, next_char_store]; exact hc
      split_ifs at h
      · rw [ih _ _ _ _ h, e2]
      · cases h
        exact e2

theorem code_idx_of_store (s s' : State) (h : s'.the_store = s.the_store) :
    code_idx s' = code_idx s := by
  simp only [code_idx, h]

theorem code_idx_write_u8 (s : State) (p v : Nat) (hp : 4 ≤ p) :
    code_idx { s with the_store := write_u8 s.the_store p v } = code_idx s := by
  simp only [code_idx, fetch_wV_eq, write_u8_eq]
  rw [fetch_bytes_write_bytes_disjoint _ _ _ _ _ _ (by omega)]

/-- A string token is stored from `p` on: with `p` past the first word of the
store, reading it leaves `code_idx` alone. -/
theorem lex_string_code_idx (fuel : Nat) : ∀ (p : Nat) (s s' : State), 4 ≤ p →
    lex_string fuel p s = some s' → code_idx s' = code_idx s := by
  induction fuel with
  | zero => intro p s s' _ h; cases h
  | succ f ih =>
    intro p s s' hp h
    have hc := ch_store s
    rw [lex_string] at h
    generalize ch s = r at h hc
    obtain ⟨c, s1⟩ := r
    simp only [] at h hc
    have e1 : code_idx s1 = code_idx s := code_idx_of_store _ _ hc
    split_ifs at h
    · cases h
      exact (code_idx_write_u8 (next_char s1) p 0 hp).trans
        ((code_idx_of_store _ _ (next_char_store s1)).trans e1)
    · cases h
      exact (code_idx_of_store _ _ (complain_store s1 _)).trans e1
    · have ha := available_store s1 (p + 2 - code_idx s1)
      generalize available s1 (p + 2 - code_idx s1) = r2 at h ha
      obtain ⟨b, s2⟩ := r2
      simp only [] at ha
      have e2 : code_idx s2 = code_idx s := (code_idx_of_store _ _ ha).trans e1
      cases b with
      | false =>
        cases h
        exact e2
      | true =>
        simp only [] at h
        rw [ih (p + 1) _ _ (by omega) h]
        exact (code_idx_of_store _ _ (next_char_store _)).trans
          ((code_idx_write_u8 s2 p _ hp).trans e2)

/-- The lexer leaves `code_idx` alone, when `code_idx` is 3 or more: the only
thing it stores is a string token, from `code_idx + 1` on. -/
theorem next_code_idx (fuel : Nat) : ∀ (s s' : State), 3 ≤ code_idx s → next fuel s = some s' →
    code_idx s' = code_idx s := by
  induction fuel with
  | zero => intro s s' _ h; cases h
  | succ f ih =>
    intro s s' h3 h
    have hc := ch_store s
    rw [next] at h
    generalize ch s = r at h hc
    obtain ⟨c, s1⟩ := r
    simp only [] at h hc
    have e1 : code_idx s1 = code_idx s := code_idx_of_store _ _ hc
    split_ifs at h
    · exact (code_idx_of_store _ _ (lex_number_store f _ _ h)).trans e1
    · generalize hl : lex_ident f [] s1 = r2 at h
      cases r2 with
      | none => cases h
      | some q =>
        obtain ⟨name, s2⟩ := q
        cases h
        exact (code_idx_of_store _ _ (lex_ident_store f _ _ _ _ hl)).trans e1
    · have e2 : code_idx (next_char s1) = code_idx s :=
        (code_idx_of_store _ _ (next_char_store s1)).trans e1
      rw [lex_string_code_idx f _ _ _ (by omega) h, e2]
    · cases h
      exact (code_idx_of_store _ _ (next_char_store _)).trans e1
    · have e2 : code_idx (next_char s1) = code_idx s :=
        (code_idx_of_store _ _ (next_char_store s1)).trans e1
      rw [ih _ _ (by omega) h, e2]
    · generalize hl : skip_line f s1 = r2 at h
      cases r2 with
      | none => cases h
      | some s2 =>
        have e2 : code_idx s2 = code_idx s :=
          (code_idx_of_store _ _ (skip_line_store f _ _ hl)).trans e1
        simp only [] at h
        rw [ih _ _ (by omega) h, e2]
    · cases h
      exact (code_idx_of_store _ _ (complain_store s1 _)).trans e1

/-- A run that stays clear of the cursor cells leaves the cursors as they
are. -/
theorem run_loop_keeps (end_ : Nat) (he : 8 ≤ end_) (fuel : Nat) :
    ∀ (pc sp bp : Nat) (s : State) (v : Nat) (s' : State), run_clear end_ fuel pc sp bp s = true →
      run_loop end_ fuel pc sp bp s = some (v, s') → cursors s' = cursors s := by
  induction fuel with
  | zero => intro pc sp bp s v s' _ h; cases h
  | succ f ih =>
    intro pc sp bp s v s' hclear hrun
    rw [run_clear] at hclear
    simp only [Bool.and_eq_true, decide_eq_true_eq] at hclear
    obtain ⟨⟨⟨hpc, hsp, hbp⟩, hcl⟩, hrest⟩ := hclear
    have hk := step_keeps end_ pc sp bp s he hpc hsp hbp hcl
    rw [run_loop] at hrun
    generalize step end_ pc sp bp s = r at hk hrest hrun
    cases r with
    | next pc1 sp1 bp1 s1 => exact (ih pc1 sp1 bp1 s1 v s' hrest hrun).trans hk
    | done v1 s1 =>
      cases hrun
      exact hk
    | undefined => cases hrun

theorem rewound_code_idx (s S : State) : code_idx (rewound (code_idx s) S) = code_idx s :=
  (set_code_idx_spec _ _ (code_idx_lt s)).1

/-- The end of `run_command`: the complaint, if any, is printed and the rest
of the line skipped; `code_idx` stays. -/
theorem run_command_tail (fuel : Nat) (t s' : State)
    (h : (match t.complaint with
      | none => some t
      | some msg =>
        match skip_line fuel { t with out := t.out ++ bytes_of msg ++ [13, 10] } with
        | none => none
        | some s => next fuel s) = some s')
    (ht : t.complaint = none ∨ 3 ≤ code_idx t) : code_idx s' = code_idx t := by
  split at h
  · cases h
    rfl
  · rename_i msg hc
    have h3 : 3 ≤ code_idx t := by
      rcases ht with ht | ht
      · rw [hc] at ht
        cases ht
      · exact ht
    split at h
    · cases h
    · rename_i s5 hl
      have e5 : code_idx s5 = code_idx t :=
        code_idx_of_store t s5 ((skip_line_store fuel _ _ hl).trans rfl)
      rw [next_code_idx fuel s5 s' (by omega) h, e5]

/-! ## Claims C1 and C2: precedence and associativity -/

theorem alu_add_mul (a b c : Nat) : alu ADD a (alu MUL b c) = (a + b * c) % 4294967296 := by
  have e1 : alu MUL b c = (b * c) % 4294967296 := by
    unfold alu
    rw [if_neg (by decide), if_neg (by decide)]
  have e2 : ∀ x y, alu ADD x y = (x + y) % 4294967296 := by
    intro x y
    unfold alu
    rw [if_pos rfl]
  rw [e1, e2]
  omega

theorem alu_sub_sub (a b c : Nat) (ha : a < 2147483648) (hb : b < 2147483648)
    (hc : c < 2147483648) : alu SUB (alu SUB a b) c = wval ((a : Int) - b - c) := by
  simp only [alu, SUB, ADD, wval]
  norm_num
  omega

theorem alu_add_sub (a b c : Nat) (ha : a < 2147483648) (hb : b < 2147483648) :
    alu ADD (alu SUB a b) c = wval ((a : Int) - b + c) := by
  simp only [alu, SUB, ADD, wval]
  norm_num
  omega

theorem wval_sub_ne (a b c : Nat) (hc : c < 2147483648) (h0 : c ≠ 0) :
    wval ((a : Int) - b - c) ≠ wval ((a : Int) - ((b : Int) - c)) := by
  simp only [wval]
  omega

/-- Claim C1. Multiplication binds tighter than addition: for all literals
`a`, `b`, `c` below `2^31` (the non-negative values of a `wValue`), the line
`a + b * c` typed at the first prompt after `wren_initialize` latches no
complaint, `scratch_expr` returns `a + b * c` modulo `2^32`, and `run_expr`
prints that number on a line of its own. Any fuel from 40 on is enough. -/
theorem C1_mul_binds_tighter_than_add (a b c fuel : Nat) (ha : a < 2147483648)
    (hb : b < 2147483648) (hc : c < 2147483648) (hfuel : 40 ≤ fuel) :
    command_complaint fuel (expr3_text a 43 b 42 c) 0 = some none ∧
      command_value fuel (expr3_text a 43 b 42 c) 0 = some ((a + b * c) % 4294967296) ∧
      command_output fuel (expr3_text a 43 b 42 c) 0 =
        some (decimal ((a + b * c) % 4294967296) ++ [10]) := by
  have h := expr3_right a b c 43 42 9 11 ADD MUL fuel ha hb hc (by decide) (by decide) (by decide)
    (by decide) (by decide) (by decide) (by decide) (by decide) (by decide) (by decide) hfuel
  rw [alu_add_mul] at h
  exact h

/-- Scenario S1 from claim C1: `1 + 2 * 3` prints `7`. -/
theorem C1_one_plus_two_times_three :
    (1 < 2147483648 ∧ 2 < 2147483648 ∧ 3 < 2147483648 ∧ 40 ≤ 40) ∧
      expr3_text 1 43 2 42 3 = bytes_of "1 + 2 * 3\n" ∧
      command_complaint 40 (bytes_of "1 + 2 * 3\n") 0 = some none ∧
      command_value 40 (bytes_of "1 + 2 * 3\n") 0 = some 7 ∧
      command_output 40 (bytes_of "1 + 2 * 3\n") 0 = some (bytes_of "7\n") :=
  ⟨by decide, by decide,
    C1_mul_binds_tighter_than_add 1 2 3 40 (by decide) (by decide) (by decide) (by decide)⟩

/-- Claim C2. Operators of equal precedence associate to the left: for all
literals `a`, `b`, `c` below `2^31`, the line `a - b - c` typed at the first
prompt evaluates without complaint to `(a - b) - c` and the line `a - b + c`
to `(a - b) + c`, as 32-bit patterns; when `c` is not zero the value of
`a - b - c` is not that of `a - (b - c)`. Any fuel from 40 on is enough. -/
theorem C2_equal_precedence_left_assoc (a b c fuel : Nat) (ha : a < 2147483648)
    (hb : b < 2147483648) (hc : c < 2147483648) (hfuel : 40 ≤ fuel) :
    (command_complaint fuel (expr3_text a 45 b 45 c) 0 = some none ∧
      command_value fuel (expr3_text a 45 b 45 c) 0 = some (wval ((a : Int) - b - c))) ∧
    (command_complaint fuel (expr3_text a 45 b 43 c) 0 = some none ∧
      command_value fuel (expr3_text a 45 b 43 c) 0 = some (wval ((a : Int) - b + c))) ∧
    (c ≠ 0 →
      command_value fuel (expr3_text a 45 b 45 c) 0 ≠ some (wval ((a : Int) - ((b : Int) - c)))) := by
  have h1 := expr3_left a b c 45 45 9 9 SUB SUB fuel ha hb hc (by decide) (by decide) (by decide)
    (by decide) (by decide) (by decide) (by decide) (by decide) (by decide) (by decide)
    (by decide) hfuel
  have h2 := expr3_left a b c 45 43 9 9 SUB ADD fuel ha hb hc (by decide) (by decide) (by decide)
    (by decide) (by decide) (by decide) (by decide) (by decide) (by decide) (by decide)
    (by decide) hfuel
  rw [alu_sub_sub a b c ha hb hc] at h1
  rw [alu_add_sub a b c ha hb] at h2
  refine ⟨⟨h1.1, h1.2.1⟩, ⟨h2.1, h2.2.1⟩, ?_⟩
  intro h0 e
  rw [h1.2.1] at e
  exact wval_sub_ne a b c hc h0 (Option.some.inj e)

/-- An instance of claim C2: `7 - 2 - 3` is `2` and `7 - 2 + 3` is `8`, while
`7 - (2 - 3)` would be `8` and `7 - (2 + 3)` would be `2`. -/
theorem C2_seven_minus_two_minus_three :
    (7 < 2147483648 ∧ 2 < 2147483648 ∧ 3 < 2147483648 ∧ 40 ≤ 40) ∧
      expr3_text 7 45 2 45 3 = bytes_of "7 - 2 - 3\n" ∧
      expr3_text 7 45 2 43 3 = bytes_of "7 - 2 + 3\n" ∧
      command_value 40 (bytes_of "7 - 2 - 3\n") 0 = some 2 ∧
      command_value 40 (bytes_of "7 - 2 + 3\n") 0 = some 8 :=
  ⟨by decide, by decide, by decide,
    (C2_equal_precedence_left_assoc 7 2 3 40 (by decide) (by decide) (by decide)
      (by decide)).1.2,
    (C2_equal_precedence_left_assoc 7 2 3 40 (by decide) (by decide) (by decide)
      (by decide)).2.1.2⟩

/-! ## Claims C3 to C6: the scenarios -/

set_option maxRecDepth 1000000 in
/-- Claim C3, the failing input: in scenario S2 the second command,
`a : a + 5`, prints the line `15`; an assignment is an expression, and
`run_expr` prints the value of every expression. -/
theorem C3_assignment_prints_its_value :
    command_output 100 (bytes_of "let a = 10\na : a + 5\na\n") 1 = some (bytes_of "15\n") ∧
      command_output 100 (bytes_of "let a = 10\na : a + 5\na\n") 1 ≠ some [] := by
  decide!

set_option maxRecDepth 1000000 in
/-- Claim C3, amended. Scenario S2 in the read-eval-print loop after
`wren_initialize`: the three commands `let a = 10`, `a : a + 5`, `a` latch no
complaint and print, respectively, nothing, the line `15` and the line `15`. -/
theorem C3_scenario_let_assign_fetch :
    command_result 100 (bytes_of "let a = 10\na : a + 5\na\n") 0 = some (none, []) ∧
      command_result 100 (bytes_of "let a = 10\na : a + 5\na\n") 1 =
        some (none, bytes_of "15\n") ∧
      command_result 100 (bytes_of "let a = 10\na : a + 5\na\n") 2 =
        some (none, bytes_of "15\n") := by
  decide!

set_option maxRecDepth 1000000 in
/-- Claim C4. Scenario S4, non-tail recursion: for every `k` from 0 to 12,
in the session `fun fact n = if n then n * fact (n - 1) else 1` then `fact k`
the definition latches no complaint and prints nothing, and the expression
latches no complaint, evaluates to `k!` and prints it. Fuel 300 is enough. -/
theorem C4_factorial_by_recursion (k : Nat) (hk : k < 13) :
    command_result 300 (fact_script k) 0 = some (none, []) ∧
      command_value 300 (fact_script k) 1 = some (Nat.factorial k) ∧
      command_result 300 (fact_script k) 1 = some (none, decimal (Nat.factorial k) ++ [10]) :=
  (by decide! : ∀ k < 13,
    command_result 300 (fact_script k) 0 = some (none, []) ∧
      command_value 300 (fact_script k) 1 = some (Nat.factorial k) ∧
      command_result 300 (fact_script k) 1 = some (none, decimal (Nat.factorial k) ++ [10])) k hk

/-- Scenario S4 from claim C4: `fact 5` is 120. -/
theorem C4_factorial_of_five :
    5 < 13 ∧
      fact_script 5 = bytes_of "fun fact n = if n then n * fact (n - 1) else 1\nfact 5\n" ∧
      command_value 300 (fact_script 5) 1 = some 120 ∧
      command_result 300 (fact_script 5) 1 = some (none, bytes_of "120\n") :=
  ⟨by decide, by decide,
    (C4_factorial_by_recursion 5 (by decide)).2.1, (C4_factorial_by_recursion 5 (by decide)).2.2⟩

/-- A command that is an expression, from one evaluation of `scratch_expr` in
the state the session has reached: what the command latches, returns and
prints. -/
theorem session_of_run (f : Nat) (script : List Nat) (n : Nat) (t : Int) (v : Nat)
    (h : (repl_after (f + 1) script n).bind (fun s => (scratch_expr (f + 1) s).map
      (fun r => (s.token, r.1, r.2.complaint, decide (r.2.out = s.out)))) =
      some (t, v, none, true))
    (ht : t ≠ 10 ∧ t ≠ 102 ∧ t ≠ 108 ∧ t ≠ 111) :
    command_complaint (f + 1) script n = some none ∧ command_value (f + 1) script n = some v ∧
      command_output (f + 1) script n = some (decimal v ++ [10]) := by
  cases hr : repl_after (f + 1) script n with
  | none => rw [hr] at h; cases h
  | some s =>
    rw [hr, Option.some_bind] at h
    cases hs : scratch_expr (f + 1) s with
    | none => rw [hs] at h; cases h
    | some r =>
      obtain ⟨v', s'⟩ := r
      rw [hs] at h
      simp only [Option.map_some', Option.some.injEq, Prod.mk.injEq, decide_eq_true_eq] at h
      obtain ⟨h1, h2, h3, h4⟩ := h
      subst h2
      have hrun := run_command_expr f true s s' v' (by rw [h1]; exact ht.1)
        (by rw [h1]; exact ht.2.1) (by rw [h1]; exact ht.2.2.1) (by rw [h1]; exact ht.2.2.2) hs h3
      refine ⟨?_, ?_, ?_⟩
      · simp [command_complaint, hr, hrun, h3]
      · simp [command_value, hr, hs]
      · simp [command_output, hr, hrun, h4]

set_option maxRecDepth 1000000 in
theorem sum_session_definition : command_result 20000 sum_script 0 = some (none, []) := by
  decide!

set_option maxRecDepth 1000000 in
/-- The second command of scenario S5, run once: the token it starts with,
the value, the complaint, and whether `stdout` is as it was. -/
theorem sum_session_run :
    (repl_after 20000 sum_script 1).bind (fun s => (scratch_expr 20000 s).map
      (fun r => (s.token, r.1, r.2.complaint, decide (r.2.out = s.out)))) =
      some (97, 500500, none, true) := by
  decide!

theorem sum_session_value : command_value 20000 sum_script 1 = some 500500 :=
  (session_of_run 19999 sum_script 1 97 500500 sum_session_run (by decide)).2.1

theorem sum_session_complaint : command_complaint 20000 sum_script 1 = some none :=
  (session_of_run 19999 sum_script 1 97 500500 sum_session_run (by decide)).1

theorem sum_session_output : command_output 20000 sum_script 1 = some (bytes_of "500500\n") :=
  (session_of_run 19999 sum_script 1 97 500500 sum_session_run (by decide)).2.2

/-- Claim C5. Scenario S5, tail recursion: in the session
`fun sum n a = if n then sum (n - 1) (a + n) else a` then `sum 1000 0` on the
4096-byte store, the definition latches no complaint and prints nothing, and
the expression latches no complaint (no `Stack overflow`), evaluates to
500500 and prints it, although 1000 frames of 12 bytes (the frame word and
the two arguments) would not fit in the store. Fuel 20000 is enough. -/
theorem C5_sum_by_tail_recursion :
    sum_script = bytes_of "fun sum n a = if n then sum (n - 1) (a + n) else a\nsum 1000 0\n" ∧
      command_result 20000 sum_script 0 = some (none, []) ∧
      command_complaint 20000 sum_script 1 = some none ∧
      command_value 20000 sum_script 1 = some 500500 ∧
      command_output 20000 sum_script 1 = some (bytes_of "500500\n") ∧
      store_capacity < 1000 * 12 :=
  ⟨rfl, sum_session_definition, sum_session_complaint, sum_session_value, sum_session_output,
    by decide⟩

set_option maxRecDepth 1000000 in
/-- Claim C6, the failing input: in scenario S6 the second command,
`0x41 : p`, latches `Not an l-value` (the left side of `:` has to be a global
variable), and the third writes the byte 4, not `A`, before its result
line. -/
theorem C6_literal_is_not_an_lvalue :
    command_complaint 100 (bytes_of "let p = cp\n0x41 : p\nputc (*p)\n") 1 =
        some (some "Not an l-value") ∧
      command_output 100 (bytes_of "let p = cp\n0x41 : p\nputc (*p)\n") 2 ≠
        some (bytes_of "A") := by
  decide!

set_option maxRecDepth 1000000 in
/-- Claim C6, amended. Scenario S6 after `wren_initialize`: `let p = cp`
latches no complaint and prints nothing; `0x41 : p` latches `Not an l-value`,
which is printed; `putc (*p)` latches no complaint and writes the byte found
at offset `p`, which is 4, followed by the result line `4`. -/
theorem C6_scenario_pointer_access :
    command_result 100 (bytes_of "let p = cp\n0x41 : p\nputc (*p)\n") 0 = some (none, []) ∧
      command_result 100 (bytes_of "let p = cp\n0x41 : p\nputc (*p)\n") 1 =
        some (some "Not an l-value", bytes_of "Not an l-value\r\n") ∧
      command_result 100 (bytes_of "let p = cp\n0x41 : p\nputc (*p)\n") 2 =
        some (none, 4 :: bytes_of "4\n") := by
  decide!

/-! ## Claim C7: literal round trip -/

/-- Claim C7, the failing input: the decimal literal for `-2^31`, which is
`-` before `2147483648`, is refused by the lexer with `Numeric overflow`. -/
theorem C7_min_int_overflows :
    literal_text (-2147483648) = bytes_of "-2147483648" ∧
      command_complaint 40 (literal_text (-2147483648) ++ [10]) 0 =
        some (some "Numeric overflow") := by
  decide!

/-- Claim C7, amended. Literal round trip: for every integer `k` with
`-2^31 < k < 2^31`, the decimal literal for `k` (its digits, after a unary
`-` when `k` is negative) typed at the first prompt latches no complaint, and
`scratch_expr` returns the 32-bit pattern of `k`. Any fuel from 20 on is
enough. -/
theorem C7_literal_round_trip (k : Int) (fuel : Nat) (hlo : -2147483648 < k)
    (hhi : k < 2147483648) (hfuel : 20 ≤ fuel) :
    command_complaint fuel (literal_text k ++ [10]) 0 = some none ∧
      ∃ v, command_value fuel (literal_text k ++ [10]) 0 = some v ∧ sval v = k := by
  by_cases hk : k < 0
  · obtain ⟨n, rfl⟩ : ∃ n : Nat, k = -(n : Int) := ⟨(-k).toNat, by omega⟩
    have h0 : 0 < n := by omega
    have hn : n < 2147483648 := by omega
    have e : literal_text (-(n : Int)) ++ [10] = 45 :: (decimal n ++ [10]) := by
      simp [literal_text, hk]
    rw [e]
    obtain ⟨h1, h2⟩ := literal_round_trip_neg n h0 hn fuel hfuel
    exact ⟨h1, _, h2, sval_neg n h0 hn⟩
  · obtain ⟨n, rfl⟩ : ∃ n : Nat, k = (n : Int) := ⟨k.toNat, by omega⟩
    have hn : n < 2147483648 := by omega
    have e : literal_text (n : Int) ++ [10] = decimal n ++ [10] := by
      simp [literal_text]
    rw [e]
    obtain ⟨h1, h2⟩ := literal_round_trip_pos n hn fuel hfuel
    exact ⟨h1, _, h2, sval_of_nat n hn⟩

/-- An instance of claim C7: the literal `-2147483647`. -/
theorem C7_literal_round_trip_at_min_plus_one :
    ((-2147483648 : Int) < -2147483647 ∧ (-2147483647 : Int) < 2147483648 ∧ 20 ≤ 20) ∧
      literal_text (-2147483647) = bytes_of "-2147483647" ∧
      command_complaint 20 (literal_text (-2147483647) ++ [10]) 0 = some none ∧
      ∃ v, command_value 20 (literal_text (-2147483647) ++ [10]) 0 = some v ∧
        sval v = -2147483647 :=
  ⟨by decide, by decide,
    C7_literal_round_trip (-2147483647) 20 (by decide) (by decide) (by decide)⟩

/-! ## Claim C8: the push encodings -/

theorem push_encoded_push_at (m pc op : Nat) (k : Int) (h : push_encoded m pc op k) :
    PushAt m pc (wval k) (push_length op) := by
  obtain ⟨h0, ⟨h1, h2⟩ | ⟨h1, h2, h3, h4⟩ | ⟨h1, h2, h3, h4⟩⟩ := h
  · subst h1
    exact Or.inr (Or.inr ⟨h0, by decide, h2⟩)
  · subst h1
    refine Or.inr (Or.inl ⟨h0, by decide, ?_⟩)
    rw [h4]
    unfold sext16 wval
    split_ifs <;> omega
  · subst h1
    refine Or.inl ⟨h0, by decide, ?_⟩
    rw [h4]
    unfold sext8 wval
    split_ifs <;> omega

theorem sval_wval (k : Int) (hlo : -2147483648 ≤ k) (hhi : k < 2147483648) : sval (wval k) = k := by
  unfold sval wval
  split_ifs <;> omega

/-- Claim C8. The three push encodings are interchangeable in the VM. Let the
instruction at `pc` be `PUSH k`, `PUSHW k` (with `k` in `-32768..32767`) or
`PUSHB k` (with `k` in `-128..127`). Executing it with fewer than 4 bytes
between `end_` and `sp` latches `Stack overflow`; otherwise it writes the
32-bit pattern of `k`, which reads back as `k`, at `sp - 4`, moves `sp` down
by one cell, leaves `bp` alone and advances `pc` past the instruction. The
outcome depends on the encoding only through the new `pc`. -/
theorem C8_push_encodings_interchangeable (end_ pc sp bp : Nat) (s : State) (op : Nat) (k : Int)
    (hlo : -2147483648 ≤ k) (hhi : k < 2147483648) (h : push_encoded s.the_store pc op k) :
    step end_ pc sp bp s =
        (if sp < end_ + 4 then Step.done 0 (complain s "Stack overflow")
         else Step.next (pc + push_length op) (sp - 4) bp (poke s (sp - 4) (wval k))) ∧
      fetch_wV (poke s (sp - 4) (wval k)).the_store (sp - 4) = wval k ∧
      sval (wval k) = k := by
  refine ⟨?_, ?_, sval_wval k hlo hhi⟩
  · rw [step_push end_ pc sp bp s (wval k) (push_length op) (push_encoded_push_at _ _ _ _ h)]
    rfl
  · rw [poke_fetch_same]
    unfold wval
    omega

/-- An instance of claim C8: `PUSHB -5`, `PUSHW -5` and `PUSH -5`, found at
offsets 8, 10 and 13 of one store, executed with `sp = 100`. -/
theorem C8_three_pushes_of_minus_five :
    ((-2147483648 : Int) ≤ -5 ∧ (-5 : Int) < 2147483648 ∧
      push_encoded three_pushes.the_store 8 PUSHB (-5) ∧
      push_encoded three_pushes.the_store 10 PUSHW (-5) ∧
      push_encoded three_pushes.the_store 13 PUSH (-5)) ∧
    step 20 8 100 100 three_pushes = Step.next 10 96 100 (poke three_pushes 96 4294967291) ∧
    step 20 10 100 100 three_pushes = Step.next 13 96 100 (poke three_pushes 96 4294967291) ∧
    step 20 13 100 100 three_pushes = Step.next 18 96 100 (poke three_pushes 96 4294967291) :=
  have hB : push_encoded three_pushes.the_store 8 PUSHB (-5) := by unfold push_encoded; decide
  have hW : push_encoded three_pushes.the_store 10 PUSHW (-5) := by unfold push_encoded; decide
  have hV : push_encoded three_pushes.the_store 13 PUSH (-5) := by unfold push_encoded; decide
  ⟨⟨by decide, by decide, hB, hW, hV⟩,
    (C8_push_encodings_interchangeable 20 8 100 100 three_pushes PUSHB (-5) (by decide)
      (by decide) hB).1,
    (C8_push_encodings_interchangeable 20 10 100 100 three_pushes PUSHW (-5) (by decide)
      (by decide) hW).1,
    (C8_push_encodings_interchangeable 20 13 100 100 three_pushes PUSH (-5) (by decide)
      (by decide) hV).1⟩

/-! ## The cursors after `wren_initialize` -/

set_option maxRecDepth 1000000 in
/-- Claim C10, the failing input: the command `cp : 100` typed at the first
prompt is a top-level expression that latches no complaint, and `code_idx` is
21 before it and 100 after it. -/
theorem C10_assignment_to_cp_moves_code_idx :
    (repl_after 40 (bytes_of "cp : 100\n") 0).map code_idx = some 21 ∧
      command_complaint 40 (bytes_of "cp : 100\n") 0 = some none ∧
      ((repl_after 40 (bytes_of "cp : 100\n") 0).bind (run_command 40 true)).map code_idx =
        some 100 := by
  decide!

/-- Claim C10, amended. Scratch code is reclaimed before it is run: for every
top-level expression command, run with `code_idx` at 4 or more (past its own
four bytes, so that no byte of code is stored into it), the compiler
ends with `code_idx` set back to its value before the command. If something
complained by then, nothing is run and `code_idx` after the command equals
`code_idx` before it. Otherwise the code is run from that state, and
`code_idx` after the command is what the run leaves: its value before the
command when the run stays clear of the cursor cells. -/
theorem C10_scratch_code_reclaimed_before_run (fuel : Nat) (outp : Bool) (s s' : State)
    (h4 : 4 ≤ code_idx s) (h10 : s.token ≠ 10) (hf : s.token ≠ 102) (hl : s.token ≠ 108)
    (ho : s.token ≠ 111) (h : run_command fuel outp s = some s') :
    ∃ S, parse_expr fuel (-1) s = some S ∧
      code_idx (rewound (code_idx s) S) = code_idx s ∧
      ((rewound (code_idx s) S).complaint ≠ none → code_idx s' = code_idx s) ∧
      ((rewound (code_idx s) S).complaint = none →
        ∃ v s4, run fuel (code_idx s) (code_idx (gen (parse_done S) HALT))
            (rewound (code_idx s) S) = some (v, s4) ∧
          (s4.complaint = none ∨ 4 ≤ code_idx s4 → code_idx s' = code_idx s4) ∧
          (8 ≤ code_idx (gen (parse_done S) HALT) →
            run_clear (code_idx (gen (parse_done S) HALT)) fuel (code_idx s)
              (dict_idx (rewound (code_idx s) S) / 4 * 4)
              (dict_idx (rewound (code_idx s) S) / 4 * 4) (rewound (code_idx s) S) = true →
            code_idx s' = code_idx s)) := by
  obtain ⟨f, rfl⟩ : ∃ f, fuel = f + 1 := by
    cases fuel with
    | zero => simp [run_command, skip_newline] at h
    | succ f => exact ⟨f, rfl⟩
  have hsk : skip_newline (f + 1) s = some s := by simp [skip_newline, h10]
  unfold run_command at h
  rw [hsk] at h
  simp only [hf, hl, ho, if_false, run_expr, scratch_expr] at h
  cases hp : parse_expr (f + 1) (-1) s with
  | none =>
    rw [hp] at h
    cases h
  | some S =>
    rw [hp] at h
    simp only [] at h
    have hrw := rewound_code_idx s S
    have e : set_code_idx (gen (parse_done S) HALT) (code_idx s) = rewound (code_idx s) S := rfl
    rw [e] at h
    refine ⟨S, rfl, hrw, ?_, ?_⟩
    · intro hc
      have hc' : (rewound (code_idx s) S).complaint.isSome = true := by
        cases hx : (rewound (code_idx s) S).complaint with
        | none => exact absurd hx hc
        | some m => rfl
      have hn : ¬ ((rewound (code_idx s) S).complaint.isNone = true ∧ outp = true) := by
        intro hx
        exact hc (Option.isNone_iff_eq_none.1 hx.1)
      rw [if_pos hc'] at h
      simp only [] at h
      rw [if_neg hn] at h
      simp only [] at h
      rw [run_command_tail (f + 1) _ s' h (Or.inr (by rw [hrw]; omega)), hrw]
    · intro hc
      have hc' : ¬ ((rewound (code_idx s) S).complaint.isSome = true) := by
        rw [hc]
        simp
      rw [if_neg hc'] at h
      cases hr : run (f + 1) (code_idx s) (code_idx (gen (parse_done S) HALT))
          (rewound (code_idx s) S) with
      | none =>
        rw [hr] at h
        cases h
      | some p =>
        obtain ⟨v, s4⟩ := p
        rw [hr] at h
        simp only [] at h
        have key : s4.complaint = none ∨ 4 ≤ code_idx s4 → code_idx s' = code_idx s4 := by
          intro hx
          split_ifs at h with hq
          · simp only [] at h
            exact run_command_tail (f + 1) { s4 with out := s4.out ++ decimal v ++ [10] } s' h
              (Or.inl (Option.isNone_iff_eq_none.1 hq.1))
          · simp only [] at h
            exact run_command_tail (f + 1) s4 s' h (hx.imp id (fun h => by omega))
        refine ⟨v, s4, rfl, key, ?_⟩
        intro h8 hclear
        have hk := run_loop_keeps _ h8 (f + 1) _ _ _ _ v s4 hclear hr
        have e4 : code_idx s4 = code_idx s := (congrArg Prod.fst hk).trans hrw
        rw [key (Or.inr (by rw [e4]; exact h4)), e4]


theorem some_state_of (o : Option State) (h : o.isSome = true) : o = some (state_of o) := by
  cases o with
  | none => cases h
  | some t => rfl

set_option maxRecDepth 1000000 in
/-- Two instances of claim C10. The command `1 +` typed at the first prompt is
refused by the compiler, and `code_idx` is 21 before and after it. The
command `5 + 7` is compiled with no complaint and run; the run stays clear of
the cursor cells, and `code_idx` is 21 before and after the command. -/
theorem C10_one_plus_and_five_plus_seven :
    ((4 ≤ code_idx one_plus ∧ one_plus.token ≠ 10 ∧ one_plus.token ≠ 102 ∧
        one_plus.token ≠ 108 ∧ one_plus.token ≠ 111 ∧
        (run_command 30 true one_plus).isSome = true) ∧
      (4 ≤ code_idx five_plus_seven_typed ∧ five_plus_seven_typed.token ≠ 10 ∧
        five_plus_seven_typed.token ≠ 102 ∧ five_plus_seven_typed.token ≠ 108 ∧
        five_plus_seven_typed.token ≠ 111 ∧
        (run_command 30 true five_plus_seven_typed).isSome = true)) ∧
    (code_idx one_plus = 21 ∧
      (run_command 30 true one_plus).map (fun t => (t.complaint.isSome, code_idx t)) =
        some (true, 21)) ∧
    (∃ S, parse_expr 30 (-1) one_plus = some S ∧
      code_idx (rewound (code_idx one_plus) S) = code_idx one_plus ∧
      ((rewound (code_idx one_plus) S).complaint ≠ none →
        code_idx (state_of (run_command 30 true one_plus)) = code_idx one_plus)) ∧
    (code_idx five_plus_seven_typed = 21 ∧
      (run_command 30 true five_plus_seven_typed).map
        (fun t => (t.complaint, code_idx t, t.out.drop five_plus_seven_typed.out.length)) =
        some (none, 21, bytes_of "12\n")) ∧
    code_idx (state_of (run_command 30 true five_plus_seven_typed)) =
      code_idx five_plus_seven_typed :=
  have h4 : 4 ≤ code_idx one_plus := by decide!
  have h10 : one_plus.token ≠ 10 := by decide!
  have hf : one_plus.token ≠ 102 := by decide!
  have hl : one_plus.token ≠ 108 := by decide!
  have ho : one_plus.token ≠ 111 := by decide!
  have hs : (run_command 30 true one_plus).isSome = true := by decide!
  have k4 : 4 ≤ code_idx five_plus_seven_typed := by decide!
  have k10 : five_plus_seven_typed.token ≠ 10 := by decide!
  have kf : five_plus_seven_typed.token ≠ 102 := by decide!
  have kl : five_plus_seven_typed.token ≠ 108 := by decide!
  have ko : five_plus_seven_typed.token ≠ 111 := by decide!
  have ks : (run_command 30 true five_plus_seven_typed).isSome = true := by decide!
  have kp : parse_expr 30 (-1) five_plus_seven_typed =
      some (state_of (parse_expr 30 (-1) five_plus_seven_typed)) :=
    some_state_of _ (by decide!)
  have kc : (rewound (code_idx five_plus_seven_typed)
      (state_of (parse_expr 30 (-1) five_plus_seven_typed))).complaint = none := by decide!
  have k8 : 8 ≤ code_idx (gen (parse_done (state_of (parse_expr 30 (-1) five_plus_seven_typed)))
      HALT) := by decide!
  have kr : run_clear
      (code_idx (gen (parse_done (state_of (parse_expr 30 (-1) five_plus_seven_typed))) HALT)) 30
      (code_idx five_plus_seven_typed)
      (dict_idx (rewound (code_idx five_plus_seven_typed)
        (state_of (parse_expr 30 (-1) five_plus_seven_typed))) / 4 * 4)
      (dict_idx (rewound (code_idx five_plus_seven_typed)
        (state_of (parse_expr 30 (-1) five_plus_seven_typed))) / 4 * 4)
      (rewound (code_idx five_plus_seven_typed)
        (state_of (parse_expr 30 (-1) five_plus_seven_typed))) = true := by decide!
  have hS := C10_scratch_code_reclaimed_before_run 30 true one_plus
    (state_of (run_command 30 true one_plus)) h4 h10 hf hl ho (some_state_of _ hs)
  have kS := C10_scratch_code_reclaimed_before_run 30 true five_plus_seven_typed
    (state_of (run_command 30 true five_plus_seven_typed)) k4 k10 kf kl ko (some_state_of _ ks)
  ⟨⟨⟨h4, h10, hf, hl, ho, hs⟩, ⟨k4, k10, kf, kl, ko, ks⟩⟩, by decide!,
    hS.elim (fun S hx => ⟨S, hx.1, hx.2.1, hx.2.2.1⟩), by decide!,
    kS.elim (fun S hx =>
      have e : state_of (parse_expr 30 (-1) five_plus_seven_typed) = S :=
        Option.some.inj (kp.symm.trans hx.1)
      (hx.2.2.2 (e ▸ kc)).elim (fun _ hv => hv.elim (fun _ h => h.2.2 (e ▸ k8) (e ▸ kr))))⟩

/-! ## Claim C20: matched fetch and write -/

/-- Claim C20. Matched fetch/store pairs round-trip at every offset, aligned
or not: in every store `m`, at every offset `o`, `fetch_wV` after `write_wV`
returns the 32-bit word written, `fetch_wX` after `write_wX` the 16-bit index
written, and `fetch_2i` after `write_2i` the `int16_t` written (read through
its sign extension); a write changes no byte outside the 4 or 2 bytes from
`o` on. -/
theorem C20_fetch_after_write_round_trips (m o v x : Nat) (k : Int) (hv : v < 4294967296)
    (hx : x < 65536) (hlo : -32768 ≤ k) (hhi : k ≤ 32767) :
    (fetch_wV (write_wV m o v) o = v ∧ fetch_wX (write_wX m o x) o = x ∧
      sval (sext16 (fetch_2i (write_2i m o (wval k)) o)) = k) ∧
    (∀ q, q < o ∨ o + 4 ≤ q → fetch_u8 (write_wV m o v) q = fetch_u8 m q) ∧
    (∀ q, q < o ∨ o + 2 ≤ q → fetch_u8 (write_wX m o x) q = fetch_u8 m q) ∧
    (∀ q, q < o ∨ o + 2 ≤ q → fetch_u8 (write_2i m o (wval k)) q = fetch_u8 m q) := by
  refine ⟨⟨?_, ?_, ?_⟩, ?_, ?_, ?_⟩
  · rw [fetch_wV_eq, write_wV_eq, fetch_bytes_write_bytes_same]
    exact Nat.mod_eq_of_lt hv
  · rw [fetch_wX_eq, write_wX_eq, fetch_bytes_write_bytes_same]
    exact Nat.mod_eq_of_lt hx
  · rw [fetch_2i_eq, write_2i_eq, fetch_bytes_write_bytes_same]
    unfold sval sext16 wval
    have e : (1 <<< (8 * 2) : Nat) = 65536 := by decide
    rw [e]
    split_ifs <;> omega
  · intro q hq
    rw [fetch_u8_eq, write_wV_eq, fetch_bytes_write_bytes_disjoint _ _ _ _ _ _ (by omega)]
    rfl
  · intro q hq
    rw [fetch_u8_eq, write_wX_eq, fetch_bytes_write_bytes_disjoint _ _ _ _ _ _ (by omega)]
    rfl
  · intro q hq
    rw [fetch_u8_eq, write_2i_eq, fetch_bytes_write_bytes_disjoint _ _ _ _ _ _ (by omega)]
    rfl

/-- An instance of claim C20 at the odd offset 21 of the initial store: the
word `0xDEADBEEF`, the index 65535 and the `int16_t` -2. -/
theorem C20_round_trip_at_offset_21 :
    ((3735928559 : Nat) < 4294967296 ∧ (65535 : Nat) < 65536 ∧ (-32768 : Int) ≤ -2 ∧
      (-2 : Int) ≤ 32767) ∧
    fetch_wV (write_wV init_store 21 3735928559) 21 = 3735928559 ∧
    fetch_wX (write_wX init_store 21 65535) 21 = 65535 ∧
    sval (sext16 (fetch_2i (write_2i init_store 21 (wval (-2))) 21)) = -2 :=
  ⟨by decide,
    (C20_fetch_after_write_round_trips init_store 21 3735928559 65535 (-2) (by decide)
      (by decide) (by decide) (by decide)).1⟩

/-! ## Claim C19: the first complaint wins -/

theorem foldl_complain_latched (ms : List String) : ∀ (s : State) (c : String),
    s.complaint = some c → (ms.foldl complain s).complaint = some c := by
  induction ms with
  | nil => intro s c h; exact h
  | cons m ms ih =>
    intro s c h
    have e : complain s m = s := by
      unfold complain
      rw [h]
    rw [List.foldl_cons, e]
    exact ih s c h

/-- Claim C19. The complaint is first-wins: `complain m` sets the complaint
to `m` when none is latched and changes nothing otherwise, and it touches no
other part of the state; after any sequence of `complain` calls the latched
message is the one latched before them, or else the first of the sequence.
Every turn of the read-eval-print loop starts the next command with no
complaint latched. -/
theorem C19_first_complaint_wins (s : State) (m : String) (ms : List String) :
    (complain s m).complaint = some (s.complaint.getD m) ∧
    complain s m = { s with complaint := some (s.complaint.getD m) } ∧
    (ms.foldl complain s).complaint = (s.complaint.orElse fun _ => ms.head?) ∧
    (∀ fuel s', repl_turn fuel s = some s' → s'.complaint = none) := by
  refine ⟨?_, ?_, ?_, ?_⟩
  · obtain ⟨st, c, p, i, tk, tv, tn, f, si, o⟩ := s
    cases c <;> rfl
  · obtain ⟨st, c, p, i, tk, tv, tn, f, si, o⟩ := s
    cases c <;> rfl
  · cases ms with
    | nil =>
      obtain ⟨st, c, p, i, tk, tv, tn, f, si, o⟩ := s
      cases c <;> rfl
    | cons m0 ms =>
      cases h : s.complaint with
      | none =>
        have e : (complain s m0).complaint = some m0 := by
          unfold complain
          rw [h]
        rw [List.foldl_cons, foldl_complain_latched ms _ m0 e]
        rfl
      | some c =>
        rw [foldl_complain_latched (m0 :: ms) s c h]
        rfl
  · intro fuel s' h
    unfold repl_turn at h
    split at h
    · cases h
    · split at h
      · cases h
      · cases h
        rfl

/-! ## Claim C18: `available` -/

set_option maxRecDepth 100000 in
/-- Claim C18, the failing input: in the state `wren_initialize` leaves,
`available (2^32 - 1)` returns true although `code_idx + n` is far above
`dict_idx`: the sum is computed in 32 bits and wraps to 20. -/
theorem C18_available_wraps :
    code_idx ( wren_initialize (fresh [] [])) = 21 ∧
      dict_idx ( wren_initialize (fresh [] [])) = 4070 ∧
      (available ( wren_initialize (fresh [] [])) 4294967295).1 = true ∧
      ¬ (code_idx ( wren_initialize (fresh [] [])) + 4294967295 ≤
        dict_idx ( wren_initialize (fresh [] []))) := by
  decide!

/-- Claim C18, amended. `available n` returns true if and only if
`(code_idx + n) mod 2^32 <= dict_idx`, which is `code_idx + n <= dict_idx`
whenever the sum does not overflow 32 bits. When it returns true the state is
unchanged; when it returns false the only change is that "Store exhausted"
is latched if no complaint was; in both cases no cursor and no byte of the
store changes. -/
theorem C18_available_checks_room (s : State) (n : Nat) :
    ((available s n).1 = true ↔ (code_idx s + n) % 4294967296 ≤ dict_idx s) ∧
    (code_idx s + n < 4294967296 → ((available s n).1 = true ↔ code_idx s + n ≤ dict_idx s)) ∧
    ((available s n).1 = true → (available s n).2 = s) ∧
    ((available s n).1 = false →
      (available s n).2 = { s with complaint := some (s.complaint.getD "Store exhausted") }) ∧
    (available s n).2.the_store = s.the_store ∧
    code_idx (available s n).2 = code_idx s ∧ dict_idx (available s n).2 = dict_idx s := by
  have hst : (available s n).2.the_store = s.the_store := available_store s n
  have hc : complain s "Store exhausted" =
      { s with complaint := some (s.complaint.getD "Store exhausted") } := by
    obtain ⟨st, c, p, i, tk, tv, tn, f, si, o⟩ := s
    cases c <;> rfl
  refine ⟨?_, ?_, ?_, ?_, hst, code_idx_of_store _ _ hst, ?_⟩
  · unfold available
    split_ifs with h <;> simp [h]
  · intro hlt
    rw [← Nat.mod_eq_of_lt hlt]
    unfold available
    split_ifs with h <;> simp [h]
  · unfold available
    split_ifs with h <;> simp
  · unfold available
    split_ifs with h
    · simp
    · intro _
      exact hc
  · simp only [dict_idx, hst]

/-! ## Claim C17: `bind` fails soft -/

set_option maxRecDepth 1000000 in
/-- Claim C17, the failing input: after the command `cp : -1`, `code_idx`
is `2^32 - 1`, so `code_idx + 3 + 1` is above `dict_idx = 4070`, and yet
`bind` of a one-letter name succeeds and returns the header at 4066: the sum
wraps to 3. -/
theorem C17_bind_succeeds_after_wrap :
    code_idx after_cp_minus_one = 4294967295 ∧ dict_idx after_cp_minus_one = 4070 ∧
      dict_idx after_cp_minus_one < code_idx after_cp_minus_one + 3 + 1 ∧
      (bind after_cp_minus_one [102] a_procedure 0).1 = some 4066 := by
  decide!

/-- Claim C17, amended. `bind` fails soft: when
`(code_idx + 3 + len) mod 2^32 > dict_idx`, which is
`code_idx + 3 + len > dict_idx` unless the sum overflows 32 bits, `bind`
returns none, leaves `dict_idx`, `code_idx` and every byte of the store
unchanged, and the complaint is "Store exhausted" unless an earlier complaint
was latched. -/
theorem C17_bind_fails_soft (s : State) (name : List Nat) (kind binding : Nat)
    (h : dict_idx s < (code_idx s + (3 + name.length)) % 4294967296) :
    (bind s name kind binding).1 = none ∧
    (bind s name kind binding).2 =
      { s with complaint := some (s.complaint.getD "Store exhausted") } ∧
    (bind s name kind binding).2.the_store = s.the_store ∧
    code_idx (bind s name kind binding).2 = code_idx s ∧
    dict_idx (bind s name kind binding).2 = dict_idx s := by
  have hc : complain s "Store exhausted" =
      { s with complaint := some (s.complaint.getD "Store exhausted") } := by
    obtain ⟨st, c, p, i, tk, tv, tn, f, si, o⟩ := s
    cases c <;> rfl
  have hn : ¬ ((code_idx s + (sizeof_Header + name.length)) % 4294967296 ≤ dict_idx s) := by
    unfold sizeof_Header
    omega
  have e : bind s name kind binding = (none, complain s "Store exhausted") := by
    unfold bind available
    simp only [hn, if_false]
  rw [e, hc]
  exact ⟨rfl, rfl, rfl, rfl, rfl⟩

set_option maxRecDepth 1000000 in
/-- An instance of claim C17: after the command `dp : 22` one byte is free,
and `bind` of a one-letter name is refused. -/
theorem C17_bind_refused_when_nearly_full :
    (code_idx nearly_full = 21 ∧ dict_idx nearly_full = 22 ∧
      dict_idx nearly_full < (code_idx nearly_full + (3 + [120].length)) % 4294967296) ∧
    (bind nearly_full [120] a_global 21).1 = none ∧
    (bind nearly_full [120] a_global 21).2.complaint = some "Store exhausted" ∧
    (bind nearly_full [120] a_global 21).2.the_store = nearly_full.the_store :=
  have h : dict_idx nearly_full < (code_idx nearly_full + (3 + [120].length)) % 4294967296 := by
    decide!
  ⟨⟨by decide!, by decide!, h⟩, (C17_bind_fails_soft nearly_full [120] a_global 21 h).1,
    by decide!, (C17_bind_fails_soft nearly_full [120] a_global 21 h).2.2.1⟩

/-! ## Claim C16: `bind` then `lookup` -/

theorem pack_lt (bs : List Nat) : pack bs < 1 <<< (8 * bs.length) := by
  induction bs with
  | nil => simp [pack]
  | cons b bs ih =>
    rw [Nat.one_shiftLeft] at ih ⊢
    have e : 2 ^ (8 * (b :: bs).length) = 256 * 2 ^ (8 * bs.length) := by
      rw [List.length_cons, Nat.mul_succ, Nat.pow_add, Nat.mul_comm]
    rw [e]
    unfold pack
    have := Nat.mod_lt b (by decide : 256 > 0)
    omega

theorem kind_lnm1_decode : ∀ kind < 16, ∀ len < 17, 0 < len →
    ((kind % 256) * 16 % 256 ||| ((len + 255) % 256) % 16) % 256 / 16 = kind ∧
    ((kind % 256) * 16 % 256 ||| ((len + 255) % 256) % 16) % 256 % 16 + 1 = len := by
  decide

/-- What a successful `bind` does, when the header comes to lie above the
cursor cells: the header address is `dict_idx - (3 + length)`, `dict_idx`
moves there, and only the bytes of the header are written. -/
theorem bind_ok (s : State) (name : List Nat) (kind binding : Nat)
    (hroom : code_idx s + (3 + name.length) ≤ dict_idx s) (h8 : 8 ≤ code_idx s)
    (hl1 : 1 ≤ name.length) (hl2 : name.length ≤ 16) (hk : kind < 16)
    (hb : binding < 65536) :
    ∃ s', bind s name kind binding = (some (dict_idx s - (3 + name.length)), s') ∧
      dict_idx s' = dict_idx s - (3 + name.length) ∧ code_idx s' = code_idx s ∧
      (∀ k q, 8 ≤ q → (q + k ≤ dict_idx s - (3 + name.length) ∨ dict_idx s ≤ q) →
        fetch_bytes k s'.the_store q = fetch_bytes k s.the_store q) ∧
      get_header_kind s'.the_store (dict_idx s - (3 + name.length)) = kind ∧
      get_header_name_length s'.the_store (dict_idx s - (3 + name.length)) = name.length ∧
      get_header_binding s'.the_store (dict_idx s - (3 + name.length)) = binding ∧
      fetch_bytes name.length s'.the_store (dict_idx s - (3 + name.length) + 3) = pack name ∧
      s' = { s with the_store := s'.the_store } := by
  have hd := dict_idx_lt s
  have hav : (code_idx s + (sizeof_Header + name.length)) % 4294967296 ≤ dict_idx s := by
    unfold sizeof_Header
    rw [Nat.mod_eq_of_lt (by omega)]
    exact hroom
  have hh : (dict_idx s + 4294967296 - (sizeof_Header + name.length) % 4294967296) % 4294967296 =
      dict_idx s - (3 + name.length) := by
    unfold sizeof_Header
    omega
  generalize hH : dict_idx s - (3 + name.length) = h at hh ⊢
  have hh8 : 8 ≤ h := by omega
  have hhd : h + (3 + name.length) = dict_idx s := by omega
  have hdd : fetch_bytes 4 s.the_store 4 = dict_idx s := rfl
  have e : bind s name kind binding = (some h, { s with
      the_store := write_string (set_header_binding (set_header_kind_lnm1
        (set_dict_idx s h).the_store h kind name.length) h binding) (h + sizeof_Header) name }) := by
    unfold bind available
    simp only [hav, if_true, hh]
    rfl
  refine ⟨_, e, ?_, ?_, ?_, ?_, ?_, ?_, ?_, rfl⟩
  all_goals simp only [set_dict_idx, set_header_binding, set_header_kind_lnm1, write_string,
    sizeof_Header, dict_idx, code_idx, get_header_kind, get_header_name_length,
    get_header_binding, fetch_wV_eq, fetch_wX_eq, fetch_u8_eq, write_wV_eq, write_wX_eq,
    write_u8_eq]
  · rw [fetch_bytes_write_bytes_disjoint _ _ _ _ _ _ (by omega),
      fetch_bytes_write_bytes_disjoint _ _ _ _ _ _ (by omega),
      fetch_bytes_write_bytes_disjoint _ _ _ _ _ _ (by omega), fetch_bytes_write_bytes_same]
    exact Nat.mod_eq_of_lt (by omega)
  · rw [fetch_bytes_write_bytes_disjoint _ _ _ _ _ _ (by omega),
      fetch_bytes_write_bytes_disjoint _ _ _ _ _ _ (by omega),
      fetch_bytes_write_bytes_disjoint _ _ _ _ _ _ (by omega),
      fetch_bytes_write_bytes_disjoint _ _ _ _ _ _ (by omega)]
  · intro k q hq8 hq
    have hq' : q + k ≤ h ∨ h + (3 + name.length) ≤ q := by omega
    rw [fetch_bytes_write_bytes_disjoint _ _ _ _ _ _ (by omega),
      fetch_bytes_write_bytes_disjoint _ _ _ _ _ _ (by omega),
      fetch_bytes_write_bytes_disjoint _ _ _ _ _ _ (by omega),
      fetch_bytes_write_bytes_disjoint _ _ _ _ _ _ (by omega)]
  · rw [fetch_bytes_write_bytes_disjoint _ _ _ _ _ _ (by omega),
      fetch_bytes_write_bytes_disjoint _ _ _ _ _ _ (by omega), fetch_bytes_write_bytes_same]
    exact (kind_lnm1_decode kind hk name.length (by omega) (by omega)).1
  · rw [fetch_bytes_write_bytes_disjoint _ _ _ _ _ _ (by omega),
      fetch_bytes_write_bytes_disjoint _ _ _ _ _ _ (by omega), fetch_bytes_write_bytes_same]
    exact (kind_lnm1_decode kind hk name.length (by omega) (by omega)).2
  · rw [fetch_bytes_write_bytes_disjoint _ _ _ _ _ _ (by omega), fetch_bytes_write_bytes_same]
    exact Nat.mod_eq_of_lt (by omega)
  · rw [fetch_bytes_write_bytes_same]
    exact Nat.mod_eq_of_lt (pack_lt name)

/-- A header at `h`, inside `[h, end_)`, that carries `name` is what `lookup`
from `h` returns. -/
theorem lookup_first (m h end_ : Nat) (name : List Nat) (hlt : h < end_)
    (hlen : get_header_name_length m h = name.length)
    (hname : fetch_bytes name.length m (h + 3) = pack name) :
    lookup m h end_ name = some h := by
  unfold lookup
  obtain ⟨f, hf⟩ : ∃ f, end_ - h = f + 1 := ⟨end_ - h - 1, by omega⟩
  rw [hf, lookup_loop]
  simp [hlt, hlen, hname, sizeof_Header]

set_option maxRecDepth 1000000 in
/-- Claim C16, the failing input: after the command `cp : 4 ; dp : 11` the
cursors are 4 and 11. `bind` of the one-letter name `x` then succeeds and
returns the header at 7, but the header overlaps the cell of `dict_idx`:
`dict_idx` ends as 352321543, not 7, and `lookup` of `x` from there finds
nothing. -/
theorem C16_header_over_the_cursor :
    code_idx low_cursors = 4 ∧ dict_idx low_cursors = 11 ∧
      (bind low_cursors [120] a_global 21).1 = some 7 ∧
      dict_idx (bind low_cursors [120] a_global 21).2 = 352321543 ∧
      lookup (bind low_cursors [120] a_global 21).2.the_store
        (dict_idx (bind low_cursors [120] a_global 21).2) store_capacity [120] = none := by
  decide!

/-- Claim C16, amended. `bind` then `lookup`, most recent wins, in a state
whose cursors satisfy `8 <= code_idx <= dict_idx <= S`: for every name of
length 1..16, every kind and every binding `<= 65535`, when `bind` succeeds
`dict_idx` has decreased by exactly `3 + length` to the header returned, a
`lookup` of that name from the new `dict_idx` to the end of the store returns
that header whatever older headers there are, and its decoded kind, name
length, binding and name are the arguments of `bind`; `code_idx` and every
byte from offset 8 on outside the header are unchanged. -/
theorem C16_bind_then_lookup (s : State) (name : List Nat) (kind binding h : Nat)
    (hl1 : 1 ≤ name.length) (hl2 : name.length ≤ 16) (hk : kind ≤ a_cfunction)
    (hb : binding ≤ 65535) (h8 : 8 ≤ code_idx s) (hcd : code_idx s ≤ dict_idx s)
    (hS : dict_idx s ≤ store_capacity) (hbind : (bind s name kind binding).1 = some h) :
    h + (3 + name.length) = dict_idx s ∧
    dict_idx (bind s name kind binding).2 = h ∧
    lookup (bind s name kind binding).2.the_store (dict_idx (bind s name kind binding).2)
      store_capacity name = some h ∧
    get_header_kind (bind s name kind binding).2.the_store h = kind ∧
    get_header_name_length (bind s name kind binding).2.the_store h = name.length ∧
    get_header_binding (bind s name kind binding).2.the_store h = binding ∧
    fetch_bytes name.length (bind s name kind binding).2.the_store (h + 3) = pack name ∧
    code_idx (bind s name kind binding).2 = code_idx s ∧
    (∀ k q, 8 ≤ q → (q + k ≤ h ∨ dict_idx s ≤ q) →
      fetch_bytes k (bind s name kind binding).2.the_store q = fetch_bytes k s.the_store q) := by
  have hcap : store_capacity = 4096 := rfl
  have hroom : code_idx s + (3 + name.length) ≤ dict_idx s := by
    by_contra hn
    have hw : ¬ (code_idx s + (sizeof_Header + name.length)) % 4294967296 ≤ dict_idx s := by
      unfold sizeof_Header
      rw [Nat.mod_eq_of_lt (by omega)]
      exact hn
    simp only [bind, available, if_neg hw] at hbind
    cases hbind
  obtain ⟨s', e, h1, h2, h3, h4, h5, h6, h7, -⟩ := bind_ok s name kind binding hroom h8 hl1 hl2
    (by unfold a_cfunction at hk; omega) (by omega)
  rw [e] at hbind ⊢
  have hh : dict_idx s - (3 + name.length) = h := Option.some.inj hbind
  rw [hh] at h1 h3 h4 h5 h6 h7
  refine ⟨by omega, h1, ?_, h4, h5, h6, h7, h2, h3⟩
  simp only [h1]
  exact lookup_first _ h store_capacity name (by omega) h5 h7

set_option maxRecDepth 1000000 in
/-- An instance of claim C16: in the state `wren_initialize` leaves, where
`cp` is bound as a global at 0, binding `cp` once more as a procedure at 21
puts the new header at 4065, and `lookup` finds the new one. -/
theorem C16_rebinding_cp :
    ((1 ≤ [99, 112].length ∧ [99, 112].length ≤ 16 ∧ a_procedure ≤ a_cfunction ∧ 21 ≤ 65535) ∧
      8 ≤ code_idx ( wren_initialize (fresh [] [])) ∧
      code_idx ( wren_initialize (fresh [] [])) ≤ dict_idx ( wren_initialize (fresh [] [])) ∧
      dict_idx ( wren_initialize (fresh [] [])) ≤ store_capacity ∧
      (bind ( wren_initialize (fresh [] [])) [99, 112] a_procedure 21).1 = some 4065) ∧
    lookup ( wren_initialize (fresh [] [])).the_store 4070 store_capacity [99, 112] =
      some 4091 ∧
    lookup (bind ( wren_initialize (fresh [] [])) [99, 112] a_procedure 21).2.the_store
      (dict_idx (bind ( wren_initialize (fresh [] [])) [99, 112] a_procedure 21).2)
      store_capacity [99, 112] = some 4065 :=
  have hb : (bind ( wren_initialize (fresh [] [])) [99, 112] a_procedure 21).1 = some 4065 := by
    decide!
  have h8 : 8 ≤ code_idx ( wren_initialize (fresh [] [])) := by decide!
  have hcd : code_idx ( wren_initialize (fresh [] [])) ≤
      dict_idx ( wren_initialize (fresh [] [])) := by decide!
  have hS : dict_idx ( wren_initialize (fresh [] [])) ≤ store_capacity := by decide!
  ⟨⟨by decide, h8, hcd, hS, hb⟩, by decide!,
    (C16_bind_then_lookup ( wren_initialize (fresh [] [])) [99, 112] a_procedure 21 4065
      (by decide) (by decide) (by decide) (by decide) h8 hcd hS hb).2.2.1⟩

/-! ## Claim C15: `let` without an initializer -/

set_option maxRecDepth 1000000 in
/-- Claim C15, the failing input: the command `let x` followed by a newline,
typed at the first prompt, latches the complaint `Expected '='` and prints
it. -/
theorem C15_let_x_is_refused :
    command_result 40 (bytes_of "let x\n") 0 =
      some (some "Expected '='", bytes_of "Expected '='\r\n") := by
  decide!

/-- Claim C15, amended. `let NAME` followed by a newline is not an accepted
command: `run_let`, entered with the identifier as the token and the newline
as the character that follows, given room in the store (and cursors with
`8 <= code_idx`, `dict_idx <= S`), returns with the complaint `Expected '='`
latched. The rest of the claim holds: one zero-filled word is reserved at the
old `code_idx` and NAME is bound as a global whose binding is that offset,
the header being the first of the dictionary. -/
theorem C15_let_without_initializer (fuel : Nat) (s : State)
    (htok : s.token = 97) (hnl : s.input_char = 10) (hc : s.complaint = none)
    (hl1 : 1 ≤ s.token_name.length) (hl2 : s.token_name.length ≤ 16)
    (h8 : 8 ≤ code_idx s)
    (hroom : code_idx s + 4 + (3 + s.token_name.length) ≤ dict_idx s)
    (hS : dict_idx s ≤ store_capacity) :
    ∃ s', run_let (fuel + 1) s = some s' ∧
      s'.complaint = some "Expected '='" ∧
      code_idx s' = code_idx s + 4 ∧
      fetch_wV s'.the_store (code_idx s) = 0 ∧
      dict_idx s' = dict_idx s - (3 + s.token_name.length) ∧
      lookup s'.the_store (dict_idx s') store_capacity s.token_name = some (dict_idx s') ∧
      get_header_kind s'.the_store (dict_idx s') = a_global ∧
      get_header_binding s'.the_store (dict_idx s') = code_idx s := by
  have hcap : store_capacity = 4096 := rfl
  have e1 : expect s 97 "Expected identifier" = (true, s) := by simp [expect, htok]
  have e2 : available s 4 = (true, s) := available_ok s 4 (by omega)
  have e3 : gen_value s 0 = emit 4 s 0 s.prev_instruc := gen_value_eq s 0 (by omega)
  obtain ⟨em, hz, -⟩ := emit_spec 4 s 0 (code_idx s) s.prev_instruc rfl h8 (by omega)
  generalize hs1 : emit 4 s 0 s.prev_instruc = s1 at e3 em hz
  have hn1 : s1.token_name = s.token_name := by rw [← hs1]; rfl
  have hi1 : s1.input_char = 10 := by rw [← hs1]; exact hnl
  obtain ⟨s2, eb, d2, c2, f2, k2, l2, b2, n2, sh2⟩ :=
    bind_ok s1 s1.token_name a_global (code_idx s) (by rw [em.code, em.dict, hn1]; omega)
      (by rw [em.code]; omega) (by rw [hn1]; exact hl1) (by rw [hn1]; exact hl2) (by decide)
      (by omega)
  rw [em.dict, hn1] at d2 f2 k2 l2 b2 n2
  rw [em.code] at c2
  have hi2 : s2.input_char = 10 := by rw [sh2]; exact hi1
  have hc2 : s2.complaint = none := by rw [sh2]; exact em.complaint.trans hc
  have hst : (complain { s2 with token := 10, input_char := unread } "Expected '='").the_store =
      s2.the_store := complain_store _ _
  have hd : dict_idx (complain { s2 with token := 10, input_char := unread } "Expected '='") =
      dict_idx s - (3 + s.token_name.length) := by
    rw [← d2]
    simp only [dict_idx, hst]
  refine ⟨complain { s2 with token := 10, input_char := unread } "Expected '='", ?_, ?_, ?_, ?_,
    hd, ?_, ?_, ?_⟩
  · unfold run_let
    simp only [e1, e2, e3, eb, next_newline fuel s2 hi2]
    simp [expect]
  · simp [complain, hc2]
  · rw [← c2]
    exact code_idx_of_store s2 _ hst
  · rw [hst, fetch_wV_eq, f2 4 (code_idx s) h8 (Or.inl (by omega)), hz]
    rfl
  · rw [hd, hst]
    exact lookup_first _ _ store_capacity s.token_name (by omega) l2 n2
  · rw [hd, hst]
    exact k2
  · rw [hd, hst]
    exact b2

set_option maxRecDepth 1000000 in
/-- An instance of claim C15: `run_let` entered for the command `let x` typed
at the first prompt, with the cursors at (21, 4070). -/
theorem C15_let_x_at_the_first_prompt :
    (let_x_entered.token = 97 ∧ let_x_entered.input_char = 10 ∧
      let_x_entered.complaint = none ∧ let_x_entered.token_name = [120] ∧
      cursors let_x_entered = (21, 4070)) ∧
    ∃ s', run_let 40 let_x_entered = some s' ∧ s'.complaint = some "Expected '='" ∧
      code_idx s' = code_idx let_x_entered + 4 ∧
      fetch_wV s'.the_store (code_idx let_x_entered) = 0 ∧
      dict_idx s' = dict_idx let_x_entered - (3 + let_x_entered.token_name.length) ∧
      lookup s'.the_store (dict_idx s') store_capacity let_x_entered.token_name =
        some (dict_idx s') ∧
      get_header_kind s'.the_store (dict_idx s') = a_global ∧
      get_header_binding s'.the_store (dict_idx s') = code_idx let_x_entered :=
  ⟨by decide!,
    C15_let_without_initializer 39 let_x_entered (by decide!) (by decide!) (by decide!)
      (by decide!) (by decide!) (by decide!) (by decide!) (by decide!)⟩

/-! ## The lexer and the complaint -/

theorem ch_complaint (s : State) : (ch s).2.complaint = s.complaint := by
  unfold ch
  split_ifs
  · cases s.in_file <;> rfl
  · rfl

theorem next_char_complaint (s : State) : (next_char s).complaint = s.complaint := by
  unfold next_char
  split_ifs <;> rfl

theorem complain_latched (s : State) (msg : String) :
    (complain s msg).complaint.isSome = true := by
  obtain ⟨st, c, p, i, tk, tv, tn, f, si, o⟩ := s
  cases c <;> rfl

theorem available_false (s : State) (n : Nat) (s' : State) (h : available s n = (false, s')) :
    s'.complaint.isSome = true := by
  unfold available at h
  split_ifs at h
  · cases h
  · cases h
    exact complain_latched s _

theorem available_true (s : State) (n : Nat) (s' : State) (h : available s n = (true, s')) :
    s' = s := by
  unfold available at h
  split_ifs at h
  · cases h
    rfl
  · cases h

theorem skip_line_complaint (fuel : Nat) : ∀ (s s' : State), skip_line fuel s = some s' →
    s'.complaint = s.complaint := by
  induction fuel with
  | zero => intro s s' h; cases h
  | succ f ih =>
    intro s s' h
    have hc := ch_complaint s
    rw [skip_line] at h
    generalize ch s = r at h hc
    obtain ⟨c, s1⟩ := r
    simp only [] at h hc
    split_ifs at h
    · rw [ih _ _ h, next_char_complaint, hc]
    · cases h
      exact hc

theorem lex_hex_complaint (fuel : Nat) : ∀ (k : Nat) (s : State) (k' : Nat) (s' : State),
    lex_hex fuel k s = some (k', s') → s'.complaint = s.complaint := by
  induction fuel with
  | zero => intro k s k' s' h; cases h
  | succ f ih =>
    intro k s k' s' h
    have hc := ch_complaint s
    rw [lex_hex] at h
    generalize ch s = r at h hc
    obtain ⟨c, s1⟩ := r
    simp only [] at h hc
    split_ifs at h
    · rw [ih _ _ _ _ h, next_char_complaint]
      exact hc
    · cases h
      exact hc

theorem lex_number_latched (fuel : Nat) : ∀ (s s' : State), lex_number fuel s = some s' →
    s.complaint.isSome = true → s'.complaint.isSome = true := by
  induction fuel with
  | zero => intro s s' h; cases h
  | succ f ih =>
    intro s s' h hl
    have hc := ch_complaint s
    rw [lex_number] at h
    generalize ch s = r at h hc
    obtain ⟨c, s1⟩ := r
    simp only [] at h hc
    have hc2 := ch_complaint (next_char { s1 with
      token_value := (10 * s1.token_value + c.toNat - 48) % 4294967296 })
    generalize ch (next_char { s1 with
      token_value := (10 * s1.token_value + c.toNat - 48) % 4294967296 }) = r2 at h hc2
    obtain ⟨c2, s2⟩ := r2
    simp only [] at h hc2
    have e2 : s2.complaint = s.complaint := by rw [hc2, next_char_complaint]; exact hc
    split_ifs at h
    · generalize hh : lex_hex f 0 (next_char s2) = r3 at h
      cases r3 with
      | none => cases h
      | some p =>
        obtain ⟨k, s3⟩ := p
        have e3 : s3.complaint = s.complaint := by
          rw [lex_hex_complaint f _ _ _ _ hh, next_char_complaint, e2]
        simp only [] at h
        split_ifs at h <;> cases h
        · exact complain_latched _ _
        · exact complain_latched _ _
        · rw [e3]; exact hl
    · cases h
      exact complain_latched _ _
    · exact ih _ _ h (by rw [e2]; exact hl)
    · cases h
      rw [e2]; exact hl

theorem lex_ident_latched (fuel : Nat) : ∀ (name : List Nat) (s : State) (name' : List Nat)
    (s' : State), lex_ident fuel name s = some (name', s') →
    s.complaint.isSome = true → s'.complaint.isSome = true := by
  induction fuel with
  | zero => intro name s name' s' h; cases h
  | succ f ih =>
    intro name s name' s' h hl
    rw [lex_ident] at h
    split_ifs at h
    · cases h
      exact complain_latched s _
    · have hc := ch_complaint s
      generalize ch s = r at h hc
      obtain ⟨c, s1⟩ := r
      simp only [] at h hc
      have hc2 := ch_complaint (next_char s1)
      generalize ch (next_char s1) = r2 at h hc2
      obtain ⟨c2, s2⟩ := r2
      simp only [] at h hc2
      have e2 : s2.complaint = s.complaint := by rw [hc2, next_char_complaint]; exact hc
      split_ifs at h
      · exact ih _ _ _ _ h (by rw [e2]; exact hl)
      · cases h
        rw [e2]; exact hl

/-- A string token ends as the token `'`, or with a complaint. -/
theorem lex_string_token (fuel : Nat) : ∀ (p : Nat) (s s' : State),
    lex_string fuel p s = some s' →
    (s'.token = 39 ∨ s'.complaint.isSome = true) ∧
      (s.complaint.isSome = true → s'.complaint.isSome = true) := by
  induction fuel with
  | zero => intro p s s' h; cases h
  | succ f ih =>
    intro p s s' h
    have hc := ch_complaint s
    rw [lex_string] at h
    generalize ch s = r at h hc
    obtain ⟨c, s1⟩ := r
    simp only [] at h hc
    split_ifs at h
    · cases h
      refine ⟨Or.inl rfl, fun hl => ?_⟩
      show (next_char s1).complaint.isSome = true
      rw [next_char_complaint, hc]
      exact hl
    · cases h
      exact ⟨Or.inr (complain_latched s1 _), fun _ => complain_latched s1 _⟩
    · generalize ha : available s1 (p + 2 - code_idx s1) = r2 at h
      obtain ⟨b, s2⟩ := r2
      cases b with
      | false =>
        cases h
        have := available_false _ _ _ ha
        exact ⟨Or.inr this, fun _ => this⟩
      | true =>
        simp only [] at h
        have e2 := available_true _ _ _ ha
        subst e2
        obtain ⟨h1, h2⟩ := ih (p + 1) _ _ h
        refine ⟨h1, fun hl => h2 ?_⟩
        show (next_char _).complaint.isSome = true
        rw [next_char_complaint]
        show s2.complaint.isSome = true
        rw [hc]
        exact hl

/-- The lexer never clears a complaint, and a token that ends a command,
read with no complaint latched, has left the store as it was. -/
theorem next_end (fuel : Nat) : ∀ (s s' : State), next fuel s = some s' →
    (s.complaint.isSome = true → s'.complaint.isSome = true) ∧
    (s'.complaint = none → s'.token = 10 ∨ s'.token = EOF → s'.the_store = s.the_store) := by
  induction fuel with
  | zero => intro s s' h; cases h
  | succ f ih =>
    intro s s' h
    have hc := ch_complaint s
    have hst := ch_store s
    rw [next] at h
    generalize ch s = r at h hc hst
    obtain ⟨c, s1⟩ := r
    simp only [] at h hc hst
    split_ifs at h
    · exact ⟨fun hl => lex_number_latched f _ _ h (by rw [← hc] at hl; exact hl),
        fun _ _ => (lex_number_store f _ _ h).trans hst⟩
    · generalize hl : lex_ident f [] s1 = r2 at h
      cases r2 with
      | none => cases h
      | some q =>
        obtain ⟨name, s2⟩ := q
        cases h
        have hk := lex_ident_latched f _ _ _ _ hl
        exact ⟨fun hx => hk (by rw [← hc] at hx; exact hx),
          fun _ _ => (lex_ident_store f _ _ _ _ hl).trans hst⟩
    · obtain ⟨h1, h2⟩ := lex_string_token f _ _ _ h
      refine ⟨fun hx => h2 ?_, fun hn ht => ?_⟩
      · rw [next_char_complaint, hc]
        exact hx
      · rcases h1 with h1 | h1
        · rw [h1] at ht
          rcases ht with ht | ht
          · cases ht
          · exact absurd ht (by decide)
        · rw [hn] at h1
          cases h1
    · cases h
      exact ⟨fun hx => by rw [next_char_complaint]; rw [← hc] at hx; exact hx,
        fun _ _ => (next_char_store _).trans hst⟩
    · obtain ⟨h1, h2⟩ := ih _ _ h
      refine ⟨fun hx => h1 ?_, fun hn ht => ?_⟩
      · rw [next_char_complaint, hc]
        exact hx
      · rw [h2 hn ht, next_char_store, hst]
    · generalize hl : skip_line f s1 = r2 at h
      cases r2 with
      | none => cases h
      | some s2 =>
        simp only [] at h
        obtain ⟨h1, h2⟩ := ih _ _ h
        refine ⟨fun hx => h1 ?_, fun hn ht => ?_⟩
        · rw [skip_line_complaint f _ _ hl, hc]
          exact hx
        · rw [h2 hn ht, skip_line_store f _ _ hl, hst]
    · cases h
      exact ⟨fun _ => complain_latched s1 _, fun _ _ => (complain_store s1 _).trans hst⟩

/-! ## Claim C13: `forget` -/

theorem lookup_loop_frame (m m' : Nat) (name : List Nat) (end_ d0 : Nat)
    (hf : ∀ k q, d0 ≤ q → fetch_bytes k m' q = fetch_bytes k m q) (fuel : Nat) :
    ∀ dict, d0 ≤ dict → lookup_loop m' name end_ fuel dict = lookup_loop m name end_ fuel dict := by
  induction fuel with
  | zero => intro dict _; rfl
  | succ f ih =>
    intro dict hd
    have e1 : get_header_name_length m' dict = get_header_name_length m dict := by
      simp only [get_header_name_length, fetch_u8_eq]
      rw [hf 1 (dict + 2) (by omega)]
    have e2 : fetch_bytes name.length m' (dict + sizeof_Header) =
        fetch_bytes name.length m (dict + sizeof_Header) := hf _ _ (by omega)
    have e3 : next_header m' dict = next_header m dict := by
      simp only [next_header, e1]
    rw [lookup_loop, lookup_loop, e1, e2, e3]
    split_ifs
    · rfl
    · exact ih _ (by simp only [next_header]; omega)
    · rfl

/-- The search of `lookup` reads the store from `dict` on only. -/
theorem lookup_frame (m m' : Nat) (name : List Nat) (dict end_ : Nat)
    (hf : ∀ k q, dict ≤ q → fetch_bytes k m' q = fetch_bytes k m q) :
    lookup m' dict end_ name = lookup m dict end_ name :=
  lookup_loop_frame m m' name end_ dict hf _ dict (Nat.le_refl _)

theorem lookup_loop_ge (m : Nat) (name : List Nat) (end_ : Nat) (fuel : Nat) :
    ∀ dict h, lookup_loop m name end_ fuel dict = some h → dict ≤ h ∧ h < end_ := by
  induction fuel with
  | zero => intro dict h hl; cases hl
  | succ f ih =>
    intro dict h hl
    rw [lookup_loop] at hl
    split_ifs at hl with h1 h2
    · cases hl
      exact ⟨Nat.le_refl _, h1⟩
    · have := ih _ _ hl
      simp only [next_header] at this
      exact ⟨by omega, this.2⟩

theorem lookup_ge (m dict end_ : Nat) (name : List Nat) (h : Nat)
    (hl : lookup m dict end_ name = some h) : dict ≤ h ∧ h < end_ :=
  lookup_loop_ge m name end_ _ dict h hl

theorem parse_done_latched (s : State) (h : s.complaint.isSome = true) :
    (parse_done s).complaint.isSome = true := by
  unfold parse_done
  split_ifs
  · exact complain_latched s _
  · exact h

theorem parse_done_none (s : State) (h : (parse_done s).complaint = none) :
    parse_done s = s ∧ (s.token = 10 ∨ s.token = EOF) := by
  unfold parse_done at h ⊢
  split_ifs at h ⊢ with hx
  · have := complain_latched s "Syntax error: unexpected token"
    rw [h] at this
    cases this
  · refine ⟨rfl, ?_⟩
    by_cases h1 : s.token = EOF
    · exact Or.inr h1
    · by_cases h2 : s.token = 10
      · exact Or.inl h2
      · exact absurd ⟨h1, h2⟩ hx

/-- What a `forget` that ends with no complaint has done: the name was found
at a header `h`, and the two cursors were set to the binding of `h` and to
the header after `h`; nothing else in the store has changed. -/
theorem run_forget_ok (fuel : Nat) (s s' : State) (hr : run_forget fuel s = some s')
    (hc : s'.complaint = none) :
    ∃ h, lookup s.the_store (dict_idx s) store_capacity s.token_name = some h ∧
      0 < get_header_binding s.the_store h ∧
      get_header_binding s.the_store h ≤ next_header s.the_store h ∧
      next_header s.the_store h ≤ store_capacity ∧
      s'.the_store = write_wV (write_wV s.the_store 0 (get_header_binding s.the_store h)) 4
        (next_header s.the_store h) := by
  have hnl : ∀ t : State, t.complaint = none → ¬ (t.complaint.isSome = true) := by
    intro t ht hx
    rw [ht] at hx
    cases hx
  unfold run_forget at hr
  by_cases ht : s.token = 97
  · simp only [expect, ht, if_true] at hr
    generalize hL : lookup s.the_store (dict_idx s) store_capacity s.token_name = L at hr
    cases L with
    | none =>
      simp only [] at hr
      split at hr
      · cases hr
      · rename_i s2 hn
        have e : s' = parse_done s2 := by
          cases hx : (parse_done s2).complaint <;> rw [hx] at hr <;> cases hr <;> rfl
        rw [e] at hc
        exact absurd (parse_done_latched _ ((next_end fuel _ _ hn).1 (complain_latched s _)))
          (hnl _ hc)
    | some h =>
      simp only [] at hr
      split at hr
      · cases hr
      · rename_i s2 hn
        split at hr
        · rename_i h' hc3 hh
          cases hh
          split_ifs at hr with hg
          · cases hr
            obtain ⟨e3, htk⟩ := parse_done_none s2 hc3
            rw [e3] at hc3 ⊢
            obtain ⟨hl1, hl2⟩ := next_end fuel _ _ hn
            have e2 := hl2 hc3 htk
            have e1 : s2.the_store = s.the_store := by
              rw [e2]
              split_ifs
              · exact complain_store s _
              · rfl
            rw [e3] at hg
            rw [e1] at hg
            refine ⟨h, rfl, hg.1, hg.2.1, hg.2.2, ?_⟩
            simp only [set_dict_idx, set_code_idx, e1]
          · cases hr
            exact absurd (complain_latched _ _) (hnl _ hc)
        · rename_i hne
          cases hr
          cases hc3 : (parse_done s2).complaint with
          | none => exact absurd rfl (hne h hc3)
          | some msg =>
            rw [hc3] at hc
            cases hc
  · simp only [expect, ht, if_false] at hr
    cases hr
    exact absurd (complain_latched s _) (hnl _ hc)

theorem forget_cursors (m cp dp : Nat) (hcp : cp < 4294967296) (hdp : dp < 4294967296) :
    fetch_wV (write_wV (write_wV m 0 cp) 4 dp) 0 = cp ∧
    fetch_wV (write_wV (write_wV m 0 cp) 4 dp) 4 = dp ∧
    ∀ k q, 8 ≤ q → fetch_bytes k (write_wV (write_wV m 0 cp) 4 dp) q = fetch_bytes k m q := by
  simp only [fetch_wV_eq, write_wV_eq]
  refine ⟨?_, ?_, ?_⟩
  · rw [fetch_bytes_write_bytes_disjoint _ _ _ _ _ _ (by omega), fetch_bytes_write_bytes_same]
    exact Nat.mod_eq_of_lt hcp
  · rw [fetch_bytes_write_bytes_same]
    exact Nat.mod_eq_of_lt hdp
  · intro k q hq
    rw [fetch_bytes_write_bytes_disjoint _ _ _ _ _ _ (by omega),
      fetch_bytes_write_bytes_disjoint _ _ _ _ _ _ (by omega)]

set_option maxRecDepth 1000000 in
/-- Claim C13, the failing input: in the session `let a = 1`, `let a = 2`,
`forget a` the third command ends with no complaint, and a lookup of `a` from
`dict_idx` to the end of the store then finds the header of the first
definition, at 4066. -/
theorem C13_forget_of_a_shadowing_name :
    ((repl_after 40 (bytes_of "let a = 1\nlet a = 2\nforget a\n") 2).bind
        (run_command 40 true)).map
      (fun s => (s.complaint, lookup s.the_store (dict_idx s) store_capacity [97])) =
      some (none, some 4066) := by
  decide!

/-- Claim C13, amended. After a `forget NAME` that ends with no complaint,
run with the dictionary above the two cursor words, the name was found at a
header `h`, `dict_idx` is the offset of the header after `h`, and a lookup of
any name from `dict_idx` to the end of the store finds what the headers after
`h` held before the command: for NAME an older header of that name if there
was one, and no header otherwise. -/
theorem C13_forget_uncovers_older_headers (fuel : Nat) (s s' : State) (h8 : 8 ≤ dict_idx s)
    (hr : run_forget fuel s = some s') (hc : s'.complaint = none) :
    ∃ h, lookup s.the_store (dict_idx s) store_capacity s.token_name = some h ∧
      dict_idx s' = next_header s.the_store h ∧
      (∀ name, lookup s'.the_store (dict_idx s') store_capacity name =
        lookup s.the_store (next_header s.the_store h) store_capacity name) ∧
      (lookup s.the_store (next_header s.the_store h) store_capacity s.token_name = none →
        lookup s'.the_store (dict_idx s') store_capacity s.token_name = none) := by
  have hcap : store_capacity = 4096 := rfl
  obtain ⟨h, hl, h0, h1, h2, hst⟩ := run_forget_ok fuel s s' hr hc
  obtain ⟨-, hd, hf⟩ := forget_cursors s.the_store (get_header_binding s.the_store h)
    (next_header s.the_store h) (by omega) (by omega)
  have hge := (lookup_ge _ _ _ _ _ hl).1
  have hd' : dict_idx s' = next_header s.the_store h := by
    simp only [dict_idx, hst]
    exact hd
  have hall : ∀ name, lookup s'.the_store (dict_idx s') store_capacity name =
      lookup s.the_store (next_header s.the_store h) store_capacity name := by
    intro name
    rw [hd', hst]
    refine lookup_frame _ _ _ _ _ (fun k q hq => hf k q ?_)
    simp only [next_header] at hq
    omega
  exact ⟨h, hl, hd', hall, fun hn => (hall _).trans hn⟩

set_option maxRecDepth 1000000 in
/-- An instance of claim C13: in the session `let a = 1`, `forget a` the
second command ends with no complaint, and a lookup of `a` then finds no
header. -/
theorem C13_forget_of_the_only_a :
    (8 ≤ dict_idx forget_a_entered ∧ (run_forget 40 forget_a_entered).isSome = true ∧
      (state_of (run_forget 40 forget_a_entered)).complaint = none) ∧
    lookup (state_of (run_forget 40 forget_a_entered)).the_store
      (dict_idx (state_of (run_forget 40 forget_a_entered))) store_capacity [97] = none ∧
    ∃ h, lookup forget_a_entered.the_store (dict_idx forget_a_entered) store_capacity
        forget_a_entered.token_name = some h ∧
      dict_idx (state_of (run_forget 40 forget_a_entered)) =
        next_header forget_a_entered.the_store h :=
  have h8 : 8 ≤ dict_idx forget_a_entered := by decide!
  have hs : (run_forget 40 forget_a_entered).isSome = true := by decide!
  have hc : (state_of (run_forget 40 forget_a_entered)).complaint = none := by decide!
  ⟨⟨h8, hs, hc⟩, by decide!,
    (C13_forget_uncovers_older_headers 40 forget_a_entered
      (state_of (run_forget 40 forget_a_entered)) h8 (some_state_of _ hs) hc).elim
      (fun h hx => ⟨h, hx.1, hx.2.1⟩)⟩

/-! ## Claim C14: a failed `fun` -/

theorem dict_idx_of_store (s s' : State) (h : s'.the_store = s.the_store) :
    dict_idx s' = dict_idx s := by
  simp only [dict_idx, h]

theorem dict_idx_write_u8 (s : State) (p v : Nat) (hp : 8 ≤ p) :
    dict_idx { s with the_store := write_u8 s.the_store p v } = dict_idx s := by
  simp only [dict_idx, fetch_wV_eq, write_u8_eq]
  rw [fetch_bytes_write_bytes_disjoint _ _ _ _ _ _ (by omega)]

/-- A string token is stored from `p` on: with `p` past the two cursor words,
reading it leaves `dict_idx` alone. -/
theorem lex_string_dict_idx (fuel : Nat) : ∀ (p : Nat) (s s' : State), 8 ≤ p →
    lex_string fuel p s = some s' → dict_idx s' = dict_idx s := by
  induction fuel with
  | zero => intro p s s' _ h; cases h
  | succ f ih =>
    intro p s s' hp h
    have hc := ch_store s
    rw [lex_string] at h
    generalize ch s = r at h hc
    obtain ⟨c, s1⟩ := r
    simp only [] at h hc
    have e1 : dict_idx s1 = dict_idx s := dict_idx_of_store _ _ hc
    split_ifs at h
    · cases h
      exact (dict_idx_write_u8 (next_char s1) p 0 hp).trans
        ((dict_idx_of_store _ _ (next_char_store s1)).trans e1)
    · cases h
      exact (dict_idx_of_store _ _ (complain_store s1 _)).trans e1
    · have ha := available_store s1 (p + 2 - code_idx s1)
      generalize available s1 (p + 2 - code_idx s1) = r2 at h ha
      obtain ⟨b, s2⟩ := r2
      simp only [] at ha
      have e2 : dict_idx s2 = dict_idx s := (dict_idx_of_store _ _ ha).trans e1
      cases b with
      | false =>
        cases h
        exact e2
      | true =>
        simp only [] at h
        rw [ih (p + 1) _ _ (by omega) h]
        exact (dict_idx_of_store _ _ (next_char_store _)).trans
          ((dict_idx_write_u8 s2 p _ hp).trans e2)

/-- The lexer leaves `dict_idx` alone, when `code_idx` is 7 or more: the only
thing it stores is a string token, from `code_idx + 1` on. -/
theorem next_dict_idx (fuel : Nat) : ∀ (s s' : State), 7 ≤ code_idx s → next fuel s = some s' →
    dict_idx s' = dict_idx s := by
  induction fuel with
  | zero => intro s s' _ h; cases h
  | succ f ih =>
    intro s s' h7 h
    have hc := ch_store s
    rw [next] at h
    generalize ch s = r at h hc
    obtain ⟨c, s1⟩ := r
    simp only [] at h hc
    have e1 : dict_idx s1 = dict_idx s := dict_idx_of_store _ _ hc
    have c1 : code_idx s1 = code_idx s := code_idx_of_store _ _ hc
    split_ifs at h
    · exact (dict_idx_of_store _ _ (lex_number_store f _ _ h)).trans e1
    · generalize hl : lex_ident f [] s1 = r2 at h
      cases r2 with
      | none => cases h
      | some q =>
        obtain ⟨name, s2⟩ := q
        cases h
        exact (dict_idx_of_store _ _ (lex_ident_store f _ _ _ _ hl)).trans e1
    · have e2 : dict_idx (next_char s1) = dict_idx s :=
        (dict_idx_of_store _ _ (next_char_store s1)).trans e1
      have c2 : code_idx (next_char s1) = code_idx s :=
        (code_idx_of_store _ _ (next_char_store s1)).trans c1
      rw [lex_string_dict_idx f _ _ _ (by omega) h, e2]
    · cases h
      exact (dict_idx_of_store _ _ (next_char_store _)).trans e1
    · have e2 : dict_idx (next_char s1) = dict_idx s :=
        (dict_idx_of_store _ _ (next_char_store s1)).trans e1
      have c2 : code_idx (next_char s1) = code_idx s :=
        (code_idx_of_store _ _ (next_char_store s1)).trans c1
      rw [ih _ _ (by omega) h, e2]
    · generalize hl : skip_line f s1 = r2 at h
      cases r2 with
      | none => cases h
      | some s2 =>
        have e2 : dict_idx s2 = dict_idx s :=
          (dict_idx_of_store _ _ (skip_line_store f _ _ hl)).trans e1
        have c2 : code_idx s2 = code_idx s :=
          (code_idx_of_store _ _ (skip_line_store f _ _ hl)).trans c1
        simp only [] at h
        rw [ih _ _ (by omega) h, e2]
    · cases h
      exact (dict_idx_of_store _ _ (complain_store s1 _)).trans e1

/-- The end of `run_command`: the complaint, if any, is printed and the rest
of the line skipped; `dict_idx` stays, and the complaint stays latched. -/
theorem run_command_tail_dict (fuel : Nat) (t s' : State)
    (h : (match t.complaint with
      | none => some t
      | some msg =>
        match skip_line fuel { t with out := t.out ++ bytes_of msg ++ [13, 10] } with
        | none => none
        | some s => next fuel s) = some s')
    (ht : 7 ≤ code_idx t) :
    dict_idx s' = dict_idx t ∧ (s'.complaint.isSome = true → t.complaint.isSome = true) := by
  split at h
  · cases h
    exact ⟨rfl, fun hx => hx⟩
  · rename_i msg hc
    split at h
    · cases h
    · rename_i s5 hl
      have e5 : dict_idx s5 = dict_idx t :=
        dict_idx_of_store t s5 ((skip_line_store fuel _ _ hl).trans rfl)
      have c5 : code_idx s5 = code_idx t :=
        code_idx_of_store t s5 ((skip_line_store fuel _ _ hl).trans rfl)
      refine ⟨by rw [next_dict_idx fuel s5 s' (by omega) h, e5], fun _ => ?_⟩
      rw [hc]
      rfl

theorem restore_failed (r : Option State) (di ci : Nat) (s' : State)
    (h : (match r with
      | none => none
      | some s =>
        if s.complaint.isSome then some (set_code_idx (set_dict_idx s di) ci) else some s) =
      some s')
    (hl : s'.complaint.isSome = true) (hd : di < 4294967296) (hc : ci < 4294967296) :
    code_idx s' = ci ∧ dict_idx s' = di := by
  cases r with
  | none => cases h
  | some s =>
    simp only [] at h
    split_ifs at h with hx
    · cases h
      simp only [code_idx, dict_idx, set_code_idx, set_dict_idx, fetch_wV_eq, write_wV_eq]
      refine ⟨?_, ?_⟩
      · rw [fetch_bytes_write_bytes_same]
        exact Nat.mod_eq_of_lt hc
      · rw [fetch_bytes_write_bytes_disjoint _ _ _ _ _ _ (by omega),
          fetch_bytes_write_bytes_same]
        exact Nat.mod_eq_of_lt hd
    · cases h
      exact absurd hl hx

/-- A `run_fun` that ends with a complaint latched has left the cursors as
they were, when both fit the 16 bits of the `wIndex` copies it restores them
from. -/
theorem run_fun_failed (fuel : Nat) (s s' : State) (hc16 : code_idx s < 65536)
    (hd16 : dict_idx s < 65536) (h : run_fun fuel s = some s')
    (hl : s'.complaint.isSome = true) : code_idx s' = code_idx s ∧ dict_idx s' = dict_idx s := by
  unfold run_fun at h
  by_cases ht : s.token = 97
  · simp only [expect, ht, if_true] at h
    generalize bind s s.token_name a_procedure (code_idx s) = b at h
    obtain ⟨f, s1⟩ := b
    simp only [] at h
    split at h
    · cases h
    · rename_i s2 hn
      have := restore_failed _ _ _ _ h hl (Nat.lt_of_lt_of_le (Nat.mod_lt _ (by decide)) (by decide))
        (Nat.lt_of_lt_of_le (Nat.mod_lt _ (by decide)) (by decide))
      rw [Nat.mod_eq_of_lt hc16, Nat.mod_eq_of_lt hd16] at this
      exact this
  · simp only [expect, ht, if_false] at h
    cases h
    exact ⟨code_idx_of_store _ _ (complain_store s _), dict_idx_of_store _ _ (complain_store s _)⟩

set_option maxRecDepth 1000000 in
/-- Claim C14, the failing inputs. In the session `cp : 65557`, `fun f` the
second command finds the cursors at (65557, 4070) and ends with the complaint
`Store exhausted` and the cursors at (21, 4070): `code_idx` is restored from
a 16-bit copy. In the session `cp : 4`, `fun 'abc'` the second command finds
the cursors at (4, 4070) and ends with the complaint `Expected identifier`
and `dict_idx = 1667391974`: the string token has been stored at offsets 5
to 8, over the word of `dict_idx`. -/
theorem C14_failed_fun_moves_a_cursor :
    ((repl_after 40 (bytes_of "cp : 65557\nfun f\n") 1).map cursors = some (65557, 4070) ∧
      ((repl_after 40 (bytes_of "cp : 65557\nfun f\n") 1).bind (run_command 40 true)).map
        (fun s => (s.complaint, cursors s)) = some (some "Store exhausted", (21, 4070))) ∧
    ((repl_after 40 (bytes_of "cp : 4\nfun 'abc'\n") 1).map cursors = some (4, 4070) ∧
      ((repl_after 40 (bytes_of "cp : 4\nfun 'abc'\n") 1).bind (run_command 40 true)).map
        (fun s => (s.complaint, cursors s)) =
        some (some "Expected identifier", (4, 1667391974))) := by
  decide!

/-- Claim C14, amended. `fun` is atomic on the cursors when it fails, in a
state whose cursors fit in 16 bits and whose `code_idx` is 7 or more: for
every command that starts with the token `fun` and ends with a complaint
latched, whatever the complaint, `code_idx` and `dict_idx` after the command
equal their values before it. -/
theorem C14_fun_is_atomic_on_failure (fuel : Nat) (outp : Bool) (s s' : State)
    (hf : s.token = 102) (h7 : 7 ≤ code_idx s) (hc16 : code_idx s < 65536)
    (hd16 : dict_idx s < 65536) (h : run_command fuel outp s = some s')
    (hl : s'.complaint.isSome = true) :
    code_idx s' = code_idx s ∧ dict_idx s' = dict_idx s := by
  obtain ⟨f, rfl⟩ : ∃ f, fuel = f + 1 := by
    cases fuel with
    | zero => simp [run_command, skip_newline] at h
    | succ f => exact ⟨f, rfl⟩
  have hsk : skip_newline (f + 1) s = some s := by simp [skip_newline, hf]
  unfold run_command at h
  rw [hsk] at h
  simp only [hf, if_true] at h
  cases hn : next (f + 1) s with
  | none =>
    rw [hn] at h
    cases h
  | some s1 =>
    rw [hn] at h
    simp only [] at h
    have c1 := next_code_idx (f + 1) s s1 (by omega) hn
    have d1 := next_dict_idx (f + 1) s s1 h7 hn
    cases hr : run_fun (f + 1) s1 with
    | none =>
      rw [hr] at h
      cases h
    | some s2 =>
      rw [hr] at h
      simp only [] at h
      by_cases hl2 : s2.complaint.isSome = true
      · obtain ⟨c2, d2⟩ := run_fun_failed (f + 1) s1 s2 (by omega) (by omega) hr hl2
        have c3 := run_command_tail (f + 1) s2 s' h (Or.inr (by omega))
        have d3 := (run_command_tail_dict (f + 1) s2 s' h (by omega)).1
        exact ⟨by omega, by omega⟩
      · exact absurd ((run_command_tail_dict (f + 1) s2 s' h (by
          cases hx : s2.complaint with
          | none =>
            rw [hx] at h
            cases h
            rw [hx] at hl
            cases hl
          | some m =>
            rw [hx] at hl2
            exact absurd rfl hl2)).2 hl) hl2

set_option maxRecDepth 1000000 in
/-- An instance of claim C14: the command `fun f x = x +` typed at the first
prompt ends with a complaint, and the cursors are (21, 4070) before and after
it. -/
theorem C14_fun_without_operand :
    (fun_without_operand.token = 102 ∧ 7 ≤ code_idx fun_without_operand ∧
      code_idx fun_without_operand < 65536 ∧ dict_idx fun_without_operand < 65536 ∧
      (run_command 40 true fun_without_operand).isSome = true ∧
      (state_of (run_command 40 true fun_without_operand)).complaint.isSome = true) ∧
    cursors fun_without_operand = (21, 4070) ∧
    code_idx (state_of (run_command 40 true fun_without_operand)) =
      code_idx fun_without_operand ∧
    dict_idx (state_of (run_command 40 true fun_without_operand)) =
      dict_idx fun_without_operand :=
  have a1 : fun_without_operand.token = 102 := by decide!
  have a2 : 7 ≤ code_idx fun_without_operand := by decide!
  have a3 : code_idx fun_without_operand < 65536 := by decide!
  have a4 : dict_idx fun_without_operand < 65536 := by decide!
  have a5 : (run_command 40 true fun_without_operand).isSome = true := by decide!
  have a6 : (state_of (run_command 40 true fun_without_operand)).complaint.isSome = true := by
    decide!
  ⟨⟨a1, a2, a3, a4, a5, a6⟩, by decide!,
    C14_fun_is_atomic_on_failure 40 true fun_without_operand
      (state_of (run_command 40 true fun_without_operand)) a1 a2 a3 a4 (some_state_of _ a5) a6⟩

/-! ## Claim C11: what a compiled body stores -/

theorem Touched.unchanged (lo hi m : Nat) : Touched lo hi m m := fun _ _ _ _ => rfl

theorem Touched.of_eq (lo hi : Nat) {m m' : Nat} (h : m' = m) : Touched lo hi m m' := by
  subst h
  exact Touched.unchanged lo hi _

theorem Touched.widen {lo hi lo' hi' m m' : Nat} (h : Touched lo hi m m') (hlo : lo' ≤ lo)
    (hhi : hi ≤ hi') : Touched lo' hi' m m' :=
  fun k q h4 hq => h k q h4 (by omega)

theorem Touched.both {lo hi m m1 m2 : Nat} (h1 : Touched lo hi m m1)
    (h2 : Touched lo hi m1 m2) : Touched lo hi m m2 :=
  fun k q h4 hq => (h2 k q h4 hq).trans (h1 k q h4 hq)

theorem Touched.of_write (n m p v : Nat) : Touched p (p + n) m (write_bytes n m p v) :=
  fun k q _ hq => fetch_bytes_write_bytes_disjoint k n m p v q hq

theorem Touched.first_word (m v : Nat) (lo hi : Nat) : Touched lo hi m (write_wV m 0 v) := by
  intro k q h4 _
  rw [write_wV_eq, fetch_bytes_write_bytes_disjoint _ _ _ _ _ _ (by omega)]

theorem Touched.byte {lo hi m m' : Nat} (h : Touched lo hi m m') (p : Nat) (h4 : 8 ≤ p)
    (hp : p < lo ∨ hi ≤ p) : fetch_u8 m' p = fetch_u8 m p := by
  simp only [fetch_u8_eq]
  exact h 1 p h4 (by omega)

theorem ch_prev (s : State) : (ch s).2.prev_instruc = s.prev_instruc := by
  unfold ch
  split_ifs
  · cases s.in_file <;> rfl
  · rfl

theorem next_char_prev (s : State) : (next_char s).prev_instruc = s.prev_instruc := by
  unfold next_char
  split_ifs <;> rfl

theorem complain_prev (s : State) (msg : String) :
    (complain s msg).prev_instruc = s.prev_instruc := by
  unfold complain
  cases s.complaint <;> rfl

theorem skip_line_prev (fuel : Nat) : ∀ (s s' : State), skip_line fuel s = some s' →
    s'.prev_instruc = s.prev_instruc := by
  induction fuel with
  | zero => intro s s' h; cases h
  | succ f ih =>
    intro s s' h
    have hc := ch_prev s
    rw [skip_line] at h
    generalize ch s = r at h hc
    obtain ⟨c, s1⟩ := r
    simp only [] at h hc
    split_ifs at h
    · rw [ih _ _ h, next_char_prev, hc]
    · cases h
      exact hc

theorem lex_hex_prev (fuel : Nat) : ∀ (k : Nat) (s : State) (k' : Nat) (s' : State),
    lex_hex fuel k s = some (k', s') → s'.prev_instruc = s.prev_instruc := by
  induction fuel with
  | zero => intro k s k' s' h; cases h
  | succ f ih =>
    intro k s k' s' h
    have hc := ch_prev s
    rw [lex_hex] at h
    generalize ch s = r at h hc
    obtain ⟨c, s1⟩ := r
    simp only [] at h hc
    split_ifs at h
    · rw [ih _ _ _ _ h, next_char_prev]
      exact hc
    · cases h
      exact hc

theorem lex_number_prev (fuel : Nat) : ∀ (s s' : State), lex_number fuel s = some s' →
    s'.prev_instruc = s.prev_instruc := by
  induction fuel with
  | zero => intro s s' h; cases h
  | succ f ih =>
    intro s s' h
    have hc := ch_prev s
    rw [lex_number] at h
    generalize ch s = r at h hc
    obtain ⟨c, s1⟩ := r
    simp only [] at h hc
    have hc2 := ch_prev (next_char { s1 with
      token_value := (10 * s1.token_value + c.toNat - 48) % 4294967296 })
    generalize ch (next_char { s1 with
      token_value := (10 * s1.token_value + c.toNat - 48) % 4294967296 }) = r2 at h hc2
    obtain ⟨c2, s2⟩ := r2
    simp only [] at h hc2
    have e2 : s2.prev_instruc = s.prev_instruc := by rw [hc2, next_char_prev]; exact hc
    split_ifs at h
    · generalize hh : lex_hex f 0 (next_char s2) = r3 at h
      cases r3 with
      | none => cases h
      | some p =>
        obtain ⟨k, s3⟩ := p
        have e3 : s3.prev_instruc = s.prev_instruc := by
          rw [lex_hex_prev f _ _ _ _ hh, next_char_prev, e2]
        simp only [] at h
        split_ifs at h <;> cases h
        · rw [complain_prev, e3]
        · rw [complain_prev, e3]
        · exact e3
    · cases h
      rw [complain_prev, e2]
    · rw [ih _ _ h, e2]
    · cases h
      exact e2

theorem lex_ident_prev (fuel : Nat) : ∀ (name : List Nat) (s : State) (name' : List Nat)
    (s' : State), lex_ident fuel name s = some (name', s') →
    s'.prev_instruc = s.prev_instruc := by
  induction fuel with
  | zero => intro name s name' s' h; cases h
  | succ f ih =>
    intro name s name' s' h
    rw [lex_ident] at h
    split_ifs at h
    · cases h
      exact complain_prev s _
    · have hc := ch_prev s
      generalize ch s = r at h hc
      obtain ⟨c, s1⟩ := r
      simp only [] at h hc
      have hc2 := ch_prev (next_char s1)
      generalize ch (next_char s1) = r2 at h hc2
      obtain ⟨c2, s2⟩ := r2
      simp only [] at h hc2
      have e2 : s2.prev_instruc = s.prev_instruc := by rw [hc2, next_char_prev]; exact hc
      split_ifs at h
      · rw [ih _ _ _ _ h, e2]
      · cases h
        exact e2
theorem available_true_le (s : State) (n : Nat) (s' : State) (h : available s n = (true, s')) :
    (code_idx s + n) % 4294967296 ≤ dict_idx s := by
  unfold available at h
  split_ifs at h with hx
  · exact hx
  · cases h

theorem Touched.of_write_u8 (m p v : Nat) : Touched p (p + 1) m (write_u8 m p v) := by
  rw [write_u8_eq]
  exact Touched.of_write 1 m p _

/-- What the loop that stores a string token does, when it ends with no
complaint: the token is `'`, and the bytes stored, the closing NUL included,
lie from `p` on, below `dict_idx` or, for the NUL of an empty string, at
`code_idx + 1`. -/
theorem lex_string_spec (fuel : Nat) : ∀ (p : Nat) (s s' : State),
    lex_string fuel p s = some s' → s'.complaint = none → 8 ≤ p → code_idx s + 1 ≤ p →
    (p = code_idx s + 1 ∨ p + 1 ≤ dict_idx s) → code_idx s ≤ store_capacity + 2 →
    dict_idx s ≤ store_capacity →
    s.complaint = none ∧ s'.token = 39 ∧ s'.prev_instruc = s.prev_instruc ∧
      Touched p (max (dict_idx s) (code_idx s + 2)) s.the_store s'.the_store := by
  have hcap : store_capacity = 4096 := rfl
  have hnl : ∀ t : State, t.complaint = none → ¬ (t.complaint.isSome = true) := by
    intro t ht hx
    rw [ht] at hx
    cases hx
  induction fuel with
  | zero => intro p s s' h; cases h
  | succ f ih =>
    intro p s s' h hn h8 hp hor hb hD
    have hc := ch_complaint s
    have hst := ch_store s
    have hpv := ch_prev s
    rw [lex_string] at h
    generalize ch s = r at h hc hst hpv
    obtain ⟨c, s1⟩ := r
    simp only [] at h hc hst hpv
    have c1 : code_idx s1 = code_idx s := code_idx_of_store _ _ hst
    have d1 : dict_idx s1 = dict_idx s := dict_idx_of_store _ _ hst
    split_ifs at h
    · cases h
      refine ⟨?_, rfl, ?_, ?_⟩
      · have : (next_char s1).complaint = none := hn
        rw [next_char_complaint, hc] at this
        exact this
      · show (next_char s1).prev_instruc = s.prev_instruc
        rw [next_char_prev, hpv]
      · show Touched _ _ _ (write_u8 (next_char s1).the_store p 0)
        rw [next_char_store, hst]
        exact (Touched.of_write_u8 _ p 0).widen (Nat.le_refl _) (by omega)
    · cases h
      exact absurd (complain_latched s1 _) (hnl _ hn)
    · generalize ha : available s1 (p + 2 - code_idx s1) = r2 at h
      obtain ⟨b, s2⟩ := r2
      cases b with
      | false =>
        cases h
        exact absurd (available_false _ _ _ ha) (hnl _ hn)
      | true =>
        simp only [] at h
        have e2 := available_true _ _ _ ha
        have hle := available_true_le _ _ _ ha
        subst e2
        rw [c1, d1] at hle
        have hsum : code_idx s + (p + 2 - code_idx s) = p + 2 := by omega
        rw [hsum, Nat.mod_eq_of_lt (by omega)] at hle
        have hw : Touched p (p + 1) s.the_store
            (next_char { s2 with the_store := write_u8 s2.the_store p c.toNat }).the_store := by
          rw [next_char_store]
          show Touched _ _ _ (write_u8 s2.the_store p c.toNat)
          rw [hst]
          exact Touched.of_write_u8 _ p _
        have c3 : code_idx (next_char { s2 with the_store := write_u8 s2.the_store p c.toNat }) =
            code_idx s :=
          (code_idx_of_store _ _ (next_char_store _)).trans
            ((code_idx_write_u8 s2 p _ (by omega)).trans c1)
        have d3 : dict_idx (next_char { s2 with the_store := write_u8 s2.the_store p c.toNat }) =
            dict_idx s :=
          (dict_idx_of_store _ _ (next_char_store _)).trans
            ((dict_idx_write_u8 s2 p _ h8).trans d1)
        obtain ⟨i1, i2, i3, i4⟩ := ih (p + 1) _ s' h hn (by omega) (by rw [c3]; omega)
          (Or.inr (by rw [d3]; omega)) (by rw [c3]; exact hb) (by rw [d3]; exact hD)
        rw [c3, d3] at i4
        refine ⟨?_, i2, ?_, ?_⟩
        · rw [next_char_complaint] at i1
          have : s2.complaint = none := i1
          rw [← hc]
          exact this
        · rw [i3, next_char_prev]
          exact hpv
        · exact (hw.widen (Nat.le_refl _) (by omega)).both (i4.widen (by omega) (Nat.le_refl _))
theorem none_of_not_latched (s : State) (h : ¬ (s.complaint.isSome = true)) :
    s.complaint = none := by
  cases hc : s.complaint with
  | none => rfl
  | some m =>
    rw [hc] at h
    exact absurd rfl h

theorem not_latched (s : State) (h : s.complaint = none) : ¬ (s.complaint.isSome = true) := by
  rw [h]
  simp

theorem next_quiet (fuel : Nat) : ∀ (s s' : State), next fuel s = some s' →
    s'.complaint = none → 7 ≤ code_idx s → code_idx s ≤ store_capacity + 2 →
    dict_idx s ≤ store_capacity →
    s'.prev_instruc = s.prev_instruc ∧
      ((s'.token = 39 ∧ Touched (code_idx s + 1) (max (dict_idx s) (code_idx s + 2))
          s.the_store s'.the_store) ∨
        (s'.token ≠ 39 ∧ s'.the_store = s.the_store)) := by
  induction fuel with
  | zero => intro s s' h; cases h
  | succ f ih =>
    intro s s' h hn h7 hb hD
    have hst := ch_store s
    have hpv := ch_prev s
    rw [next] at h
    generalize ch s = r at h hst hpv
    obtain ⟨c, s1⟩ := r
    simp only [] at h hst hpv
    have c1 : code_idx s1 = code_idx s := code_idx_of_store _ _ hst
    have d1 : dict_idx s1 = dict_idx s := dict_idx_of_store _ _ hst
    split_ifs at h
    · have e := lex_number_store f _ _ h
      refine ⟨(lex_number_prev f _ _ h).trans hpv, ?_⟩
      by_cases ht : s'.token = 39
      · exact Or.inl ⟨ht, Touched.of_eq _ _ (e.trans hst)⟩
      · exact Or.inr ⟨ht, e.trans hst⟩
    · generalize hl : lex_ident f [] s1 = r2 at h
      cases r2 with
      | none => cases h
      | some q =>
        obtain ⟨name, s2⟩ := q
        have e := lex_ident_store f _ _ _ _ hl
        have ep := lex_ident_prev f _ _ _ _ hl
        cases h
        refine ⟨ep.trans hpv, ?_⟩
        by_cases ht : keyword name = 39
        · exact Or.inl ⟨ht, Touched.of_eq _ _ (e.trans hst)⟩
        · exact Or.inr ⟨ht, e.trans hst⟩
    · have c2 : code_idx (next_char s1) = code_idx s :=
        (code_idx_of_store _ _ (next_char_store s1)).trans c1
      have d2 : dict_idx (next_char s1) = dict_idx s :=
        (dict_idx_of_store _ _ (next_char_store s1)).trans d1
      obtain ⟨-, i2, i3, i4⟩ := lex_string_spec f _ _ _ h hn (by omega) (Nat.le_refl _)
        (Or.inl rfl) (by omega) (by omega)
      rw [c2, d2, next_char_store, hst] at i4
      exact ⟨i3.trans ((next_char_prev s1).trans hpv), Or.inl ⟨i2, i4⟩⟩
    · cases h
      refine ⟨(next_char_prev _).trans hpv, ?_⟩
      have e : (next_char { s1 with token := c }).the_store = s.the_store :=
        (next_char_store _).trans hst
      by_cases ht : (next_char { s1 with token := c }).token = 39
      · exact Or.inl ⟨ht, Touched.of_eq _ _ e⟩
      · exact Or.inr ⟨ht, e⟩
    · have c2 : code_idx (next_char s1) = code_idx s :=
        (code_idx_of_store _ _ (next_char_store s1)).trans c1
      have d2 : dict_idx (next_char s1) = dict_idx s :=
        (dict_idx_of_store _ _ (next_char_store s1)).trans d1
      obtain ⟨i1, i2⟩ := ih _ _ h hn (by omega) (by omega) (by omega)
      rw [c2, d2, next_char_store, hst] at i2
      exact ⟨i1.trans ((next_char_prev s1).trans hpv), i2⟩
    · generalize hl : skip_line f s1 = r2 at h
      cases r2 with
      | none => cases h
      | some s2 =>
        simp only [] at h
        have e2 := skip_line_store f _ _ hl
        have c2 : code_idx s2 = code_idx s := (code_idx_of_store _ _ e2).trans c1
        have d2 : dict_idx s2 = dict_idx s := (dict_idx_of_store _ _ e2).trans d1
        obtain ⟨i1, i2⟩ := ih _ _ h hn (by omega) (by omega) (by omega)
        rw [c2, d2, e2, hst] at i2
        exact ⟨i1.trans ((skip_line_prev f _ _ hl).trans hpv), i2⟩
    · cases h
      exact absurd (complain_latched s1 _) (not_latched _ hn)

/-- What `next` does to the compiler's state, when it ends with no complaint:
none was latched before, `code_idx` and `prev_instruc` are as they were, and
the store has changed only if the token is a string, from `code_idx + 1` on
and below `dict_idx` or `code_idx + 2`. -/
theorem next_spec (fuel : Nat) (s s' : State) (h : next fuel s = some s')
    (hn : s'.complaint = none) (h7 : 7 ≤ code_idx s) (hb : code_idx s ≤ store_capacity + 2)
    (hD : dict_idx s ≤ store_capacity) :
    s.complaint = none ∧ code_idx s' = code_idx s ∧ dict_idx s' = dict_idx s ∧
      s'.prev_instruc = s.prev_instruc ∧
      Touched (code_idx s + 1) (max (dict_idx s) (pending_end s')) s.the_store s'.the_store ∧
      (s'.token ≠ 39 → s'.the_store = s.the_store) := by
  have hc := next_code_idx fuel s s' (by omega) h
  have hd := next_dict_idx fuel s s' h7 h
  obtain ⟨q1, q2⟩ := next_quiet fuel s s' h hn h7 hb hD
  refine ⟨none_of_not_latched s (fun hx => not_latched s' hn ((next_end fuel s s' h).1 hx)),
    hc, hd, q1, ?_, ?_⟩
  · rcases q2 with ⟨ht, hT⟩ | ⟨ht, he⟩
    · unfold pending_end
      rw [if_pos ht, hc]
      exact hT
    · exact Touched.of_eq _ _ he
  · intro ht
    rcases q2 with ⟨ht', -⟩ | ⟨-, he⟩
    · exact absurd ht' ht
    · exact he

/-- The effect of `skip_newline`, which reads on while the token is a
newline. -/
theorem skip_newline_spec (fuel : Nat) : ∀ (s s' : State), skip_newline fuel s = some s' →
    s'.complaint = none → 7 ≤ code_idx s → code_idx s ≤ store_capacity + 2 →
    dict_idx s ≤ store_capacity →
    s.complaint = none ∧ code_idx s' = code_idx s ∧ dict_idx s' = dict_idx s ∧
      s'.prev_instruc = s.prev_instruc ∧ s'.token ≠ 10 ∧
      (s.token ≠ 10 → s' = s) ∧
      Touched (code_idx s + 1) (max (dict_idx s) (pending_end s')) s.the_store s'.the_store ∧
      (s'.token ≠ 39 → s'.the_store = s.the_store) := by
  induction fuel with
  | zero => intro s s' h; cases h
  | succ f ih =>
    intro s s' h hn h7 hb hD
    rw [skip_newline] at h
    split_ifs at h with hx
    · generalize hl : next f s = r at h
      cases r with
      | none => cases h
      | some s1 =>
        simp only [] at h
        obtain ⟨j1, j2, j3, j4, j5, j6, j7, j8⟩ := ih s1 s' h hn
          (by rw [next_code_idx f s s1 (by omega) hl]; exact h7)
          (by rw [next_code_idx f s s1 (by omega) hl]; exact hb)
          (by rw [next_dict_idx f s s1 h7 hl]; exact hD)
        obtain ⟨i1, i2, i3, i4, i5, i6⟩ := next_spec f s s1 hl j1 h7 hb hD
        rw [i2, i3] at j7
        have t1 : s1.token ≠ 39 ∨ s1.token = 39 := by
          by_cases hq : s1.token = 39
          · exact Or.inr hq
          · exact Or.inl hq
        refine ⟨i1, j2.trans i2, j3.trans i3, j4.trans i4, j5, fun hq => absurd hx.2 hq, ?_, ?_⟩
        · rcases t1 with hq | hq
          · rw [← i6 hq]
            exact j7
          · have e : s' = s1 := j6 (by rw [hq]; decide)
            rw [e]
            exact i5
        · intro ht
          rcases t1 with hq | hq
          · rw [j8 ht, i6 hq]
          · have e : s' = s1 := j6 (by rw [hq]; decide)
            rw [e] at ht
            exact absurd hq ht
    · cases h
      have hc : s.complaint = none := hn
      have ht : s.token ≠ 10 := by
        intro hq
        exact hx ⟨by rw [hc]; rfl, hq⟩
      exact ⟨hc, rfl, rfl, rfl, ht, fun _ => rfl, Touched.unchanged _ _ _, fun _ => rfl⟩
theorem available_no (s : State) (n : Nat) (h : ¬ (code_idx s + n ≤ dict_idx s))
    (hw : code_idx s + n < 4294967296) :
    available s n = (false, complain s "Store exhausted") := by
  have : ¬ ((code_idx s + n) % 4294967296 ≤ dict_idx s) := by
    rw [Nat.mod_eq_of_lt hw]
    exact h
  simp [available, this]

theorem pending_end_ge (s : State) : code_idx s ≤ pending_end s := by
  unfold pending_end
  split_ifs <;> omega

theorem pending_end_le (s : State) : pending_end s ≤ code_idx s + 2 := by
  unfold pending_end
  split_ifs <;> omega

theorem pending_end_mono (s s' : State) (ht : s'.token = s.token)
    (hc : code_idx s ≤ code_idx s') : pending_end s ≤ pending_end s' := by
  unfold pending_end
  rw [ht]
  split_ifs <;> omega

theorem pending_end_add (s s' : State) (n : Nat) (ht : s'.token = s.token)
    (hc : code_idx s' = code_idx s + n) : pending_end s' = pending_end s + n := by
  unfold pending_end
  rw [ht, hc]
  split_ifs <;> omega

theorem Compiled.idle (s : State) (hc : s.complaint = none)
    (hb : code_idx s ≤ store_capacity + 2) : Compiled s s :=
  ⟨hc, Nat.le_refl _, Nat.le_refl _, hb, rfl, Touched.unchanged _ _ _⟩

theorem Compiled.seq {s s1 s2 : State} (h1 : Compiled s s1) (h2 : Compiled s1 s2) :
    Compiled s s2 where
  before := h1.before
  code := Nat.le_trans h1.code h2.code
  pend := Nat.le_trans h1.pend h2.pend
  bound := h2.bound
  dict := h2.dict.trans h1.dict
  touched := by
    have t1 := h1.touched
    have t2 := h2.touched
    rw [h1.dict] at t2
    have hp := h2.pend
    exact (t1.widen (Nat.le_refl _) (by omega)).both t2

theorem Compiled.good {s s' : State} (h : Compiled s s') (hg : Good s) : Good s' :=
  ⟨Nat.le_trans hg.1 h.code, h.bound, by rw [h.dict]; exact hg.2.2⟩

/-- A piece whose stores all lie in `[lo, hi)`, with `hi` at most the new
`code_idx`, and which leaves the token alone. -/
theorem Compiled.of_touched (s s' : State) (lo hi : Nat) (hc : s.complaint = none)
    (hcode : code_idx s ≤ code_idx s') (ht : s'.token = s.token)
    (hb : code_idx s' ≤ store_capacity + 2) (hd : dict_idx s' = dict_idx s)
    (hT : Touched lo hi s.the_store s'.the_store) (hlo : 8 ≤ lo) (hhi : hi ≤ code_idx s') :
    Compiled s s' :=
  ⟨hc, hcode, pending_end_mono s s' ht hcode, hb, hd,
    hT.widen hlo (by have := pending_end_ge s'; omega)⟩

theorem emit_step (n : Nat) (s : State) (v p : Nat) (hg : Good s) (hc : s.complaint = none)
    (hroom : code_idx s + n ≤ dict_idx s) :
    Compiled s (emit n s v p) ∧ code_idx (emit n s v p) = code_idx s + n ∧
      fetch_bytes n (emit n s v p).the_store (code_idx s) = v % (1 <<< (8 * n)) ∧
      Touched (code_idx s) (code_idx s + n) s.the_store (emit n s v p).the_store := by
  obtain ⟨g1, g2, g3⟩ := hg
  obtain ⟨E, hv, -⟩ := emit_spec n s v (code_idx s) p rfl (by omega) hroom
  have hT : Touched (code_idx s) (code_idx s + n) s.the_store (emit n s v p).the_store :=
    fun k q h8 hq => E.frame k q h8 hq
  refine ⟨Compiled.of_touched s _ _ _ hc (by rw [E.code]; omega) rfl (by rw [E.code]; omega)
    E.dict hT (by omega) (by rw [E.code]), E.code, hv, hT⟩

theorem gen_ok (s : State) (op : Nat) (hg : Good s) (hn : (gen s op).complaint = none) :
    s.complaint = none ∧ code_idx s + 1 ≤ dict_idx s ∧ gen s op = emit 1 s op (code_idx s) := by
  have hcap : store_capacity = 4096 := rfl
  obtain ⟨g1, g2, g3⟩ := hg
  by_cases hroom : code_idx s + 1 ≤ dict_idx s
  · have e := gen_eq s op hroom
    rw [Nat.mod_eq_of_lt (by omega)] at e
    rw [e] at hn
    exact ⟨hn, hroom, e⟩
  · have e : gen s op = complain s "Store exhausted" := by
      simp [gen, available_no s 1 hroom (by omega)]
    rw [e] at hn
    exact absurd (complain_latched s _) (not_latched _ hn)

theorem gen_ubyte_ok (s : State) (b : Nat) (hg : Good s)
    (hn : (gen_ubyte s b).complaint = none) :
    s.complaint = none ∧ code_idx s + 1 ≤ dict_idx s ∧
      gen_ubyte s b = emit 1 s b s.prev_instruc := by
  have hcap : store_capacity = 4096 := rfl
  obtain ⟨g1, g2, g3⟩ := hg
  by_cases hroom : code_idx s + 1 ≤ dict_idx s
  · have e := gen_ubyte_eq s b hroom
    rw [e] at hn
    exact ⟨hn, hroom, e⟩
  · have e : gen_ubyte s b = complain s "Store exhausted" := by
      simp [gen_ubyte, available_no s 1 hroom (by omega)]
    rw [e] at hn
    exact absurd (complain_latched s _) (not_latched _ hn)

theorem gen_sbyte_ok (s : State) (b : Nat) (hg : Good s)
    (hn : (gen_sbyte s b).complaint = none) :
    s.complaint = none ∧ code_idx s + 1 ≤ dict_idx s ∧
      gen_sbyte s b = emit 1 s b s.prev_instruc := by
  have hcap : store_capacity = 4096 := rfl
  obtain ⟨g1, g2, g3⟩ := hg
  by_cases hroom : code_idx s + 1 ≤ dict_idx s
  · have e := gen_sbyte_eq s b hroom
    rw [e] at hn
    exact ⟨hn, hroom, e⟩
  · have e : gen_sbyte s b = complain s "Store exhausted" := by
      simp [gen_sbyte, available_no s 1 hroom (by omega)]
    rw [e] at hn
    exact absurd (complain_latched s _) (not_latched _ hn)

theorem gen_ushort_ok (s : State) (u : Nat) (hg : Good s)
    (hn : (gen_ushort s u).complaint = none) :
    s.complaint = none ∧ code_idx s + 2 ≤ dict_idx s ∧
      gen_ushort s u = emit 2 s u s.prev_instruc := by
  have hcap : store_capacity = 4096 := rfl
  obtain ⟨g1, g2, g3⟩ := hg
  by_cases hroom : code_idx s + 2 ≤ dict_idx s
  · have e := gen_ushort_eq s u hroom
    rw [e] at hn
    exact ⟨hn, hroom, e⟩
  · have e : gen_ushort s u = complain s "Store exhausted" := by
      simp [gen_ushort, available_no s 2 hroom (by omega)]
    rw [e] at hn
    exact absurd (complain_latched s _) (not_latched _ hn)

theorem gen_sshort_ok (s : State) (u : Nat) (hg : Good s)
    (hn : (gen_sshort s u).complaint = none) :
    s.complaint = none ∧ code_idx s + 2 ≤ dict_idx s ∧
      gen_sshort s u = emit 2 s u s.prev_instruc := by
  have hcap : store_capacity = 4096 := rfl
  obtain ⟨g1, g2, g3⟩ := hg
  by_cases hroom : code_idx s + 2 ≤ dict_idx s
  · have e := gen_sshort_eq s u hroom
    rw [e] at hn
    exact ⟨hn, hroom, e⟩
  · have e : gen_sshort s u = complain s "Store exhausted" := by
      simp [gen_sshort, available_no s 2 hroom (by omega)]
    rw [e] at hn
    exact absurd (complain_latched s _) (not_latched _ hn)

theorem gen_value_ok (s : State) (v : Nat) (hg : Good s)
    (hn : (gen_value s v).complaint = none) :
    s.complaint = none ∧ code_idx s + 4 ≤ dict_idx s ∧
      gen_value s v = emit 4 s v s.prev_instruc := by
  have hcap : store_capacity = 4096 := rfl
  obtain ⟨g1, g2, g3⟩ := hg
  by_cases hroom : code_idx s + 4 ≤ dict_idx s
  · have e := gen_value_eq s v hroom
    rw [e] at hn
    exact ⟨hn, hroom, e⟩
  · have e : gen_value s v = complain s "Store exhausted" := by
      simp [gen_value, available_no s 4 hroom (by omega)]
    rw [e] at hn
    exact absurd (complain_latched s _) (not_latched _ hn)
theorem PrevOK.short (c0 : Nat) (s : State) (h0 : c0 ≤ s.prev_instruc)
    (h1 : s.prev_instruc < code_idx s) (h2 : code_idx s ≤ s.prev_instruc + 3) : PrevOK c0 s :=
  fun _ => ⟨h0, h1, Or.inl h2⟩

theorem PrevOK.zero (c0 : Nat) (s : State) (h : s.prev_instruc = 0) : PrevOK c0 s :=
  fun hne => absurd h hne

theorem PrevOK.lower {c0 c1 : Nat} {s : State} (h : PrevOK c1 s) (hc : c0 ≤ c1) : PrevOK c0 s :=
  fun hne => ⟨Nat.le_trans hc (h hne).1, (h hne).2⟩

/-- A piece that stores nothing below `code_idx` and moves neither `code_idx`
nor `prev_instruc` keeps what is known of `prev_instruc`. -/
theorem PrevOK.keep {c0 lo hi : Nat} {s s' : State} (h : PrevOK c0 s) (h8 : 8 ≤ c0)
    (hp : s'.prev_instruc = s.prev_instruc) (hc : code_idx s' = code_idx s)
    (hT : Touched lo hi s.the_store s'.the_store) (hlo : code_idx s ≤ lo) : PrevOK c0 s' := by
  intro hne
  rw [hp] at hne ⊢
  obtain ⟨a1, a2, a3⟩ := h hne
  rw [hc, hT.byte s.prev_instruc (by omega) (Or.inl (by omega))]
  exact ⟨a1, a2, a3⟩

theorem gen_step (s : State) (op : Nat) (hg : Good s) (hn : (gen s op).complaint = none) :
    Compiled s (gen s op) ∧ code_idx (gen s op) = code_idx s + 1 ∧
      (gen s op).prev_instruc = code_idx s ∧ (gen s op).token = s.token ∧
      fetch_u8 (gen s op).the_store (code_idx s) = op % 256 ∧
      code_idx s + 1 ≤ dict_idx s ∧
      Touched (code_idx s) (code_idx s + 1) s.the_store (gen s op).the_store := by
  obtain ⟨hc, hroom, e⟩ := gen_ok s op hg hn
  obtain ⟨a1, a2, a3, a4⟩ := emit_step 1 s op (code_idx s) hg hc hroom
  rw [e]
  exact ⟨a1, a2, rfl, rfl, a3, hroom, a4⟩

theorem gen_ubyte_step (s : State) (b : Nat) (hg : Good s)
    (hn : (gen_ubyte s b).complaint = none) :
    Compiled s (gen_ubyte s b) ∧ code_idx (gen_ubyte s b) = code_idx s + 1 ∧
      (gen_ubyte s b).prev_instruc = s.prev_instruc ∧ (gen_ubyte s b).token = s.token ∧
      Touched (code_idx s) (code_idx s + 1) s.the_store (gen_ubyte s b).the_store := by
  obtain ⟨hc, hroom, e⟩ := gen_ubyte_ok s b hg hn
  obtain ⟨a1, a2, -, a4⟩ := emit_step 1 s b s.prev_instruc hg hc hroom
  rw [e]
  exact ⟨a1, a2, rfl, rfl, a4⟩

theorem gen_sbyte_step (s : State) (b : Nat) (hg : Good s)
    (hn : (gen_sbyte s b).complaint = none) :
    Compiled s (gen_sbyte s b) ∧ code_idx (gen_sbyte s b) = code_idx s + 1 ∧
      (gen_sbyte s b).prev_instruc = s.prev_instruc ∧ (gen_sbyte s b).token = s.token ∧
      Touched (code_idx s) (code_idx s + 1) s.the_store (gen_sbyte s b).the_store := by
  obtain ⟨hc, hroom, e⟩ := gen_sbyte_ok s b hg hn
  obtain ⟨a1, a2, -, a4⟩ := emit_step 1 s b s.prev_instruc hg hc hroom
  rw [e]
  exact ⟨a1, a2, rfl, rfl, a4⟩

theorem gen_ushort_step (s : State) (u : Nat) (hg : Good s)
    (hn : (gen_ushort s u).complaint = none) :
    Compiled s (gen_ushort s u) ∧ code_idx (gen_ushort s u) = code_idx s + 2 ∧
      (gen_ushort s u).prev_instruc = s.prev_instruc ∧ (gen_ushort s u).token = s.token ∧
      Touched (code_idx s) (code_idx s + 2) s.the_store (gen_ushort s u).the_store := by
  obtain ⟨hc, hroom, e⟩ := gen_ushort_ok s u hg hn
  obtain ⟨a1, a2, -, a4⟩ := emit_step 2 s u s.prev_instruc hg hc hroom
  rw [e]
  exact ⟨a1, a2, rfl, rfl, a4⟩

theorem gen_sshort_step (s : State) (u : Nat) (hg : Good s)
    (hn : (gen_sshort s u).complaint = none) :
    Compiled s (gen_sshort s u) ∧ code_idx (gen_sshort s u) = code_idx s + 2 ∧
      (gen_sshort s u).prev_instruc = s.prev_instruc ∧ (gen_sshort s u).token = s.token ∧
      Touched (code_idx s) (code_idx s + 2) s.the_store (gen_sshort s u).the_store := by
  obtain ⟨hc, hroom, e⟩ := gen_sshort_ok s u hg hn
  obtain ⟨a1, a2, -, a4⟩ := emit_step 2 s u s.prev_instruc hg hc hroom
  rw [e]
  exact ⟨a1, a2, rfl, rfl, a4⟩

theorem gen_value_step (s : State) (v : Nat) (hg : Good s)
    (hn : (gen_value s v).complaint = none) :
    Compiled s (gen_value s v) ∧ code_idx (gen_value s v) = code_idx s + 4 ∧
      (gen_value s v).prev_instruc = s.prev_instruc ∧ (gen_value s v).token = s.token ∧
      Touched (code_idx s) (code_idx s + 4) s.the_store (gen_value s v).the_store := by
  obtain ⟨hc, hroom, e⟩ := gen_value_ok s v hg hn
  obtain ⟨a1, a2, -, a4⟩ := emit_step 4 s v s.prev_instruc hg hc hroom
  rw [e]
  exact ⟨a1, a2, rfl, rfl, a4⟩

/-- An opcode followed by an operand of one or two bytes. -/
theorem gen_pair_step (s t u : State) (op : Nat) (n : Nat) (hg : Good s)
    (ht : t = gen s op) (hn : t.complaint = none)
    (hu : Compiled t u ∧ code_idx u = code_idx t + n ∧ u.prev_instruc = t.prev_instruc ∧
      u.token = t.token ∧ Touched (code_idx t) (code_idx t + n) t.the_store u.the_store)
    (hn2 : n ≤ 2) :
    Compiled s u ∧ code_idx u = code_idx s + 1 + n ∧ u.token = s.token ∧
      PrevOK (code_idx s) u := by
  subst ht
  obtain ⟨a1, a2, a3, a4, -, -, -⟩ := gen_step s op hg hn
  obtain ⟨b1, b2, b3, b4, -⟩ := hu
  refine ⟨a1.seq b1, by rw [b2, a2], b4.trans a4, ?_⟩
  exact PrevOK.short _ _ (by rw [b3, a3]) (by rw [b3, a3, b2, a2]; omega)
    (by rw [b3, a3, b2, a2]; omega)
theorem emit_latched (n : Nat) (s : State) (v p : Nat) (h : s.complaint.isSome = true) :
    (emit n s v p).complaint.isSome = true := h

theorem gen_latched (s : State) (op : Nat) (h : s.complaint.isSome = true) :
    (gen s op).complaint.isSome = true := by
  unfold gen available
  split_ifs
  · exact h
  · exact complain_latched s _

theorem gen_ubyte_latched (s : State) (b : Nat) (h : s.complaint.isSome = true) :
    (gen_ubyte s b).complaint.isSome = true := by
  unfold gen_ubyte available
  split_ifs
  · exact h
  · exact complain_latched s _

theorem gen_sbyte_latched (s : State) (b : Nat) (h : s.complaint.isSome = true) :
    (gen_sbyte s b).complaint.isSome = true := by
  unfold gen_sbyte available
  split_ifs
  · exact h
  · exact complain_latched s _

theorem gen_ushort_latched (s : State) (u : Nat) (h : s.complaint.isSome = true) :
    (gen_ushort s u).complaint.isSome = true := by
  unfold gen_ushort available
  split_ifs
  · exact h
  · exact complain_latched s _

theorem gen_sshort_latched (s : State) (u : Nat) (h : s.complaint.isSome = true) :
    (gen_sshort s u).complaint.isSome = true := by
  unfold gen_sshort available
  split_ifs
  · exact h
  · exact complain_latched s _

theorem gen_value_latched (s : State) (v : Nat) (h : s.complaint.isSome = true) :
    (gen_value s v).complaint.isSome = true := by
  unfold gen_value available
  split_ifs
  · exact h
  · exact complain_latched s _

/-- The push of a literal, when it ends with no complaint. -/
theorem gen_literal_step (s : State) (hg : Good s) (hn : (gen_literal s).complaint = none) :
    Compiled s (gen_literal s) ∧ code_idx s + 2 ≤ code_idx (gen_literal s) ∧
      (gen_literal s).token = s.token ∧ PrevOK (code_idx s) (gen_literal s) := by
  unfold gen_literal at hn ⊢
  simp only [] at hn ⊢
  split_ifs at hn ⊢
  · have h1 : (gen s PUSHB).complaint = none :=
      none_of_not_latched _ (fun hx => not_latched _ hn (gen_sbyte_latched _ _ hx))
    obtain ⟨a1, a2, a3, a4⟩ := gen_pair_step s _ _ PUSHB 1 hg rfl h1
      (gen_sbyte_step _ _ ((gen_step s PUSHB hg h1).1.good hg) hn) (by omega)
    exact ⟨a1, by omega, a3, a4⟩
  · have h1 : (gen s PUSHW).complaint = none :=
      none_of_not_latched _ (fun hx => not_latched _ hn (gen_sshort_latched _ _ hx))
    obtain ⟨a1, a2, a3, a4⟩ := gen_pair_step s _ _ PUSHW 2 hg rfl h1
      (gen_sshort_step _ _ ((gen_step s PUSHW hg h1).1.good hg) hn) (by omega)
    exact ⟨a1, by omega, a3, a4⟩
  · have h1 : (gen s PUSH).complaint = none :=
      none_of_not_latched _ (fun hx => not_latched _ hn (gen_value_latched _ _ hx))
    obtain ⟨a1, a2, a3, a4, a5, -, -⟩ := gen_step s PUSH hg h1
    obtain ⟨b1, b2, b3, b4, b5⟩ := gen_value_step _ _ (a1.good hg) hn
    refine ⟨a1.seq b1, by rw [b2, a2]; omega, b4.trans a4, ?_⟩
    intro _
    rw [b3, a3, b2, a2]
    refine ⟨Nat.le_refl _, by omega, Or.inr ⟨?_, fun _ => by omega⟩⟩
    rw [b5.byte (code_idx s) (by have := hg.1; omega) (Or.inl (by rw [a2]; omega)), a5]
    decide

theorem strlen_loop_lt (m : Nat) (fuel : Nat) : ∀ (p n : Nat),
    strlen_loop m fuel p = some n → n < fuel := by
  induction fuel with
  | zero => intro p n h; cases h
  | succ f ih =>
    intro p n h
    rw [strlen_loop] at h
    split_ifs at h
    · cases h
      omega
    · cases hr : strlen_loop m f (p + 1) with
      | none =>
        rw [hr] at h
        cases h
      | some k =>
        rw [hr] at h
        cases h
        have := ih _ _ hr
        show k + 1 < f + 1
        omega

theorem strlen_lt (m p n : Nat) (h : strlen m p = some n) : p + n < store_capacity := by
  have := strlen_loop_lt m _ p n h
  omega

/-- The two bytes `forward_ref` leaves open. -/
theorem forward_ref_step (s : State) (hg : Good s) (hc : s.complaint = none)
    (hroom : code_idx s ≤ dict_idx s) :
    Compiled s (forward_ref s).2 ∧ code_idx (forward_ref s).2 = code_idx s + 2 ∧
      (forward_ref s).2.prev_instruc = s.prev_instruc ∧ (forward_ref s).2.token = s.token ∧
      (forward_ref s).1 = code_idx s ∧
      Touched 8 8 s.the_store (forward_ref s).2.the_store := by
  have hcap : store_capacity = 4096 := rfl
  obtain ⟨g1, g2, g3⟩ := hg
  obtain ⟨e1, e2, e3⟩ := set_code_idx_spec s (code_idx s + 2) (by omega)
  have hT : Touched 8 8 s.the_store (forward_ref s).2.the_store :=
    fun k q h8 _ => e3 k q (by omega)
  refine ⟨Compiled.of_touched s _ 8 8 hc ?_ rfl ?_ e2 hT (Nat.le_refl _) ?_, e1, rfl, rfl,
    Nat.mod_eq_of_lt (by omega), hT⟩
  · show code_idx s ≤ code_idx (set_code_idx s (code_idx s + 2))
    omega
  · show code_idx (set_code_idx s (code_idx s + 2)) ≤ _
    omega
  · show 8 ≤ code_idx (set_code_idx s (code_idx s + 2))
    omega

/-- A move of `code_idx` forward. -/
theorem skip_step (s : State) (c : Nat) (hg : Good s) (hc : s.complaint = none)
    (h1 : code_idx s ≤ c) (h2 : c ≤ store_capacity + 2) :
    Compiled s (set_code_idx s c) ∧ code_idx (set_code_idx s c) = c ∧
      Touched 8 8 s.the_store (set_code_idx s c).the_store := by
  have hcap : store_capacity = 4096 := rfl
  obtain ⟨g1, g2, g3⟩ := hg
  obtain ⟨e1, e2, e3⟩ := set_code_idx_spec s c (by omega)
  have hT : Touched 8 8 s.the_store (set_code_idx s c).the_store :=
    fun k q h8 _ => e3 k q (by omega)
  exact ⟨Compiled.of_touched s _ 8 8 hc (by omega) rfl (by omega) e2 hT (Nat.le_refl _)
    (by omega), e1, hT⟩

/-- The store of `resolve`, two bytes of code already emitted. -/
theorem resolve_step (s : State) (ref : Nat) (hg : Good s) (hc : s.complaint = none)
    (h8 : 8 ≤ ref) (hr : ref + 2 ≤ code_idx s) :
    Compiled s (resolve s ref) ∧ code_idx (resolve s ref) = code_idx s ∧
      (resolve s ref).token = s.token ∧
      Touched ref (ref + 2) s.the_store (resolve s ref).the_store := by
  have hT : Touched ref (ref + 2) s.the_store (resolve s ref).the_store := by
    show Touched _ _ _ (write_wX s.the_store ref _)
    rw [write_wX_eq]
    exact Touched.of_write 2 _ ref _
  have e1 : code_idx (resolve s ref) = code_idx s := by
    show fetch_wV (write_wX s.the_store ref _) 0 = _
    rw [fetch_wV_eq, write_wX_eq, fetch_bytes_write_bytes_disjoint _ _ _ _ _ _ (by omega)]
    rfl
  have e2 : dict_idx (resolve s ref) = dict_idx s := by
    show fetch_wV (write_wX s.the_store ref _) 4 = _
    rw [fetch_wV_eq, write_wX_eq, fetch_bytes_write_bytes_disjoint _ _ _ _ _ _ (by omega)]
    rfl
  exact ⟨Compiled.of_touched s _ _ _ hc (by omega) rfl (by rw [e1]; exact hg.2.1) e2 hT h8
    (by omega), e1, rfl, hT⟩
/-- A store of `n` bytes into the code just emitted, ending at `code_idx`. -/
theorem poke_step (c0 : Nat) (s : State) (n v : Nat) (hg : Good s) (h0 : 11 ≤ c0)
    (hp : PrevOK c0 s) (hne : s.prev_instruc ≠ 0) (hc : s.complaint = none) (hn4 : n ≤ 4)
    (hfar : fetch_u8 s.the_store s.prev_instruc ≠ GLOBAL_FETCH →
      (fetch_u8 s.the_store s.prev_instruc = PUSH → s.prev_instruc + 5 ≤ code_idx s) →
      code_idx s ≤ s.prev_instruc + 3 ∨ s.prev_instruc + 1 + n ≤ code_idx s) :
    Compiled s { s with the_store := write_bytes n s.the_store (code_idx s - n) v } ∧
      PrevOK c0 { s with the_store := write_bytes n s.the_store (code_idx s - n) v } := by
  obtain ⟨a1, a2, a3⟩ := hp hne
  have hT : Touched (code_idx s - n) (code_idx s) s.the_store
      (write_bytes n s.the_store (code_idx s - n) v) := by
    have := Touched.of_write n s.the_store (code_idx s - n) v
    have e : code_idx s - n + n = code_idx s := by omega
    rw [e] at this
    exact this
  have e1 : code_idx { s with the_store := write_bytes n s.the_store (code_idx s - n) v } =
      code_idx s := by
    show fetch_wV (write_bytes n s.the_store (code_idx s - n) v) 0 = _
    rw [fetch_wV_eq, fetch_bytes_write_bytes_disjoint _ _ _ _ _ _ (by omega)]
    rfl
  have e2 : dict_idx { s with the_store := write_bytes n s.the_store (code_idx s - n) v } =
      dict_idx s := by
    show fetch_wV (write_bytes n s.the_store (code_idx s - n) v) 4 = _
    rw [fetch_wV_eq, fetch_bytes_write_bytes_disjoint _ _ _ _ _ _ (by omega)]
    rfl
  refine ⟨Compiled.of_touched s _ _ _ hc (by omega) rfl (by rw [e1]; exact hg.2.1) e2 hT
    (by omega) (by omega), ?_⟩
  intro _
  rw [e1]
  refine ⟨a1, a2, ?_⟩
  rcases a3 with a3 | ⟨b1, b2⟩
  · exact Or.inl a3
  · rcases hfar b1 b2 with h | h
    · exact Or.inl h
    · right
      have e : fetch_u8 (write_bytes n s.the_store (code_idx s - n) v) s.prev_instruc =
          fetch_u8 s.the_store s.prev_instruc :=
        hT.byte _ (by omega) (Or.inl (by omega))
      show fetch_u8 (write_bytes n s.the_store (code_idx s - n) v) s.prev_instruc ≠ _ ∧
        (fetch_u8 (write_bytes n s.the_store (code_idx s - n) v) s.prev_instruc = _ → _)
      rw [e]
      exact ⟨b1, b2⟩

/-- The peephole of the unary minus, when it ends with no complaint. -/
theorem gen_negate_step (c0 : Nat) (s : State) (hg : Good s) (h0 : 11 ≤ c0)
    (hc0 : c0 ≤ code_idx s) (hp : PrevOK c0 s) (hn : (gen_negate s).complaint = none) :
    Compiled s (gen_negate s) ∧ (gen_negate s).token = s.token ∧
      PrevOK c0 (gen_negate s) := by
  have hgen : (gen s NEGATE).complaint = none →
      Compiled s (gen s NEGATE) ∧ (gen s NEGATE).token = s.token ∧
        PrevOK c0 (gen s NEGATE) := by
    intro hx
    obtain ⟨a1, a2, a3, a4, -, -, -⟩ := gen_step s NEGATE hg hx
    exact ⟨a1, a4, PrevOK.short _ _ (by rw [a3]; exact hc0) (by rw [a3, a2]; omega)
      (by rw [a3, a2]; omega)⟩
  unfold gen_negate at hn ⊢
  simp only [] at hn ⊢
  split_ifs at hn ⊢ with hne h1 h2 h3
  · obtain ⟨p1, p2⟩ := poke_step c0 s 4 ((4294967296 - fetch_wV s.the_store (code_idx s - 4)) %
      4294967296) hg h0 hp hne hn (by omega) (fun _ hb => Or.inr (by have := hb h1; omega))
    exact ⟨p1, rfl, p2⟩
  · obtain ⟨p1, p2⟩ := poke_step c0 s 2 ((65536 - fetch_2i s.the_store (code_idx s - 2)) %
      65536) hg h0 hp hne hn (by omega) (fun _ _ => by omega)
    exact ⟨p1, rfl, p2⟩
  · obtain ⟨p1, p2⟩ := poke_step c0 s 1 ((256 - fetch_u8 s.the_store (code_idx s - 1)) %
      256) hg h0 hp hne hn (by omega) (fun _ _ => by omega)
    exact ⟨p1, rfl, p2⟩
  · exact hgen hn
  · exact hgen hn
theorem parse_expr_latched (fuel : Nat) (p : Int) (s s' : State)
    (h : parse_expr fuel p s = some s') (hl : s.complaint.isSome = true) : s' = s := by
  cases fuel with
  | zero => cases h
  | succ f =>
    rw [parse_expr, if_pos hl] at h
    cases h
    rfl

theorem parse_expr_loop_latched (fuel : Nat) (p : Int) (s s' : State)
    (h : parse_expr_loop fuel p s = some s') (hl : s.complaint.isSome = true) : s' = s := by
  cases fuel with
  | zero => cases h
  | succ f =>
    rw [parse_expr_loop, if_pos hl] at h
    cases h
    rfl

theorem parse_arguments_latched (fuel : Nat) : ∀ (arity : Nat) (s s' : State),
    parse_arguments fuel arity s = some s' → s.complaint.isSome = true → s' = s := by
  induction fuel with
  | zero => intro arity s s' h; cases h
  | succ f ih =>
    intro arity s s' h hl
    rw [parse_arguments] at h
    split_ifs at h
    · cases h
      rfl
    · cases hp : parse_expr f 20 s with
      | none =>
        rw [hp] at h
        cases h
      | some s1 =>
        rw [hp] at h
        simp only [] at h
        have e := parse_expr_latched f 20 s s1 hp hl
        subst e
        exact ih _ _ _ h hl

theorem skip_newline_latched (fuel : Nat) (s s' : State) (h : skip_newline fuel s = some s')
    (hl : s.complaint.isSome = true) : s' = s := by
  cases fuel with
  | zero => cases h
  | succ f =>
    rw [skip_newline] at h
    have hx : ¬ (s.complaint.isNone = true ∧ s.token = 10) := by
      intro hq
      cases hc : s.complaint with
      | none =>
        rw [hc] at hl
        cases hl
      | some m =>
        rw [hc] at hq
        cases hq.1
    rw [if_neg hx] at h
    cases h
    rfl

/-- A state the compiler has not complained in, from a later state it has
not complained in. -/
theorem before_parse_expr (fuel : Nat) (p : Int) (s s' : State)
    (h : parse_expr fuel p s = some s') (hn : s'.complaint = none) : s.complaint = none :=
  none_of_not_latched s (fun hl => by
    have e := parse_expr_latched fuel p s s' h hl
    subst e
    exact not_latched _ hn hl)

theorem before_loop (fuel : Nat) (p : Int) (s s' : State)
    (h : parse_expr_loop fuel p s = some s') (hn : s'.complaint = none) : s.complaint = none :=
  none_of_not_latched s (fun hl => by
    have e := parse_expr_loop_latched fuel p s s' h hl
    subst e
    exact not_latched _ hn hl)

theorem before_arguments (fuel : Nat) (arity : Nat) (s s' : State)
    (h : parse_arguments fuel arity s = some s') (hn : s'.complaint = none) :
    s.complaint = none :=
  none_of_not_latched s (fun hl => by
    have e := parse_arguments_latched fuel arity s s' h hl
    subst e
    exact not_latched _ hn hl)

theorem before_skip_newline (fuel : Nat) (s s' : State)
    (h : skip_newline fuel s = some s') (hn : s'.complaint = none) : s.complaint = none :=
  none_of_not_latched s (fun hl => by
    have e := skip_newline_latched fuel s s' h hl
    subst e
    exact not_latched _ hn hl)

theorem before_next (fuel : Nat) (s s' : State)
    (h : next fuel s = some s') (hn : s'.complaint = none) : s.complaint = none :=
  none_of_not_latched s (fun hl => not_latched _ hn ((next_end fuel s s' h).1 hl))

theorem before_gen (s : State) (op : Nat) (hn : (gen s op).complaint = none) :
    s.complaint = none :=
  none_of_not_latched s (fun hl => not_latched _ hn (gen_latched s op hl))

theorem before_gen_ushort (s : State) (u : Nat) (hn : (gen_ushort s u).complaint = none) :
    s.complaint = none :=
  none_of_not_latched s (fun hl => not_latched _ hn (gen_ushort_latched s u hl))

theorem before_gen_ubyte (s : State) (u : Nat) (hn : (gen_ubyte s u).complaint = none) :
    s.complaint = none :=
  none_of_not_latched s (fun hl => not_latched _ hn (gen_ubyte_latched s u hl))

theorem arguments_step (f : Nat) (hE : ExprSpec f) (hA : ArgumentsSpec f) :
    ArgumentsSpec (f + 1) := by
  intro arity s s' h hn hg
  rw [parse_arguments] at h
  split_ifs at h
  · cases h
    exact Compiled.idle s hn hg.2.1
  · cases hp : parse_expr f 20 s with
    | none =>
      rw [hp] at h
      cases h
    | some s1 =>
      rw [hp] at h
      simp only [] at h
      have n1 := before_arguments f _ s1 s' h hn
      have c1 := (hE 20 s s1 hp n1 hg).1
      exact c1.seq (hA _ s1 s' h hn (c1.good hg))

theorem expr_step (f : Nat) (hF : FactorSpec f) (hL : LoopSpec f) : ExprSpec (f + 1) := by
  intro p s s' h hn hg
  rw [parse_expr] at h
  split_ifs at h with hl
  · cases h
    exact absurd hl (not_latched _ hn)
  · cases hp : parse_factor f s with
    | none =>
      rw [hp] at h
      cases h
    | some s1 =>
      rw [hp] at h
      simp only [] at h
      have n1 := before_loop f p s1 s' h hn
      obtain ⟨c1, g1, g2, p1⟩ := hF s s1 hp n1 hg
      obtain ⟨c2, p2⟩ := hL p (code_idx s) s1 s' h hn (c1.good hg) hg.1 c1.code p1
      have := c2.code
      exact ⟨c1.seq c2, by omega, fun ht => by have := g2 ht; omega, p2⟩
theorem pending_end_of_ne (s : State) (h : s.token ≠ 39) : pending_end s = code_idx s := by
  unfold pending_end
  rw [if_neg h]

theorem pending_end_of_eq (s : State) (h : s.token = 39) : pending_end s = code_idx s + 2 := by
  unfold pending_end
  rw [if_pos h]

theorem Good.h7 {s : State} (hg : Good s) : 7 ≤ code_idx s := by
  have := hg.1
  omega

/-- A token read by `next` when the token before it was not a string. -/
theorem next_step (fuel : Nat) (s s' : State) (h : next fuel s = some s')
    (hn : s'.complaint = none) (hg : Good s) (ht : s.token ≠ 39) :
    Compiled s s' ∧ code_idx s' = code_idx s ∧ s'.prev_instruc = s.prev_instruc ∧
      (∀ c0, 8 ≤ c0 → PrevOK c0 s → PrevOK c0 s') := by
  obtain ⟨i1, i2, i3, i4, i5, i6⟩ := next_spec fuel s s' h hn hg.h7 hg.2.1 hg.2.2
  refine ⟨⟨i1, by omega, ?_, by rw [i2]; exact hg.2.1, i3, i5.widen (by have := hg.1; omega)
    (Nat.le_refl _)⟩, i2, i4, fun c0 h8 hp => hp.keep h8 i4 i2 i5 (by omega)⟩
  have := pending_end_ge s'
  have e : pending_end s = code_idx s := by
    unfold pending_end
    rw [if_neg ht]
  omega

theorem skip_newline_step (fuel : Nat) (s s' : State) (h : skip_newline fuel s = some s')
    (hn : s'.complaint = none) (hg : Good s) :
    Compiled s s' ∧ code_idx s' = code_idx s ∧ s'.prev_instruc = s.prev_instruc ∧
      s'.token ≠ 10 ∧ (s.token ≠ 10 → s' = s) ∧
      (∀ c0, 8 ≤ c0 → PrevOK c0 s → PrevOK c0 s') := by
  obtain ⟨i1, i2, i3, i4, i5, i6, i7, i8⟩ :=
    skip_newline_spec fuel s s' h hn hg.h7 hg.2.1 hg.2.2
  refine ⟨⟨i1, by omega, ?_, by rw [i2]; exact hg.2.1, i3, i7.widen (by have := hg.1; omega)
    (Nat.le_refl _)⟩, i2, i4, i5, i6, fun c0 h8 hp => hp.keep h8 i4 i2 i7 (by omega)⟩
  by_cases ht : s.token = 10
  · have := pending_end_ge s'
    have e : pending_end s = code_idx s := by
      unfold pending_end
      rw [if_neg (by rw [ht]; decide)]
    omega
  · rw [i6 ht]

theorem binary_operator_token (t : Int) (x : Int × Nat) (h : binary_operator t = some x) :
    t ≠ 39 ∧ t ≠ 10 := by
  constructor
  · intro e
    rw [e] at h
    simp [binary_operator] at h
  · intro e
    rw [e] at h
    simp [binary_operator] at h
theorem loop_entry (f : Nat) (p : Int) (s s1 : State)
    (h : (if p = 0 then skip_newline f s else some s) = some s1) (hn : s1.complaint = none)
    (hg : Good s) :
    Compiled s s1 ∧ code_idx s1 = code_idx s ∧
      (∀ c0, 8 ≤ c0 → PrevOK c0 s → PrevOK c0 s1) := by
  split_ifs at h
  · obtain ⟨a1, a2, -, -, -, a6⟩ := skip_newline_step f s s1 h hn hg
    exact ⟨a1, a2, a6⟩
  · cases h
    exact ⟨Compiled.idle s hn hg.2.1, rfl, fun _ _ hp => hp⟩

/-- The assignment `g : E`: the `GLOBAL_FETCH` just emitted is dropped and
replaced by the code of `E` and a `GLOBAL_STORE`. -/
theorem store_step (c0 : Nat) (s3 s5 s6 : State) (hg : Good s3) (h0 : 11 ≤ c0)
    (hp : PrevOK c0 s3) (hne : s3.prev_instruc ≠ 0)
    (hgf : fetch_u8 s3.the_store s3.prev_instruc = GLOBAL_FETCH)
    (hc3 : s3.complaint = none)
    (h45 : Good (set_code_idx s3 s3.prev_instruc) →
      Parsed (set_code_idx s3 s3.prev_instruc) s5)
    (h56 : Good s5 → Compiled s5 s6 ∧ code_idx s6 = code_idx s5 + 1 + 2 ∧
      s6.token = s5.token ∧ PrevOK (code_idx s5) s6) :
    Compiled s3 s6 ∧ PrevOK c0 s6 := by
  have hcap : store_capacity = 4096 := rfl
  obtain ⟨a1, a2, a3⟩ := hp hne
  have a4 : code_idx s3 ≤ s3.prev_instruc + 3 := by
    rcases a3 with a3 | ⟨b1, -⟩
    · exact a3
    · exact absurd hgf b1
  obtain ⟨g1, g2, g3⟩ := hg
  obtain ⟨e1, e2, e3⟩ := set_code_idx_spec s3 s3.prev_instruc (by omega)
  have g4 : Good (set_code_idx s3 s3.prev_instruc) := ⟨by omega, by omega, by omega⟩
  obtain ⟨c45, w1, w2, p5⟩ := h45 g4
  obtain ⟨c56, w3, w4, p6⟩ := h56 (c45.good g4)
  rw [e1] at w1 p5
  have t4 : (set_code_idx s3 s3.prev_instruc).token = s3.token := rfl
  rw [e1, t4] at w2
  refine ⟨⟨hc3, by omega, ?_, c56.bound, ?_, ?_⟩, p6.lower (by omega)⟩
  · have hq := pending_end_ge s6
    by_cases ht : s3.token = 39
    · have := w2 ht
      rw [pending_end_of_eq s3 ht]
      omega
    · rw [pending_end_of_ne s3 ht]
      omega
  · rw [c56.dict, c45.dict, e2]
  · have t1 : Touched 8 (max (dict_idx s3) (pending_end s6)) s3.the_store
        (set_code_idx s3 s3.prev_instruc).the_store :=
      fun k q h8 _ => e3 k q (by omega)
    have t2 := c45.touched
    have t3 := c56.touched
    rw [e2] at t2
    rw [c45.dict, e2] at t3
    have := c56.pend
    exact (t1.both (t2.widen (Nat.le_refl _) (by omega))).both t3

theorem loop_step (f : Nat) (hE : ExprSpec f) (hL : LoopSpec f) : LoopSpec (f + 1) := by
  intro p c0 s s' h hn hg h0 hc0 hp
  rw [parse_expr_loop] at h
  by_cases hl : s.complaint.isSome = true
  · rw [if_pos hl] at h
    cases h
    exact absurd hl (not_latched _ hn)
  · rw [if_neg hl] at h
    generalize hs1 : (if p = 0 then skip_newline f s else some s) = r1 at h
    cases r1 with
    | none => cases h
    | some s1 =>
      simp only [] at h
      have stay : s1.complaint = none → Compiled s s1 ∧ PrevOK c0 s1 := fun hx =>
        ⟨(loop_entry f p s s1 hs1 hx hg).1,
          (loop_entry f p s s1 hs1 hx hg).2.2 c0 (by omega) hp⟩
      cases hop : binary_operator s1.token with
      | none =>
        rw [hop] at h
        cases h
        exact stay hn
      | some x =>
        obtain ⟨l, rator⟩ := x
        rw [hop] at h
        simp only [] at h
        by_cases hx : l < p ∨ s1.complaint.isSome = true
        · rw [if_pos hx] at h
          cases h
          exact stay hn
        · rw [if_neg hx] at h
          cases hn2 : next f s1 with
          | none =>
            rw [hn2] at h
            cases h
          | some s2 =>
            rw [hn2] at h
            simp only [] at h
            cases hk : skip_newline f s2 with
            | none =>
              rw [hk] at h
              cases h
            | some s3 =>
              rw [hk] at h
              simp only [] at h
              have front : s3.complaint = none →
                  Compiled s s3 ∧ PrevOK c0 s3 ∧ Good s3 ∧ code_idx s3 = code_idx s := by
                intro n3
                have n2 := before_skip_newline f s2 s3 hk n3
                have n1 := before_next f s1 s2 hn2 n2
                obtain ⟨a1, a2, a3⟩ := loop_entry f p s s1 hs1 n1 hg
                obtain ⟨b1, b2, b3, b4⟩ := next_step f s1 s2 hn2 n2 (a1.good hg)
                  (binary_operator_token _ _ hop).1
                obtain ⟨d1, d2, d3, d4, d5, d6⟩ :=
                  skip_newline_step f s2 s3 hk n3 (b1.good (a1.good hg))
                exact ⟨(a1.seq b1).seq d1,
                  d6 c0 (by omega) (b4 c0 (by omega) (a3 c0 (by omega) hp)),
                  d1.good (b1.good (a1.good hg)), by rw [d2, b2, a2]⟩
              split_ifs at h with hpop hst hpv
              · cases he : parse_expr f (l + 1) (gen s3 rator) with
                | none =>
                  rw [he] at h
                  cases h
                | some s5 =>
                  rw [he] at h
                  simp only [] at h
                  have n5 := before_loop f p s5 s' h hn
                  have n4 := before_parse_expr f _ _ s5 he n5
                  have n3 := before_gen s3 rator n4
                  obtain ⟨f1, f2, f3, f4⟩ := front n3
                  obtain ⟨k1, k2, -, -, -, -, -⟩ := gen_step s3 rator f3 n4
                  obtain ⟨m1, m2, -, m4⟩ := hE _ _ s5 he n5 (k1.good f3)
                  obtain ⟨r1, r2⟩ := hL p c0 s5 s' h hn (m1.good (k1.good f3)) h0
                    (by have := m1.code; omega) (m4.lower (by omega))
                  exact ⟨((f1.seq k1).seq m1).seq r1, r2⟩
              · cases he : parse_expr f l (set_code_idx s3 s3.prev_instruc) with
                | none =>
                  rw [he] at h
                  cases h
                | some s5 =>
                  rw [he] at h
                  simp only [] at h
                  have n6 := before_loop f p _ s' h hn
                  have n5' := before_gen_ushort _ _ n6
                  have n5 := before_gen s5 GLOBAL_STORE n5'
                  have n3 : s3.complaint = none :=
                    before_parse_expr f _ (set_code_idx s3 s3.prev_instruc) s5 he n5
                  obtain ⟨f1, f2, f3, f4⟩ := front n3
                  obtain ⟨u1, u2⟩ := store_step c0 s3 s5
                    (gen_ushort (gen s5 GLOBAL_STORE) (fetch_wX s3.the_store (s3.prev_instruc + 1)))
                    f3 h0 f2 hpv.1 hpv.2 n3 (fun g4 => hE _ _ s5 he n5 g4)
                    (fun g5 => gen_pair_step s5 _ _ GLOBAL_STORE 2 g5 rfl n5'
                      (gen_ushort_step _ _ ((gen_step s5 GLOBAL_STORE g5 n5').1.good g5) n6)
                      (by omega))
                  obtain ⟨r1, r2⟩ := hL p c0 _ s' h hn (u1.good f3) h0
                    (by have := u1.code; omega) u2
                  exact ⟨(f1.seq u1).seq r1, r2⟩
              · cases h
                exact absurd (complain_latched s3 _) (not_latched _ hn)
              · cases he : parse_expr f (l + 1) s3 with
                | none =>
                  rw [he] at h
                  cases h
                | some s4 =>
                  rw [he] at h
                  simp only [] at h
                  have n5 := before_loop f p _ s' h hn
                  have n4 := before_gen s4 rator n5
                  have n3 := before_parse_expr f _ _ s4 he n4
                  obtain ⟨f1, f2, f3, f4⟩ := front n3
                  obtain ⟨m1, m2, -, m4⟩ := hE _ _ s4 he n4 f3
                  obtain ⟨k1, k2, k3, -, -, -, -⟩ := gen_step s4 rator (m1.good f3) n5
                  obtain ⟨r1, r2⟩ := hL p c0 _ s' h hn (k1.good (m1.good f3)) h0
                    (by have := m1.code; have := k1.code; omega)
                    (PrevOK.short _ _ (by rw [k3]; have := m1.code; omega)
                      (by rw [k3, k2]; omega) (by rw [k3, k2]; omega))
                  exact ⟨((f1.seq m1).seq k1).seq r1, r2⟩
theorem good_next (f : Nat) (s s' : State) (h : next f s = some s') (hg : Good s) : Good s' := by
  have c := next_code_idx f s s' (by have := hg.1; omega) h
  have d := next_dict_idx f s s' hg.h7 h
  unfold Good
  rw [c, d]
  exact hg

theorem factor_literal (f : Nat) (s s' : State) (h : next f (gen_literal s) = some s')
    (hn : s'.complaint = none) (hg : Good s) (ht : s.token = 1) : Parsed s s' := by
  have n1 := before_next f _ s' h hn
  obtain ⟨a1, a2, a3, a4⟩ := gen_literal_step s hg n1
  obtain ⟨b1, b2, b3, b4⟩ := next_step f _ s' h hn (a1.good hg) (by rw [a3, ht]; decide)
  exact ⟨a1.seq b1, by omega, fun e => by rw [ht] at e; exact absurd e (by decide),
    b4 _ (by have := hg.1; omega) a4⟩

theorem factor_string (f : Nat) (s s' : State) (n : Nat)
    (hs : strlen (gen s PUSH_STRING).the_store (code_idx (gen s PUSH_STRING)) = some n)
    (h : next f (set_code_idx (gen s PUSH_STRING) (code_idx (gen s PUSH_STRING) + n + 1)) =
      some s')
    (hn : s'.complaint = none) (hg : Good s) (ht : s.token = 39) : Parsed s s' := by
  have hcap : store_capacity = 4096 := rfl
  have n2 := before_next f _ s' h hn
  have n1 : (gen s PUSH_STRING).complaint = none := n2
  obtain ⟨a1, a2, a3, a4, a5, a6, a7⟩ := gen_step s PUSH_STRING hg n1
  have hl := strlen_lt _ _ _ hs
  obtain ⟨b1, b2, b3⟩ := skip_step (gen s PUSH_STRING)
    (code_idx (gen s PUSH_STRING) + n + 1) (a1.good hg) n1 (by omega) (by omega)
  have b4 : (set_code_idx (gen s PUSH_STRING) (code_idx (gen s PUSH_STRING) + n + 1)).prev_instruc
      = (gen s PUSH_STRING).prev_instruc := rfl
  have bd := b1.dict
  generalize set_code_idx (gen s PUSH_STRING) (code_idx (gen s PUSH_STRING) + n + 1) = u
    at h n2 b1 b2 b3 b4 bd
  have ad := a1.dict
  generalize gen s PUSH_STRING = t at hs n1 a1 a2 a3 a4 a5 a7 hl b1 b2 b3 b4 bd ad
  have g1 := hg.1
  obtain ⟨i1, i2, i3, i4, i5, i6⟩ := next_spec f u s' h hn (by omega) (by omega)
    (by rw [bd, ad]; exact hg.2.2)
  rw [bd, ad] at i3 i5
  have hq := pending_end_ge s'
  refine ⟨⟨a1.before, by omega, by rw [pending_end_of_eq s ht]; omega, by omega, i3, ?_⟩,
    by omega, fun _ => by omega, ?_⟩
  · exact ((a7.widen (by omega) (by omega)).both (b3.widen (Nat.le_refl _) (by omega))).both
      (i5.widen (by omega) (Nat.le_refl _))
  · intro _
    have pv : s'.prev_instruc = code_idx s := by
      rw [i4, b4]
      exact a3
    rw [pv]
    refine ⟨Nat.le_refl _, by omega, Or.inr ?_⟩
    have e1 : fetch_u8 s'.the_store (code_idx s) = PUSH_STRING % 256 := by
      rw [i5.byte (code_idx s) (by omega) (Or.inl (by omega)),
        b3.byte (code_idx s) (by omega) (Or.inr (by omega)), a5]
    rw [e1]
    exact ⟨by decide, fun e => absurd e (by decide)⟩

theorem factor_paren (f : Nat) (hE : ExprSpec f) (s s1 s2 s' : State)
    (h1 : next f s = some s1) (h2 : parse_expr f 0 s1 = some s2) (h3 : next f s2 = some s')
    (hn : s'.complaint = none) (hg : Good s) (ht : s.token = 40) (ht2 : s2.token = 41) :
    Parsed s s' := by
  have n2 := before_next f _ s' h3 hn
  have n1 := before_parse_expr f _ _ _ h2 n2
  obtain ⟨a1, a2, a3, a4⟩ := next_step f s s1 h1 n1 hg (by rw [ht]; decide)
  obtain ⟨b1, b2, b3, b4⟩ := hE 0 s1 s2 h2 n2 (a1.good hg)
  obtain ⟨d1, d2, d3, d4⟩ := next_step f s2 s' h3 hn (b1.good (a1.good hg))
    (by rw [ht2]; decide)
  exact ⟨(a1.seq b1).seq d1, by omega, fun e => by rw [ht] at e; exact absurd e (by decide),
    d4 _ (by have := hg.1; omega) (b4.lower (by omega))⟩

theorem factor_star (f : Nat) (hF : FactorSpec f) (s s1 s2 : State)
    (h1 : next f s = some s1) (h2 : parse_factor f s1 = some s2)
    (hn : (gen s2 REFB).complaint = none) (hg : Good s) (ht : s.token = 42) :
    Parsed s (gen s2 REFB) := by
  have n2 := before_gen s2 REFB hn
  obtain ⟨b1, b2, b3, b4⟩ := hF s1 s2 h2 n2 (good_next f s s1 h1 hg)
  obtain ⟨a1, a2, a3, a4⟩ := next_step f s s1 h1 b1.before hg (by rw [ht]; decide)
  obtain ⟨k1, k2, k3, -, -, -, -⟩ := gen_step s2 REFB (b1.good (a1.good hg)) hn
  exact ⟨(a1.seq b1).seq k1, by omega,
    fun e => by rw [ht] at e; exact absurd e (by decide),
    PrevOK.short _ _ (by rw [k3]; omega) (by rw [k3, k2]; omega) (by rw [k3, k2]; omega)⟩

theorem gen_negate_latched (s : State) (h : s.complaint.isSome = true) :
    (gen_negate s).complaint.isSome = true := by
  unfold gen_negate
  simp only []
  split_ifs
  · exact h
  · exact h
  · exact h
  · exact gen_latched s _ h
  · exact gen_latched s _ h

theorem factor_minus (f : Nat) (hF : FactorSpec f) (s s1 s2 : State)
    (h1 : next f s = some s1) (h2 : parse_factor f s1 = some s2)
    (hn : (gen_negate s2).complaint = none) (hg : Good s) (ht : s.token = 45) :
    Parsed s (gen_negate s2) := by
  have n2 : s2.complaint = none :=
    none_of_not_latched _ (fun hl => not_latched _ hn (gen_negate_latched s2 hl))
  obtain ⟨b1, b2, b3, b4⟩ := hF s1 s2 h2 n2 (good_next f s s1 h1 hg)
  obtain ⟨a1, a2, a3, a4⟩ := next_step f s s1 h1 b1.before hg (by rw [ht]; decide)
  have g1 := hg.1
  obtain ⟨k1, k2, k3⟩ := gen_negate_step (code_idx s1) s2 (b1.good (a1.good hg)) (by omega)
    (by omega) b4 hn
  have := k1.code
  exact ⟨(a1.seq b1).seq k1, by omega,
    fun e => by rw [ht] at e; exact absurd e (by decide), k3.lower (by omega)⟩
theorem ident_single (f : Nat) (s s1 : State) (op : Nat) (h1 : next f s = some s1)
    (hn : (gen s1 op).complaint = none) (hg : Good s) (ht : s.token = 97) :
    Parsed s (gen s1 op) := by
  have n1 := before_gen s1 op hn
  obtain ⟨a1, a2, a3, a4⟩ := next_step f s s1 h1 n1 hg (by rw [ht]; decide)
  obtain ⟨k1, k2, k3, -, -, -, -⟩ := gen_step s1 op (a1.good hg) hn
  exact ⟨a1.seq k1, by omega, fun e => by rw [ht] at e; exact absurd e (by decide),
    PrevOK.short _ _ (by rw [k3]; omega) (by rw [k3, k2]; omega) (by rw [k3, k2]; omega)⟩

theorem ident_ushort (f : Nat) (s s1 : State) (op v : Nat) (h1 : next f s = some s1)
    (hn : (gen_ushort (gen s1 op) v).complaint = none) (hg : Good s) (ht : s.token = 97) :
    Parsed s (gen_ushort (gen s1 op) v) := by
  have n2 := before_gen_ushort _ v hn
  have n1 := before_gen s1 op n2
  obtain ⟨a1, a2, a3, a4⟩ := next_step f s s1 h1 n1 hg (by rw [ht]; decide)
  obtain ⟨k1, k2, k3, k4⟩ := gen_pair_step s1 _ _ op 2 (a1.good hg) rfl n2
    (gen_ushort_step _ _ ((gen_step s1 op (a1.good hg) n2).1.good (a1.good hg)) hn) (by omega)
  exact ⟨a1.seq k1, by omega, fun e => by rw [ht] at e; exact absurd e (by decide),
    k4.lower (by omega)⟩

theorem ident_ubyte (f : Nat) (s s1 : State) (op v : Nat) (h1 : next f s = some s1)
    (hn : (gen_ubyte (gen s1 op) v).complaint = none) (hg : Good s) (ht : s.token = 97) :
    Parsed s (gen_ubyte (gen s1 op) v) := by
  have n2 := before_gen_ubyte _ v hn
  have n1 := before_gen s1 op n2
  obtain ⟨a1, a2, a3, a4⟩ := next_step f s s1 h1 n1 hg (by rw [ht]; decide)
  obtain ⟨k1, k2, k3, k4⟩ := gen_pair_step s1 _ _ op 1 (a1.good hg) rfl n2
    (gen_ubyte_step _ _ ((gen_step s1 op (a1.good hg) n2).1.good (a1.good hg)) hn) (by omega)
  exact ⟨a1.seq k1, by omega, fun e => by rw [ht] at e; exact absurd e (by decide),
    k4.lower (by omega)⟩

theorem ident_call (f : Nat) (hA : ArgumentsSpec f) (s s1 s2 : State) (op v arity : Nat)
    (h1 : next f s = some s1) (h2 : parse_arguments f arity s1 = some s2)
    (hn : (gen_ushort (gen s2 op) v).complaint = none) (hg : Good s) (ht : s.token = 97) :
    Parsed s (gen_ushort (gen s2 op) v) := by
  have n3 := before_gen_ushort _ v hn
  have n2 := before_gen s2 op n3
  have n1 := before_arguments f arity s1 s2 h2 n2
  obtain ⟨a1, a2, a3, a4⟩ := next_step f s s1 h1 n1 hg (by rw [ht]; decide)
  have b1 := hA arity s1 s2 h2 n2 (a1.good hg)
  have g2 := b1.good (a1.good hg)
  obtain ⟨k1, k2, k3, k4⟩ := gen_pair_step s2 _ _ op 2 g2 rfl n3
    (gen_ushort_step _ _ ((gen_step s2 op g2 n3).1.good g2) hn) (by omega)
  have := b1.code
  exact ⟨(a1.seq b1).seq k1, by omega,
    fun e => by rw [ht] at e; exact absurd e (by decide), k4.lower (by omega)⟩

theorem ident_prim (f : Nat) (hA : ArgumentsSpec f) (s s1 s2 : State) (op arity : Nat)
    (h1 : next f s = some s1) (h2 : parse_arguments f arity s1 = some s2)
    (hn : (gen s2 op).complaint = none) (hg : Good s) (ht : s.token = 97) :
    Parsed s (gen s2 op) := by
  have n2 := before_gen s2 op hn
  have n1 := before_arguments f arity s1 s2 h2 n2
  obtain ⟨a1, a2, a3, a4⟩ := next_step f s s1 h1 n1 hg (by rw [ht]; decide)
  have b1 := hA arity s1 s2 h2 n2 (a1.good hg)
  have g2 := b1.good (a1.good hg)
  obtain ⟨k1, k2, k3, -, -, -, -⟩ := gen_step s2 op g2 hn
  have := b1.code
  exact ⟨(a1.seq b1).seq k1, by omega,
    fun e => by rw [ht] at e; exact absurd e (by decide),
    PrevOK.short _ _ (by rw [k3]; omega) (by rw [k3, k2]; omega) (by rw [k3, k2]; omega)⟩

/-- A jump opcode and the two bytes left open after it. -/
theorem jump_step (s : State) (op : Nat) (hg : Good s)
    (hn : (forward_ref (gen s op)).2.complaint = none) :
    Compiled s (forward_ref (gen s op)).2 ∧
      code_idx (forward_ref (gen s op)).2 = code_idx s + 3 ∧
      (forward_ref (gen s op)).1 = code_idx s + 1 ∧
      (forward_ref (gen s op)).2.token = s.token := by
  have n1 : (gen s op).complaint = none := hn
  obtain ⟨a1, a2, a3, a4, a5, a6, a7⟩ := gen_step s op hg n1
  obtain ⟨b1, b2, b3, b4, b5, b6⟩ := forward_ref_step (gen s op) (a1.good hg) n1
    (by rw [a2, a1.dict]; exact a6)
  exact ⟨a1.seq b1, by rw [b2, a2], by rw [b5, a2], b4.trans a4⟩

theorem factor_if (f : Nat) (hE : ExprSpec f)
    (s s1 s2 s4 s5 s6 s8 s9 s10 : State)
    (h1 : next f s = some s1) (h2 : parse_expr f 0 s1 = some s2)
    (h4 : skip_newline f (forward_ref (gen s2 BRANCH)).2 = some s4)
    (h5 : next f s4 = some s5) (h6 : parse_expr f 3 s5 = some s6)
    (h8 : skip_newline f (forward_ref (gen s6 JUMP)).2 = some s8)
    (h9 : next f s8 = some s9)
    (h10 : parse_expr f 3 (resolve s9 (forward_ref (gen s2 BRANCH)).1) = some s10)
    (hn : s10.complaint = none) (hg : Good s) (ht : s.token = 105)
    (ht4 : s4.token = 116) (ht8 : s8.token = 101) :
    Parsed s (block_prev (resolve s10 (forward_ref (gen s6 JUMP)).1)) := by
  have n9' := before_parse_expr f _ _ _ h10 hn
  have n9 : s9.complaint = none := n9'
  have n8 := before_next f _ _ h9 n9
  have n7 := before_skip_newline f _ _ h8 n8
  have n6 : s6.complaint = none := before_gen s6 JUMP n7
  have n5 := before_parse_expr f _ _ _ h6 n6
  have n4 := before_next f _ _ h5 n5
  have n3 := before_skip_newline f _ _ h4 n4
  have n2 : s2.complaint = none := before_gen s2 BRANCH n3
  have n1 := before_parse_expr f _ _ _ h2 n2
  obtain ⟨a1, a2, -, -⟩ := next_step f s s1 h1 n1 hg (by rw [ht]; decide)
  have g1 := a1.good hg
  obtain ⟨b1, b2, -, -⟩ := hE 0 s1 s2 h2 n2 g1
  have g2 := b1.good g1
  obtain ⟨c1, c2, c3, c4⟩ := jump_step s2 BRANCH g2 n3
  have g3 := c1.good g2
  obtain ⟨d1, d2, -, -, -, -⟩ := skip_newline_step f _ s4 h4 n4 g3
  have g4 := d1.good g3
  obtain ⟨e1, e2, -, -⟩ := next_step f s4 s5 h5 n5 g4 (by rw [ht4]; decide)
  have g5 := e1.good g4
  obtain ⟨f1, f2, -, -⟩ := hE 3 s5 s6 h6 n6 g5
  have g6 := f1.good g5
  obtain ⟨j1, j2, j3, j4⟩ := jump_step s6 JUMP g6 n7
  have g7 := j1.good g6
  obtain ⟨k1, k2, -, -, -, -⟩ := skip_newline_step f _ s8 h8 n8 g7
  have g8 := k1.good g7
  obtain ⟨l1, l2, -, -⟩ := next_step f s8 s9 h9 n9 g8 (by rw [ht8]; decide)
  have g9 := l1.good g8
  have gg := hg.1
  obtain ⟨m1, m2, m3, -⟩ := resolve_step s9 (forward_ref (gen s2 BRANCH)).1 g9 n9
    (by rw [c3]; omega) (by rw [c3]; omega)
  have g9' := m1.good g9
  obtain ⟨o1, o2, -, -⟩ := hE 3 _ s10 h10 hn g9'
  have g10 := o1.good g9'
  obtain ⟨q1, q2, q3, q4⟩ := resolve_step s10 (forward_ref (gen s6 JUMP)).1 g10 hn
    (by rw [j3]; omega) (by rw [j3]; omega)
  have g11 := q1.good g10
  have r1 : Compiled (resolve s10 (forward_ref (gen s6 JUMP)).1)
      (block_prev (resolve s10 (forward_ref (gen s6 JUMP)).1)) :=
    Compiled.of_touched _ _ 8 8 hn (Nat.le_refl _) rfl g11.2.1 rfl
      (Touched.unchanged _ _ _) (Nat.le_refl _)
      (show 8 ≤ code_idx (resolve s10 (forward_ref (gen s6 JUMP)).1) from by
        have := g11.1
        omega)
  have c12 := (((((((((((a1.seq b1).seq c1).seq d1).seq e1).seq f1).seq j1).seq
    k1).seq l1).seq m1).seq o1).seq q1).seq r1
  refine ⟨c12, ?_, fun e => by rw [ht] at e; exact absurd e (by decide), PrevOK.zero _ _ rfl⟩
  show code_idx s + 1 ≤ code_idx (resolve s10 (forward_ref (gen s6 JUMP)).1)
  omega
theorem good_skip_newline (f : Nat) : ∀ (s s' : State), skip_newline f s = some s' →
    Good s → Good s' := by
  induction f with
  | zero => intro s s' h; cases h
  | succ f ih =>
    intro s s' h hg
    rw [skip_newline] at h
    split_ifs at h
    · cases hx : next f s with
      | none =>
        rw [hx] at h
        cases h
      | some s1 =>
        rw [hx] at h
        exact ih s1 s' h (good_next f s s1 hx hg)
    · cases h
      exact hg

theorem expect_pos (s : State) (t : Int) (msg : String) (h : s.token = t) :
    expect s t msg = (true, s) := by
  simp [expect, h]

theorem expect_neg (s : State) (t : Int) (msg : String) (h : s.token ≠ t) :
    expect s t msg = (false, complain s msg) := by
  simp [expect, h]

theorem Parsed.front {s s0 s' : State} (h : Parsed s0 s') (hc : Compiled s s0)
    (he : code_idx s0 = code_idx s) (hs : s.token ≠ 10 → s0 = s) : Parsed s s' := by
  obtain ⟨a1, a2, a3, a4⟩ := h
  refine ⟨hc.seq a1, by omega, fun e => ?_, by rw [← he]; exact a4⟩
  have e0 : s0 = s := hs (by rw [e]; decide)
  rw [e0] at a3
  exact a3 e

theorem factor_step (f : Nat) (hA : ArgumentsSpec f) (hF : FactorSpec f) (hE : ExprSpec f) :
    FactorSpec (f + 1) := by
  intro s s' h hn hg
  rw [parse_factor] at h
  cases hsk : skip_newline f s with
  | none =>
    rw [hsk] at h
    cases h
  | some s0 =>
    rw [hsk] at h
    simp only [] at h
    have g0 := good_skip_newline f s s0 hsk hg
    have key : Parsed s0 s' := by
      by_cases t1 : s0.token = 1
      · rw [if_pos t1] at h
        exact factor_literal f s0 s' h hn g0 t1
      rw [if_neg t1] at h
      by_cases t39 : s0.token = 39
      · rw [if_pos t39] at h
        cases hs : strlen (gen s0 PUSH_STRING).the_store (code_idx (gen s0 PUSH_STRING)) with
        | none =>
          rw [hs] at h
          cases h
        | some n =>
          rw [hs] at h
          exact factor_string f s0 s' n hs h hn g0 t39
      rw [if_neg t39] at h
      by_cases t97 : s0.token = 97
      · rw [if_pos t97] at h
        cases hlb : lookup_both s0 with
        | none =>
          rw [hlb] at h
          cases h
          exact absurd (complain_latched s0 _) (not_latched _ hn)
        | some hd =>
          rw [hlb] at h
          simp only [] at h
          cases h1 : next f s0 with
          | none =>
            rw [h1] at h
            cases h
          | some s1 =>
            rw [h1] at h
            simp only [] at h
            split_ifs at h
            · cases h
              exact ident_ushort f s0 s1 _ _ h1 hn g0 t97
            · cases h
              exact ident_single f s0 s1 _ h1 hn g0 t97
            · cases h
              exact ident_single f s0 s1 _ h1 hn g0 t97
            · cases h
              exact ident_ubyte f s0 s1 _ _ h1 hn g0 t97
            · generalize hpa : parse_arguments f _ s1 = r at h
              cases r with
              | none => cases h
              | some s2 =>
                cases h
                exact ident_call f hA s0 s1 s2 _ _ _ h1 hpa hn g0 t97
            · generalize hpa : parse_arguments f _ s1 = r at h
              cases r with
              | none => cases h
              | some s2 =>
                cases h
                exact ident_call f hA s0 s1 s2 _ _ _ h1 hpa hn g0 t97
            · generalize hpa : parse_arguments f _ s1 = r at h
              cases r with
              | none => cases h
              | some s2 =>
                cases h
                exact ident_prim f hA s0 s1 s2 _ _ h1 hpa hn g0 t97
      rw [if_neg t97] at h
      by_cases t105 : s0.token = 105
      · rw [if_pos t105] at h
        cases h1 : next f s0 with
        | none =>
          rw [h1] at h
          cases h
        | some s1 =>
          rw [h1] at h
          simp only [] at h
          cases h2 : parse_expr f 0 s1 with
          | none =>
            rw [h2] at h
            cases h
          | some s2 =>
            rw [h2] at h
            simp only [] at h
            cases h4 : skip_newline f (forward_ref (gen s2 BRANCH)).2 with
            | none =>
              rw [h4] at h
              cases h
            | some s4 =>
              rw [h4] at h
              simp only [] at h
              by_cases t4 : s4.token = 116
              · rw [expect_pos s4 116 _ t4] at h
                simp only [] at h
                cases h5 : next f s4 with
                | none =>
                  rw [h5] at h
                  cases h
                | some s5 =>
                  rw [h5] at h
                  simp only [] at h
                  cases h6 : parse_expr f 3 s5 with
                  | none =>
                    rw [h6] at h
                    cases h
                  | some s6 =>
                    rw [h6] at h
                    simp only [] at h
                    cases h8 : skip_newline f (forward_ref (gen s6 JUMP)).2 with
                    | none =>
                      rw [h8] at h
                      cases h
                    | some s8 =>
                      rw [h8] at h
                      simp only [] at h
                      by_cases t8 : s8.token = 101
                      · rw [expect_pos s8 101 _ t8] at h
                        simp only [] at h
                        cases h9 : next f s8 with
                        | none =>
                          rw [h9] at h
                          cases h
                        | some s9 =>
                          rw [h9] at h
                          simp only [] at h
                          cases h10 : parse_expr f 3
                              (resolve s9 (forward_ref (gen s2 BRANCH)).1) with
                          | none =>
                            rw [h10] at h
                            cases h
                          | some s10 =>
                            rw [h10] at h
                            cases h
                            exact factor_if f hE s0 s1 s2 s4 s5 s6 s8 s9 s10 h1 h2 h4 h5 h6
                              h8 h9 h10 hn g0 t105 t4 t8
                      · rw [expect_neg s8 101 _ t8] at h
                        cases h
                        exact absurd (complain_latched s8 _) (not_latched _ hn)
              · rw [expect_neg s4 116 _ t4] at h
                cases h
                exact absurd (complain_latched s4 _) (not_latched _ hn)
      rw [if_neg t105] at h
      by_cases t42 : s0.token = 42
      · rw [if_pos t42] at h
        cases h1 : next f s0 with
        | none =>
          rw [h1] at h
          cases h
        | some s1 =>
          rw [h1] at h
          simp only [] at h
          cases h2 : parse_factor f s1 with
          | none =>
            rw [h2] at h
            cases h
          | some s2 =>
            rw [h2] at h
            cases h
            exact factor_star f hF s0 s1 s2 h1 h2 hn g0 t42
      rw [if_neg t42] at h
      by_cases t45 : s0.token = 45
      · rw [if_pos t45] at h
        cases h1 : next f s0 with
        | none =>
          rw [h1] at h
          cases h
        | some s1 =>
          rw [h1] at h
          simp only [] at h
          cases h2 : parse_factor f s1 with
          | none =>
            rw [h2] at h
            cases h
          | some s2 =>
            rw [h2] at h
            cases h
            exact factor_minus f hF s0 s1 s2 h1 h2 hn g0 t45
      rw [if_neg t45] at h
      by_cases t40 : s0.token = 40
      · rw [if_pos t40] at h
        cases h1 : next f s0 with
        | none =>
          rw [h1] at h
          cases h
        | some s1 =>
          rw [h1] at h
          simp only [] at h
          cases h2 : parse_expr f 0 s1 with
          | none =>
            rw [h2] at h
            cases h
          | some s2 =>
            rw [h2] at h
            simp only [] at h
            by_cases t2 : s2.token = 41
            · rw [expect_pos s2 41 _ t2] at h
              exact factor_paren f hE s0 s1 s2 s' h1 h2 h hn g0 t40 t2
            · rw [expect_neg s2 41 _ t2] at h
              cases h
              exact absurd (complain_latched s2 _) (not_latched _ hn)
      rw [if_neg t40] at h
      cases h
      exact absurd (complain_latched s0 _) (not_latched _ hn)
    obtain ⟨a1, a2, -, -, a5, -⟩ := skip_newline_step f s s0 hsk key.1.before hg
    exact key.front a1 a2 a5

/-- What the compiler of expressions does, whatever the fuel. -/
theorem parse_spec (fuel : Nat) :
    ArgumentsSpec fuel ∧ FactorSpec fuel ∧ ExprSpec fuel ∧ LoopSpec fuel := by
  induction fuel with
  | zero =>
    refine ⟨?_, ?_, ?_, ?_⟩
    · intro arity s s' h
      cases h
    · intro s s' h
      cases h
    · intro p s s' h
      cases h
    · intro p c0 s s' h
      cases h
  | succ f ih =>
    obtain ⟨hA, hF, hE, hL⟩ := ih
    exact ⟨arguments_step f hE hA, factor_step f hA hF hE, expr_step f hF hL,
      loop_step f hE hL⟩
/-- What a successful `bind` stores, for a name of any length: the header,
just below the old `dict_idx`. -/
theorem bind_frame (s : State) (name : List Nat) (kind binding : Nat)
    (hroom : code_idx s + (3 + name.length) ≤ dict_idx s) (h8 : 8 ≤ code_idx s) :
    ∃ s', bind s name kind binding = (some (dict_idx s - (3 + name.length)), s') ∧
      dict_idx s' = dict_idx s - (3 + name.length) ∧ code_idx s' = code_idx s ∧
      (∀ k q, 8 ≤ q → (q + k ≤ dict_idx s - (3 + name.length) ∨ dict_idx s ≤ q) →
        fetch_bytes k s'.the_store q = fetch_bytes k s.the_store q) ∧
      s' = { s with the_store := s'.the_store } := by
  have hd := dict_idx_lt s
  have hav : (code_idx s + (sizeof_Header + name.length)) % 4294967296 ≤ dict_idx s := by
    unfold sizeof_Header
    rw [Nat.mod_eq_of_lt (by omega)]
    exact hroom
  have hh : (dict_idx s + 4294967296 - (sizeof_Header + name.length) % 4294967296) % 4294967296 =
      dict_idx s - (3 + name.length) := by
    unfold sizeof_Header
    omega
  generalize hH : dict_idx s - (3 + name.length) = h at hh ⊢
  have hh8 : 8 ≤ h := by omega
  have hhd : h + (3 + name.length) = dict_idx s := by omega
  have hdd : fetch_bytes 4 s.the_store 4 = dict_idx s := rfl
  have e : bind s name kind binding = (some h, { s with
      the_store := write_string (set_header_binding (set_header_kind_lnm1
        (set_dict_idx s h).the_store h kind name.length) h binding) (h + sizeof_Header) name }) := by
    unfold bind available
    simp only [hav, if_true, hh]
    rfl
  refine ⟨_, e, ?_, ?_, ?_, rfl⟩
  all_goals simp only [set_dict_idx, set_header_binding, set_header_kind_lnm1, write_string,
    sizeof_Header, dict_idx, code_idx, get_header_kind, get_header_name_length,
    get_header_binding, fetch_wV_eq, fetch_wX_eq, fetch_u8_eq, write_wV_eq, write_wX_eq,
    write_u8_eq]
  · rw [fetch_bytes_write_bytes_disjoint _ _ _ _ _ _ (by omega),
      fetch_bytes_write_bytes_disjoint _ _ _ _ _ _ (by omega),
      fetch_bytes_write_bytes_disjoint _ _ _ _ _ _ (by omega), fetch_bytes_write_bytes_same]
    exact Nat.mod_eq_of_lt (by omega)
  · rw [fetch_bytes_write_bytes_disjoint _ _ _ _ _ _ (by omega),
      fetch_bytes_write_bytes_disjoint _ _ _ _ _ _ (by omega),
      fetch_bytes_write_bytes_disjoint _ _ _ _ _ _ (by omega),
      fetch_bytes_write_bytes_disjoint _ _ _ _ _ _ (by omega)]
  · intro k q hq8 hq
    have hq' : q + k ≤ h ∨ h + (3 + name.length) ≤ q := by omega
    rw [fetch_bytes_write_bytes_disjoint _ _ _ _ _ _ (by omega),
      fetch_bytes_write_bytes_disjoint _ _ _ _ _ _ (by omega),
      fetch_bytes_write_bytes_disjoint _ _ _ _ _ _ (by omega),
      fetch_bytes_write_bytes_disjoint _ _ _ _ _ _ (by omega)]

theorem bind_refused (s : State) (name : List Nat) (kind binding : Nat)
    (h : ¬ (code_idx s + (3 + name.length) ≤ dict_idx s))
    (hw : code_idx s + (3 + name.length) < 4294967296) :
    bind s name kind binding = (none, complain s "Store exhausted") := by
  have hn : ¬ ((code_idx s + (sizeof_Header + name.length)) % 4294967296 ≤ dict_idx s) := by
    unfold sizeof_Header
    rw [Nat.mod_eq_of_lt hw]
    exact h
  unfold bind available
  simp only [hn, if_false]

theorem bind_latched (s : State) (name : List Nat) (kind binding : Nat)
    (h : s.complaint.isSome = true) : (bind s name kind binding).2.complaint.isSome = true := by
  unfold bind available
  simp only []
  split_ifs
  · exact h
  · exact complain_latched s _

theorem bind_parameters_latched (fuel : Nat) : ∀ (a : Nat) (s : State) (r : Nat × State),
    bind_parameters fuel a s = some r → s.complaint.isSome = true →
    r.2.complaint.isSome = true := by
  induction fuel with
  | zero => intro a s r h; cases h
  | succ f ih =>
    intro a s r h hl
    rw [bind_parameters] at h
    split_ifs at h
    · cases hx : next f (bind s s.token_name a_local a).2 with
      | none =>
        rw [hx] at h
        cases h
      | some s1 =>
        rw [hx] at h
        exact ih _ s1 r h ((next_end f _ s1 hx).1 (bind_latched s _ _ _ hl))
    · cases h
      exact hl
theorem ch_name (s : State) : (ch s).2.token_name = s.token_name := by
  unfold ch
  split_ifs
  · cases s.in_file <;> rfl
  · rfl

theorem next_char_name (s : State) : (next_char s).token_name = s.token_name := by
  unfold next_char
  split_ifs <;> rfl

theorem complain_name (s : State) (msg : String) :
    (complain s msg).token_name = s.token_name := by
  unfold complain
  cases s.complaint <;> rfl

theorem available_name (s : State) (n : Nat) :
    (available s n).2.token_name = s.token_name := by
  unfold available
  split_ifs
  · rfl
  · exact complain_name s _

theorem skip_line_name (fuel : Nat) : ∀ (s s' : State), skip_line fuel s = some s' →
    s'.token_name = s.token_name := by
  induction fuel with
  | zero => intro s s' h; cases h
  | succ f ih =>
    intro s s' h
    have hc := ch_name s
    rw [skip_line] at h
    generalize ch s = r at h hc
    obtain ⟨c, s1⟩ := r
    simp only [] at h hc
    split_ifs at h
    · rw [ih _ _ h, next_char_name, hc]
    · cases h
      exact hc

theorem lex_hex_name (fuel : Nat) : ∀ (k : Nat) (s : State) (k' : Nat) (s' : State),
    lex_hex fuel k s = some (k', s') → s'.token_name = s.token_name := by
  induction fuel with
  | zero => intro k s k' s' h; cases h
  | succ f ih =>
    intro k s k' s' h
    have hc := ch_name s
    rw [lex_hex] at h
    generalize ch s = r at h hc
    obtain ⟨c, s1⟩ := r
    simp only [] at h hc
    split_ifs at h
    · rw [ih _ _ _ _ h, next_char_name]
      exact hc
    · cases h
      exact hc

theorem lex_number_name (fuel : Nat) : ∀ (s s' : State), lex_number fuel s = some s' →
    s'.token_name = s.token_name := by
  induction fuel with
  | zero => intro s s' h; cases h
  | succ f ih =>
    intro s s' h
    have hc := ch_name s
    rw [lex_number] at h
    generalize ch s = r at h hc
    obtain ⟨c, s1⟩ := r
    simp only [] at h hc
    have hc2 := ch_name (next_char { s1 with
      token_value := (10 * s1.token_value + c.toNat - 48) % 4294967296 })
    generalize ch (next_char { s1 with
      token_value := (10 * s1.token_value + c.toNat - 48) % 4294967296 }) = r2 at h hc2
    obtain ⟨c2, s2⟩ := r2
    simp only [] at h hc2
    have e2 : s2.token_name = s.token_name := by rw [hc2, next_char_name]; exact hc
    split_ifs at h
    · generalize hh : lex_hex f 0 (next_char s2) = r3 at h
      cases r3 with
      | none => cases h
      | some p =>
        obtain ⟨k, s3⟩ := p
        have e3 : s3.token_name = s.token_name := by
          rw [lex_hex_name f _ _ _ _ hh, next_char_name, e2]
        simp only [] at h
        split_ifs at h <;> cases h
        · rw [complain_name, e3]
        · rw [complain_name, e3]
        · exact e3
    · cases h
      rw [complain_name, e2]
    · rw [ih _ _ h, e2]
    · cases h
      exact e2

theorem lex_string_name (fuel : Nat) : ∀ (p : Nat) (s s' : State),
    lex_string fuel p s = some s' → s'.token_name = s.token_name := by
  induction fuel with
  | zero => intro p s s' h; cases h
  | succ f ih =>
    intro p s s' h
    have hc := ch_name s
    rw [lex_string] at h
    generalize ch s = r at h hc
    obtain ⟨c, s1⟩ := r
    simp only [] at h hc
    split_ifs at h
    · cases h
      exact (next_char_name s1).trans hc
    · cases h
      exact (complain_name s1 _).trans hc
    · have ha := available_name s1 (p + 2 - code_idx s1)
      generalize available s1 (p + 2 - code_idx s1) = r2 at h ha
      obtain ⟨b, s2⟩ := r2
      simp only [] at ha
      cases b with
      | false =>
        cases h
        exact ha.trans hc
      | true =>
        simp only [] at h
        rw [ih (p + 1) _ _ h, next_char_name]
        exact ha.trans hc

theorem lex_ident_length (fuel : Nat) : ∀ (name : List Nat) (s : State) (name' : List Nat)
    (s' : State), lex_ident fuel name s = some (name', s') → name.length ≤ 16 →
    name'.length ≤ 16 := by
  induction fuel with
  | zero => intro name s name' s' h; cases h
  | succ f ih =>
    intro name s name' s' h hl
    rw [lex_ident] at h
    split_ifs at h with h16
    · cases h
      exact hl
    · generalize ch s = r at h
      obtain ⟨c, s1⟩ := r
      simp only [] at h
      generalize ch (next_char s1) = r2 at h
      obtain ⟨c2, s2⟩ := r2
      simp only [] at h
      have hl' : (name ++ [c.toNat]).length ≤ 16 := by
        rw [List.length_append, List.length_singleton]
        omega
      split_ifs at h
      · exact ih _ _ _ _ h hl'
      · cases h
        exact hl'

/-- The name the lexer holds is never longer than 16 bytes. -/
theorem next_name_length (fuel : Nat) : ∀ (s s' : State), next fuel s = some s' →
    s.token_name.length ≤ 16 → s'.token_name.length ≤ 16 := by
  induction fuel with
  | zero => intro s s' h; cases h
  | succ f ih =>
    intro s s' h hl
    have hc := ch_name s
    rw [next] at h
    generalize ch s = r at h hc
    obtain ⟨c, s1⟩ := r
    simp only [] at h hc
    split_ifs at h
    · rw [lex_number_name f _ _ h]
      show s1.token_name.length ≤ 16
      rw [hc]
      exact hl
    · generalize hx : lex_ident f [] s1 = r2 at h
      cases r2 with
      | none => cases h
      | some q =>
        obtain ⟨name, s2⟩ := q
        cases h
        exact lex_ident_length f _ _ _ _ hx (by simp)
    · rw [lex_string_name f _ _ _ h, next_char_name, hc]
      exact hl
    · cases h
      show (next_char { s1 with token := c }).token_name.length ≤ 16
      rw [next_char_name]
      show s1.token_name.length ≤ 16
      rw [hc]
      exact hl
    · exact ih _ _ h (by rw [next_char_name, hc]; exact hl)
    · generalize hx : skip_line f s1 = r2 at h
      cases r2 with
      | none => cases h
      | some s2 =>
        simp only [] at h
        exact ih _ _ h (by rw [skip_line_name f _ _ hx, hc]; exact hl)
    · cases h
      show (complain s1 _).token_name.length ≤ 16
      rw [complain_name, hc]
      exact hl

/-- The parameters of a `fun`, bound with no complaint up to the `=`: the
headers lie below the old `dict_idx`, and nothing else is stored. -/
theorem bind_parameters_spec (fuel : Nat) : ∀ (a : Nat) (s : State) (arity : Nat) (s3 : State),
    bind_parameters fuel a s = some (arity, s3) → s3.complaint = none → s3.token = 61 →
    Good s → code_idx s ≤ dict_idx s → s.token_name.length ≤ 16 →
    s.complaint = none ∧ (s.token = 97 ∨ s3 = s) ∧ code_idx s3 = code_idx s ∧
      dict_idx s3 ≤ dict_idx s ∧ code_idx s3 ≤ dict_idx s3 ∧
      (∀ k q, dict_idx s ≤ q → fetch_bytes k s3.the_store q = fetch_bytes k s.the_store q) := by
  have hcap : store_capacity = 4096 := rfl
  induction fuel with
  | zero => intro a s arity s3 h; cases h
  | succ f ih =>
    intro a s arity s3 h hn ht3 hg hcd hl
    rw [bind_parameters] at h
    by_cases ht : s.token = 97
    · rw [if_pos ht] at h
      cases hx : next f (bind s s.token_name a_local a).2 with
      | none =>
        rw [hx] at h
        cases h
      | some u =>
        rw [hx] at h
        simp only [] at h
        obtain ⟨g1, g2, g3⟩ := hg
        by_cases hroom : code_idx s + (3 + s.token_name.length) ≤ dict_idx s
        · obtain ⟨t, e, d1, c1, fr, te⟩ := bind_frame s s.token_name a_local a hroom (by omega)
          rw [e] at hx
          simp only [] at hx
          have gt : Good t := ⟨by omega, by omega, by omega⟩
          have cu := next_code_idx f t u (by omega) hx
          have du := next_dict_idx f t u (by omega) hx
          have tn : t.token_name = s.token_name := by
            rw [te]
          obtain ⟨j1, j2, j3, j4, j5, j6⟩ := ih _ u arity s3 h hn ht3 (good_next f t u hx gt)
            (by omega) (next_name_length f t u hx (by rw [tn]; exact hl))
          have tu : u.token ≠ 39 := by
            rcases j2 with j2 | j2
            · rw [j2]
              decide
            · rw [← j2, ht3]
              decide
          obtain ⟨i1, -, -, -, -, i6⟩ := next_spec f t u hx j1 (by omega) (by omega) (by omega)
          have tc : t.complaint = s.complaint := by
            rw [te]
          refine ⟨by rw [← tc]; exact i1, Or.inl ht, by omega, by omega, j5, ?_⟩
          intro k q hq
          rw [j6 k q (by omega), i6 tu, fr k q (by omega) (Or.inr hq)]
        · have e := bind_refused s s.token_name a_local a hroom (by omega)
          rw [e] at hx
          simp only [] at hx
          have l1 := (next_end f _ u hx).1 (complain_latched s _)
          have l2 := bind_parameters_latched f _ u _ h l1
          exact absurd l2 (not_latched _ hn)
    · rw [if_neg ht] at h
      cases h
      exact ⟨hn, Or.inr rfl, rfl, Nat.le_refl _, hcd, fun _ _ _ => rfl⟩

theorem lookup_loop_fuel (m : Nat) (name : List Nat) (end_ : Nat) (fuel : Nat) :
    ∀ dict, end_ - dict ≤ fuel →
      lookup_loop m name end_ fuel dict = lookup_loop m name end_ (end_ - dict) dict := by
  induction fuel using Nat.strong_induction_on with
  | _ fuel ih =>
    intro dict hf
    by_cases hlt : dict < end_
    · obtain ⟨g, hg⟩ : ∃ g, fuel = g + 1 := ⟨fuel - 1, by omega⟩
      obtain ⟨e, he⟩ : ∃ e, end_ - dict = e + 1 := ⟨end_ - dict - 1, by omega⟩
      rw [hg, he, lookup_loop, lookup_loop, if_pos hlt, if_pos hlt]
      split_ifs
      · rfl
      · have hnx : dict + 4 ≤ next_header m dict := by
          simp only [next_header, sizeof_Header, get_header_name_length]
          omega
        rw [ih g (by omega) _ (by omega), ih e (by omega) _ (by omega)]
    · have e0 : end_ - dict = 0 := by omega
      rw [e0]
      cases fuel with
      | zero => rfl
      | succ g => simp [lookup_loop, hlt]

/-- A header whose name is another one is passed over by `lookup`. -/
theorem lookup_skip (m h end_ : Nat) (name : List Nat)
    (hne : ¬ (get_header_name_length m h = name.length ∧
      fetch_bytes name.length m (h + sizeof_Header) = pack name))
    (hlt : h < end_) :
    lookup m h end_ name = lookup m (next_header m h) end_ name := by
  unfold lookup
  obtain ⟨e, he⟩ : ∃ e, end_ - h = e + 1 := ⟨end_ - h - 1, by omega⟩
  rw [he, lookup_loop, if_pos hlt, if_neg hne]
  have hnx : h + 4 ≤ next_header m h := by
    simp only [next_header, sizeof_Header, get_header_name_length]
    omega
  exact lookup_loop_fuel m name end_ e _ (by omega)
theorem restore_ok (r : Option State) (di ci : Nat) (s' : State)
    (h : (match r with
      | none => none
      | some s =>
        if s.complaint.isSome then some (set_code_idx (set_dict_idx s di) ci) else some s) =
      some s')
    (hn : s'.complaint = none) : r = some s' := by
  cases r with
  | none => cases h
  | some s =>
    simp only [] at h
    split_ifs at h with hx
    · cases h
      exact absurd hx (not_latched _ hn)
    · cases h
      rfl

theorem set_dict_idx_spec (s : State) (v : Nat) (hv : v < 4294967296) :
    dict_idx (set_dict_idx s v) = v ∧
      ∀ k q, 8 ≤ q → fetch_bytes k (set_dict_idx s v).the_store q = fetch_bytes k s.the_store q := by
  refine ⟨?_, ?_⟩
  · simp only [dict_idx, set_dict_idx, fetch_wV_eq, write_wV_eq, fetch_bytes_write_bytes_same]
    exact Nat.mod_eq_of_lt hv
  · intro k q hq
    simp only [set_dict_idx, write_wV_eq]
    rw [fetch_bytes_write_bytes_disjoint _ _ _ _ _ _ (by omega)]

theorem ch_token_kept (s : State) : (ch s).2.token = s.token := by
  unfold ch
  split_ifs
  · cases s.in_file <;> rfl
  · rfl

theorem next_char_token_kept (s : State) : (next_char s).token = s.token := by
  unfold next_char
  split_ifs <;> rfl

theorem complain_token_kept (s : State) (msg : String) :
    (complain s msg).token = s.token := by
  unfold complain
  cases s.complaint <;> rfl

theorem lex_hex_token_kept (fuel : Nat) : ∀ (k : Nat) (s : State) (k' : Nat) (s' : State),
    lex_hex fuel k s = some (k', s') → s'.token = s.token := by
  induction fuel with
  | zero => intro k s k' s' h; cases h
  | succ f ih =>
    intro k s k' s' h
    have hc := ch_token_kept s
    rw [lex_hex] at h
    generalize ch s = r at h hc
    obtain ⟨c, s1⟩ := r
    simp only [] at h hc
    split_ifs at h
    · rw [ih _ _ _ _ h, next_char_token_kept]
      exact hc
    · cases h
      exact hc

theorem lex_number_token_kept (fuel : Nat) : ∀ (s s' : State), lex_number fuel s = some s' →
    s'.token = s.token := by
  induction fuel with
  | zero => intro s s' h; cases h
  | succ f ih =>
    intro s s' h
    have hc := ch_token_kept s
    rw [lex_number] at h
    generalize ch s = r at h hc
    obtain ⟨c, s1⟩ := r
    simp only [] at h hc
    have hc2 := ch_token_kept (next_char { s1 with
      token_value := (10 * s1.token_value + c.toNat - 48) % 4294967296 })
    generalize ch (next_char { s1 with
      token_value := (10 * s1.token_value + c.toNat - 48) % 4294967296 }) = r2 at h hc2
    obtain ⟨c2, s2⟩ := r2
    simp only [] at h hc2
    have e2 : s2.token = s.token := by rw [hc2, next_char_token_kept]; exact hc
    split_ifs at h
    · generalize hh : lex_hex f 0 (next_char s2) = r3 at h
      cases r3 with
      | none => cases h
      | some p =>
        obtain ⟨k, s3⟩ := p
        have e3 : s3.token = s.token := by
          rw [lex_hex_token_kept f _ _ _ _ hh, next_char_token_kept, e2]
        simp only [] at h
        split_ifs at h <;> cases h
        · rw [complain_token_kept, e3]
        · rw [complain_token_kept, e3]
        · exact e3
    · cases h
      rw [complain_token_kept, e2]
    · rw [ih _ _ h, e2]
    · cases h
      exact e2

/-- A string token ends as one of the tokens `'`, newline and end of file. -/
theorem lex_string_ends (fuel : Nat) : ∀ (p : Nat) (s s' : State),
    lex_string fuel p s = some s' → s'.token = 39 ∨ s'.token = 10 ∨ s'.token = EOF := by
  induction fuel with
  | zero => intro p s s' h; cases h
  | succ f ih =>
    intro p s s' h
    rw [lex_string] at h
    generalize ch s = r at h
    obtain ⟨c, s1⟩ := r
    simp only [] at h
    split_ifs at h
    · cases h
      exact Or.inl rfl
    · cases h
      exact Or.inr (Or.inr rfl)
    · generalize available s1 (p + 2 - code_idx s1) = r2 at h
      obtain ⟨b, s2⟩ := r2
      cases b with
      | false =>
        cases h
        exact Or.inr (Or.inl rfl)
      | true =>
        simp only [] at h
        exact ih (p + 1) _ _ h

/-- The loop over the characters of an identifier stores at least one. -/
theorem lex_ident_pos (fuel : Nat) : ∀ (name : List Nat) (s : State) (name' : List Nat)
    (s' : State), lex_ident fuel name s = some (name', s') →
    name.length ≤ name'.length ∧ (name.length ≠ 16 → 1 ≤ name'.length) := by
  induction fuel with
  | zero => intro name s name' s' h; cases h
  | succ f ih =>
    intro name s name' s' h
    rw [lex_ident] at h
    split_ifs at h with h16
    · cases h
      exact ⟨Nat.le_refl _, fun e => absurd h16 e⟩
    · generalize ch s = r at h
      obtain ⟨c, s1⟩ := r
      simp only [] at h
      generalize ch (next_char s1) = r2 at h
      obtain ⟨c2, s2⟩ := r2
      simp only [] at h
      have hl : (name ++ [c.toNat]).length = name.length + 1 := by
        rw [List.length_append, List.length_singleton]
      split_ifs at h
      · have := (ih _ _ _ _ h).1
        exact ⟨by omega, fun _ => by omega⟩
      · cases h
        exact ⟨by omega, fun _ => by omega⟩

/-- The token `a` is an identifier of 1 to 16 bytes, held by `token_name`. -/
theorem next_ident (fuel : Nat) : ∀ (s s' : State), next fuel s = some s' → s'.token = 97 →
    1 ≤ s'.token_name.length ∧ s'.token_name.length ≤ 16 := by
  induction fuel with
  | zero => intro s s' h; cases h
  | succ f ih =>
    intro s s' h ht
    rw [next] at h
    generalize ch s = r at h
    obtain ⟨c, s1⟩ := r
    simp only [] at h
    by_cases h1 : isdigit c = true
    · rw [if_pos h1] at h
      have e : (97 : Int) = ((PUSH : Nat) : Int) := by
        rw [← ht]
        exact lex_number_token_kept f _ _ h
      exact absurd e (by decide)
    rw [if_neg h1] at h
    by_cases h2 : isalpha c = true ∨ c = 95
    · rw [if_pos h2] at h
      cases hx : lex_ident f [] s1 with
      | none =>
        rw [hx] at h
        cases h
      | some pr =>
        obtain ⟨name, s2⟩ := pr
        rw [hx] at h
        cases h
        exact ⟨(lex_ident_pos f _ _ _ _ hx).2 (by decide),
          lex_ident_length f _ _ _ _ hx (by decide)⟩
    rw [if_neg h2] at h
    by_cases h3 : c = 39
    · rw [if_pos h3] at h
      rcases lex_string_ends f _ _ _ h with e | e | e <;> rw [ht] at e <;>
        exact absurd e (by decide)
    rw [if_neg h3] at h
    by_cases h4 : is_operator_char c = true
    · rw [if_pos h4] at h
      cases h
      rw [next_char_token_kept] at ht
      have ht' : c = 97 := ht
      rw [ht'] at h4
      exact absurd h4 (by decide)
    rw [if_neg h4] at h
    by_cases h5 : c = 32 ∨ c = 9 ∨ c = 13
    · rw [if_pos h5] at h
      exact ih _ _ h ht
    rw [if_neg h5] at h
    by_cases h6 : c = 35
    · rw [if_pos h6] at h
      cases hx : skip_line f s1 with
      | none =>
        rw [hx] at h
        cases h
      | some s2 =>
        rw [hx] at h
        exact ih _ _ h ht
    rw [if_neg h6] at h
    cases h
    have e : (10 : Int) = 97 := ht
    exact absurd e (by decide)

/-- What a `run_fun` that ends with no complaint has done: `bind` had room
for the header of the function, `dict_idx` ends at that header, and from the
header on the store is as `bind` left it; it was entered with an identifier
as the token and no complaint latched. -/
theorem run_fun_done (fuel : Nat) (s s' : State) (h16 : 16 ≤ code_idx s)
    (hcd : code_idx s ≤ dict_idx s) (hS : dict_idx s ≤ store_capacity)
    (hl2 : s.token_name.length ≤ 16) (hr : run_fun fuel s = some s')
    (hn : s'.complaint = none) :
    s.token = 97 ∧ s.complaint = none ∧
      code_idx s + (3 + s.token_name.length) ≤ dict_idx s ∧
      dict_idx s' = dict_idx s - (3 + s.token_name.length) ∧
      (∀ k q, dict_idx s - (3 + s.token_name.length) ≤ q →
        fetch_bytes k s'.the_store q =
          fetch_bytes k (bind s s.token_name a_procedure (code_idx s)).2.the_store q) := by
  have hcap : store_capacity = 4096 := rfl
  unfold run_fun at hr
  by_cases ht : s.token = 97
  · rw [expect_pos s 97 _ ht] at hr
    simp only [] at hr
    by_cases hroom : code_idx s + (3 + s.token_name.length) ≤ dict_idx s
    · obtain ⟨t, e, d1, c1, fr, te⟩ :=
        bind_frame s s.token_name a_procedure (code_idx s) hroom (by omega)
      rw [e] at hr ⊢
      simp only [] at hr ⊢
      cases hx : next fuel t with
      | none =>
        rw [hx] at hr
        cases hr
      | some s2 =>
        rw [hx] at hr
        simp only [] at hr
        have hr1 := restore_ok _ _ _ _ hr hn
        cases hbp : bind_parameters fuel 0 s2 with
        | none =>
          rw [hbp] at hr1
          cases hr1
        | some pr =>
          obtain ⟨arity, s3⟩ := pr
          rw [hbp] at hr1
          simp only [] at hr1
          by_cases t3 : s3.token = 61
          · rw [expect_pos s3 61 _ t3] at hr1
            simp only [] at hr1
            cases hx4 : next fuel s3 with
            | none =>
              rw [hx4] at hr1
              cases hr1
            | some s4 =>
              rw [hx4] at hr1
              simp only [] at hr1
              cases hpe : parse_expr fuel (-1) (gen_ubyte s4 arity) with
              | none =>
                rw [hpe] at hr1
                cases hr1
              | some s6 =>
                rw [hpe] at hr1
                cases hr1
                have n7 : (gen (parse_done s6) RETURN).complaint = none := hn
                have n6' := before_gen _ _ n7
                obtain ⟨e6, tok6⟩ := parse_done_none s6 n6'
                rw [e6] at n7 n6' ⊢
                have n5 := before_parse_expr fuel _ _ s6 hpe n6'
                have n4 := before_gen_ubyte s4 arity n5
                have n3 := before_next fuel s3 s4 hx4 n4
                have gt : Good t := ⟨by omega, by omega, by omega⟩
                have c2 := next_code_idx fuel t s2 (by omega) hx
                have d2 := next_dict_idx fuel t s2 (by omega) hx
                have tn : t.token_name = s.token_name := by
                  rw [te]
                obtain ⟨j1, j2, j3, j4, j5, j6⟩ := bind_parameters_spec fuel 0 s2 arity s3 hbp
                  n3 t3 (good_next fuel t s2 hx gt) (by omega)
                  (next_name_length fuel t s2 hx (by rw [tn]; exact hl2))
                have tu : s2.token ≠ 39 := by
                  rcases j2 with j2 | j2
                  · rw [j2]
                    decide
                  · rw [← j2, t3]
                    decide
                obtain ⟨i1, -, -, -, -, i6⟩ := next_spec fuel t s2 hx j1 (by omega) (by omega)
                  (by omega)
                have sc : s.complaint = none := by
                  rw [te] at i1
                  exact i1
                have g3 : Good s3 := ⟨by omega, by omega, by omega⟩
                obtain ⟨a1, a2, -, -⟩ := next_step fuel s3 s4 hx4 n4 g3 (by rw [t3]; decide)
                have g4 := a1.good g3
                obtain ⟨b1, b2, -, b4, -⟩ := gen_ubyte_step s4 arity g4 n5
                have g5 := b1.good g4
                obtain ⟨p1, p2, -, -⟩ := (parse_spec fuel).2.2.1 (-1) _ s6 hpe n6' g5
                have g6 := p1.good g5
                obtain ⟨k1, k2, -, k4, -, k6, -⟩ := gen_step s6 RETURN g6 n7
                have c37 := ((a1.seq b1).seq p1).seq k1
                have d6 : dict_idx s6 = dict_idx s3 := by
                  rw [p1.dict, b1.dict, a1.dict]
                have pe : pending_end (gen s6 RETURN) = code_idx (gen s6 RETURN) :=
                  pending_end_of_ne _ (by
                    rw [k4]
                    rcases tok6 with tq | tq
                    · rw [tq]
                      decide
                    · rw [tq]
                      decide)
                have t37 := c37.touched
                rw [pe] at t37
                obtain ⟨sd1, sd2⟩ := set_dict_idx_spec (gen s6 RETURN) (dict_idx s2 % 65536)
                  (by omega)
                refine ⟨ht, sc, hroom, ?_, ?_⟩
                · rw [sd1, d2, d1]
                  exact Nat.mod_eq_of_lt (by omega)
                · intro k q hq
                  rw [sd2 k q (by omega), t37 k q (by omega) (Or.inr (by omega)),
                    j6 k q (by omega), i6 tu]
          · rw [expect_neg s3 61 _ t3] at hr1
            cases hr1
            exact absurd (complain_latched s3 _) (not_latched _ hn)
    · rw [bind_refused s s.token_name a_procedure (code_idx s) hroom (by omega)] at hr
      simp only [] at hr
      cases hx : next fuel (complain s "Store exhausted") with
      | none =>
        rw [hx] at hr
        cases hr
      | some s2 =>
        rw [hx] at hr
        simp only [] at hr
        have l2 := (next_end fuel _ s2 hx).1 (complain_latched s _)
        rw [if_pos l2] at hr
        cases hr
        exact absurd l2 (not_latched _ hn)
  · rw [expect_neg s 97 _ ht] at hr
    cases hr
    exact absurd (complain_latched s _) (not_latched _ hn)

set_option maxRecDepth 1000000 in
/-- Claim C11, the failing input: in the session `cp : 4 ; dp : 11`,
`fun x = 1` the second command finds the cursors at (4, 11) and ends with no
complaint and `dict_idx = 7`, which is 11 minus (3 + 1), but the binding of
the header at 7 is 0, not 4: the code of the body, emitted from offset 4 on,
and the final assignment to `dict_idx` have overwritten it. -/
theorem C11_fun_over_its_own_header :
    (repl_after 40 (bytes_of "cp : 4 ; dp : 11\nfun x = 1\n") 1).map cursors = some (4, 11) ∧
      ((repl_after 40 (bytes_of "cp : 4 ; dp : 11\nfun x = 1\n") 1).bind
          (run_command 40 true)).map
        (fun s => (s.complaint, dict_idx s, get_header_binding s.the_store (dict_idx s))) =
        some (none, 7, 0) := by
  decide!

/-- A command that ends with no complaint has skipped nothing: the state is
the one its statement returned. -/
theorem run_command_quiet (fuel : Nat) (t s' : State)
    (h : (match t.complaint with
      | none => some t
      | some msg =>
        match skip_line fuel { t with out := t.out ++ bytes_of msg ++ [13, 10] } with
        | none => none
        | some s => next fuel s) = some s')
    (hn : s'.complaint = none) : t = s' := by
  split at h
  · cases h
    rfl
  · rename_i msg hc
    split at h
    · cases h
    · rename_i s5 hl
      have l5 : s5.complaint.isSome = true := by
        rw [skip_line_complaint fuel _ _ hl]
        show t.complaint.isSome = true
        rw [hc]
        rfl
      exact absurd ((next_end fuel s5 s' h).1 l5) (not_latched _ hn)

/-- What a `run_fun` that ends with no complaint leaves in the dictionary,
when it is entered with a name of 1 to 16 bytes as the token and the cursors
in order: the header of the function, first of the dictionary, and below it
the headers that were there before. -/
theorem run_fun_binds (fuel : Nat) (s s' : State) (h16 : 16 ≤ code_idx s)
    (hcd : code_idx s ≤ dict_idx s) (hS : dict_idx s ≤ store_capacity)
    (hl1 : 1 ≤ s.token_name.length) (hl2 : s.token_name.length ≤ 16)
    (hr : run_fun fuel s = some s') (hn : s'.complaint = none) :
    dict_idx s' + (3 + s.token_name.length) = dict_idx s ∧
    get_header_kind s'.the_store (dict_idx s') = a_procedure ∧
    get_header_binding s'.the_store (dict_idx s') = code_idx s ∧
    get_header_name_length s'.the_store (dict_idx s') = s.token_name.length ∧
    fetch_bytes s.token_name.length s'.the_store (dict_idx s' + 3) = pack s.token_name ∧
    lookup s'.the_store (dict_idx s') store_capacity s.token_name = some (dict_idx s') ∧
    (∀ name, (name.length = s.token_name.length → pack name ≠ pack s.token_name) →
      lookup s'.the_store (dict_idx s') store_capacity name =
        lookup s.the_store (dict_idx s) store_capacity name) := by
  have hcap : store_capacity = 4096 := rfl
  obtain ⟨-, -, hroom, hd, fr⟩ := run_fun_done fuel s s' h16 hcd hS hl2 hr hn
  obtain ⟨t, e, -, -, b3, b4, b5, b6, b7, -⟩ := bind_ok s s.token_name a_procedure (code_idx s)
    hroom (by omega) hl1 hl2 (by decide) (by omega)
  rw [e] at fr
  simp only [] at fr
  rw [hd]
  generalize hH : dict_idx s - (3 + s.token_name.length) = h at fr b3 b4 b5 b6 b7
  have hh : h + (3 + s.token_name.length) = dict_idx s := by omega
  have k4 : get_header_kind s'.the_store h = a_procedure := by
    rw [← b4]
    simp only [get_header_kind, fetch_u8_eq]
    rw [fr 1 (h + 2) (by omega)]
  have k5 : get_header_name_length s'.the_store h = s.token_name.length := by
    rw [← b5]
    simp only [get_header_name_length, fetch_u8_eq]
    rw [fr 1 (h + 2) (by omega)]
  have k6 : get_header_binding s'.the_store h = code_idx s := by
    rw [← b6]
    simp only [get_header_binding, fetch_wX_eq]
    rw [fr 2 h (by omega)]
  have k7 : fetch_bytes s.token_name.length s'.the_store (h + 3) = pack s.token_name := by
    rw [← b7]
    exact fr _ _ (by omega)
  refine ⟨hh, k4, k6, k5, k7, lookup_first _ h store_capacity _ (by omega) k5 k7, ?_⟩
  intro name hne
  have hmis : ¬ (get_header_name_length s'.the_store h = name.length ∧
      fetch_bytes name.length s'.the_store (h + sizeof_Header) = pack name) := by
    rintro ⟨e1, e2⟩
    rw [k5] at e1
    have e3 := hne e1.symm
    rw [← e1] at e2
    exact e3 (e2.symm.trans k7)
  rw [lookup_skip _ h store_capacity name hmis (by omega)]
  have hnx : next_header s'.the_store h = dict_idx s := by
    simp only [next_header, k5, sizeof_Header]
    omega
  rw [hnx]
  exact lookup_frame _ _ _ _ _ (fun k q hq =>
    (fr k q (by omega)).trans (b3 k q (by omega) (Or.inr hq)))


/-- Claim C11, amended. Let a command that starts with the token `fun` be
run in a state whose code lies past the cells of the four globals and whose
cursors are in order, `16 <= code_idx <= dict_idx <= S`, and let NAME be the
`token_name` the lexer holds after the token that follows `fun`. If the
command ends with no complaint, `dict_idx` equals its previous value minus
(3 + length of NAME), the header at `dict_idx` is NAME with kind procedure
and binding equal to the `code_idx` before the command, `lookup` of NAME
finds it, and no header for any parameter remains: every lookup of a name
other than NAME (of another length, or of other bytes) returns what it
returned before the command. -/
theorem C11_fun_binds_one_header (fuel : Nat) (outp : Bool) (s t s' : State)
    (hf : s.token = 102) (h16 : 16 ≤ code_idx s) (hcd : code_idx s ≤ dict_idx s)
    (hS : dict_idx s ≤ store_capacity) (hnx : next fuel s = some t)
    (hr : run_command fuel outp s = some s') (hn : s'.complaint = none) :
    dict_idx s' + (3 + t.token_name.length) = dict_idx s ∧
    get_header_kind s'.the_store (dict_idx s') = a_procedure ∧
    get_header_binding s'.the_store (dict_idx s') = code_idx s ∧
    get_header_name_length s'.the_store (dict_idx s') = t.token_name.length ∧
    fetch_bytes t.token_name.length s'.the_store (dict_idx s' + 3) = pack t.token_name ∧
    lookup s'.the_store (dict_idx s') store_capacity t.token_name = some (dict_idx s') ∧
    (∀ name, (name.length = t.token_name.length → pack name ≠ pack t.token_name) →
      lookup s'.the_store (dict_idx s') store_capacity name =
        lookup s.the_store (dict_idx s) store_capacity name) := by
  have hcap : store_capacity = 4096 := rfl
  cases fuel with
  | zero => cases hnx
  | succ f =>
    have hsk : skip_newline (f + 1) s = some s := by
      rw [skip_newline, if_neg]
      rintro ⟨-, e⟩
      rw [hf] at e
      exact absurd e (by decide)
    unfold run_command at hr
    rw [hsk] at hr
    simp only [] at hr
    rw [if_pos hf, hnx] at hr
    simp only [] at hr
    cases hx : run_fun (f + 1) t with
    | none =>
      rw [hx] at hr
      cases hr
    | some u =>
      rw [hx] at hr
      simp only [] at hr
      have hu : u = s' := run_command_quiet (f + 1) u s' hr hn
      rw [hu] at hx
      have ct := next_code_idx (f + 1) s t (by omega) hnx
      have dt := next_dict_idx (f + 1) s t (by omega) hnx
      have ht : t.token = 97 := by
        by_contra hne
        unfold run_fun at hx
        rw [expect_neg t 97 _ hne] at hx
        cases hx
        exact absurd (complain_latched t _) (not_latched _ hn)
      obtain ⟨l1, l2⟩ := next_ident (f + 1) s t hnx ht
      obtain ⟨-, tc, -⟩ := run_fun_done (f + 1) t s' (by omega) (by omega) (by omega) l2 hx hn
      obtain ⟨-, -, -, -, -, st⟩ := next_spec (f + 1) s t hnx tc (by omega) (by omega) hS
      have hst : t.the_store = s.the_store := st (by
        rw [ht]
        decide)
      have hb := run_fun_binds (f + 1) t s' (by omega) (by omega) (by omega) l1 l2 hx hn
      rw [ct, dt, hst] at hb
      exact hb

set_option maxRecDepth 1000000 in
/-- An instance of claim C11: the command `fun f x = x + 1` typed at the
first prompt, with the cursors at (21, 4070). Afterwards `dict_idx = 4066`,
`lookup` of `f` finds the header at 4066, whose binding is 21, and `lookup`
of the parameter `x` finds nothing, as before the command. -/
theorem C11_fun_f_at_the_first_prompt :
    (fun_f_typed.token = 102 ∧ 16 ≤ code_idx fun_f_typed ∧
      code_idx fun_f_typed ≤ dict_idx fun_f_typed ∧ dict_idx fun_f_typed ≤ store_capacity ∧
      (next 40 fun_f_typed).isSome = true ∧
      (state_of (next 40 fun_f_typed)).token_name = [102] ∧
      (run_command 40 true fun_f_typed).isSome = true ∧
      (state_of (run_command 40 true fun_f_typed)).complaint = none) ∧
    (cursors fun_f_typed = (21, 4070) ∧
      dict_idx (state_of (run_command 40 true fun_f_typed)) = 4066 ∧
      lookup fun_f_typed.the_store (dict_idx fun_f_typed) store_capacity [120] = none) ∧
    get_header_binding (state_of (run_command 40 true fun_f_typed)).the_store
      (dict_idx (state_of (run_command 40 true fun_f_typed))) = code_idx fun_f_typed ∧
    lookup (state_of (run_command 40 true fun_f_typed)).the_store
      (dict_idx (state_of (run_command 40 true fun_f_typed))) store_capacity
      (state_of (next 40 fun_f_typed)).token_name =
      some (dict_idx (state_of (run_command 40 true fun_f_typed))) ∧
    lookup (state_of (run_command 40 true fun_f_typed)).the_store
      (dict_idx (state_of (run_command 40 true fun_f_typed))) store_capacity [120] =
      lookup fun_f_typed.the_store (dict_idx fun_f_typed) store_capacity [120] :=
  have a0 : fun_f_typed.token = 102 := by decide!
  have a1 : 16 ≤ code_idx fun_f_typed := by decide!
  have a2 : code_idx fun_f_typed ≤ dict_idx fun_f_typed := by decide!
  have a3 : dict_idx fun_f_typed ≤ store_capacity := by decide!
  have a4 : (next 40 fun_f_typed).isSome = true := by decide!
  have a5 : (state_of (next 40 fun_f_typed)).token_name = [102] := by decide!
  have a6 : (run_command 40 true fun_f_typed).isSome = true := by decide!
  have a7 : (state_of (run_command 40 true fun_f_typed)).complaint = none := by decide!
  have hT := C11_fun_binds_one_header 40 true fun_f_typed (state_of (next 40 fun_f_typed))
    (state_of (run_command 40 true fun_f_typed)) a0 a1 a2 a3 (some_state_of _ a4)
    (some_state_of _ a6) a7
  ⟨⟨a0, a1, a2, a3, a4, a5, a6, a7⟩, ⟨by decide!, by decide!, by decide!⟩, hT.2.2.1,
    hT.2.2.2.2.2.1, hT.2.2.2.2.2.2 [120] (fun _ => by rw [a5]; decide)⟩

/-! ## Claims C21 to C23: numbers and identifiers -/

theorem upcoming_of_eq (s t : State) (hi : t.input_char = s.input_char)
    (hf : t.in_file = s.in_file) : upcoming t = upcoming s := by
  unfold upcoming
  rw [hi, hf]

/-- Reading the current character when one is left: `ch` returns it and keeps
it as the lookahead, and `next_char` then moves on to the rest. -/
theorem ch_upcoming_cons (s : State) (c : Int) (cs : List Int) (h : upcoming s = c :: cs) :
    (ch s).1 = c ∧ (ch s).2.input_char = c ∧ c ≠ unread ∧ c ≠ EOF ∧
      (ch s).2 = { s with input_char := c, in_file := (ch s).2.in_file } ∧
      (ch s).2.in_file.map (fun b => ((b % 256 : Nat) : Int)) = cs := by
  unfold upcoming at h
  by_cases hu : s.input_char = unread
  · rw [if_pos hu] at h
    cases hf : s.in_file with
    | nil =>
      rw [hf] at h
      cases h
    | cons b rest =>
      rw [hf] at h
      simp only [List.map_cons, List.cons.injEq] at h
      obtain ⟨h1, h2⟩ := h
      have hb : (((b % 256 : Nat) : Int)) ≠ unread ∧ (((b % 256 : Nat) : Int)) ≠ EOF := by
        unfold unread EOF
        constructor <;> omega
      simp only [ch, hu, if_true, hf]
      rw [← h1]
      exact ⟨rfl, rfl, hb.1, hb.2, rfl, h2⟩
  · rw [if_neg hu] at h
    by_cases he : s.input_char = EOF
    · rw [if_pos he] at h
      cases h
    · rw [if_neg he] at h
      simp only [List.cons.injEq] at h
      obtain ⟨h1, h2⟩ := h
      simp only [ch, hu, if_false]
      rw [← h1]
      exact ⟨rfl, rfl, hu, he, rfl, h2⟩

/-- Reading at the end of the input: `ch` returns `EOF` and stays there. -/
theorem ch_upcoming_nil (s : State) (h : upcoming s = []) :
    (ch s).1 = EOF ∧ (ch s).2 = { s with input_char := EOF } := by
  unfold upcoming at h
  by_cases hu : s.input_char = unread
  · rw [if_pos hu] at h
    cases hf : s.in_file with
    | nil =>
      constructor <;> simp [ch, hu, hf]
    | cons b rest =>
      rw [hf] at h
      cases h
  · rw [if_neg hu] at h
    by_cases he : s.input_char = EOF
    · simp only [ch, hu, if_false]
      refine ⟨he, ?_⟩
      rw [← he]
    · rw [if_neg he] at h
      cases h

/-- After `next_char` the lexer looks at the rest. -/
theorem upcoming_next_char (s : State) (c : Int) (hi : s.input_char = c) (he : c ≠ EOF) :
    upcoming (next_char s) = s.in_file.map (fun b => ((b % 256 : Nat) : Int)) := by
  have hne : s.input_char ≠ EOF := by rw [hi]; exact he
  simp only [next_char, hne, ne_eq, not_false_eq_true, if_true, upcoming]

/-- One character read and passed: what `ch` returns and where `next_char`
leaves the lexer, whatever is done to the other fields in between. -/
theorem read_one (s : State) (c : Int) (cs : List Int) (h : upcoming s = c :: cs) :
    (ch s).1 = c ∧ c ≠ unread ∧ c ≠ EOF ∧ upcoming (ch s).2 = c :: cs ∧
      ∀ t : State, t.input_char = (ch s).2.input_char → t.in_file = (ch s).2.in_file →
        upcoming (next_char t) = cs := by
  obtain ⟨h1, h2, h3, h4, h5, h6⟩ := ch_upcoming_cons s c cs h
  refine ⟨h1, h3, h4, ?_, ?_⟩
  · unfold upcoming
    rw [h2, if_neg h3, if_neg h4, h6]
  · intro t ti tf
    rw [upcoming_next_char t c (ti.trans h2) h4, tf, h6]
theorem ch_value_kept (s : State) : (ch s).2.token_value = s.token_value := by
  unfold ch
  split_ifs
  · cases s.in_file <;> rfl
  · rfl

theorem next_char_value_kept (s : State) : (next_char s).token_value = s.token_value := by
  unfold next_char
  split_ifs <;> rfl

theorem isxdigit_cast (d : Nat) : isxdigit (d : Int) = true ↔ is_xdigit d := by
  simp only [isxdigit, isdigit, is_xdigit, Bool.or_eq_true, Bool.and_eq_true, decide_eq_true_eq,
    Bool.decide_and]
  omega

theorem hex_char_value_cast (d : Nat) (h : is_xdigit d) :
    hex_char_value (d : Int) = xdigit_value d := by
  unfold is_xdigit at h
  unfold hex_char_value xdigit_value toupper
  split_ifs <;> omega

theorem xdigit_value_le (d : Nat) (h : is_xdigit d) : xdigit_value d ≤ 15 := by
  unfold is_xdigit at h
  unfold xdigit_value
  split_ifs <;> omega

/-- The loop over the hexadecimal digits reads all of them, counts them and
accumulates their value in `token_value`, modulo `2^32`. -/
theorem lex_hex_digits (rest : List Int)
    (hrest : ∀ r, rest.head? = some r → isxdigit r = false) :
    ∀ (ds : List Nat) (k : Nat) (s : State) (fuel : Nat), (∀ d ∈ ds, is_xdigit d) →
      upcoming s = ds.map (fun d => (d : Int)) ++ rest → ds.length + 1 ≤ fuel →
      ∃ s', lex_hex fuel k s = some (k + ds.length, s') ∧ upcoming s' = rest ∧
        s'.token_value =
          ds.foldl (fun acc d => (16 * acc + xdigit_value d) % 4294967296) s.token_value := by
  intro ds
  induction ds with
  | nil =>
    intro k s fuel _ hup hf
    obtain ⟨f, rfl⟩ : ∃ f, fuel = f + 1 := ⟨fuel - 1, by simp at hf; omega⟩
    have hup : upcoming s = rest := hup
    have hv := ch_value_kept s
    rw [lex_hex]
    cases hr : rest with
    | nil =>
      rw [hr] at hup
      obtain ⟨e1, e2⟩ := ch_upcoming_nil s hup
      generalize ch s = r at e1 e2 hv
      obtain ⟨c, s1⟩ := r
      simp only [] at e1 e2 hv ⊢
      have hx : isxdigit c = false := by rw [e1]; decide
      rw [hx]
      simp only [Bool.false_eq_true, if_false]
      refine ⟨s1, rfl, ?_, hv⟩
      rw [e2]
      have hne : EOF ≠ unread := by decide
      simp only [upcoming, if_neg hne, if_true]
    | cons r0 rs =>
      rw [hr] at hup
      obtain ⟨e1, -, -, e4, -⟩ := read_one s r0 rs hup
      have hx : isxdigit r0 = false := hrest r0 (by rw [hr]; rfl)
      generalize ch s = r at e1 e4 hv
      obtain ⟨c, s1⟩ := r
      simp only [] at e1 e4 hv ⊢
      rw [e1, hx]
      simp only [Bool.false_eq_true, if_false]
      exact ⟨s1, rfl, e4, hv⟩
  | cons d ds ih =>
    intro k s fuel hds hup hf
    obtain ⟨f, rfl⟩ : ∃ f, fuel = f + 1 := ⟨fuel - 1, by omega⟩
    have hup : upcoming s = (d : Int) :: (ds.map (fun d => (d : Int)) ++ rest) := hup
    have hd : is_xdigit d := hds d (List.mem_cons_self _ _)
    obtain ⟨e1, -, -, -, e5⟩ := read_one s _ _ hup
    have hv := ch_value_kept s
    rw [lex_hex]
    generalize ch s = r at e1 e5 hv
    obtain ⟨c, s1⟩ := r
    simp only [] at e1 e5 hv ⊢
    rw [e1, (isxdigit_cast d).2 hd, if_pos rfl, hex_char_value_cast d hd]
    obtain ⟨s', h1, h2, h3⟩ := ih (k + 1)
      (next_char { s1 with token_value := (16 * s1.token_value + xdigit_value d) % 4294967296 }) f
      (fun x hx => hds x (List.mem_cons_of_mem _ hx)) (e5 _ rfl rfl)
      (by simp only [List.length_cons] at hf; omega)
    refine ⟨s', ?_, h2, ?_⟩
    · rw [h1, List.length_cons]
      congr 2
      omega
    · rw [h3, next_char_value_kept, List.foldl_cons, hv]

/-- Up to eight hexadecimal digits fit the word: the value is not reduced. -/
theorem hex_fold_small : ∀ (ds : List Nat) (acc k : Nat), (∀ d ∈ ds, is_xdigit d) →
    acc < 16 ^ k → k + ds.length ≤ 8 →
    ds.foldl (fun acc d => (16 * acc + xdigit_value d) % 4294967296) acc =
      ds.foldl (fun acc d => 16 * acc + xdigit_value d) acc ∧
    ds.foldl (fun acc d => 16 * acc + xdigit_value d) acc < 16 ^ (k + ds.length) := by
  intro ds
  induction ds with
  | nil =>
    intro acc k _ ha _
    exact ⟨rfl, ha⟩
  | cons d ds ih =>
    intro acc k hds ha hk
    have hd := xdigit_value_le d (hds d (List.mem_cons_self _ _))
    simp only [List.length_cons] at hk
    have h1 : 16 * acc + xdigit_value d < 16 ^ (k + 1) := by
      rw [pow_succ]
      omega
    have h2 : (16 : Nat) ^ (k + 1) ≤ 16 ^ 8 := Nat.pow_le_pow_right (by decide) (by omega)
    have h3 : (16 * acc + xdigit_value d) % 4294967296 = 16 * acc + xdigit_value d :=
      Nat.mod_eq_of_lt (by
        have : (16 : Nat) ^ 8 = 4294967296 := by norm_num
        omega)
    obtain ⟨i1, i2⟩ := ih (16 * acc + xdigit_value d) (k + 1)
      (fun x hx => hds x (List.mem_cons_of_mem _ hx)) h1 (by omega)
    simp only [List.foldl_cons, List.length_cons]
    rw [h3]
    refine ⟨i1, ?_⟩
    have : k + 1 + ds.length = k + (ds.length + 1) := by omega
    rw [← this]
    exact i2
theorem complain_fresh (s : State) (msg : String) (h : s.complaint = none) :
    (complain s msg).complaint = some msg := by
  simp [complain, h]

theorem upcoming_complain (s : State) (msg : String) : upcoming (complain s msg) = upcoming s := by
  unfold complain
  cases s.complaint <;> rfl

/-- Claim C22. Hex literals: when the lexer, with no complaint latched, has
`0x` and then a string of hexadecimal digits of either letter case before it
(up to the end of the input or a character that is not a hexadecimal digit),
`next` yields the token `PUSH` and stops right after the digits. With 1 to 8
digits no complaint is latched and `token_value` is the 32-bit word with that
bit pattern, the number the digits denote; with 9 digits or more the
complaint `Numeric overflow` is latched. -/
theorem C22_hex_literals (fuel : Nat) (s : State) (ds : List Nat) (rest : List Int)
    (hup : upcoming s = 48 :: 120 :: (ds.map (fun d => (d : Int)) ++ rest))
    (hds : ∀ d ∈ ds, is_xdigit d) (h1 : 1 ≤ ds.length)
    (hrest : ∀ r, rest.head? = some r → isxdigit r = false)
    (hc : s.complaint = none) (hf : ds.length + 3 ≤ fuel) :
    ∃ s', next fuel s = some s' ∧ s'.token = PUSH ∧ upcoming s' = rest ∧
      (ds.length ≤ 8 →
        s'.complaint = none ∧ s'.token_value = hex_value ds ∧ hex_value ds < 4294967296) ∧
      (9 ≤ ds.length → s'.complaint = some "Numeric overflow") := by
  obtain ⟨g, rfl⟩ : ∃ g, fuel = g + 3 := ⟨fuel - 3, by omega⟩
  -- the digit `0`
  obtain ⟨a1, -, -, a4, -⟩ := read_one s _ _ hup
  have ac := ch_complaint s
  rw [next]
  generalize ch s = r at a1 a4 ac
  obtain ⟨c, s1⟩ := r
  simp only [] at a1 a4 ac ⊢
  have hd0 : isdigit c = true := by rw [a1]; decide
  rw [if_pos hd0, lex_number]
  have b0 : upcoming { s1 with token := (PUSH : Nat), token_value := 0 } =
      48 :: 120 :: (ds.map (fun d => (d : Int)) ++ rest) := a4
  obtain ⟨b1, -, -, -, b5⟩ := read_one _ _ _ b0
  have bc := ch_complaint { s1 with token := (PUSH : Nat), token_value := 0 }
  have bt := ch_token_kept { s1 with token := (PUSH : Nat), token_value := 0 }
  have bv := ch_value_kept { s1 with token := (PUSH : Nat), token_value := 0 }
  generalize ch { s1 with token := (PUSH : Nat), token_value := 0 } = r at b1 b5 bc bt bv
  obtain ⟨c1, t1⟩ := r
  simp only [] at b1 b5 bc bt bv ⊢
  have htv : (10 * t1.token_value + c1.toNat - 48) % 4294967296 = 0 := by
    rw [bv, b1]
    rfl
  rw [htv]
  -- the letter `x`
  have c0 := b5 { t1 with token_value := 0 } rfl rfl
  obtain ⟨c1', -, -, -, c5⟩ := read_one _ _ _ c0
  have cc := ch_complaint (next_char { t1 with token_value := 0 })
  have ct := ch_token_kept (next_char { t1 with token_value := 0 })
  have cv := ch_value_kept (next_char { t1 with token_value := 0 })
  generalize ch (next_char { t1 with token_value := 0 }) = r at c1' c5 cc ct cv
  obtain ⟨c2, t2⟩ := r
  simp only [] at c1' c5 cc ct cv ⊢
  rw [if_pos ⟨c1', trivial⟩]
  -- the digits
  obtain ⟨s3, d1, d2, d3⟩ := lex_hex_digits rest hrest ds 0 (next_char t2) (g + 1) hds
    (c5 t2 rfl rfl) (by omega)
  have dc := lex_hex_complaint _ _ _ _ _ d1
  have dt := lex_hex_token_kept _ _ _ _ _ d1
  rw [d1]
  simp only []
  have n3 : s3.complaint = none := by
    rw [dc, next_char_complaint, cc, next_char_complaint]
    exact bc.trans (ac.trans hc)
  have k3 : s3.token = PUSH := by
    rw [dt, next_char_token_kept, ct, next_char_token_kept]
    exact bt
  have v3 : s3.token_value =
      ds.foldl (fun acc d => (16 * acc + xdigit_value d) % 4294967296) 0 := by
    rw [d3, next_char_value_kept, cv, next_char_value_kept]
  rw [if_neg (by omega)]
  by_cases h8 : ds.length ≤ 8
  · rw [if_neg (by omega)]
    obtain ⟨f1, f2⟩ := hex_fold_small ds 0 0 hds (by norm_num) (by omega)
    refine ⟨s3, rfl, k3, d2, fun _ => ⟨n3, v3.trans f1, ?_⟩, fun h9 => absurd h9 (by omega)⟩
    have hp : (16 : Nat) ^ (0 + ds.length) ≤ 16 ^ 8 := Nat.pow_le_pow_right (by decide) (by omega)
    have : (16 : Nat) ^ 8 = 4294967296 := by norm_num
    unfold hex_value
    omega
  · rw [if_pos (by omega)]
    refine ⟨complain s3 "Numeric overflow", rfl, ?_, ?_, fun h => absurd h h8,
      fun _ => complain_fresh s3 _ n3⟩
    · rw [complain_token_kept]
      exact k3
    · rw [upcoming_complain]
      exact d2
/-- What `ch` sees: the first of the upcoming characters, or `EOF`; it reads
nothing away. -/
theorem ch_peek (s : State) :
    (ch s).1 = (upcoming s).headD EOF ∧ upcoming (ch s).2 = upcoming s := by
  cases h : upcoming s with
  | nil =>
    obtain ⟨e1, e2⟩ := ch_upcoming_nil s h
    refine ⟨e1, ?_⟩
    rw [e2]
    have hne : EOF ≠ unread := by decide
    simp only [upcoming, if_neg hne, if_true]
  | cons c cs =>
    obtain ⟨e1, -, -, e4, -⟩ := read_one s c cs h
    exact ⟨e1, e4⟩

theorem is_ident_char_cast (d : Nat) :
    (isalnum (d : Int) = true ∨ (d : Int) = 95) ↔ is_ident_char d := by
  simp only [isalnum, isalpha, isdigit, is_ident_char, Bool.or_eq_true, Bool.and_eq_true,
    decide_eq_true_eq, Bool.decide_and, Bool.decide_or]
  omega

theorem is_ident_start_cast (d : Nat) :
    (isalpha (d : Int) = true ∨ (d : Int) = 95) ↔ is_ident_start d := by
  simp only [isalpha, is_ident_start, Bool.or_eq_true, Bool.and_eq_true,
    decide_eq_true_eq, Bool.decide_and, Bool.decide_or]
  omega

/-- The loop over the characters of an identifier, when what is left of the
run fits the 16 bytes of `token_name`: all of it is stored. -/
theorem lex_ident_short (rest : List Int)
    (hrest : ∀ r, rest.head? = some r → isalnum r = false ∧ r ≠ 95) :
    ∀ (cs : List Nat) (c : Nat) (name : List Nat) (s : State) (fuel : Nat),
      (∀ x ∈ cs, is_ident_char x) →
      upcoming s = (c :: cs).map (fun d => (d : Int)) ++ rest →
      name.length + (c :: cs).length ≤ 16 → cs.length + 1 ≤ fuel →
      ∃ s', lex_ident fuel name s = some (name ++ c :: cs, s') ∧ upcoming s' = rest ∧
        s'.complaint = s.complaint := by
  intro cs
  induction cs with
  | nil =>
    intro c name s fuel _ hup hl hf
    obtain ⟨f, rfl⟩ : ∃ f, fuel = f + 1 := ⟨fuel - 1, by simp at hf; omega⟩
    have hup : upcoming s = (c : Int) :: rest := hup
    simp only [List.length_cons, List.length_nil] at hl
    obtain ⟨a1, -, -, -, a5⟩ := read_one s _ _ hup
    have ac := ch_complaint s
    rw [lex_ident, if_neg (by omega)]
    generalize ch s = r at a1 a5 ac
    obtain ⟨c1, s1⟩ := r
    simp only [] at a1 a5 ac ⊢
    have b0 := a5 s1 rfl rfl
    obtain ⟨b1, b2⟩ := ch_peek (next_char s1)
    have bc := ch_complaint (next_char s1)
    generalize ch (next_char s1) = r at b1 b2 bc
    obtain ⟨c2, s2⟩ := r
    simp only [] at b1 b2 bc ⊢
    rw [b0] at b1 b2
    have hstop : ¬ (isalnum c2 = true ∨ c2 = 95) := by
      cases hr : rest with
      | nil =>
        rw [hr] at b1
        rw [b1]
        decide
      | cons r0 rs =>
        rw [hr] at b1
        obtain ⟨h1, h2⟩ := hrest r0 (by rw [hr]; rfl)
        have e : c2 = r0 := b1
        rw [e, h1]
        rintro (h | h)
        · cases h
        · exact h2 h
    rw [if_neg hstop, a1]
    refine ⟨s2, ?_, b2, ?_⟩
    · simp
    · rw [bc, next_char_complaint]
      exact ac
  | cons c' cs ih =>
    intro c name s fuel hcs hup hl hf
    obtain ⟨f, rfl⟩ : ∃ f, fuel = f + 1 := ⟨fuel - 1, by omega⟩
    have hup : upcoming s = (c : Int) :: ((c' :: cs).map (fun d => (d : Int)) ++ rest) := hup
    simp only [List.length_cons] at hl hf
    obtain ⟨a1, -, -, -, a5⟩ := read_one s _ _ hup
    have ac := ch_complaint s
    rw [lex_ident, if_neg (by omega)]
    generalize ch s = r at a1 a5 ac
    obtain ⟨c1, s1⟩ := r
    simp only [] at a1 a5 ac ⊢
    have b0 := a5 s1 rfl rfl
    obtain ⟨b1, b2⟩ := ch_peek (next_char s1)
    have bc := ch_complaint (next_char s1)
    generalize ch (next_char s1) = r at b1 b2 bc
    obtain ⟨c2, s2⟩ := r
    simp only [] at b1 b2 bc ⊢
    rw [b0] at b1 b2
    have e : c2 = (c' : Int) := b1
    have hgo : isalnum c2 = true ∨ c2 = 95 := by
      rw [e]
      exact (is_ident_char_cast c').2 (hcs c' (List.mem_cons_self _ _))
    rw [if_pos hgo, a1]
    obtain ⟨s', i1, i2, i3⟩ := ih c' (name ++ [(c : Int).toNat]) s2 f
      (fun x hx => hcs x (List.mem_cons_of_mem _ hx)) b2
      (by simp only [List.length_append, List.length_cons, List.length_nil]; omega) (by omega)
    refine ⟨s', ?_, i2, ?_⟩
    · rw [i1]
      simp
    · rw [i3, bc, next_char_complaint]
      exact ac

/-- The loop over the characters of an identifier, when what is left of the
run does not fit: the complaint is made when the 17th character shows up. -/
theorem lex_ident_long :
    ∀ (cs : List Nat) (c : Nat) (name : List Nat) (s : State) (fuel : Nat) (rest : List Int),
      (∀ x ∈ cs, is_ident_char x) →
      upcoming s = (c :: cs).map (fun d => (d : Int)) ++ rest →
      name.length ≤ 16 → 16 < name.length + (c :: cs).length → cs.length + 2 ≤ fuel →
      s.complaint = none →
      ∃ name' s', lex_ident fuel name s = some (name', s') ∧
        s'.complaint = some "Identifier too long" := by
  intro cs
  induction cs with
  | nil =>
    intro c name s fuel rest _ hup hl hlong hf hn
    obtain ⟨f, rfl⟩ : ∃ f, fuel = f + 1 := ⟨fuel - 1, by simp at hf; omega⟩
    simp only [List.length_cons, List.length_nil] at hlong
    rw [lex_ident, if_pos (by omega)]
    exact ⟨name, _, rfl, complain_fresh s _ hn⟩
  | cons c' cs ih =>
    intro c name s fuel rest hcs hup hl hlong hf hn
    obtain ⟨f, rfl⟩ : ∃ f, fuel = f + 1 := ⟨fuel - 1, by omega⟩
    by_cases h16 : name.length = 16
    · rw [lex_ident, if_pos h16]
      exact ⟨name, _, rfl, complain_fresh s _ hn⟩
    have hup : upcoming s = (c : Int) :: ((c' :: cs).map (fun d => (d : Int)) ++ rest) := hup
    simp only [List.length_cons] at hlong hf
    obtain ⟨a1, -, -, -, a5⟩ := read_one s _ _ hup
    have ac := ch_complaint s
    rw [lex_ident, if_neg h16]
    generalize ch s = r at a1 a5 ac
    obtain ⟨c1, s1⟩ := r
    simp only [] at a1 a5 ac ⊢
    have b0 := a5 s1 rfl rfl
    obtain ⟨b1, b2⟩ := ch_peek (next_char s1)
    have bc := ch_complaint (next_char s1)
    generalize ch (next_char s1) = r at b1 b2 bc
    obtain ⟨c2, s2⟩ := r
    simp only [] at b1 b2 bc ⊢
    rw [b0] at b1 b2
    have e : c2 = (c' : Int) := b1
    have hgo : isalnum c2 = true ∨ c2 = 95 := by
      rw [e]
      exact (is_ident_char_cast c').2 (hcs c' (List.mem_cons_self _ _))
    rw [if_pos hgo]
    exact ih c' (name ++ [c1.toNat]) s2 f rest
      (fun x hx => hcs x (List.mem_cons_of_mem _ hx)) b2
      (by simp only [List.length_append, List.length_cons, List.length_nil]; omega)
      (by simp only [List.length_append, List.length_cons, List.length_nil]; omega) (by omega)
      (by rw [bc, next_char_complaint, ac]; exact hn)
theorem keyword_other (name : List Nat) (h : name ∉ keywords) : keyword name = 97 := by
  simp only [keywords, List.mem_cons, List.mem_singleton, List.not_mem_nil, or_false,
    not_or] at h
  obtain ⟨h1, h2, h3, h4, h5, h6⟩ := h
  simp only [keyword, if_neg h1, if_neg h2, if_neg h3, if_neg h4, if_neg h5, if_neg h6]

/-- Claim C23. Identifier length limit: when the lexer, with no complaint
latched, has before it a maximal run of identifier characters (letters,
digits and `_`, the first one a letter or `_`) that is not a keyword, `next`
latches `Identifier too long` if and only if the run is longer than 16
characters; when it is 1 to 16 characters long no complaint is latched, the
token is the identifier token `a`, `token_name` holds exactly the characters
of the run, and the lexer has stopped right after it. -/
theorem C23_identifier_length_limit (fuel : Nat) (s : State) (c : Nat) (cs : List Nat)
    (rest : List Int)
    (hup : upcoming s = (c :: cs).map (fun d => (d : Int)) ++ rest)
    (hc0 : is_ident_start c) (hcs : ∀ x ∈ cs, is_ident_char x)
    (hrest : ∀ r, rest.head? = some r → isalnum r = false ∧ r ≠ 95)
    (hk : c :: cs ∉ keywords) (hn : s.complaint = none) (hf : cs.length + 3 ≤ fuel) :
    ∃ s', next fuel s = some s' ∧
      (s'.complaint = some "Identifier too long" ↔ 16 < (c :: cs).length) ∧
      ((c :: cs).length ≤ 16 →
        s'.complaint = none ∧ s'.token = 97 ∧ s'.token_name = c :: cs ∧ upcoming s' = rest) := by
  obtain ⟨f, rfl⟩ : ∃ f, fuel = f + 1 := ⟨fuel - 1, by omega⟩
  have hup0 : upcoming s = (c : Int) :: (cs.map (fun d => (d : Int)) ++ rest) := hup
  obtain ⟨a1, -, -, a4, -⟩ := read_one s _ _ hup0
  have ac := ch_complaint s
  have hnd : ¬ (isdigit (c : Int) = true) := by
    rw [isdigit_cast]
    unfold is_ident_start at hc0
    omega
  rw [next]
  generalize ch s = r at a1 a4 ac
  obtain ⟨c1, s1⟩ := r
  simp only [] at a1 a4 ac ⊢
  rw [a1, if_neg hnd, if_pos ((is_ident_start_cast c).2 hc0)]
  have n1 : s1.complaint = none := ac.trans hn
  have hlen : (c :: cs).length = cs.length + 1 := List.length_cons _ _
  by_cases h16 : (c :: cs).length ≤ 16
  · obtain ⟨s2, b1, b2, b3⟩ := lex_ident_short rest hrest cs c [] s1 f hcs a4
      (by rw [List.length_nil]; omega) (by omega)
    rw [b1]
    simp only [List.nil_append]
    have n2 : s2.complaint = none := b3.trans n1
    refine ⟨_, rfl, ⟨fun h => ?_, fun h => absurd h16 (by omega)⟩,
      fun _ => ⟨n2, keyword_other _ hk, rfl, b2⟩⟩
    have h' : s2.complaint = some "Identifier too long" := h
    rw [n2] at h'
    cases h'
  · obtain ⟨name', s2, b1, b2⟩ := lex_ident_long cs c [] s1 f rest hcs a4 (by simp)
      (by rw [List.length_nil]; omega) (by omega) n1
    rw [b1]
    exact ⟨_, rfl, ⟨fun _ => by omega, fun _ => b2⟩, fun h => absurd h h16⟩
set_option maxRecDepth 1000000 in
/-- An instance of claim C22: `0x1F` typed at the prompt is the token `PUSH`
with the value 31, and no complaint. -/
theorem C22_literal_0x1F_at_the_prompt :
    ∃ s', next 10 (prompt_state (bytes_of "0x1F\n") []) = some s' ∧ s'.token = PUSH ∧
      s'.complaint = none ∧ s'.token_value = 31 :=
  match C22_hex_literals 10 (prompt_state (bytes_of "0x1F\n") []) [49, 70] [10] (by decide!)
    (by decide) (by decide) (fun r h => by cases h; decide) rfl (by decide) with
  | ⟨s', h1, h2, _, h4, _⟩ =>
    ⟨s', h1, h2, (h4 (by decide)).1, (h4 (by decide)).2.1.trans (by decide)⟩

set_option maxRecDepth 1000000 in
/-- An instance of claim C23: `moo_1` typed at the prompt, before a blank, is
the identifier token with the name `moo_1`, and no complaint. -/
theorem C23_identifier_moo_1_at_the_prompt :
    ∃ s', next 10 (prompt_state (bytes_of "moo_1 \n") []) = some s' ∧ s'.token = 97 ∧
      s'.complaint = none ∧ s'.token_name = bytes_of "moo_1" :=
  match C23_identifier_length_limit 10 (prompt_state (bytes_of "moo_1 \n") []) 109
    [111, 111, 95, 49] [32, 10] (by decide!) (by decide) (by decide)
    (fun r h => by cases h; decide) (by decide) rfl (by decide) with
  | ⟨s', h1, _, h3⟩ =>
    ⟨s', h1, (h3 (by decide)).2.1, (h3 (by decide)).1, (h3 (by decide)).2.2.1.trans (by decide)⟩

set_option maxRecDepth 1000000 in
/-- Claim C21 at the failing input: the digits `4294967296` (the number
`2^32`) typed at the prompt are lexed as the token `PUSH` with the value 0 and
no complaint, while `2147483648` latches `Numeric overflow`: the test
`token_value < 0` sees the wrapped value only. -/
theorem C21_decimal_wrap_goes_undetected :
    (next 20 (prompt_state (bytes_of "4294967296\n") [])).map
        (fun s => (s.token, s.token_value, s.complaint)) = some (1, 0, none) ∧
      (next 20 (prompt_state (bytes_of "2147483648\n") [])).map
        (fun s => (s.token, s.token_value, s.complaint)) =
        some (1, 2147483648, some "Numeric overflow") := by
  decide!

/-! ## Claim C24: `wren_initialize` -/

/-- What a successful `bind` does when the header comes to lie above the
cursor cells, wherever `code_idx` is. -/
theorem bind_high (s : State) (name : List Nat) (kind binding : Nat)
    (hroom : code_idx s + (3 + name.length) ≤ dict_idx s)
    (hh8 : 8 + (3 + name.length) ≤ dict_idx s)
    (hl1 : 1 ≤ name.length) (hl2 : name.length ≤ 16) (hk : kind < 16)
    (hb : binding < 65536) :
    ∃ s', bind s name kind binding = (some (dict_idx s - (3 + name.length)), s') ∧
      dict_idx s' = dict_idx s - (3 + name.length) ∧ code_idx s' = code_idx s ∧
      (∀ k q, 8 ≤ q → (q + k ≤ dict_idx s - (3 + name.length) ∨ dict_idx s ≤ q) →
        fetch_bytes k s'.the_store q = fetch_bytes k s.the_store q) ∧
      get_header_kind s'.the_store (dict_idx s - (3 + name.length)) = kind ∧
      get_header_name_length s'.the_store (dict_idx s - (3 + name.length)) = name.length ∧
      get_header_binding s'.the_store (dict_idx s - (3 + name.length)) = binding ∧
      fetch_bytes name.length s'.the_store (dict_idx s - (3 + name.length) + 3) = pack name ∧
      s' = { s with the_store := s'.the_store } := by
  have hd := dict_idx_lt s
  have hav : (code_idx s + (sizeof_Header + name.length)) % 4294967296 ≤ dict_idx s := by
    unfold sizeof_Header
    rw [Nat.mod_eq_of_lt (by omega)]
    exact hroom
  have hh : (dict_idx s + 4294967296 - (sizeof_Header + name.length) % 4294967296) % 4294967296 =
      dict_idx s - (3 + name.length) := by
    unfold sizeof_Header
    omega
  generalize hH : dict_idx s - (3 + name.length) = h at hh ⊢
  have hh8' : 8 ≤ h := by omega
  have hhd : h + (3 + name.length) = dict_idx s := by omega
  have hdd : fetch_bytes 4 s.the_store 4 = dict_idx s := rfl
  have e : bind s name kind binding = (some h, { s with
      the_store := write_string (set_header_binding (set_header_kind_lnm1
        (set_dict_idx s h).the_store h kind name.length) h binding) (h + sizeof_Header) name }) := by
    unfold bind available
    simp only [hav, if_true, hh]
    rfl
  refine ⟨_, e, ?_, ?_, ?_, ?_, ?_, ?_, ?_, rfl⟩
  all_goals simp only [set_dict_idx, set_header_binding, set_header_kind_lnm1, write_string,
    sizeof_Header, dict_idx, code_idx, get_header_kind, get_header_name_length,
    get_header_binding, fetch_wV_eq, fetch_wX_eq, fetch_u8_eq, write_wV_eq, write_wX_eq,
    write_u8_eq]
  · rw [fetch_bytes_write_bytes_disjoint _ _ _ _ _ _ (by omega),
      fetch_bytes_write_bytes_disjoint _ _ _ _ _ _ (by omega),
      fetch_bytes_write_bytes_disjoint _ _ _ _ _ _ (by omega), fetch_bytes_write_bytes_same]
    exact Nat.mod_eq_of_lt (by omega)
  · rw [fetch_bytes_write_bytes_disjoint _ _ _ _ _ _ (by omega),
      fetch_bytes_write_bytes_disjoint _ _ _ _ _ _ (by omega),
      fetch_bytes_write_bytes_disjoint _ _ _ _ _ _ (by omega),
      fetch_bytes_write_bytes_disjoint _ _ _ _ _ _ (by omega)]
  · intro k q hq8 hq
    have hq' : q + k ≤ h ∨ h + (3 + name.length) ≤ q := by omega
    rw [fetch_bytes_write_bytes_disjoint _ _ _ _ _ _ (by omega),
      fetch_bytes_write_bytes_disjoint _ _ _ _ _ _ (by omega),
      fetch_bytes_write_bytes_disjoint _ _ _ _ _ _ (by omega),
      fetch_bytes_write_bytes_disjoint _ _ _ _ _ _ (by omega)]
  · rw [fetch_bytes_write_bytes_disjoint _ _ _ _ _ _ (by omega),
      fetch_bytes_write_bytes_disjoint _ _ _ _ _ _ (by omega), fetch_bytes_write_bytes_same]
    exact (kind_lnm1_decode kind hk name.length (by omega) (by omega)).1
  · rw [fetch_bytes_write_bytes_disjoint _ _ _ _ _ _ (by omega),
      fetch_bytes_write_bytes_disjoint _ _ _ _ _ _ (by omega), fetch_bytes_write_bytes_same]
    exact (kind_lnm1_decode kind hk name.length (by omega) (by omega)).2
  · rw [fetch_bytes_write_bytes_disjoint _ _ _ _ _ _ (by omega), fetch_bytes_write_bytes_same]
    exact Nat.mod_eq_of_lt (by omega)
  · rw [fetch_bytes_write_bytes_same]
    exact Nat.mod_eq_of_lt (pack_lt name)

theorem gen_pointer_eq (s : State) (v : Nat) (h : code_idx s + 4 ≤ dict_idx s) :
    gen_pointer s v = emit 4 s v s.prev_instruc := by
  simp [gen_pointer, available_ok s 4 h, emit, write_wP_eq]

/-- The three assignments `wren_initialize` starts with. -/
theorem initialize_start (s : State) :
    ∃ s0, set_dict_idx { s with
        the_store := write_wV (write_wV s.the_store 8 0) 12 store_capacity } store_capacity = s0 ∧
      code_idx s0 = code_idx s ∧ dict_idx s0 = 4096 ∧ fetch_wV s0.the_store 8 = 0 ∧
      fetch_wV s0.the_store 12 = 4096 ∧ s0 = { s with the_store := s0.the_store } := by
  refine ⟨_, rfl, ?_, ?_, ?_, ?_, rfl⟩
  all_goals simp only [set_dict_idx, code_idx, dict_idx, fetch_wV_eq, write_wV_eq,
    store_capacity]
  · rw [fetch_bytes_write_bytes_disjoint _ _ _ _ _ _ (by omega),
      fetch_bytes_write_bytes_disjoint _ _ _ _ _ _ (by omega),
      fetch_bytes_write_bytes_disjoint _ _ _ _ _ _ (by omega)]
  · rw [fetch_bytes_write_bytes_same]
    rfl
  · rw [fetch_bytes_write_bytes_disjoint _ _ _ _ _ _ (by omega),
      fetch_bytes_write_bytes_disjoint _ _ _ _ _ _ (by omega), fetch_bytes_write_bytes_same]
    rfl
  · rw [fetch_bytes_write_bytes_disjoint _ _ _ _ _ _ (by omega), fetch_bytes_write_bytes_same]
    rfl
/-- A header that carries another name is passed over by `lookup`. -/
theorem lookup_past (m h end_ : Nat) (name other : List Nat) (h' : Nat)
    (hlen : get_header_name_length m h = other.length)
    (hname : fetch_bytes other.length m (h + 3) = pack other)
    (hne : other.length = name.length → pack other ≠ pack name) (hlt : h < end_)
    (hh : h' = h + 3 + other.length) :
    lookup m h end_ name = lookup m h' end_ name := by
  rw [lookup_skip m h end_ name _ hlt, hh]
  · simp only [next_header, sizeof_Header, hlen]
  · rintro ⟨e1, e2⟩
    rw [hlen] at e1
    rw [← e1] at e2
    exact hne e1 (hname.symm.trans e2)

/-- The fields of a header depend on the bytes from the header on only. -/
theorem header_frame (m m' h : Nat) (hf : ∀ k q, h ≤ q → fetch_bytes k m' q = fetch_bytes k m q) :
    get_header_kind m' h = get_header_kind m h ∧
      get_header_name_length m' h = get_header_name_length m h ∧
      get_header_binding m' h = get_header_binding m h ∧
      ∀ n, fetch_bytes n m' (h + 3) = fetch_bytes n m (h + 3) := by
  simp only [get_header_kind, get_header_name_length, get_header_binding, fetch_u8_eq,
    fetch_wX_eq]
  exact ⟨by rw [hf 1 (h + 2) (by omega)], by rw [hf 1 (h + 2) (by omega)],
    hf 2 h (Nat.le_refl _), fun n => hf n (h + 3) (by omega)⟩

/-- What `wren_initialize` builds, on any state whose `code_idx` leaves room
for the four headers of the globals. -/
theorem initialize_spec (s : State) (hc : code_idx s ≤ 4076) :
    ∃ t, wren_initialize s = t ∧ t = { s with the_store := t.the_store } ∧
      code_idx t = 21 ∧ dict_idx t = 4070 ∧
      fetch_wV t.the_store 8 = 0 ∧ fetch_wV t.the_store 12 = 4096 ∧
      fetch_u8 t.the_store 16 = 1 ∧ fetch_wP t.the_store 17 = moo_ptr ∧
      (get_header_kind t.the_store 4091 = a_global ∧
        get_header_name_length t.the_store 4091 = 2 ∧
        get_header_binding t.the_store 4091 = 0 ∧
        fetch_bytes 2 t.the_store 4094 = pack [99, 112]) ∧
      (get_header_kind t.the_store 4086 = a_global ∧
        get_header_name_length t.the_store 4086 = 2 ∧
        get_header_binding t.the_store 4086 = 4 ∧
        fetch_bytes 2 t.the_store 4089 = pack [100, 112]) ∧
      (get_header_kind t.the_store 4081 = a_global ∧
        get_header_name_length t.the_store 4081 = 2 ∧
        get_header_binding t.the_store 4081 = 8 ∧
        fetch_bytes 2 t.the_store 4084 = pack [99, 48]) ∧
      (get_header_kind t.the_store 4076 = a_global ∧
        get_header_name_length t.the_store 4076 = 2 ∧
        get_header_binding t.the_store 4076 = 12 ∧
        fetch_bytes 2 t.the_store 4079 = pack [100, 48]) ∧
      (get_header_kind t.the_store 4070 = a_cfunction ∧
        get_header_name_length t.the_store 4070 = 3 ∧
        get_header_binding t.the_store 4070 = 16 ∧
        fetch_bytes 3 t.the_store 4073 = pack [109, 111, 111]) := by
  obtain ⟨s0, e0, c0, d0, w8, w12, r0⟩ := initialize_start s
  have h : wren_initialize s = (fun s0 => wren_bind_c_function (set_code_idx (bind (bind (bind
      (bind s0 [99, 112] a_global 0).2 [100, 112] a_global 4).2 [99, 48] a_global 8).2
      [100, 48] a_global 12).2 16) [109, 111, 111] moo_ptr 1)
      (set_dict_idx { s with
        the_store := write_wV (write_wV s.the_store 8 0) 12 store_capacity } store_capacity) :=
    rfl
  rw [h, e0]
  simp only []
  -- the four globals
  obtain ⟨s1, e1, d1, c1, f1, k1, l1, b1, n1, r1⟩ := bind_high s0 [99, 112] a_global 0
    (by rw [c0, d0]; simp only [List.length_cons, List.length_nil]; omega)
    (by rw [d0]; decide)
    (by decide) (by decide) (by decide) (by decide)
  have x1 : dict_idx s0 - (3 + [99, 112].length) = 4091 := by rw [d0]; rfl
  rw [x1] at e1 d1 f1 k1 l1 b1 n1
  obtain ⟨s2, e2, d2, c2, f2, k2, l2, b2, n2, r2⟩ := bind_high s1 [100, 112] a_global 4
    (by rw [c1, c0, d1]; simp only [List.length_cons, List.length_nil]; omega)
    (by rw [d1]; decide)
    (by decide) (by decide) (by decide) (by decide)
  have x2 : dict_idx s1 - (3 + [100, 112].length) = 4086 := by rw [d1]; rfl
  rw [x2] at e2 d2 f2 k2 l2 b2 n2
  obtain ⟨s3, e3, d3, c3, f3, k3, l3, b3, n3, r3⟩ := bind_high s2 [99, 48] a_global 8
    (by rw [c2, c1, c0, d2]; simp only [List.length_cons, List.length_nil]; omega)
    (by rw [d2]; decide)
    (by decide) (by decide) (by decide) (by decide)
  have x3 : dict_idx s2 - (3 + [99, 48].length) = 4081 := by rw [d2]; rfl
  rw [x3] at e3 d3 f3 k3 l3 b3 n3
  obtain ⟨s4, e4, d4, c4, f4, k4, l4, b4, n4, r4⟩ := bind_high s3 [100, 48] a_global 12
    (by rw [c3, c2, c1, c0, d3]; simp only [List.length_cons, List.length_nil]; omega)
    (by rw [d3]; decide)
    (by decide) (by decide) (by decide) (by decide)
  have x4 : dict_idx s3 - (3 + [100, 48].length) = 4076 := by rw [d3]; rfl
  rw [x4] at e4 d4 f4 k4 l4 b4 n4
  rw [e1]
  simp only []
  rw [e2]
  simp only []
  rw [e3]
  simp only []
  rw [e4]
  simp only []
  -- `code_idx = 16` and the host function
  obtain ⟨c5, d5, f5⟩ := set_code_idx_spec s4 16 (by omega)
  rw [d4] at d5
  obtain ⟨s6, e6, d6, c6, f6, k6, l6, b6, n6, r6⟩ := bind_high (set_code_idx s4 16)
    [109, 111, 111] a_cfunction (code_idx (set_code_idx s4 16))
    (by rw [c5, d5]; decide)
    (by rw [d5]; decide)
    (by decide) (by decide) (by decide) (by rw [c5]; omega)
  have x6 : dict_idx (set_code_idx s4 16) - (3 + [109, 111, 111].length) = 4070 := by
    rw [d5]
    rfl
  rw [x6] at e6 d6 f6 k6 l6 b6 n6
  rw [c5] at c6 b6
  unfold wren_bind_c_function
  simp only []
  rw [e6]
  simp only []
  rw [gen_ubyte_eq s6 1 (by rw [c6, d6]; omega)]
  obtain ⟨g7, v7, -⟩ := emit_spec 1 s6 1 16 s6.prev_instruc c6 (by omega) (by rw [d6]; omega)
  have r7 : emit 1 s6 1 s6.prev_instruc =
      { s6 with the_store := (emit 1 s6 1 s6.prev_instruc).the_store } := rfl
  generalize emit 1 s6 1 s6.prev_instruc = s7 at g7 v7 r7
  rw [gen_pointer_eq s7 moo_ptr (by rw [g7.code, g7.dict, d6]; omega)]
  obtain ⟨g8, v8, -⟩ := emit_spec 4 s7 moo_ptr 17 s7.prev_instruc g7.code (by omega)
    (by rw [g7.dict, d6]; omega)
  have r8 : emit 4 s7 moo_ptr s7.prev_instruc =
      { s7 with the_store := (emit 4 s7 moo_ptr s7.prev_instruc).the_store } := rfl
  generalize emit 4 s7 moo_ptr s7.prev_instruc = s8 at g8 v8 r8
  have r5 : set_code_idx s4 16 = { s4 with the_store := (set_code_idx s4 16).the_store } := rfl
  -- what the later steps leave alone
  have U6 : ∀ k q, 4070 ≤ q → fetch_bytes k s8.the_store q = fetch_bytes k s6.the_store q :=
    fun k q hq => (g8.frame k q (by omega) (Or.inr (by omega))).trans
      (g7.frame k q (by omega) (Or.inr (by omega)))
  have U4 : ∀ k q, 4076 ≤ q → fetch_bytes k s8.the_store q = fetch_bytes k s4.the_store q :=
    fun k q hq => (U6 k q (by omega)).trans
      ((f6 k q (by omega) (Or.inr (by rw [d5]; exact hq))).trans (f5 k q (by omega)))
  have U3 : ∀ k q, 4081 ≤ q → fetch_bytes k s8.the_store q = fetch_bytes k s3.the_store q :=
    fun k q hq => (U4 k q (by omega)).trans (f4 k q (by omega) (Or.inr (by rw [d3]; exact hq)))
  have U2 : ∀ k q, 4086 ≤ q → fetch_bytes k s8.the_store q = fetch_bytes k s2.the_store q :=
    fun k q hq => (U3 k q (by omega)).trans (f3 k q (by omega) (Or.inr (by rw [d2]; exact hq)))
  have U1 : ∀ k q, 4091 ≤ q → fetch_bytes k s8.the_store q = fetch_bytes k s1.the_store q :=
    fun k q hq => (U2 k q (by omega)).trans (f2 k q (by omega) (Or.inr (by rw [d1]; exact hq)))
  have L : ∀ k q, 8 ≤ q → q + k ≤ 16 →
      fetch_bytes k s8.the_store q = fetch_bytes k s0.the_store q :=
    fun k q h8 hq => by
      rw [g8.frame k q h8 (Or.inl (by omega)), g7.frame k q h8 (Or.inl (by omega)),
        f6 k q h8 (Or.inl (by omega)), f5 k q (by omega), f4 k q h8 (Or.inl (by omega)),
        f3 k q h8 (Or.inl (by omega)), f2 k q h8 (Or.inl (by omega)),
        f1 k q h8 (Or.inl (by omega))]
  obtain ⟨i1, i2, i3, i4⟩ := header_frame _ _ 4091 U1
  obtain ⟨j1, j2, j3, j4⟩ := header_frame _ _ 4086 U2
  obtain ⟨m1, m2, m3, m4⟩ := header_frame _ _ 4081 U3
  obtain ⟨o1, o2, o3, o4⟩ := header_frame _ _ 4076 U4
  obtain ⟨p1, p2, p3, p4⟩ := header_frame _ _ 4070 U6
  refine ⟨s8, rfl, ?_, ?_, ?_, ?_, ?_, ?_, ?_, ⟨i1.trans k1, i2.trans l1, i3.trans b1,
    (i4 2).trans n1⟩, ⟨j1.trans k2, j2.trans l2, j3.trans b2, (j4 2).trans n2⟩,
    ⟨m1.trans k3, m2.trans l3, m3.trans b3, (m4 2).trans n3⟩,
    ⟨o1.trans k4, o2.trans l4, o3.trans b4, (o4 2).trans n4⟩,
    ⟨p1.trans k6, p2.trans l6, p3.trans b6, (p4 3).trans n6⟩⟩
  · rw [r8, r7, r6, r5, r4, r3, r2, r1, r0]
  · exact g8.code
  · rw [g8.dict, g7.dict, d6]
  · rw [fetch_wV_eq, L 4 8 (by omega) (by omega)]
    exact w8
  · rw [fetch_wV_eq, L 4 12 (by omega) (by omega)]
    exact w12
  · rw [fetch_u8_eq, g8.frame 1 16 (by omega) (Or.inl (by omega)), v7]
    rfl
  · rw [fetch_wP_eq, v8]
    rfl
set_option maxRecDepth 1000000 in
/-- Claim C24, the failing input: after the command `cp : 4090` the cursors
are 4090 and 4070. `wren_initialize` called on that state binds `cp` and then
finds no room for the next header, since `code_idx` is set to 16 only after
the four globals are bound: it latches `Store exhausted`, `dict_idx` ends as
4085 and not 4070, and `dp` is not found. -/
theorem C24_initialize_after_cp_4090 :
    cursors after_cp_4090 = (4090, 4070) ∧ after_cp_4090.complaint = none ∧
      cursors ( wren_initialize after_cp_4090) = (21, 4085) ∧
      ( wren_initialize after_cp_4090).complaint = some "Store exhausted" ∧
      lookup ( wren_initialize after_cp_4090).the_store
        (dict_idx ( wren_initialize after_cp_4090)) store_capacity (bytes_of "dp") = none := by
  decide!

/-- Claim C24, amended. `wren_initialize` resets the arena whenever the
`code_idx` it finds is at most 4076, in particular on the all-zero store of
a fresh program: whatever else the state holds, afterwards `cp`, `dp`, `c0`
and `d0` are found as globals with the bindings 0, 4, 8 and 12, the word at
offset 8 is 0 and the word at offset 12 is S = 4096, the host function `moo`
is bound as a cfunction of arity 1 at offset 16 (the arity byte at 16, the
function pointer after it), `code_idx` is 16 + 1 + 4 = 21 and `dict_idx` is
4096 - 4 * 5 - 6 = 4070; the complaint is left as it was. -/
theorem C24_initialize_seeds_the_arena (s : State) (hc : code_idx s ≤ 4076) :
    code_idx ( wren_initialize s) = 21 ∧ dict_idx ( wren_initialize s) = 4070 ∧
    fetch_wV ( wren_initialize s).the_store 8 = 0 ∧
    fetch_wV ( wren_initialize s).the_store 12 = store_capacity ∧
    bound_as ( wren_initialize s) (bytes_of "cp") a_global 0 ∧
    bound_as ( wren_initialize s) (bytes_of "dp") a_global 4 ∧
    bound_as ( wren_initialize s) (bytes_of "c0") a_global 8 ∧
    bound_as ( wren_initialize s) (bytes_of "d0") a_global 12 ∧
    bound_as ( wren_initialize s) (bytes_of "moo") a_cfunction 16 ∧
    get_proc_arity ( wren_initialize s).the_store 16 = 1 ∧
    fetch_wP ( wren_initialize s).the_store 17 = moo_ptr ∧
    ( wren_initialize s).complaint = s.complaint := by
  obtain ⟨t, e, r, hci, hdi, w8, w12, a16, p17, ⟨k1, l1, b1, n1⟩, ⟨k2, l2, b2, n2⟩,
    ⟨k3, l3, b3, n3⟩, ⟨k4, l4, b4, n4⟩, ⟨k5, l5, b5, n5⟩⟩ := initialize_spec s hc
  rw [e]
  have hcp : bytes_of "cp" = [99, 112] := by decide
  have hdp : bytes_of "dp" = [100, 112] := by decide
  have hc0 : bytes_of "c0" = [99, 48] := by decide
  have hd0 : bytes_of "d0" = [100, 48] := by decide
  have hmoo : bytes_of "moo" = [109, 111, 111] := by decide
  rw [hcp, hdp, hc0, hd0, hmoo]
  have past5 : ∀ name : List Nat, (3 = name.length → pack [109, 111, 111] ≠ pack name) →
      lookup t.the_store 4070 4096 name = lookup t.the_store 4076 4096 name :=
    fun name hne => lookup_past _ 4070 4096 name [109, 111, 111] 4076 l5 n5 hne (by omega) rfl
  have past4 : ∀ name : List Nat, (2 = name.length → pack [100, 48] ≠ pack name) →
      lookup t.the_store 4076 4096 name = lookup t.the_store 4081 4096 name :=
    fun name hne => lookup_past _ 4076 4096 name [100, 48] 4081 l4 n4 hne (by omega) rfl
  have past3 : ∀ name : List Nat, (2 = name.length → pack [99, 48] ≠ pack name) →
      lookup t.the_store 4081 4096 name = lookup t.the_store 4086 4096 name :=
    fun name hne => lookup_past _ 4081 4096 name [99, 48] 4086 l3 n3 hne (by omega) rfl
  have past2 : ∀ name : List Nat, (2 = name.length → pack [100, 112] ≠ pack name) →
      lookup t.the_store 4086 4096 name = lookup t.the_store 4091 4096 name :=
    fun name hne => lookup_past _ 4086 4096 name [100, 112] 4091 l2 n2 hne (by omega) rfl
  refine ⟨hci, hdi, w8, w12, ⟨4091, ?_, k1, b1⟩, ⟨4086, ?_, k2, b2⟩, ⟨4081, ?_, k3, b3⟩,
    ⟨4076, ?_, k4, b4⟩, ⟨4070, ?_, k5, b5⟩, a16, p17, ?_⟩
  · rw [hdi]
    show lookup t.the_store 4070 4096 [99, 112] = some 4091
    rw [past5 _ (fun h => absurd h (by decide)), past4 _ (fun _ => by decide),
      past3 _ (fun _ => by decide), past2 _ (fun _ => by decide)]
    exact lookup_first _ 4091 4096 _ (by omega) l1 n1
  · rw [hdi]
    show lookup t.the_store 4070 4096 [100, 112] = some 4086
    rw [past5 _ (fun h => absurd h (by decide)), past4 _ (fun _ => by decide),
      past3 _ (fun _ => by decide)]
    exact lookup_first _ 4086 4096 _ (by omega) l2 n2
  · rw [hdi]
    show lookup t.the_store 4070 4096 [99, 48] = some 4081
    rw [past5 _ (fun h => absurd h (by decide)), past4 _ (fun _ => by decide)]
    exact lookup_first _ 4081 4096 _ (by omega) l3 n3
  · rw [hdi]
    show lookup t.the_store 4070 4096 [100, 48] = some 4076
    rw [past5 _ (fun h => absurd h (by decide))]
    exact lookup_first _ 4076 4096 _ (by omega) l4 n4
  · rw [hdi]
    exact lookup_first _ 4070 4096 _ (by omega) l5 n5
  · rw [r]

/-- An instance of claim C24: `wren_initialize` on the all-zero store of a
fresh program. -/
theorem C24_initialize_on_a_fresh_store :
    code_idx (fresh [] []) ≤ 4076 ∧ cursors ( wren_initialize (fresh [] [])) = (21, 4070) ∧
      bound_as ( wren_initialize (fresh [] [])) (bytes_of "d0") a_global 12 ∧
      bound_as ( wren_initialize (fresh [] [])) (bytes_of "moo") a_cfunction 16 :=
  have h := C24_initialize_seeds_the_arena (fresh [] []) (by decide)
  ⟨by decide, Prod.ext h.1 h.2.1, h.2.2.2.2.2.2.2.1, h.2.2.2.2.2.2.2.2.1⟩

/-! ## Claims C25 to C27: the stack guard and the arena accessors -/

theorem step_setv (end_ pc sp bp : Nat) (s : State) (h : fetch_u8 s.the_store pc = SETV) :
    step end_ pc sp bp s =
      Step.next (pc + 1) (sp + 4) bp
        (if fetch_wV s.the_store (sp + 4) ≤ store_capacity - 4 then
          { s with
            the_store :=
              write_wV s.the_store (fetch_wV s.the_store (sp + 4)) (fetch_wV s.the_store sp) }
         else s) := by
  simp [step, step_with, h, HALT, PUSH, POP, PUSH_STRING, GLOBAL_FETCH, GLOBAL_STORE, LOCAL_FETCH, TCALL,
    CALL, RETURN, BRANCH, JUMP, ADD, SUB, MUL, DIV, MOD, UMUL, UDIV, UMOD, NEGATE, EQ, LT, ULT,
    AND, OR, XOR, SLA, SRA, SRL, GETC, PUTC, REFB, REFV, SETV, LOCAL_FETCH_0, LOCAL_FETCH_1,
    PUSHW, PUSHB, CCALL, REFX, SETX, SETB]

theorem step_setx (end_ pc sp bp : Nat) (s : State) (h : fetch_u8 s.the_store pc = SETX) :
    step end_ pc sp bp s =
      Step.next (pc + 1) (sp + 4) bp
        (if fetch_wV s.the_store (sp + 4) ≤ store_capacity - 2 then
          { s with
            the_store :=
              write_wX s.the_store (fetch_wV s.the_store (sp + 4)) (fetch_wV s.the_store sp) }
         else s) := by
  simp [step, step_with, h, HALT, PUSH, POP, PUSH_STRING, GLOBAL_FETCH, GLOBAL_STORE, LOCAL_FETCH, TCALL,
    CALL, RETURN, BRANCH, JUMP, ADD, SUB, MUL, DIV, MOD, UMUL, UDIV, UMOD, NEGATE, EQ, LT, ULT,
    AND, OR, XOR, SLA, SRA, SRL, GETC, PUTC, REFB, REFV, SETV, LOCAL_FETCH_0, LOCAL_FETCH_1,
    PUSHW, PUSHB, CCALL, REFX, SETX, SETB]

theorem step_setb (end_ pc sp bp : Nat) (s : State) (h : fetch_u8 s.the_store pc = SETB) :
    step end_ pc sp bp s =
      Step.next (pc + 1) (sp + 4) bp
        (if fetch_wV s.the_store (sp + 4) < store_capacity then
          { s with
            the_store :=
              write_u8 s.the_store (fetch_wV s.the_store (sp + 4)) (fetch_wV s.the_store sp) }
         else s) := by
  simp [step, step_with, h, HALT, PUSH, POP, PUSH_STRING, GLOBAL_FETCH, GLOBAL_STORE, LOCAL_FETCH, TCALL,
    CALL, RETURN, BRANCH, JUMP, ADD, SUB, MUL, DIV, MOD, UMUL, UDIV, UMOD, NEGATE, EQ, LT, ULT,
    AND, OR, XOR, SLA, SRA, SRL, GETC, PUTC, REFB, REFV, SETV, LOCAL_FETCH_0, LOCAL_FETCH_1,
    PUSHW, PUSHB, CCALL, REFX, SETX, SETB]

theorem step_refb (end_ pc sp bp : Nat) (s : State) (h : fetch_u8 s.the_store pc = REFB) :
    step end_ pc sp bp s =
      unop (pc + 1) sp bp s
        (if fetch_wV s.the_store sp < store_capacity then
          fetch_u8 s.the_store (fetch_wV s.the_store sp) else 0) := by
  simp [step, step_with, h, HALT, PUSH, POP, PUSH_STRING, GLOBAL_FETCH, GLOBAL_STORE, LOCAL_FETCH, TCALL,
    CALL, RETURN, BRANCH, JUMP, ADD, SUB, MUL, DIV, MOD, UMUL, UDIV, UMOD, NEGATE, EQ, LT, ULT,
    AND, OR, XOR, SLA, SRA, SRL, GETC, PUTC, REFB, REFV, SETV, LOCAL_FETCH_0, LOCAL_FETCH_1,
    PUSHW, PUSHB, CCALL, REFX, SETX, SETB]

theorem step_refv (end_ pc sp bp : Nat) (s : State) (h : fetch_u8 s.the_store pc = REFV) :
    step end_ pc sp bp s =
      unop (pc + 1) sp bp s
        (if fetch_wV s.the_store sp ≤ store_capacity - 4 then
          fetch_wV s.the_store (fetch_wV s.the_store sp) else 0) := by
  simp [step, step_with, h, HALT, PUSH, POP, PUSH_STRING, GLOBAL_FETCH, GLOBAL_STORE, LOCAL_FETCH, TCALL,
    CALL, RETURN, BRANCH, JUMP, ADD, SUB, MUL, DIV, MOD, UMUL, UDIV, UMOD, NEGATE, EQ, LT, ULT,
    AND, OR, XOR, SLA, SRA, SRL, GETC, PUTC, REFB, REFV, SETV, LOCAL_FETCH_0, LOCAL_FETCH_1,
    PUSHW, PUSHB, CCALL, REFX, SETX, SETB]

theorem step_refx (end_ pc sp bp : Nat) (s : State) (h : fetch_u8 s.the_store pc = REFX) :
    step end_ pc sp bp s =
      unop (pc + 1) sp bp s
        (if fetch_wV s.the_store sp ≤ store_capacity - 2 then
          fetch_wX s.the_store (fetch_wV s.the_store sp) else 0) := by
  simp [step, step_with, h, HALT, PUSH, POP, PUSH_STRING, GLOBAL_FETCH, GLOBAL_STORE, LOCAL_FETCH, TCALL,
    CALL, RETURN, BRANCH, JUMP, ADD, SUB, MUL, DIV, MOD, UMUL, UDIV, UMOD, NEGATE, EQ, LT, ULT,
    AND, OR, XOR, SLA, SRA, SRL, GETC, PUTC, REFB, REFV, SETV, LOCAL_FETCH_0, LOCAL_FETCH_1,
    PUSHW, PUSHB, CCALL, REFX, SETX, SETB]

set_option maxRecDepth 1000000 in
/-- Claim C26, the failing inputs: the commands `setv 100 7`, `setx 100 7`
and `setb 100 7`, each typed at the first prompt, store 7 at offset 100 and
evaluate to 100, the address, not to 7. -/
theorem C26_setv_evaluates_to_the_address :
    (command_value 40 (bytes_of "setv 100 7\n") 0 = some 100 ∧
      (repl_after 40 (bytes_of "setv 100 7\n") 1).map (fun s => fetch_wV s.the_store 100) =
        some 7) ∧
    (command_value 40 (bytes_of "setx 100 7\n") 0 = some 100 ∧
      (repl_after 40 (bytes_of "setx 100 7\n") 1).map (fun s => fetch_wX s.the_store 100) =
        some 7) ∧
    (command_value 40 (bytes_of "setb 100 7\n") 0 = some 100 ∧
      (repl_after 40 (bytes_of "setb 100 7\n") 1).map (fun s => fetch_u8 s.the_store 100) =
        some 7) := by
  decide!

/-- Claim C26, amended. `SETV`, `SETX` and `SETB` pop the value and leave the
address on the stack: for every address `a` (the cell `sp[1]`) and value `v`
(the cell `sp[0]`), after the instruction exactly one cell has been popped,
the value has been stored at `a` when `a` is in range (the word `v`, its low
16 bits or its low 8 bits), and the cell now on top of the stack still holds
`a`, as long as the bytes at `a` are not bytes of that cell: `setv a v`,
`setx a v` and `setb a v` evaluate to `a`. -/
theorem C26_set_leaves_the_address (end_ pc sp bp : Nat) (s : State)
    (hop : fetch_u8 s.the_store pc = SETV ∨ fetch_u8 s.the_store pc = SETX ∨
      fetch_u8 s.the_store pc = SETB) :
    ∃ s', step end_ pc sp bp s = Step.next (pc + 1) (sp + 4) bp s' ∧
      (fetch_wV s.the_store (sp + 4) + 4 ≤ sp + 4 ∨ sp + 8 ≤ fetch_wV s.the_store (sp + 4) →
        fetch_wV s'.the_store (sp + 4) = fetch_wV s.the_store (sp + 4)) ∧
      (fetch_u8 s.the_store pc = SETV → fetch_wV s.the_store (sp + 4) ≤ store_capacity - 4 →
        fetch_wV s'.the_store (fetch_wV s.the_store (sp + 4)) = fetch_wV s.the_store sp) ∧
      (fetch_u8 s.the_store pc = SETX → fetch_wV s.the_store (sp + 4) ≤ store_capacity - 2 →
        fetch_wX s'.the_store (fetch_wV s.the_store (sp + 4)) =
          fetch_wV s.the_store sp % 65536) ∧
      (fetch_u8 s.the_store pc = SETB → fetch_wV s.the_store (sp + 4) < store_capacity →
        fetch_u8 s'.the_store (fetch_wV s.the_store (sp + 4)) =
          fetch_wV s.the_store sp % 256) := by
  have hv : fetch_wV s.the_store sp < 4294967296 := fetch_bytes_lt 4 _ _
  rcases hop with h | h | h
  · rw [step_setv _ _ _ _ _ h]
    refine ⟨_, rfl, fun hd => ?_, fun _ hr => ?_, fun h' => absurd (h.symm.trans h') (by decide),
      fun h' => absurd (h.symm.trans h') (by decide)⟩
    · split_ifs
      · simp only [fetch_wV_eq, write_wV_eq]
        rw [fetch_bytes_write_bytes_disjoint _ _ _ _ _ _ (by
          simp only [fetch_wV_eq] at hd
          omega)]
      · rfl
    · rw [if_pos hr]
      simp only [fetch_wV_eq, write_wV_eq]
      rw [fetch_bytes_write_bytes_same]
      exact Nat.mod_eq_of_lt hv
  · rw [step_setx _ _ _ _ _ h]
    refine ⟨_, rfl, fun hd => ?_, fun h' => absurd (h.symm.trans h') (by decide), fun _ hr => ?_,
      fun h' => absurd (h.symm.trans h') (by decide)⟩
    · split_ifs
      · simp only [fetch_wV_eq, write_wX_eq]
        rw [fetch_bytes_write_bytes_disjoint _ _ _ _ _ _ (by
          simp only [fetch_wV_eq] at hd
          omega)]
      · rfl
    · rw [if_pos hr]
      simp only [fetch_wX_eq, write_wX_eq]
      rw [fetch_bytes_write_bytes_same]
      rfl
  · rw [step_setb _ _ _ _ _ h]
    refine ⟨_, rfl, fun hd => ?_, fun h' => absurd (h.symm.trans h') (by decide),
      fun h' => absurd (h.symm.trans h') (by decide), fun _ hr => ?_⟩
    · split_ifs
      · simp only [fetch_wV_eq, write_u8_eq]
        rw [fetch_bytes_write_bytes_disjoint _ _ _ _ _ _ (by
          simp only [fetch_wV_eq] at hd
          omega)]
      · rfl
    · rw [if_pos hr]
      simp only [fetch_u8_eq, write_u8_eq]
      rw [fetch_bytes_write_bytes_same]
      rfl

set_option maxRecDepth 1000000 in
/-- An instance of claim C26: `SETV` executed with the value 7 on top of the
stack, at 4000, and the address 100 below it pops one cell, leaves 100 on
top and 7 at offset 100. -/
theorem C26_setv_of_7_at_100 :
    fetch_u8 setv_machine.the_store 30 = SETV ∧
      ∃ s', step 40 30 4000 4000 setv_machine = Step.next 31 4004 4000 s' ∧
        fetch_wV s'.the_store 4004 = 100 ∧ fetch_wV s'.the_store 100 = 7 :=
  have h : fetch_u8 setv_machine.the_store 30 = SETV := by decide!
  have a : fetch_wV setv_machine.the_store 4004 = 100 := by decide!
  have v : fetch_wV setv_machine.the_store 4000 = 7 := by decide!
  match C26_set_leaves_the_address 40 30 4000 4000 setv_machine (Or.inl h) with
  | ⟨s', h1, h2, h3, _⟩ =>
    ⟨h, s', h1, (h2 (Or.inl (by rw [a]; decide))).trans a,
      by rw [← a]; exact (h3 h (by rw [a]; decide)).trans v⟩
/-- Bytes read inside the first `n` bytes of `m` are bytes of those `n`. -/
theorem fetch_bytes_of_lower (k n m q : Nat) (h : q + k ≤ n) :
    fetch_bytes k (fetch_bytes n m 0) q = fetch_bytes k m q := by
  apply Nat.eq_of_testBit_eq
  intro i
  rw [testBit_fetch_bytes, testBit_fetch_bytes, testBit_fetch_bytes]
  by_cases hi : i < 8 * k
  · have h2 : 8 * q + i < 8 * n := by omega
    simp [hi, h2]
  · simp [hi]

/-- Claim C27. Out-of-bounds arena accesses are harmless. For the top of
stack `x = sp[0]`, a 32-bit word taken as unsigned: `REFB` with `x >= S`,
`REFV` with `x > S - 4` and `REFX` with `x > S - 2` replace the top of stack
with 0, and in range they replace it with the byte, word or index read at
`x`, which is made of bytes of the store below offset `S` only. For the
address `a = sp[1]`: `SETB`, `SETV`, `SETX` with `a` out of those same ranges
pop one cell and leave the state, hence every byte of the store, as it was,
and in range they leave every byte at offset `S` or more as it was. None of
the six latches a complaint. -/
theorem C27_out_of_bounds_is_harmless (end_ pc sp bp : Nat) (s : State) :
    (fetch_u8 s.the_store pc = REFB →
      (store_capacity ≤ fetch_wV s.the_store sp →
        step end_ pc sp bp s =
          Step.next (pc + 1) sp bp { s with the_store := write_wV s.the_store sp 0 }) ∧
      (fetch_wV s.the_store sp < store_capacity →
        step end_ pc sp bp s = Step.next (pc + 1) sp bp { s with
          the_store := write_wV s.the_store sp
            (fetch_u8 (arena s.the_store) (fetch_wV s.the_store sp)) })) ∧
    (fetch_u8 s.the_store pc = REFV →
      (store_capacity - 4 < fetch_wV s.the_store sp →
        step end_ pc sp bp s =
          Step.next (pc + 1) sp bp { s with the_store := write_wV s.the_store sp 0 }) ∧
      (fetch_wV s.the_store sp ≤ store_capacity - 4 →
        step end_ pc sp bp s = Step.next (pc + 1) sp bp { s with
          the_store := write_wV s.the_store sp
            (fetch_wV (arena s.the_store) (fetch_wV s.the_store sp)) })) ∧
    (fetch_u8 s.the_store pc = REFX →
      (store_capacity - 2 < fetch_wV s.the_store sp →
        step end_ pc sp bp s =
          Step.next (pc + 1) sp bp { s with the_store := write_wV s.the_store sp 0 }) ∧
      (fetch_wV s.the_store sp ≤ store_capacity - 2 →
        step end_ pc sp bp s = Step.next (pc + 1) sp bp { s with
          the_store := write_wV s.the_store sp
            (fetch_wX (arena s.the_store) (fetch_wV s.the_store sp)) })) ∧
    (fetch_u8 s.the_store pc = SETB →
      (store_capacity ≤ fetch_wV s.the_store (sp + 4) →
        step end_ pc sp bp s = Step.next (pc + 1) (sp + 4) bp s) ∧
      (fetch_wV s.the_store (sp + 4) < store_capacity →
        ∃ s', step end_ pc sp bp s = Step.next (pc + 1) (sp + 4) bp s' ∧
          s'.complaint = s.complaint ∧
          ∀ k q, store_capacity ≤ q → fetch_bytes k s'.the_store q = fetch_bytes k s.the_store q)) ∧
    (fetch_u8 s.the_store pc = SETV →
      (store_capacity - 4 < fetch_wV s.the_store (sp + 4) →
        step end_ pc sp bp s = Step.next (pc + 1) (sp + 4) bp s) ∧
      (fetch_wV s.the_store (sp + 4) ≤ store_capacity - 4 →
        ∃ s', step end_ pc sp bp s = Step.next (pc + 1) (sp + 4) bp s' ∧
          s'.complaint = s.complaint ∧
          ∀ k q, store_capacity ≤ q → fetch_bytes k s'.the_store q = fetch_bytes k s.the_store q)) ∧
    (fetch_u8 s.the_store pc = SETX →
      (store_capacity - 2 < fetch_wV s.the_store (sp + 4) →
        step end_ pc sp bp s = Step.next (pc + 1) (sp + 4) bp s) ∧
      (fetch_wV s.the_store (sp + 4) ≤ store_capacity - 2 →
        ∃ s', step end_ pc sp bp s = Step.next (pc + 1) (sp + 4) bp s' ∧
          s'.complaint = s.complaint ∧
          ∀ k q, store_capacity ≤ q →
            fetch_bytes k s'.the_store q = fetch_bytes k s.the_store q)) := by
  have hcap : store_capacity = 4096 := rfl
  refine ⟨fun h => ⟨fun hx => ?_, fun hx => ?_⟩, fun h => ⟨fun hx => ?_, fun hx => ?_⟩,
    fun h => ⟨fun hx => ?_, fun hx => ?_⟩, fun h => ⟨fun hx => ?_, fun hx => ?_⟩,
    fun h => ⟨fun hx => ?_, fun hx => ?_⟩, fun h => ⟨fun hx => ?_, fun hx => ?_⟩⟩
  · rw [step_refb _ _ _ _ _ h, if_neg (by omega)]
    rfl
  · rw [step_refb _ _ _ _ _ h, if_pos hx]
    simp only [arena, fetch_u8_eq]
    rw [fetch_bytes_of_lower 1 _ _ _ (by omega)]
    rfl
  · rw [step_refv _ _ _ _ _ h, if_neg (by omega)]
    rfl
  · rw [step_refv _ _ _ _ _ h, if_pos hx]
    simp only [arena, fetch_wV_eq]
    rw [fetch_bytes_of_lower 4 _ _ _ (by simp only [fetch_wV_eq] at hx; omega)]
    rfl
  · rw [step_refx _ _ _ _ _ h, if_neg (by omega)]
    rfl
  · rw [step_refx _ _ _ _ _ h, if_pos hx]
    simp only [arena, fetch_wX_eq, fetch_wV_eq]
    rw [fetch_bytes_of_lower 2 _ _ _ (by simp only [fetch_wV_eq] at hx; omega)]
    rfl
  · rw [step_setb _ _ _ _ _ h, if_neg (by omega)]
  · rw [step_setb _ _ _ _ _ h, if_pos hx]
    refine ⟨_, rfl, rfl, fun k q hq => ?_⟩
    simp only [write_u8_eq]
    rw [fetch_bytes_write_bytes_disjoint _ _ _ _ _ _ (Or.inr (by omega))]
  · rw [step_setv _ _ _ _ _ h, if_neg (by omega)]
  · rw [step_setv _ _ _ _ _ h, if_pos hx]
    refine ⟨_, rfl, rfl, fun k q hq => ?_⟩
    simp only [write_wV_eq]
    rw [fetch_bytes_write_bytes_disjoint _ _ _ _ _ _ (Or.inr (by omega))]
  · rw [step_setx _ _ _ _ _ h, if_neg (by omega)]
  · rw [step_setx _ _ _ _ _ h, if_pos hx]
    refine ⟨_, rfl, rfl, fun k q hq => ?_⟩
    simp only [write_wX_eq]
    rw [fetch_bytes_write_bytes_disjoint _ _ _ _ _ _ (Or.inr (by omega))]

set_option maxRecDepth 1000000 in
/-- An instance of claim C27: `REFV` executed with the address 5000 on top of
the stack puts 0 there, and latches no complaint. -/
theorem C27_refv_past_the_end :
    fetch_u8 refv_machine.the_store 30 = REFV ∧ fetch_wV refv_machine.the_store 4000 = 5000 ∧
      step 40 30 4000 4000 refv_machine = Step.next 31 4000 4000
        { refv_machine with the_store := write_wV refv_machine.the_store 4000 0 } :=
  have h : fetch_u8 refv_machine.the_store 30 = REFV := by decide!
  have x : fetch_wV refv_machine.the_store 4000 = 5000 := by decide!
  ⟨h, x, ((C27_out_of_bounds_is_harmless 40 30 4000 4000 refv_machine).2.1 h).1
    (by rw [x]; decide)⟩
theorem above_ite (e : Nat) (c : Prop) [Decidable c] (x y : Step)
    (hx : c → x.above e) (hy : ¬ c → y.above e) : (if c then x else y).above e := by
  split_ifs with h
  · exact hx h
  · exact hy h

theorem above_push (end_ pc sp bp : Nat) (s : State) (v : Nat) :
    (push end_ pc sp bp s v).above end_ := by
  unfold push
  split_ifs with h
  · exact trivial
  · show end_ ≤ sp - 4
    omega

theorem above_push_string (end_ pc sp bp : Nat) (s : State) (r : Option Nat) :
    (match r with
      | some n => push end_ (pc + n + 1) sp bp s (pc % 4294967296)
      | none => Step.undefined).above end_ := by
  cases r with
  | none => exact trivial
  | some n => exact above_push _ _ _ _ _ _

theorem above_getc (end_ pc sp bp : Nat) (s : State) :
    (match s.stdin_ with
      | [] => push end_ pc sp bp s 4294967295
      | c :: rest => push end_ pc sp bp { s with stdin_ := rest } (c % 256)).above end_ := by
  cases s.stdin_ with
  | nil => exact above_push _ _ _ _ _ _
  | cons c rest => exact above_push end_ pc sp bp { s with stdin_ := rest } _

theorem above_call (end_ pc sp bp : Nat) (s : State) (target n : Nat) (r : Option Nat)
    (hs : end_ ≤ sp) :
    (match r with
      | none => Step.undefined
      | some cont =>
        if fetch_u8 s.the_store cont = RETURN then
          Step.next (pc + 1 - 1) sp bp { s with the_store := write_u8 s.the_store (pc + 1 - 1) TCALL }
        else if sp < end_ + 4 then stack_overflow s
        else
          Step.next target (sp - 4) (sp - 4 + 4 * n) { s with
            the_store := write_wX (write_wX s.the_store (sp - 4) bp) (sp - 4 + 2)
              cont }).above end_ := by
  cases r with
  | none => exact trivial
  | some cont =>
    simp only []
    split_ifs with h1 h2
    · exact hs
    · exact trivial
    · show end_ ≤ sp - 4
      omega

theorem above_ccall (end_ pc sp bp : Nat) (s : State) (fn n : Nat) (hs : end_ ≤ sp) :
    (match ccall (host_apply fn) s sp n with
      | none => Step.undefined
      | some (result, s) =>
        if n = 0 then
          if sp < end_ + 4 then stack_overflow s
          else Step.next pc (sp - 4) bp
                 { s with the_store := write_wV s.the_store (sp - 4) result }
        else Step.next pc (sp + 4 * (n - 1)) bp { s with
          the_store := write_wV s.the_store (sp + 4 * (n - 1)) result }).above end_ := by
  cases hc : ccall (host_apply fn) s sp n with
  | none => exact trivial
  | some p =>
    obtain ⟨result, s'⟩ := p
    simp only []
    split_ifs with h1 h2
    · exact trivial
    · show end_ ≤ sp - 4
      omega
    · show end_ ≤ sp + 4 * (n - 1)
      omega

theorem above_guarded (e : Nat) (c : Prop) [Decidable c] (y : Step) (hy : y.above e) :
    (if c then Step.undefined else y).above e :=
  above_ite e c _ _ (fun _ => trivial) (fun _ => hy)

/-- No instruction other than `TCALL` and `RETURN`, executed with the stack
pointer at or above the end of the code, leaves it below. -/
theorem step_above (end_ pc sp bp : Nat) (s : State) (hs : end_ ≤ sp)
    (hT : fetch_u8 s.the_store pc ≠ TCALL) (hR : fetch_u8 s.the_store pc ≠ RETURN) :
    (step end_ pc sp bp s).above end_ := by
  have P : ∀ pc' s' v, (push end_ pc' sp bp s' v).above end_ :=
    fun pc' s' v => above_push end_ pc' sp bp s' v
  have B : ∀ pc' v, (binop pc' sp bp s v).above end_ := fun pc' v => by
    show end_ ≤ sp + 4
    omega
  have U : ∀ pc' v, (unop pc' sp bp s v).above end_ := fun pc' v => hs
  have N : ∀ pc' s', (Step.next pc' sp bp s').above end_ := fun _ _ => hs
  have N4 : ∀ pc' s', (Step.next pc' (sp + 4) bp s').above end_ := fun _ _ => by
    show end_ ≤ sp + 4
    omega
  unfold step step_with
  lift_lets
  intro m op pc1 a b binding n frame_info m1 sp1 sp2 m2 f0 f1
  refine above_ite _ _ _ _ (fun _ => trivial) (fun _ => ?_)
  refine above_ite _ _ _ _ (fun _ => P _ _ _) (fun _ => ?_)
  refine above_ite _ _ _ _ (fun _ => P _ _ _) (fun _ => ?_)
  refine above_ite _ _ _ _ (fun _ => P _ _ _) (fun _ => ?_)
  refine above_ite _ _ _ _ (fun _ => N4 _ _) (fun _ => ?_)
  refine above_ite _ _ _ _ (fun _ => above_ite _ _ _ _ (fun _ => trivial)
    (fun _ => above_push_string end_ pc1 sp bp s _)) (fun _ => ?_)
  refine above_ite _ _ _ _ (fun _ => P _ _ _) (fun _ => ?_)
  refine above_ite _ _ _ _ (fun _ => N _ _) (fun _ => ?_)
  refine above_ite _ _ _ _ (fun _ => P _ _ _) (fun _ => ?_)
  refine above_ite _ _ _ _ (fun _ => P _ _ _) (fun _ => ?_)
  refine above_ite _ _ _ _ (fun _ => P _ _ _) (fun _ => ?_)
  refine above_ite _ _ _ _ (fun h => absurd h hT) (fun _ => ?_)
  refine above_ite _ _ _ _ (fun _ => above_call end_ pc sp bp s (binding + 1) n _ hs)
    (fun _ => ?_)
  refine above_ite _ _ _ _ (fun _ => above_ccall end_ (pc1 + 2) sp bp s _ n hs) (fun _ => ?_)
  refine above_ite _ _ _ _ (fun h => absurd h hR) (fun _ => ?_)
  refine above_ite _ _ _ _ (fun _ => above_ite _ _ _ _ (fun _ => N4 _ _) (fun _ => N4 _ _))
    (fun _ => ?_)
  refine above_ite _ _ _ _ (fun _ => N _ _) (fun _ => ?_)
  refine above_ite _ _ _ _ (fun _ => B _ _) (fun _ => ?_)
  refine above_ite _ _ _ _ (fun _ => B _ _) (fun _ => ?_)
  refine above_ite _ _ _ _ (fun _ => B _ _) (fun _ => ?_)
  refine above_ite _ _ _ _ (fun _ => above_guarded _ _ _ (B _ _)) (fun _ => ?_)
  refine above_ite _ _ _ _ (fun _ => above_guarded _ _ _ (B _ _)) (fun _ => ?_)
  refine above_ite _ _ _ _ (fun _ => B _ _) (fun _ => ?_)
  refine above_ite _ _ _ _ (fun _ => above_guarded _ _ _ (B _ _)) (fun _ => ?_)
  refine above_ite _ _ _ _ (fun _ => above_guarded _ _ _ (B _ _)) (fun _ => ?_)
  refine above_ite _ _ _ _ (fun _ => U _ _) (fun _ => ?_)
  refine above_ite _ _ _ _ (fun _ => B _ _) (fun _ => ?_)
  refine above_ite _ _ _ _ (fun _ => B _ _) (fun _ => ?_)
  refine above_ite _ _ _ _ (fun _ => B _ _) (fun _ => ?_)
  refine above_ite _ _ _ _ (fun _ => B _ _) (fun _ => ?_)
  refine above_ite _ _ _ _ (fun _ => B _ _) (fun _ => ?_)
  refine above_ite _ _ _ _ (fun _ => B _ _) (fun _ => ?_)
  refine above_ite _ _ _ _ (fun _ => above_guarded _ _ _ (B _ _)) (fun _ => ?_)
  refine above_ite _ _ _ _ (fun _ => above_guarded _ _ _ (B _ _)) (fun _ => ?_)
  refine above_ite _ _ _ _ (fun _ => above_guarded _ _ _ (B _ _)) (fun _ => ?_)
  refine above_ite _ _ _ _ (fun _ => above_ite _ _ _ _ (fun _ => trivial)
    (fun _ => above_getc end_ pc1 sp bp s)) (fun _ => ?_)
  refine above_ite _ _ _ _ (fun _ => N _ _) (fun _ => ?_)
  refine above_ite _ _ _ _ (fun _ => U _ _) (fun _ => ?_)
  refine above_ite _ _ _ _ (fun _ => U _ _) (fun _ => ?_)
  refine above_ite _ _ _ _ (fun _ => N4 _ _) (fun _ => ?_)
  refine above_ite _ _ _ _ (fun _ => U _ _) (fun _ => ?_)
  refine above_ite _ _ _ _ (fun _ => N4 _ _) (fun _ => ?_)
  refine above_ite _ _ _ _ (fun _ => N4 _ _) (fun _ => ?_)
  exact trivial
/-- A pushing instruction executed with no room for a cell jumps to
`stack_overflow`. -/
theorem step_overflow (end_ pc sp bp : Nat) (s : State) (hp : pushes s.the_store pc)
    (hsp : sp < end_ + 4) : step end_ pc sp bp s = stack_overflow s := by
  rcases hp with hm | ⟨hc, cont, hk, hr⟩
  · simp only [List.mem_cons, List.mem_singleton, List.not_mem_nil, or_false] at hm
    rcases hm with h | h | h | h | h | h | h | h | h <;>
      simp [step, step_with, h, push, hsp, HALT, PUSH, POP, PUSH_STRING, GLOBAL_FETCH, GLOBAL_STORE,
        LOCAL_FETCH, TCALL, CALL, RETURN, BRANCH, JUMP, ADD, SUB, MUL, DIV, MOD, UMUL, UDIV,
        UMOD, NEGATE, EQ, LT, ULT, AND, OR, XOR, SLA, SRA, SRL, GETC, PUTC, REFB, REFV, SETV,
        LOCAL_FETCH_0, LOCAL_FETCH_1, PUSHW, PUSHB, CCALL, REFX, SETX, SETB]
  · have hk' : skip_jumps s.the_store store_capacity (pc + 1 + 2) = some cont := hk
    simp only [step, step_with]
    rw [hc]
    simp only [hk', if_neg hr, if_pos hsp, HALT, PUSH, POP, PUSH_STRING, GLOBAL_FETCH,
      GLOBAL_STORE, LOCAL_FETCH, TCALL, CALL, LOCAL_FETCH_0, LOCAL_FETCH_1, PUSHW, PUSHB]
    simp

set_option maxRecDepth 1000000 in
/-- Claim C25, the failing input: in the session `fun f x = setx 4044 8`,
`fun g x = f x + 1`, `g 1` the function `f` stores 8 over the saved base
pointer of the frame of its caller. The run of `g 1` starts at 38 with the
stack at 4060 and the code ending at 44; after ten instructions it is about
to execute the `RETURN` of `g` at 37 with `sp = 4048` and `bp = 8`, and that
`RETURN` leaves `sp = 8`, below the end of the code. No complaint is
latched, and the run returns 4045. -/
theorem C25_return_moves_sp_below_the_code :
    cursors frame_smash_vm = (38, 4062) ∧
      (scratch_expr 40 (state_of (repl_after 40 frame_smash 2))).map (fun r => r.1) =
        (run 40 38 44 frame_smash_vm).map (fun r => r.1) ∧
      (run_steps 44 10 38 4060 4060 frame_smash_vm).regs = some (37, 4048, 8, RETURN) ∧
      (run_steps 44 11 38 4060 4060 frame_smash_vm).regs = some (43, 8, 4060, HALT) ∧
      (run 40 38 44 frame_smash_vm).map (fun r => (r.1, r.2.complaint)) =
        some (4045, none) := by
  decide!

/-- Claim C25, amended. Stack overflow guard: whenever a pushing instruction
(`PUSH`, `PUSHW`, `PUSHB`, `PUSH_STRING`, `GLOBAL_FETCH`, `LOCAL_FETCH`,
`LOCAL_FETCH_0`, `LOCAL_FETCH_1`, `GETC`, a non-tail `CALL`) is executed, with
no complaint latched, with `sp - 4` below the end of the code, `run` writes
nothing to the store, latches `Stack overflow` and returns 0. Consequently no
instruction other than `TCALL` and `RETURN`, which take the stack pointer
from `bp`, leaves `sp` below the end of the code when it finds it at or
above. -/
theorem C25_pushes_are_guarded (end_ pc sp bp : Nat) (s : State) (hn : s.complaint = none) :
    (pushes s.the_store pc → sp < end_ + 4 →
      ∀ fuel, run_loop end_ (fuel + 1) pc sp bp s =
        some (0, { s with complaint := some "Stack overflow" })) ∧
    (end_ ≤ sp → fetch_u8 s.the_store pc ≠ TCALL → fetch_u8 s.the_store pc ≠ RETURN →
      (step end_ pc sp bp s).above end_) := by
  refine ⟨fun hp hsp fuel => ?_, step_above end_ pc sp bp s⟩
  rw [run_loop, step_overflow end_ pc sp bp s hp hsp]
  simp [stack_overflow, complain, hn]

set_option maxRecDepth 1000000 in
/-- An instance of claim C25: the code of `5 + 7`, which starts with a `PUSHB`
at 21 and ends at 27, run with the stack pointer at 28 returns 0 with
`Stack overflow` latched and the store as it was. -/
theorem C25_push_with_no_room :
    five_plus_seven.complaint = none ∧ pushes five_plus_seven.the_store 21 ∧
      run_loop 27 (0 + 1) 21 28 28 five_plus_seven =
        some (0, { five_plus_seven with complaint := some "Stack overflow" }) :=
  have hn : five_plus_seven.complaint = none := by decide!
  have hp : pushes five_plus_seven.the_store 21 := Or.inl (by decide!)
  ⟨hn, hp, (C25_pushes_are_guarded 27 21 28 28 five_plus_seven hn).1 hp (by decide) 0⟩

/-! ## Claim C28: the unary minus -/

set_option maxRecDepth 1000000 in
/-- Claim C28 at the failing inputs: the command `-0xFFFFFF80` (minus the
literal -128) yields `0xFFFFFF80`, that is -128 again, and `-0xFFFF8000`
(minus the literal -32768) yields -32768 again, with no complaint, while the
subtractions `0 - 0xFFFFFF80` and `0 - 0xFFFF8000` yield 128 and 32768: the
peephole negates the one-byte or two-byte immediate in place, where the
negated value does not fit. -/
theorem C28_folded_minus_of_the_least_immediates :
    (command_value 40 (bytes_of "-0xFFFFFF80\n") 0 = some 4294967168 ∧
      command_complaint 40 (bytes_of "-0xFFFFFF80\n") 0 = some none ∧
      command_value 40 (bytes_of "0 - 0xFFFFFF80\n") 0 = some 128) ∧
    (command_value 40 (bytes_of "-0xFFFF8000\n") 0 = some 4294934528 ∧
      command_complaint 40 (bytes_of "-0xFFFF8000\n") 0 = some none ∧
      command_value 40 (bytes_of "0 - 0xFFFF8000\n") 0 = some 32768) := by
  decide!

/-! ## Claim C29: literal narrowing -/

/-- A string token is stored from `p` on: the bytes below `p` stay. -/
theorem lex_string_below (fuel : Nat) : ∀ (p : Nat) (s s' : State),
    lex_string fuel p s = some s' →
    ∀ k q, q + k ≤ p → fetch_bytes k s'.the_store q = fetch_bytes k s.the_store q := by
  induction fuel with
  | zero => intro p s s' h; cases h
  | succ f ih =>
    intro p s s' h k q hq
    have hc := ch_store s
    rw [lex_string] at h
    generalize ch s = r at h hc
    obtain ⟨c, s1⟩ := r
    simp only [] at h hc
    split_ifs at h
    · cases h
      show fetch_bytes k (write_u8 (next_char s1).the_store p 0) q = _
      rw [write_u8_eq, fetch_bytes_write_bytes_disjoint _ _ _ _ _ _ (Or.inl hq),
        next_char_store, hc]
    · cases h
      show fetch_bytes k (complain s1 "Unterminated string").the_store q = _
      rw [complain_store, hc]
    · have ha := available_store s1 (p + 2 - code_idx s1)
      generalize available s1 (p + 2 - code_idx s1) = r2 at h ha
      obtain ⟨b, s2⟩ := r2
      simp only [] at ha
      cases b with
      | false =>
        cases h
        show fetch_bytes k s2.the_store q = _
        rw [ha, hc]
      | true =>
        simp only [] at h
        rw [ih (p + 1) _ _ h k q (by omega), next_char_store]
        show fetch_bytes k (write_u8 s2.the_store p c.toNat) q = _
        rw [write_u8_eq, fetch_bytes_write_bytes_disjoint _ _ _ _ _ _ (Or.inl hq), ha, hc]

/-- The lexer stores nothing below `code_idx + 1`. -/
theorem next_below (fuel : Nat) : ∀ (s s' : State), next fuel s = some s' →
    ∀ k q, q + k ≤ code_idx s + 1 →
      fetch_bytes k s'.the_store q = fetch_bytes k s.the_store q := by
  induction fuel with
  | zero => intro s s' h; cases h
  | succ f ih =>
    intro s s' h k q hq
    have hc := ch_store s
    rw [next] at h
    generalize ch s = r at h hc
    obtain ⟨c, s1⟩ := r
    simp only [] at h hc
    have e1 : code_idx s1 = code_idx s := code_idx_of_store _ _ hc
    split_ifs at h
    · rw [lex_number_store f _ _ h]
      exact congrArg (fun m => fetch_bytes k m q) hc
    · generalize hl : lex_ident f [] s1 = r2 at h
      cases r2 with
      | none => cases h
      | some p =>
        obtain ⟨name, s2⟩ := p
        cases h
        show fetch_bytes k s2.the_store q = _
        rw [lex_ident_store f _ _ _ _ hl, hc]
    · have e2 : code_idx (next_char s1) = code_idx s :=
        (code_idx_of_store _ _ (next_char_store s1)).trans e1
      rw [lex_string_below f _ _ _ h k q (by rw [e2]; exact hq), next_char_store, hc]
    · cases h
      rw [next_char_store]
      exact congrArg (fun m => fetch_bytes k m q) hc
    · have e2 : code_idx (next_char s1) = code_idx s :=
        (code_idx_of_store _ _ (next_char_store s1)).trans e1
      rw [ih _ _ h k q (by rw [e2]; exact hq), next_char_store, hc]
    · generalize hl : skip_line f s1 = r2 at h
      cases r2 with
      | none => cases h
      | some s2 =>
        have e2 : code_idx s2 = code_idx s :=
          (code_idx_of_store _ _ (skip_line_store f _ _ hl)).trans e1
        simp only [] at h
        rw [ih _ _ h k q (by rw [e2]; exact hq), skip_line_store f _ _ hl, hc]
    · cases h
      show fetch_bytes k (complain s1 "Lexical error").the_store q = _
      rw [complain_store, hc]

/-- The three encodings of a literal, by the range of its value. -/
theorem gen_literal_cases (s : State) (c v : Nat) (hc : code_idx s = c) (h8 : 8 ≤ c)
    (hroom : c + 5 ≤ dict_idx s) (hv : s.token_value = v) (hv32 : v < 4294967296) :
    (sval v < 128 ∧ sval v ≥ -128 →
      Emitted s (gen_literal s) c 2 ∧ fetch_u8 (gen_literal s).the_store c = PUSHB ∧
        sext8 (fetch_u8 (gen_literal s).the_store (c + 1)) = v) ∧
    (¬ (sval v < 128 ∧ sval v ≥ -128) → sval v < 32768 ∧ sval v ≥ -32768 →
      Emitted s (gen_literal s) c 3 ∧ fetch_u8 (gen_literal s).the_store c = PUSHW ∧
        sext16 (fetch_2i (gen_literal s).the_store (c + 1)) = v) ∧
    (¬ (sval v < 32768 ∧ sval v ≥ -32768) →
      Emitted s (gen_literal s) c 5 ∧ fetch_u8 (gen_literal s).the_store c = PUSH ∧
        fetch_wV (gen_literal s).the_store (c + 1) = v) := by
  unfold gen_literal
  simp only [hv]
  have g1 : ∀ op, gen s op = emit 1 s op (c % 65536) := fun op => by
    rw [gen_eq s op (by omega), hc]
  have p1 : ∀ op, (emit 1 s op (c % 65536)).prev_instruc = c % 65536 := fun op => rfl
  have r1 : ∀ op n, n ≤ 4 → code_idx (emit 1 s op (c % 65536)) + n
      ≤ dict_idx (emit 1 s op (c % 65536)) := fun op n hn => by
    obtain ⟨e1, _, _⟩ := emit_spec 1 s op c (c % 65536) hc h8 (by omega)
    rw [e1.code, e1.dict]; omega
  refine ⟨fun hb => ?_, fun hb hw => ?_, fun hw => ?_⟩
  · rw [if_pos hb, g1, gen_sbyte_eq _ _ (r1 _ 1 (by omega)), p1]
    obtain ⟨e, c1, c2, -⟩ := emit_emit_spec 1 s PUSHB (v % 256) c (c % 65536) (c % 65536) hc h8
      (by omega)
    refine ⟨e, c1, ?_⟩
    rw [fetch_u8_eq, c2]
    exact sext8_mod v hv32 hb
  · rw [if_neg hb, if_pos hw, g1, gen_sshort_eq _ _ (r1 _ 2 (by omega)), p1]
    obtain ⟨e, c1, c2, -⟩ := emit_emit_spec 2 s PUSHW (v % 65536) c (c % 65536) (c % 65536) hc
      h8 (by omega)
    refine ⟨e, c1, ?_⟩
    rw [fetch_2i_eq, c2]
    exact sext16_mod v hv32 hw
  · have hb : ¬ (sval v < 128 ∧ sval v ≥ -128) := fun h => hw ⟨by omega, by omega⟩
    rw [if_neg hb, if_neg hw, g1, gen_value_eq _ _ (r1 _ 4 (by omega)), p1]
    obtain ⟨e, c1, c2, -⟩ := emit_emit_spec 4 s PUSH v c (c % 65536) (c % 65536) hc h8
      (by omega)
    refine ⟨e, c1, ?_⟩
    rw [fetch_wV_eq, c2]
    exact Nat.mod_eq_of_lt hv32
/-- Claim C29. Literal narrowing: for every token value `v`, given room in
the store for five bytes of code, `parse_factor` on a literal token emits the
push and then reads the next token; the code emitted at the old `code_idx` is
exactly `PUSHB` followed by 1 byte when `-128 <= v <= 127`, exactly `PUSHW`
followed by 2 bytes when `v` is otherwise in `-32768..32767`, and exactly
`PUSH` followed by 4 bytes otherwise, and in each case the immediate decodes,
sign-extended, to `v`. This holds of the state right after the emission and
of every state `parse_factor` returns. -/
theorem C29_literal_narrowing (fuel : Nat) (s : State) (ht : s.token = PUSH)
    (hv : s.token_value < 4294967296) (h8 : 8 ≤ code_idx s)
    (hroom : code_idx s + 5 ≤ dict_idx s) :
    parse_factor (fuel + 2) s = next (fuel + 1) (gen_literal s) ∧
    ∀ s', (s' = gen_literal s ∨ parse_factor (fuel + 2) s = some s') →
      (-128 ≤ sval s.token_value ∧ sval s.token_value ≤ 127 →
        code_idx s' = code_idx s + 2 ∧ fetch_u8 s'.the_store (code_idx s) = PUSHB ∧
          sext8 (fetch_u8 s'.the_store (code_idx s + 1)) = s.token_value) ∧
      (¬ (-128 ≤ sval s.token_value ∧ sval s.token_value ≤ 127) →
        -32768 ≤ sval s.token_value ∧ sval s.token_value ≤ 32767 →
        code_idx s' = code_idx s + 3 ∧ fetch_u8 s'.the_store (code_idx s) = PUSHW ∧
          sext16 (fetch_2i s'.the_store (code_idx s + 1)) = s.token_value) ∧
      (¬ (-32768 ≤ sval s.token_value ∧ sval s.token_value ≤ 32767) →
        code_idx s' = code_idx s + 5 ∧ fetch_u8 s'.the_store (code_idx s) = PUSH ∧
          fetch_wV s'.the_store (code_idx s + 1) = s.token_value) := by
  have hpf := parse_factor_literal fuel s ht
  refine ⟨hpf, fun s' hs' => ?_⟩
  obtain ⟨g1, g2, g3⟩ := gen_literal_cases s (code_idx s) s.token_value rfl h8 hroom rfl hv
  have K : code_idx s' = code_idx (gen_literal s) ∧
      (8 ≤ code_idx (gen_literal s) → ∀ k q, q + k ≤ code_idx (gen_literal s) + 1 →
        fetch_bytes k s'.the_store q = fetch_bytes k (gen_literal s).the_store q) := by
    rcases hs' with e | e
    · rw [e]
      exact ⟨rfl, fun _ _ _ _ => rfl⟩
    · rw [hpf] at e
      refine ⟨?_, fun _ => next_below _ _ _ e⟩
      have h3 : 3 ≤ code_idx (gen_literal s) := by
        by_cases hb : sval s.token_value < 128 ∧ sval s.token_value ≥ -128
        · rw [(g1 hb).1.code]
          omega
        · by_cases hw : sval s.token_value < 32768 ∧ sval s.token_value ≥ -32768
          · rw [(g2 hb hw).1.code]
            omega
          · rw [(g3 hw).1.code]
            omega
      exact next_code_idx _ _ _ h3 e
  obtain ⟨k1, k2⟩ := K
  refine ⟨fun hb => ?_, fun hb hw => ?_, fun hw => ?_⟩
  · obtain ⟨e, o, i⟩ := g1 ⟨by omega, by omega⟩
    have k2' := k2 (by rw [e.code]; omega)
    rw [e.code] at k1 k2'
    refine ⟨k1, ?_, ?_⟩
    · rw [fetch_u8_eq, k2' 1 _ (by omega), ← fetch_u8_eq]
      exact o
    · rw [fetch_u8_eq, k2' 1 _ (by omega), ← fetch_u8_eq]
      exact i
  · obtain ⟨e, o, i⟩ := g2 (fun h => hb ⟨by omega, by omega⟩) ⟨by omega, by omega⟩
    have k2' := k2 (by rw [e.code]; omega)
    rw [e.code] at k1 k2'
    refine ⟨k1, ?_, ?_⟩
    · rw [fetch_u8_eq, k2' 1 _ (by omega), ← fetch_u8_eq]
      exact o
    · rw [fetch_2i_eq, k2' 2 _ (by omega), ← fetch_2i_eq]
      exact i
  · obtain ⟨e, o, i⟩ := g3 (fun h => hw ⟨by omega, by omega⟩)
    have k2' := k2 (by rw [e.code]; omega)
    rw [e.code] at k1 k2'
    refine ⟨k1, ?_, ?_⟩
    · rw [fetch_u8_eq, k2' 1 _ (by omega), ← fetch_u8_eq]
      exact o
    · rw [fetch_wV_eq, k2' 4 _ (by omega), ← fetch_wV_eq]
      exact i

set_option maxRecDepth 1000000 in
/-- An instance of claim C29: the literal `300` typed at the first prompt,
where `code_idx` is 21, is compiled to `PUSHW` and two bytes that decode to
300, and `code_idx` ends as 24. -/
theorem C29_literal_300_is_a_pushw :
    (literal_300.token = PUSH ∧ literal_300.token_value = 300 ∧ code_idx literal_300 = 21 ∧
      (parse_factor (10 + 2) literal_300).isSome = true) ∧
    code_idx (state_of (parse_factor (10 + 2) literal_300)) = 21 + 3 ∧
    fetch_u8 (state_of (parse_factor (10 + 2) literal_300)).the_store 21 = PUSHW ∧
    sext16 (fetch_2i (state_of (parse_factor (10 + 2) literal_300)).the_store (21 + 1)) = 300 :=
  have a1 : literal_300.token = PUSH := by decide!
  have a2 : literal_300.token_value = 300 := by decide!
  have a3 : code_idx literal_300 = 21 := by decide!
  have a4 : (parse_factor (10 + 2) literal_300).isSome = true := by decide!
  have a5 : dict_idx literal_300 = 4070 := by decide!
  have h := (C29_literal_narrowing 10 literal_300 a1 (by rw [a2]; decide) (by rw [a3]; decide)
    (by rw [a3, a5]; decide)).2 (state_of (parse_factor (10 + 2) literal_300))
    (Or.inr (some_state_of _ a4))
  have hw := h.2.1 (by rw [a2]; decide) (by rw [a2]; decide)
  ⟨⟨a1, a2, a3, a4⟩, by rw [← a3]; exact hw.1, by rw [← a3]; exact hw.2.1,
    by rw [← a3, ← a2]; exact hw.2.2⟩

/-! ## Claim C30: the assignment -/

set_option maxRecDepth 1000000 in
/-- Claim C30 at the failing input. After `let g = 0`, which puts the cell of
`g` at 21, the expression `'abc'` is compiled at 25 to `PUSH_STRING` and the
bytes `abc` with their NUL, and `g : 5 + 1` to the code of `5 + 1` followed by
`GLOBAL_STORE` and the index 21. But `g : 'abc'` is compiled to `PUSH_STRING`,
the bytes 21 and 0, and then `GLOBAL_STORE` and the index 21: the lexer had
stored the string past the `GLOBAL_FETCH` of `g` before `code_idx` was set
back, so that the string of the code is the one byte 21, which is what
`moo g` prints afterwards. No complaint is latched. -/
theorem C30_assignment_of_a_string_literal :
    compiled_code 40 (bytes_of "let g = 0\n'abc'\n") 1 =
        some (25, none, [PUSH_STRING, 97, 98, 99, 0]) ∧
      compiled_code 40 (bytes_of "let g = 0\ng : 5 + 1\n") 1 =
        some (25, none, [PUSHB, 5, PUSHB, 1, ADD, GLOBAL_STORE, 21, 0]) ∧
      compiled_code 40 (bytes_of "let g = 0\ng : 'abc'\n") 1 =
        some (25, none, [PUSH_STRING, 21, 0, GLOBAL_STORE, 21, 0]) ∧
      command_result 40 (bytes_of "let g = 0\ng : 'abc'\nmoo g\n") 2 =
        some (none, bytes_of "moo: " ++ [21] ++ bytes_of ".\r\n0\n") := by
  decide!

/-! ## Claim C31: the conditional -/

/-- The loop over the characters of an identifier of at most 16 characters,
up to a character `r` that cannot continue it. -/
theorem lex_ident_chars (r : Nat) (rest : List Nat) (hr : r < 256)
    (hrn : ¬ (isalnum (r : Int) = true ∨ (r : Int) = 95)) :
    ∀ (cs : List Nat) (c : Nat) (name : List Nat) (s : State) (fuel : Nat),
      (∀ x ∈ cs, x < 256 ∧ (isalnum (x : Int) = true ∨ (x : Int) = 95)) →
      s.input_char = (c : Int) → s.in_file = cs ++ r :: rest →
      name.length + cs.length + 1 ≤ 16 → cs.length + 1 ≤ fuel →
      lex_ident fuel name s =
        some (name ++ c :: cs, { s with input_char := (r : Int), in_file := rest }) := by
  intro cs
  induction cs with
  | nil =>
    intro c name s fuel _ hi hf hl hfuel
    obtain ⟨f, rfl⟩ : ∃ f, fuel = f + 1 := ⟨fuel - 1, by omega⟩
    have hl16 : ¬ name.length = 16 := by
      simp only [List.length_nil] at hl
      omega
    rw [lex_ident, if_neg hl16, ch_read s c hi]
    simp only []
    rw [ch_next_char s c r rest hi hf hr]
    simp only [hrn, if_false, Int.toNat_ofNat]
  | cons d ds ih =>
    intro c name s fuel hcs hi hf hl hfuel
    obtain ⟨f, rfl⟩ : ∃ f, fuel = f + 1 := ⟨fuel - 1, by omega⟩
    have hd := hcs d (List.mem_cons_self _ _)
    have hl16 : ¬ name.length = 16 := by
      simp only [List.length_cons] at hl
      omega
    rw [lex_ident, if_neg hl16, ch_read s c hi]
    simp only []
    rw [ch_next_char s c d (ds ++ r :: rest) hi hf hd.1]
    simp only [hd.2, if_true, Int.toNat_ofNat]
    rw [ih d (name ++ [c]) { s with input_char := (d : Int), in_file := ds ++ r :: rest } f
      (fun x hx => hcs x (List.mem_cons_of_mem _ hx)) rfl rfl
      (by simp only [List.length_append, List.length_cons, List.length_nil] at hl ⊢; omega)
      (by simp only [List.length_cons] at hfuel; omega)]
    simp only [List.append_assoc, List.singleton_append]

/-- A word token: a letter and what continues it, read from the start. -/
theorem next_word (fuel : Nat) (s : State) (c : Nat) (cs : List Nat) (r : Nat) (rest : List Nat)
    (hi : s.input_char = unread) (hf : s.in_file = (c :: cs) ++ r :: rest)
    (hc : c < 256 ∧ isalpha (c : Int) = true)
    (hcs : ∀ x ∈ cs, x < 256 ∧ (isalnum (x : Int) = true ∨ (x : Int) = 95))
    (hr : r < 256) (hrn : ¬ (isalnum (r : Int) = true ∨ (r : Int) = 95))
    (hl : cs.length + 1 ≤ 16) (hfuel : cs.length + 2 ≤ fuel) :
    next fuel s = some { s with token_name := c :: cs, token := keyword (c :: cs),
                                input_char := (r : Int), in_file := rest } := by
  obtain ⟨f, rfl⟩ : ∃ f, fuel = f + 1 := ⟨fuel - 1, by omega⟩
  have hnd : ¬ (isdigit (c : Int) = true) := by
    have := hc.2
    simp only [isalpha, isdigit, Bool.or_eq_true, Bool.and_eq_true, decide_eq_true_eq,
      Bool.decide_and, Bool.decide_or] at this ⊢
    omega
  rw [next, ch_unread_cons s c (cs ++ r :: rest) hc.1 hi hf]
  simp only [hnd, if_false, hc.2, true_or, if_true]
  rw [lex_ident_chars r rest hr hrn cs c [] _ f hcs rfl rfl
    (by simp only [List.length_nil]; omega) (by omega)]
  rfl

/-- A word token after the blank that is the current character. -/
theorem lexed_word (fuel : Nat) (s : State) (c : Nat) (cs : List Nat) (r : Nat) (rest : List Nat)
    (hi : s.input_char = 32) (hf : s.in_file = (c :: cs) ++ r :: rest)
    (hc : c < 256 ∧ isalpha (c : Int) = true)
    (hcs : ∀ x ∈ cs, x < 256 ∧ (isalnum (x : Int) = true ∨ (x : Int) = 95))
    (hr : r < 256) (hrn : ¬ (isalnum (r : Int) = true ∨ (r : Int) = 95))
    (hl : cs.length + 1 ≤ 16) (hfuel : cs.length + 3 ≤ fuel) :
    ∃ s', next fuel s = some s' ∧ Lexed s s' ∧ s'.token = keyword (c :: cs) ∧
      s'.token_name = c :: cs ∧ s'.input_char = (r : Int) ∧ s'.in_file = rest := by
  obtain ⟨f, rfl⟩ : ∃ f, fuel = f + 1 := ⟨fuel - 1, by omega⟩
  rw [next_blank_read f s hi,
    next_word f { s with input_char := unread } c cs r rest rfl hf hc hcs hr hrn hl (by omega)]
  exact ⟨_, rfl, ⟨rfl, rfl, rfl, rfl, rfl⟩, rfl, rfl, rfl, rfl⟩

/-- A number token after the blank that is the current character. -/
theorem lexed_number_read (fuel : Nat) (s : State) (d0 : Nat) (ds : List Nat) (r : Nat)
    (rest : List Nat) (hi : s.input_char = 32) (hf : s.in_file = (d0 :: ds) ++ r :: rest)
    (hds : all_digits (d0 :: ds)) (hr : r < 256) (hrd : ¬ (48 ≤ r ∧ r ≤ 57)) (hrx : r ≠ 120)
    (hv : digits_value 0 (d0 :: ds) < 2147483648) (hfuel : ds.length + 3 ≤ fuel) :
    ∃ s', next fuel s = some s' ∧ Lexed s s' ∧ s'.token = 1 ∧
      s'.token_value = digits_value 0 (d0 :: ds) ∧ s'.input_char = (r : Int) ∧
      s'.in_file = rest := by
  obtain ⟨f, rfl⟩ : ∃ f, fuel = f + 1 := ⟨fuel - 1, by omega⟩
  rw [next_blank_read f s hi,
    next_number f { s with input_char := unread } d0 ds r rest rfl hf hds hr hrd hrx hv (by omega)]
  exact ⟨_, rfl, ⟨rfl, rfl, rfl, rfl, rfl⟩, rfl, rfl, rfl, rfl⟩

/-- A literal operand after the blank that is the current character: the
lexer reads the number, and `gen_literal` compiles the push. -/
theorem operand_read (fuel : Nat) (sX : State) (cX v d0 : Nat) (ds : List Nat) (r : Nat)
    (rest : List Nat) (hi : sX.input_char = 32)
    (hf : sX.in_file = (d0 :: ds) ++ r :: rest) (N : Numeral d0 ds v)
    (hr : r < 256) (hrd : ¬ (48 ≤ r ∧ r ≤ 57)) (hrx : r ≠ 120)
    (hci : code_idx sX = cX) (h8 : 8 ≤ cX) (hroom : cX + 5 ≤ dict_idx sX) (hfuel : 12 ≤ fuel) :
    ∃ sD len, next fuel sX = some sD ∧ sD.token = 1 ∧ sD.complaint = sX.complaint ∧
      2 ≤ len ∧ len ≤ 5 ∧ Emitted sX (gen_literal sD) cX len ∧
      PushAt (gen_literal sD).the_store cX v len ∧ (gen_literal sD).input_char = (r : Int) ∧
      (gen_literal sD).in_file = rest := by
  obtain ⟨sD, nD, LD, tD, vD, iD, fD⟩ := lexed_number_read fuel sX d0 ds r rest hi hf N.digits hr
    hrd hrx (by rw [N.value]; exact N.small) (by have := N.short; omega)
  rw [N.value] at vD
  obtain ⟨len, h2, h5, E, P, -⟩ := gen_literal_spec sD cX v (by rw [LD.cursors.1, hci]) h8
    (by rw [LD.cursors.2]; exact hroom) vD (by have := N.small; omega)
  obtain ⟨l1, -, -, -, l5⟩ := gen_literal_lexer sD
  exact ⟨sD, len, nD, tD, LD.complaint, h2, h5, Emitted.of_lexed LD E, P, l1.trans iD,
    l5.trans fD⟩

/-- `forward_ref` leaves two bytes open at `code_idx` and writes nothing. -/
theorem forward_ref_emitted (s : State) (c : Nat) (hc : code_idx s = c) (h16 : c + 2 ≤ 65536) :
    (forward_ref s).1 = c ∧ Emitted s (forward_ref s).2 c 2 ∧
      (∀ k q, 4 ≤ q → fetch_bytes k (forward_ref s).2.the_store q = fetch_bytes k s.the_store q) ∧
      (forward_ref s).2.token = s.token ∧ (forward_ref s).2.input_char = s.input_char ∧
      (forward_ref s).2.in_file = s.in_file ∧ (forward_ref s).2.token_value = s.token_value := by
  obtain ⟨S1, S2, S3⟩ := set_code_idx_spec s (code_idx s + 2) (by omega)
  refine ⟨?_, ⟨?_, S2, fun k q h8 _ => S3 k q (by omega), rfl, rfl, rfl⟩, S3, rfl, rfl, rfl, rfl⟩
  · simp only [forward_ref, hc]
    exact Nat.mod_eq_of_lt (by omega)
  · rw [← hc]
    exact S1

/-- `resolve` writes the distance from the open bytes to `code_idx` into them. -/
theorem resolve_emitted {s0 s : State} {c len : Nat} (E : Emitted s0 s c len) (ref : Nat)
    (h8 : 8 ≤ c) (hp : c ≤ ref) (hpn : ref + 2 ≤ c + len) (h16 : c + len < 65536) :
    Emitted s0 (resolve s ref) c len ∧
      fetch_wX (resolve s ref).the_store ref = c + len - ref ∧
      Touched ref (ref + 2) s.the_store (resolve s ref).the_store ∧
      (resolve s ref).token = s.token ∧ (resolve s ref).input_char = s.input_char ∧
      (resolve s ref).in_file = s.in_file ∧ (resolve s ref).token_value = s.token_value := by
  refine ⟨E.patched 2 ref _ h8 hp hpn, ?_, Touched.of_write 2 _ _ _, rfl, rfl, rfl, rfl⟩
  simp only [resolve, fetch_wX_eq, write_wX_eq]
  rw [fetch_bytes_write_bytes_same, E.code]
  have e : c + len + 4294967296 - ref = (c + len - ref) + 65536 * 65536 := by omega
  rw [e]
  have : (1 : Nat) <<< (8 * 2) = 65536 := by decide
  rw [this, Nat.add_mul_mod_self_left]
  exact Nat.mod_eq_of_lt (by omega)

/-- A literal that is a whole expression up to a token that is no operator. -/
theorem parse_expr_literal_stop (f : Nat) (p : Int) (s sY : State) (hc : s.complaint = none)
    (ht : s.token = 1) (hn : next (f + 1) (gen_literal s) = some sY)
    (hb : binary_operator sY.token = none) (h10 : sY.token ≠ 10 ∨ p ≠ 0) :
    parse_expr (f + 3) p s = some sY := by
  rw [parse_expr_unfold (f + 2) p s hc, parse_factor_literal f s ht, hn, Option.some_bind,
    parse_expr_loop]
  by_cases hcY : sY.complaint.isSome = true
  · rw [if_pos hcY]
  · rw [if_neg hcY]
    have hsk : (if p = 0 then skip_newline (f + 1) sY else some sY) = some sY := by
      by_cases hp : p = 0
      · rw [if_pos hp]
        rcases h10 with h | h
        · simp [skip_newline, h]
        · exact absurd hp h
      · rw [if_neg hp]
    rw [hsk]
    simp only [hb]

/-- The `if` case of `parse_factor`, its three expressions given. -/
theorem parse_factor_cond (f : Nat) (s0 sC sT sF sA sE sJ sB sN : State) (branch jump : Nat)
    (ht0 : s0.token = 105) (nC : next (f + 1) s0 = some sC)
    (pC : parse_expr (f + 1) 0 sC = some sT) (tT : sT.token = 116)
    (hF : forward_ref (gen sT BRANCH) = (branch, sF))
    (nA : next (f + 1) sF = some sA)
    (pA : parse_expr (f + 1) 3 sA = some sE) (tE : sE.token = 101)
    (hJ : forward_ref (gen sE JUMP) = (jump, sJ))
    (nB : next (f + 1) sJ = some sB)
    (pB : parse_expr (f + 1) 3 (resolve sB branch) = some sN) :
    parse_factor (f + 2) s0 = some (block_prev (resolve sN jump)) := by
  have tF : sF.token = 116 := by
    have : sF = (forward_ref (gen sT BRANCH)).2 := by rw [hF]
    rw [this]
    exact (gen_lexer sT BRANCH).2.1.trans tT
  have tJ : sJ.token = 101 := by
    have : sJ = (forward_ref (gen sE JUMP)).2 := by rw [hJ]
    rw [this]
    exact (gen_lexer sE JUMP).2.1.trans tE
  have k0 : skip_newline (f + 1) s0 = some s0 := by simp [skip_newline, ht0]
  have kF : skip_newline (f + 1) sF = some sF := by simp [skip_newline, tF]
  have kJ : skip_newline (f + 1) sJ = some sJ := by simp [skip_newline, tJ]
  rw [parse_factor, k0]
  simp only [ht0, nC, pC, hF, kF, expect, tF, nA, pA, hJ, kJ, tJ, nB, pB, if_true]
  simp

/-- Compiling `if c then a else b` with three literals: the code is
`push c; BRANCH; push a; JUMP; push b`, the operand of `BRANCH` leading to the
push of `b` and the operand of `JUMP` to the end. -/
theorem parse_shape_cond (f : Nat) (s0 : State) (c vc va vb : Nat)
    (dC dA dB : Nat) (dsC dsA dsB : List Nat)
    (hc0 : s0.complaint = none) (ht0 : s0.token = 105) (hi0 : s0.input_char = 32)
    (hf0 : s0.in_file = (dC :: dsC) ++ 32 :: ([116, 104, 101, 110] ++ 32 ::
      ((dA :: dsA) ++ 32 :: ([101, 108, 115, 101] ++ 32 :: ((dB :: dsB) ++ 10 :: [])))))
    (NC : Numeral dC dsC vc) (NA : Numeral dA dsA va) (NB : Numeral dB dsB vb)
    (hci : code_idx s0 = c) (h8 : 8 ≤ c) (hroom : c + 22 ≤ dict_idx s0) (h16 : c + 22 ≤ 65536)
    (hfuel : 12 ≤ f) :
    ∃ S lc la lb, parse_expr (f + 5) (-1) s0 = some S ∧
      Emitted s0 S c (lc + 3 + la + 3 + lb) ∧ lc ≤ 5 ∧ la ≤ 5 ∧ lb ≤ 5 ∧
      PushAt S.the_store c vc lc ∧
      fetch_u8 S.the_store (c + lc) = BRANCH ∧ fetch_wX S.the_store (c + lc + 1) = la + 5 ∧
      PushAt S.the_store (c + lc + 3) va la ∧
      fetch_u8 S.the_store (c + lc + 3 + la) = JUMP ∧
      fetch_wX S.the_store (c + lc + 3 + la + 1) = lb + 2 ∧
      PushAt S.the_store (c + lc + 3 + la + 3) vb lb ∧
      S.token = 10 ∧ S.input_char = unread ∧ S.in_file = [] := by
  have hword : ∀ x ∈ [104, 101, 110], x < 256 ∧ (isalnum ((x : Nat) : Int) = true ∨ ((x : Nat) : Int) = 95) := by
    decide
  have hword2 : ∀ x ∈ [108, 115, 101], x < 256 ∧ (isalnum ((x : Nat) : Int) = true ∨ ((x : Nat) : Int) = 95) := by
    decide
  have hblank : ¬ (isalnum ((32 : Nat) : Int) = true ∨ ((32 : Nat) : Int) = 95) := by decide
  -- the condition
  obtain ⟨sC, lc, nC, tC, cC, hc2, hc5, E1, P1, i1, f1⟩ := operand_read (f + 3) s0 c vc dC dsC 32 _
    hi0 hf0 NC (by omega) (by omega) (by omega) hci h8 (by omega) (by omega)
  obtain ⟨sT, nT, LT, tT, -, iT, fT⟩ := lexed_word (f + 1) (gen_literal sC) 116 [104, 101, 110] 32 _
    (by simpa using i1) f1 (by decide) hword (by omega) hblank (by decide) (by
      simp only [List.length_cons, List.length_nil]; omega)
  have tT' : sT.token = 116 := tT
  have E1T : Emitted s0 sT c lc := E1.lexed LT
  have pC : parse_expr (f + 3) 0 sC = some sT := parse_expr_literal_stop f 0 sC sT (cC.trans hc0)
    tC nT (by rw [tT']; rfl) (Or.inl (by rw [tT']; decide))
  -- BRANCH and its operand
  obtain ⟨Eb, Ob⟩ := (Emitted.refl sT (c + lc) E1T.code).gen BRANCH (by omega)
    (by rw [E1T.dict]; omega) (by decide)
  obtain ⟨rb, Ef, Sf, tF, iF, fF, -⟩ := forward_ref_emitted (gen sT BRANCH) (c + lc + 0 + 1) Eb.code
    (by omega)
  generalize hsF : (forward_ref (gen sT BRANCH)).2 = sF at Ef Sf tF iF fF
  have hF : forward_ref (gen sT BRANCH) = (c + lc + 0 + 1, sF) := Prod.ext rb hsF
  have E2 : Emitted s0 sF c (lc + (0 + 1 + 2)) := E1T.trans (Eb.trans Ef)
  -- the then-arm
  obtain ⟨sA, la, nA, tA, cA, ha2, ha5, EA, PA, iA, fA⟩ := operand_read (f + 3) sF (c + lc + 3) va
    dA dsA 32 _ (iF.trans ((gen_lexer sT BRANCH).1.trans iT))
    (fF.trans ((gen_lexer sT BRANCH).2.2.2.2.trans fT)) NA (by omega) (by omega) (by omega)
    (by rw [E2.code]; omega) (by omega) (by rw [E2.dict]; omega) (by omega)
  obtain ⟨sE, nE, LE, tE, -, iE, fE⟩ := lexed_word (f + 1) (gen_literal sA) 101 [108, 115, 101] 32 _
    (by simpa using iA) fA (by decide) hword2 (by omega) hblank (by decide) (by
      simp only [List.length_cons, List.length_nil]; omega)
  have tE' : sE.token = 101 := tE
  have E3 : Emitted s0 sE c (lc + (0 + 1 + 2) + la) :=
    E2.trans ((EA.lexed LE).cast (by omega) rfl)
  have pA : parse_expr (f + 3) 3 sA = some sE := parse_expr_literal_stop f 3 sA sE
    (cA.trans (E2.complaint.trans hc0)) tA nE (by rw [tE']; rfl) (Or.inr (by decide))
  -- JUMP and its operand
  obtain ⟨Ej, Oj⟩ := (Emitted.refl sE (c + (lc + (0 + 1 + 2) + la)) E3.code).gen JUMP (by omega)
    (by rw [E3.dict]; omega) (by decide)
  obtain ⟨rj, Eg, Sg, tJ, iJ, fJ, -⟩ := forward_ref_emitted (gen sE JUMP)
    (c + (lc + (0 + 1 + 2) + la) + 0 + 1) Ej.code (by omega)
  generalize hsJ : (forward_ref (gen sE JUMP)).2 = sJ at Eg Sg tJ iJ fJ
  have hJ : forward_ref (gen sE JUMP) = (c + (lc + (0 + 1 + 2) + la) + 0 + 1, sJ) :=
    Prod.ext rj hsJ
  have E4 : Emitted s0 sJ c (lc + (0 + 1 + 2) + la + (0 + 1 + 2)) := E3.trans (Ej.trans Eg)
  -- the else-arm
  obtain ⟨sB, nB, LB, tB, vB, iB, fB⟩ := lexed_number_read (f + 3) sJ dB dsB 10 []
    (iJ.trans ((gen_lexer sE JUMP).1.trans iE)) (fJ.trans ((gen_lexer sE JUMP).2.2.2.2.trans fE))
    NB.digits (by omega) (by omega) (by omega) (by rw [NB.value]; exact NB.small)
    (by have := NB.short; omega)
  rw [NB.value] at vB
  have E5 : Emitted s0 sB c (lc + (0 + 1 + 2) + la + (0 + 1 + 2)) := E4.lexed LB
  obtain ⟨E6, R1, T1, t1, j1, g1, v1⟩ := resolve_emitted E5 (c + lc + 0 + 1) h8 (by omega)
    (by omega) (by omega)
  generalize hr1 : resolve sB (c + lc + 0 + 1) = r1 at E6 R1 T1 t1 j1 g1 v1
  obtain ⟨lb, hb2, hb5, EB, PB, -⟩ := gen_literal_spec r1 (c + (lc + (0 + 1 + 2) + la + (0 + 1 + 2)))
    vb E6.code (by omega) (by rw [E6.dict]; omega) (v1.trans vB) (by have := NB.small; omega)
  obtain ⟨l1, -, -, -, l5⟩ := gen_literal_lexer r1
  obtain ⟨sN, nN, LN, tN, iN, fN⟩ := lexed_newline f (gen_literal r1)
    (l1.trans (j1.trans (by simpa using iB)))
  have pB : parse_expr (f + 3) 3 r1 = some sN := parse_expr_literal_stop f 3 r1 sN
    (E6.complaint.trans hc0) (t1.trans tB) nN (by rw [tN]; rfl) (Or.inr (by decide))
  have E7 : Emitted s0 sN c (lc + (0 + 1 + 2) + la + (0 + 1 + 2) + lb) := E6.trans (EB.lexed LN)
  obtain ⟨E8, R2, T2, t2, j2, g2, -⟩ := resolve_emitted E7 (c + (lc + (0 + 1 + 2) + la) + 0 + 1) h8
    (by omega) (by omega) (by omega)
  generalize hr2 : resolve sN (c + (lc + (0 + 1 + 2) + la) + 0 + 1) = r2 at E8 R2 T2 t2 j2 g2
  -- the parse
  have hfac : parse_factor (f + 4) s0 = some (block_prev r2) := by
    have := parse_factor_cond (f + 2) s0 sC sT sF sA sE sJ sB sN _ _ ht0 nC pC tT' hF nA pA tE' hJ
      nB (by rw [hr1]; exact pB)
    rw [hr2] at this
    exact this
  have hloop : parse_expr_loop (f + 4) (-1) (block_prev r2) = some (block_prev r2) :=
    loop_stop (f + 3) (-1) _ (by decide)
      (Or.inl (by
        have : (block_prev r2).token = 10 := t2.trans tN
        rw [this]
        rfl))
  have hparse : parse_expr (f + 5) (-1) s0 = some (block_prev r2) := by
    rw [parse_expr_unfold (f + 4) (-1) s0 hc0, hfac, Option.some_bind, hloop]
  have ES : Emitted s0 (block_prev r2) c (lc + 3 + la + 3 + lb) :=
    ⟨by rw [show code_idx (block_prev r2) = code_idx r2 from rfl, E8.code], E8.dict,
      fun k q h hq => E8.frame k q h (by omega), E8.complaint, E8.stdin_, E8.out⟩
  -- what the store holds
  have TB : Touched (c + (lc + (0 + 1 + 2) + la + (0 + 1 + 2)))
      (c + (lc + (0 + 1 + 2) + la + (0 + 1 + 2)) + lb) r1.the_store sN.the_store := by
    intro k q h hq
    rw [LN.the_store]
    exact EB.frame k q h hq
  have TJ : Touched (c + (lc + (0 + 1 + 2) + la)) (c + (lc + (0 + 1 + 2) + la) + (0 + 1 + 2))
      (gen_literal sA).the_store sB.the_store := by
    intro k q h hq
    rw [LB.the_store, (Ej.trans Eg).frame k q h hq, LE.the_store]
  have TA : Touched (c + lc + 3) (c + lc + 3 + la) sF.the_store (gen_literal sA).the_store :=
    fun k q h hq => EA.frame k q h hq
  have TF : Touched (c + lc) (c + lc + (0 + 1 + 2)) (gen_literal sC).the_store sF.the_store := by
    intro k q h hq
    rw [(Eb.trans Ef).frame k q h hq, LT.the_store]
  refine ⟨_, lc, la, lb, hparse, ES, hc5, ha5, hb5, ?_, ?_, ?_, ?_, ?_, ?_, ?_, t2.trans tN,
    j2.trans iN, g2.trans (fN.trans (l5.trans (g1.trans fB)))⟩
  · refine P1.frame (fun k q h1 h2 => ?_)
    show fetch_bytes k r2.the_store q = _
    rw [T2 k q (by omega) (by omega), TB k q (by omega) (by omega), T1 k q (by omega) (by omega),
      TJ k q (by omega) (by omega), TA k q (by omega) (by omega), TF k q (by omega) (by omega)]
  · show fetch_u8 r2.the_store (c + lc) = BRANCH
    simp only [fetch_u8_eq] at Ob ⊢
    rw [T2 1 _ (by omega) (by omega), TB 1 _ (by omega) (by omega), T1 1 _ (by omega) (by omega),
      TJ 1 _ (by omega) (by omega), TA 1 _ (by omega) (by omega), Sf 1 _ (by omega)]
    exact Ob
  · show fetch_wX r2.the_store (c + lc + 1) = la + 5
    simp only [fetch_wX_eq] at R1 ⊢
    rw [T2 2 _ (by omega) (by omega), TB 2 _ (by omega) (by omega), R1]
    omega
  · refine PA.frame (fun k q h1 h2 => ?_)
    show fetch_bytes k r2.the_store q = _
    rw [T2 k q (by omega) (by omega), TB k q (by omega) (by omega), T1 k q (by omega) (by omega),
      TJ k q (by omega) (by omega)]
  · show fetch_u8 r2.the_store (c + lc + 3 + la) = JUMP
    simp only [fetch_u8_eq] at Oj ⊢
    rw [T2 1 _ (by omega) (by omega), TB 1 _ (by omega) (by omega), T1 1 _ (by omega) (by omega),
      LB.the_store, Sg 1 _ (by omega)]
    have e : c + lc + 3 + la = c + (lc + (0 + 1 + 2) + la) + 0 := by omega
    rw [e]
    exact Oj
  · show fetch_wX r2.the_store (c + lc + 3 + la + 1) = lb + 2
    have e : c + lc + 3 + la + 1 = c + (lc + (0 + 1 + 2) + la) + 0 + 1 := by omega
    rw [e, R2]
    omega
  · have e : c + lc + 3 + la + 3 = c + (lc + (0 + 1 + 2) + la + (0 + 1 + 2)) := by omega
    rw [e]
    refine PB.frame (fun k q h1 h2 => ?_)
    show fetch_bytes k r2.the_store q = _
    rw [T2 k q (by omega) (by omega), LN.the_store]

theorem step_branch (end_ pc sp bp : Nat) (s : State) (h : fetch_u8 s.the_store pc = BRANCH) :
    step end_ pc sp bp s =
      if fetch_wV s.the_store sp = 0 then
        Step.next (pc + 1 + fetch_wX s.the_store (pc + 1)) (sp + 4) bp s
      else Step.next (pc + 3) (sp + 4) bp s := by
  have e : pc + 1 + 2 = pc + 3 := by omega
  simp [step, step_with, h, e, HALT, PUSH, POP, PUSH_STRING, GLOBAL_FETCH, GLOBAL_STORE, LOCAL_FETCH, TCALL,
    CALL, RETURN, BRANCH, JUMP, ADD, SUB, MUL, DIV, MOD, UMUL, UDIV, UMOD, NEGATE, EQ, LT, ULT,
    AND, OR, XOR, SLA, SRA, SRL, GETC, PUTC, REFB, REFV, SETV, LOCAL_FETCH_0, LOCAL_FETCH_1,
    PUSHW, PUSHB, CCALL, REFX, SETX, SETB]

theorem step_jump (end_ pc sp bp : Nat) (s : State) (h : fetch_u8 s.the_store pc = JUMP) :
    step end_ pc sp bp s = Step.next (pc + 1 + fetch_wX s.the_store (pc + 1)) sp bp s := by
  simp [step, step_with, h, HALT, PUSH, POP, PUSH_STRING, GLOBAL_FETCH, GLOBAL_STORE, LOCAL_FETCH, TCALL,
    CALL, RETURN, BRANCH, JUMP, ADD, SUB, MUL, DIV, MOD, UMUL, UDIV, UMOD, NEGATE, EQ, LT, ULT,
    AND, OR, XOR, SLA, SRA, SRL, GETC, PUTC, REFB, REFV, SETV, LOCAL_FETCH_0, LOCAL_FETCH_1,
    PUSHW, PUSHB, CCALL, REFX, SETX, SETB]

/-- Running `push c; BRANCH; push a; JUMP; push b; HALT`. -/
theorem run_shape_cond (f end_ pc t bp : Nat) (s : State) (vc va vb lc la lb : Nat)
    (hvc : vc < 4294967296) (hva : va < 4294967296) (hvb : vb < 4294967296)
    (P1 : PushAt s.the_store pc vc lc)
    (OB : fetch_u8 s.the_store (pc + lc) = BRANCH)
    (RB : fetch_wX s.the_store (pc + lc + 1) = la + 5)
    (P2 : PushAt s.the_store (pc + lc + 3) va la)
    (OJ : fetch_u8 s.the_store (pc + lc + 3 + la) = JUMP)
    (RJ : fetch_wX s.the_store (pc + lc + 3 + la + 1) = lb + 2)
    (P3 : PushAt s.the_store (pc + lc + 3 + la + 3) vb lb)
    (H : fetch_u8 s.the_store (pc + lc + 3 + la + 3 + lb) = HALT)
    (he : pc + lc + 3 + la + 3 + lb + 1 ≤ end_) (hs : end_ ≤ t) (h8 : 8 ≤ end_) :
    ∃ s', run_loop end_ (f + 5) pc (t + 4) bp s = some (if vc = 0 then vb else va, s') ∧
      s'.complaint = s.complaint ∧ s'.out = s.out ∧ code_idx s' = code_idx s ∧
      dict_idx s' = dict_idx s ∧ s'.token = s.token ∧ s'.input_char = s.input_char ∧
      s'.in_file = s.in_file := by
  have hB : fetch_u8 (poke s t vc).the_store (pc + lc) = BRANCH := by
    rw [poke_fetch_u8_disjoint _ _ _ _ (by omega)]; exact OB
  have hRB : fetch_wX (poke s t vc).the_store (pc + lc + 1) = la + 5 := by
    rw [fetch_wX_eq, poke_fetch_disjoint _ _ _ _ _ (by omega), ← fetch_wX_eq]; exact RB
  rw [run_push_at (f + 4) end_ pc t bp s vc lc P1 hs, run_loop,
    step_branch end_ (pc + lc) t bp _ hB, poke_fetch_same s t vc hvc, hRB]
  by_cases h0 : vc = 0
  · rw [if_pos h0, if_pos h0]
    simp only []
    have e : pc + lc + 1 + (la + 5) = pc + lc + 3 + la + 3 := by omega
    rw [e, run_push_at (f + 2) end_ _ t bp _ vb lb (P3.under_poke _ _ (by omega)) hs,
      run_halt (f + 1) end_ _ t bp _ (by
        simp (disch := omega) only [poke_fetch_u8_disjoint]; exact H)]
    simp (disch := first | omega | assumption) only [poke_fetch_same]
    exact ⟨_, rfl, rfl, rfl, by simp (disch := omega) only [poke_cursors],
      by simp (disch := omega) only [poke_cursors], rfl, rfl, rfl⟩
  · rw [if_neg h0, if_neg h0]
    simp only []
    have hJ : fetch_u8 (poke (poke s t vc) t va).the_store (pc + lc + 3 + la) = JUMP := by
      simp (disch := omega) only [poke_fetch_u8_disjoint]; exact OJ
    have hRJ : fetch_wX (poke (poke s t vc) t va).the_store (pc + lc + 3 + la + 1) = lb + 2 := by
      rw [fetch_wX_eq, poke_fetch_disjoint _ _ _ _ _ (by omega),
        poke_fetch_disjoint _ _ _ _ _ (by omega), ← fetch_wX_eq]
      exact RJ
    rw [run_push_at (f + 2) end_ _ t bp _ va la (P2.under_poke _ _ (by omega)) hs, run_loop,
      step_jump end_ _ t bp _ hJ, hRJ]
    simp only []
    have e : pc + lc + 3 + la + 1 + (lb + 2) = pc + lc + 3 + la + 3 + lb := by omega
    rw [e, run_halt f end_ _ t bp _ (by
        simp (disch := omega) only [poke_fetch_u8_disjoint]; exact H)]
    simp (disch := first | omega | assumption) only [poke_fetch_same]
    exact ⟨_, rfl, rfl, rfl, by simp (disch := omega) only [poke_cursors],
      by simp (disch := omega) only [poke_cursors], rfl, rfl, rfl⟩

/-- The first command of a session, when it is an expression that compiles
and runs without complaint. -/
theorem session_of_expr (f : Nat) (script : List Nat) (s1 s' : State) (v : Nat)
    (hn : next (f + 1) (prompt_state script []) = some s1)
    (ht : s1.token ≠ 10 ∧ s1.token ≠ 102 ∧ s1.token ≠ 108 ∧ s1.token ≠ 111)
    (hs : scratch_expr (f + 1) s1 = some (v, s')) (hc : s'.complaint = none)
    (ho : s'.out = s1.out) :
    command_complaint (f + 1) script 0 = some none ∧ command_value (f + 1) script 0 = some v ∧
      command_output (f + 1) script 0 = some (decimal v ++ [10]) := by
  have hrun := run_command_expr f true s1 s' v ht.1 ht.2.1 ht.2.2.1 ht.2.2.2 hs hc
  refine ⟨?_, ?_, ?_⟩
  · simp [command_complaint, repl_after, repl_start_fresh, hn, hrun, hc]
  · simp [command_value, repl_after, repl_start_fresh, hn, hs]
  · simp [command_output, repl_after, repl_start_fresh, hn, hrun, ho]

/-- Claim C31. Conditional semantics and branch patching: for all decimal
literals `c`, `a`, `b`, the command `if c then a else b` typed at the first
prompt latches no complaint and evaluates to `a` when `c` is not zero and to
`b` when `c` is zero. Its code, compiled at 21, is the push of `c`, `BRANCH`
and its operand, the push of `a`, `JUMP` and its operand, the push of `b`.
Executing the `BRANCH` with zero on top of the stack lands on the push of
`b`, the first instruction of the else-arm (with anything else on top, on the
push of `a`), and executing the `JUMP` lands where the code ends, on the
first instruction after the else-arm. -/
theorem C31_conditional (c a b fuel : Nat) (hc : c < 2147483648) (ha : a < 2147483648)
    (hb : b < 2147483648) (hfuel : 40 ≤ fuel) :
    command_complaint fuel (if_text c a b) 0 = some none ∧
    command_value fuel (if_text c a b) 0 = some (if c = 0 then b else a) ∧
    ∃ s1 S lc la lb, repl_after fuel (if_text c a b) 0 = some s1 ∧ code_idx s1 = 21 ∧
      parse_expr fuel (-1) s1 = some S ∧ code_idx S = 21 + (lc + 3 + la + 3 + lb) ∧
      PushAt S.the_store 21 c lc ∧ fetch_u8 S.the_store (21 + lc) = BRANCH ∧
      PushAt S.the_store (21 + lc + 3) a la ∧ fetch_u8 S.the_store (21 + lc + 3 + la) = JUMP ∧
      PushAt S.the_store (21 + lc + 3 + la + 3) b lb ∧
      (∀ end_ sp bp, step end_ (21 + lc) sp bp S =
        if fetch_wV S.the_store sp = 0 then Step.next (21 + lc + 3 + la + 3) (sp + 4) bp S
        else Step.next (21 + lc + 3) (sp + 4) bp S) ∧
      (∀ end_ sp bp, step end_ (21 + lc + 3 + la) sp bp S =
        Step.next (21 + lc + 3 + la + 3 + lb) sp bp S) := by
  obtain ⟨f, rfl⟩ : ∃ f, fuel = f + 21 := ⟨fuel - 21, by omega⟩
  obtain ⟨dC, dsC, eC, NC⟩ := decimal_numeral c hc
  obtain ⟨dA, dsA, eA, NA⟩ := decimal_numeral a ha
  obtain ⟨dB, dsB, eB, NB⟩ := decimal_numeral b hb
  have etext : if_text c a b =
      (105 :: [102]) ++ 32 :: ((dC :: dsC) ++ 32 :: ([116, 104, 101, 110] ++ 32 ::
        ((dA :: dsA) ++ 32 :: ([101, 108, 115, 101] ++ 32 :: ((dB :: dsB) ++ 10 :: []))))) := by
    rw [if_text, eC, eA, eB]
    rfl
  obtain ⟨hci, hdi⟩ := prompt_state_cursors (if_text c a b) []
  have hnext := next_word (f + 21) (prompt_state (if_text c a b) []) 105 [102] 32 _ rfl etext
    (by decide) (by decide) (by decide) (by decide) (by decide)
    (by simp only [List.length_cons, List.length_nil]; omega)
  obtain ⟨s1, hnext, c1, t1, i1, f1, ci1, di1⟩ : ∃ s1 : State,
      next (f + 21) (prompt_state (if_text c a b) []) = some s1 ∧ s1.complaint = none ∧
      s1.token = 105 ∧ s1.input_char = 32 ∧
      s1.in_file = (dC :: dsC) ++ 32 :: ([116, 104, 101, 110] ++ 32 ::
        ((dA :: dsA) ++ 32 :: ([101, 108, 115, 101] ++ 32 :: ((dB :: dsB) ++ 10 :: [])))) ∧
      code_idx s1 = 21 ∧ dict_idx s1 = 4070 :=
    ⟨_, hnext, rfl, rfl, rfl, rfl, hci, hdi⟩
  obtain ⟨S, lc, la, lb, hp, E, hc5, ha5, hb5, Pc, OB, RB, Pa, OJ, RJ, Pb, tS, -, -⟩ :=
    parse_shape_cond (f + 16) s1 21 c a b dC dA dB dsC dsA dsB c1 t1 i1 f1 NC NA NB ci1
      (by omega) (by rw [di1]; omega) (by omega) (by omega)
  obtain ⟨s', hs, hc', ho', -⟩ := scratch_of_parse (f + 21) s1 S 21 (lc + 3 + la + 3 + lb)
    (if c = 0 then b else a) hp ci1 (by omega) (by rw [di1]; omega) E c1 tS (by
      intro s3 F H c3 d3
      unfold run
      rw [d3, di1]
      obtain ⟨s', h1, h2, h3, h4, h5, h6, h7, h8⟩ := run_shape_cond (f + 16)
        (21 + (lc + 3 + la + 3 + lb) + 1) 21 4064 (4064 + 4) s3 c a b lc la lb
        (by omega) (by omega) (by omega)
        (Pc.frame (fun k q h1 h2 => F k q (by omega) (by omega)))
        (by rw [fetch_u8_eq, F 1 _ (by omega) (by omega), ← fetch_u8_eq]; exact OB)
        (by rw [fetch_wX_eq, F 2 _ (by omega) (by omega), ← fetch_wX_eq]; exact RB)
        (Pa.frame (fun k q h1 h2 => F k q (by omega) (by omega)))
        (by rw [fetch_u8_eq, F 1 _ (by omega) (by omega), ← fetch_u8_eq]; exact OJ)
        (by rw [fetch_wX_eq, F 2 _ (by omega) (by omega), ← fetch_wX_eq]; exact RJ)
        (Pb.frame (fun k q h1 h2 => F k q (by omega) (by omega)))
        (by rw [← H]; congr 1; omega) (by omega) (by omega) (by omega)
      exact ⟨s', h1, h2, h3, h4.trans c3, h5.trans (d3.trans di1), h6, h7, h8⟩)
  obtain ⟨r1, r2, -⟩ := session_of_expr (f + 20) _ s1 s' _ hnext
    (by rw [t1]; decide) hs hc' ho'
  refine ⟨r1, r2, s1, S, lc, la, lb, ?_, ci1, hp, E.code, Pc, OB, Pa, OJ, Pb, ?_, ?_⟩
  · simp only [repl_after, repl_start_fresh, hnext]
  · intro end_ sp bp
    rw [step_branch end_ (21 + lc) sp bp S OB, RB]
    have e : 21 + lc + 1 + (la + 5) = 21 + lc + 3 + la + 3 := by omega
    rw [e]
  · intro end_ sp bp
    rw [step_jump end_ (21 + lc + 3 + la) sp bp S OJ, RJ]
    have e : 21 + lc + 3 + la + 1 + (lb + 2) = 21 + lc + 3 + la + 3 + lb := by omega
    rw [e]

/-- Two instances of claim C31: `if 0 then 20000 else 300000` evaluates to
300000, and `if 7 then 20000 else 300000` to 20000. -/
theorem C31_if_then_else_of_0_and_7 :
    ((0 : Nat) < 2147483648 ∧ (7 : Nat) < 2147483648 ∧ (20000 : Nat) < 2147483648 ∧
      (300000 : Nat) < 2147483648 ∧ (40 : Nat) ≤ 40) ∧
    if_text 0 20000 300000 = bytes_of "if 0 then 20000 else 300000\n" ∧
    command_value 40 (if_text 0 20000 300000) 0 = some 300000 ∧
    command_value 40 (if_text 7 20000 300000) 0 = some 20000 :=
  ⟨by decide, by decide,
    (C31_conditional 0 20000 300000 40 (by decide) (by decide) (by decide) (by decide)).2.1,
    (C31_conditional 7 20000 300000 40 (by decide) (by decide) (by decide) (by decide)).2.1⟩

/-! ## Claims C32 to C34: the calls -/

theorem step_call (end_ pc sp bp : Nat) (s : State) (h : fetch_u8 s.the_store pc = CALL) :
    step end_ pc sp bp s =
      match skip_jumps s.the_store store_capacity (pc + 3) with
      | none => Step.undefined
      | some cont =>
        if fetch_u8 s.the_store cont = RETURN then
          Step.next pc sp bp { s with the_store := write_u8 s.the_store pc TCALL }
        else if sp < end_ + 4 then stack_overflow s
        else
          Step.next (fetch_wX s.the_store (pc + 1) + 1) (sp - 4)
            (sp - 4 + 4 * get_proc_arity s.the_store (fetch_wX s.the_store (pc + 1)))
            { s with the_store := write_wX (write_wX s.the_store (sp - 4) bp) (sp - 4 + 2) cont } := by
  have e : pc + 1 + 2 = pc + 3 := by omega
  cases hk : skip_jumps s.the_store store_capacity (pc + 3) <;>
  simp [step, step_with, h, e, hk, HALT, PUSH, POP, PUSH_STRING, GLOBAL_FETCH, GLOBAL_STORE, LOCAL_FETCH,
    TCALL, CALL, RETURN, BRANCH, JUMP, ADD, SUB, MUL, DIV, MOD, UMUL, UDIV, UMOD, NEGATE, EQ, LT,
    ULT, AND, OR, XOR, SLA, SRA, SRL, GETC, PUTC, REFB, REFV, SETV, LOCAL_FETCH_0, LOCAL_FETCH_1,
    PUSHW, PUSHB, CCALL, REFX, SETX, SETB]

theorem step_tcall (end_ pc sp bp : Nat) (s : State) (h : fetch_u8 s.the_store pc = TCALL) :
    step end_ pc sp bp s =
      Step.next (fetch_wX s.the_store (pc + 1) + 1)
        (bp - 4 * get_proc_arity s.the_store (fetch_wX s.the_store (pc + 1))) bp
        { s with
          the_store :=
            write_wV
              (write_bytes (4 * get_proc_arity s.the_store (fetch_wX s.the_store (pc + 1)))
                s.the_store
                (bp + 4 - 4 * get_proc_arity s.the_store (fetch_wX s.the_store (pc + 1)))
                (fetch_bytes (4 * get_proc_arity s.the_store (fetch_wX s.the_store (pc + 1)))
                  s.the_store sp))
              (bp - 4 * get_proc_arity s.the_store (fetch_wX s.the_store (pc + 1)))
              (fetch_wV s.the_store
                (sp + 4 * get_proc_arity s.the_store (fetch_wX s.the_store (pc + 1)))) } := by
  simp [step, step_with, h, HALT, PUSH, POP, PUSH_STRING, GLOBAL_FETCH, GLOBAL_STORE, LOCAL_FETCH, TCALL,
    CALL, RETURN, BRANCH, JUMP, ADD, SUB, MUL, DIV, MOD, UMUL, UDIV, UMOD, NEGATE, EQ, LT, ULT,
    AND, OR, XOR, SLA, SRA, SRL, GETC, PUTC, REFB, REFV, SETV, LOCAL_FETCH_0, LOCAL_FETCH_1,
    PUSHW, PUSHB, CCALL, REFX, SETX, SETB]

/-- The `case CCALL` of `run`: the host function is found through the
pointer in the C function record and called by `ccall`; its result takes the
place of the arguments. -/
theorem step_ccall (host : Nat → List Nat → State → Option (Nat × State))
    (end_ pc sp bp : Nat) (s : State) (n : Nat) (h : fetch_u8 s.the_store pc = CCALL)
    (hn : get_proc_arity s.the_store (fetch_wX s.the_store (pc + 1)) = n) :
    step_with host end_ pc sp bp s =
      match ccall (host (fetch_wP s.the_store (fetch_wX s.the_store (pc + 1) + 1))) s sp n with
      | none => Step.undefined
      | some (result, s1) =>
        if n = 0 then
          if sp < end_ + 4 then stack_overflow s1
          else Step.next (pc + 3) (sp - 4) bp (poke s1 (sp - 4) result)
        else Step.next (pc + 3) (sp + 4 * (n - 1)) bp (poke s1 (sp + 4 * (n - 1)) result) := by
  have e : pc + 1 + 2 = pc + 3 := by omega
  subst hn
  simp [step_with, h, e, poke, HALT, PUSH, POP, PUSH_STRING, GLOBAL_FETCH, GLOBAL_STORE,
    LOCAL_FETCH, TCALL, CALL, RETURN, BRANCH, JUMP, ADD, SUB, MUL, DIV, MOD, UMUL, UDIV, UMOD,
    NEGATE, EQ, LT, ULT, AND, OR, XOR, SLA, SRA, SRL, GETC, PUTC, REFB, REFV, SETV,
    LOCAL_FETCH_0, LOCAL_FETCH_1, PUSHW, PUSHB, CCALL, REFX, SETX, SETB]

theorem fetch_bytes_write_bytes_inside (k n m p v q : Nat) (h1 : p ≤ q) (h2 : q + k ≤ p + n) :
    fetch_bytes k (write_bytes n m p v) q = fetch_bytes k v (q - p) := by
  apply Nat.eq_of_testBit_eq
  intro i
  rw [testBit_fetch_bytes, testBit_fetch_bytes, testBit_write_bytes]
  by_cases hi : i < 8 * k
  · have h3 : 8 * p ≤ 8 * q + i ∧ 8 * q + i < 8 * p + 8 * n := by omega
    have h4 : 8 * q + i - 8 * p = 8 * (q - p) + i := by omega
    simp [hi, h3, h4]
  · simp [hi]

theorem fetch_bytes_fetch_bytes (k n m p j : Nat) (h : j + k ≤ n) :
    fetch_bytes k (fetch_bytes n m p) j = fetch_bytes k m (p + j) := by
  apply Nat.eq_of_testBit_eq
  intro i
  rw [testBit_fetch_bytes, testBit_fetch_bytes, testBit_fetch_bytes]
  by_cases hi : i < 8 * k
  · have h3 : 8 * j + i < 8 * n := by omega
    have h4 : 8 * p + (8 * j + i) = 8 * (p + j) + i := by omega
    simp [hi, h3, h4]
  · simp [hi]

/-- Claim C33. `TCALL` reuses the frame: let the instruction at `pc` be a
`TCALL` to a procedure of arity `n`, executed when `sp[0..n-1]` are the new
arguments and `sp[n]` is the frame-info word of the running procedure, which
lies `k` cells below `bp`, `k` being the arity of that procedure. The step
leaves `bp` unchanged, goes on at `binding + 1`, moves the `n` arguments in
order to `bp[-(n-1)] .. bp[0]` (the old `sp[n-1]` to `bp[0]`), sets
`sp = bp - n` with the old frame-info word in `sp[0]`, and the new `sp` is
not lower than the old one. -/
theorem C33_tcall_reuses_the_frame (end_ pc sp bp : Nat) (s : State) (n k : Nat)
    (hop : fetch_u8 s.the_store pc = TCALL)
    (hn : get_proc_arity s.the_store (fetch_wX s.the_store (pc + 1)) = n)
    (hf : sp + 4 * n + 4 * k = bp) :
    ∃ s', step end_ pc sp bp s =
        Step.next (fetch_wX s.the_store (pc + 1) + 1) (bp - 4 * n) bp s' ∧
      (∀ i < n, fetch_wV s'.the_store (bp - 4 * (n - 1) + 4 * i) =
        fetch_wV s.the_store (sp + 4 * i)) ∧
      (0 < n → fetch_wV s'.the_store bp = fetch_wV s.the_store (sp + 4 * (n - 1))) ∧
      fetch_wV s'.the_store (bp - 4 * n) = fetch_wV s.the_store (sp + 4 * n) ∧
      sp ≤ bp - 4 * n := by
  rw [step_tcall end_ pc sp bp s hop, hn]
  have harg : ∀ i < n, fetch_wV (write_wV (write_bytes (4 * n) s.the_store (bp + 4 - 4 * n)
      (fetch_bytes (4 * n) s.the_store sp)) (bp - 4 * n) (fetch_wV s.the_store (sp + 4 * n)))
      (bp - 4 * (n - 1) + 4 * i) = fetch_wV s.the_store (sp + 4 * i) := by
    intro i hi
    simp only [fetch_wV_eq, write_wV_eq]
    rw [fetch_bytes_write_bytes_disjoint _ _ _ _ _ _ (by omega),
      fetch_bytes_write_bytes_inside _ _ _ _ _ _ (by omega) (by omega),
      fetch_bytes_fetch_bytes _ _ _ _ _ (by omega)]
    congr 1
    omega
  refine ⟨_, rfl, harg, fun h0 => ?_, ?_, by omega⟩
  · have := harg (n - 1) (by omega)
    have e : bp - 4 * (n - 1) + 4 * (n - 1) = bp := by omega
    rw [e] at this
    exact this
  · simp only [fetch_wV_eq, write_wV_eq]
    rw [fetch_bytes_write_bytes_same]
    exact Nat.mod_eq_of_lt (fetch_bytes_lt 4 _ _)

/-- An instance of claim C33: a `TCALL` to a procedure of arity 2 executed by
a procedure of arity 1, with the arguments 11 and 22 under the frame-info
word 99: they are moved to 4012 and 4016, the frame-info word to 4008. -/
theorem C33_tcall_with_two_arguments :
    (fetch_u8 tcall_machine.the_store 30 = TCALL ∧
      get_proc_arity tcall_machine.the_store (fetch_wX tcall_machine.the_store (30 + 1)) = 2 ∧
      4004 + 4 * 2 + 4 * 1 = 4016) ∧
    ∃ s', step 50 30 4004 4016 tcall_machine = Step.next 41 4008 4016 s' ∧
      fetch_wV s'.the_store 4016 = 11 ∧ fetch_wV s'.the_store 4012 = 22 ∧
      fetch_wV s'.the_store 4008 = 99 :=
  have h1 : fetch_u8 tcall_machine.the_store 30 = TCALL := by decide
  have h2 : get_proc_arity tcall_machine.the_store (fetch_wX tcall_machine.the_store (30 + 1)) = 2 :=
    by decide
  have h3 : fetch_wX tcall_machine.the_store (30 + 1) + 1 = 41 := by decide
  have a0 : fetch_wV tcall_machine.the_store (4004 + 4 * 0) = 22 := by decide
  have a1 : fetch_wV tcall_machine.the_store (4004 + 4 * 1) = 11 := by decide
  have a2 : fetch_wV tcall_machine.the_store (4004 + 4 * 2) = 99 := by decide
  match C33_tcall_reuses_the_frame 50 30 4004 4016 tcall_machine 2 1 h1 h2 (by decide) with
  | ⟨s', e, ha, _, hfi, _⟩ =>
    ⟨⟨h1, h2, by decide⟩, s', by rw [e, h3], (ha 1 (by decide)).trans a1,
      (ha 0 (by decide)).trans a0, hfi.trans a2⟩

/-- Claim C34. `CCALL` stack effect, for every host function: let the
instruction at `pc` be a `CCALL` on a C function record of arity `n`, and let
`host` say which host function a pointer stands for. When `n > 7` nothing is
called, the `n` argument cells are popped and 0 is pushed. When `n` is in
`0..7` the function behind the pointer of the record is called with
`sp[n-1]`, the leftmost Wren argument, as its first parameter and `sp[0]` as
its last, and the value `r` it returns becomes the new top, `sp` having moved
up by `n - 1` cells for `n >= 1` and down by one cell for `n = 0` (where,
with fewer than 4 bytes left above the code, `Stack overflow` is latched
instead); `pc` advances past the 2-byte operand. The instruction `step` of
this repository is the case of the host functions `host_apply`. -/
theorem C34_ccall_stack_effect (host : Nat → List Nat → State → Option (Nat × State))
    (end_ pc sp bp : Nat) (s : State) (n : Nat)
    (hop : fetch_u8 s.the_store pc = CCALL)
    (hn : get_proc_arity s.the_store (fetch_wX s.the_store (pc + 1)) = n) :
    (7 < n →
      step_with host end_ pc sp bp s =
          Step.next (pc + 3) (sp + 4 * (n - 1)) bp (poke s (sp + 4 * (n - 1)) 0) ∧
        fetch_wV (poke s (sp + 4 * (n - 1)) 0).the_store (sp + 4 * (n - 1)) = 0) ∧
    (∀ r s1, n ≤ 7 →
      host (fetch_wP s.the_store (fetch_wX s.the_store (pc + 1) + 1))
        ((List.range n).reverse.map (fun i => fetch_wV s.the_store (sp + 4 * i))) s =
        some (r, s1) →
      (1 ≤ n →
        step_with host end_ pc sp bp s =
          Step.next (pc + 3) (sp + 4 * (n - 1)) bp (poke s1 (sp + 4 * (n - 1)) r)) ∧
      (n = 0 →
        step_with host end_ pc sp bp s =
          if sp < end_ + 4 then Step.done 0 (complain s1 "Stack overflow")
          else Step.next (pc + 3) (sp - 4) bp (poke s1 (sp - 4) r)) ∧
      ∀ p, fetch_wV (poke s1 p r).the_store p = r % 4294967296) ∧
    (1 ≤ n →
      ((List.range n).reverse.map (fun i => fetch_wV s.the_store (sp + 4 * i))).head? =
        some (fetch_wV s.the_store (sp + 4 * (n - 1)))) ∧
    step end_ pc sp bp s = step_with host_apply end_ pc sp bp s := by
  rw [step_ccall host end_ pc sp bp s n hop hn]
  refine ⟨fun h7 => ⟨?_, ?_⟩, fun r s1 h7 hfn => ⟨?_, ?_, ?_⟩, fun h1 => ?_, rfl⟩
  · have h0 : n ≠ 0 := by omega
    have h8 : ¬ n ≤ 7 := by omega
    simp only [ccall, h8, h0, if_false]
  · simp only [poke, fetch_wV_eq, write_wV_eq]
    rw [fetch_bytes_write_bytes_same]
    decide
  · intro h1
    have h0 : n ≠ 0 := by omega
    simp only [ccall, h7, hfn, h0, if_true, if_false]
  · intro h0
    subst h0
    simp only [ccall] at hfn ⊢
    simp only [Nat.zero_le, if_true, hfn]
    rfl
  · intro p
    simp only [poke, fetch_wV_eq, write_wV_eq]
    rw [fetch_bytes_write_bytes_same]
    rfl
  · obtain ⟨k, rfl⟩ : ∃ k, n = k + 1 := ⟨n - 1, by omega⟩
    rw [List.range_succ, List.reverse_append]
    rfl

set_option maxRecDepth 1000000 in
/-- Two instances of claim C34. A `CCALL` on a record of arity 2, the pointer
standing for a host function that returns its first parameter, with the
arguments 11 and 22 on the stack: the cell of the first argument, 11,
receives the result, which is 11, and `sp` moves up by one cell. And the
`CCALL` of the command `moo 'hi'`, executed by `step` on the record of `moo`,
of arity 1: `moo` prints the string at 22 and its result, 0, replaces the
argument. -/
theorem C34_ccall_instances :
    ((fetch_u8 ccall_machine.the_store 30 = CCALL ∧
        get_proc_arity ccall_machine.the_store (fetch_wX ccall_machine.the_store (30 + 1)) = 2 ∧
        first_parameter [fetch_wV ccall_machine.the_store 4004,
          fetch_wV ccall_machine.the_store 4000] ccall_machine = some (11, ccall_machine)) ∧
      (fetch_u8 moo_called.the_store 25 = CCALL ∧
        get_proc_arity moo_called.the_store (fetch_wX moo_called.the_store (25 + 1)) = 1 ∧
        host_apply (fetch_wP moo_called.the_store (fetch_wX moo_called.the_store (25 + 1) + 1))
          [fetch_wV moo_called.the_store 4064] moo_called =
          some (0, { moo_called with
            out := moo_called.out ++ bytes_of "moo: " ++ [104, 105] ++ bytes_of ".\r\n" }))) ∧
    step_with (fun _ => first_parameter) 50 30 4000 4000 ccall_machine =
      Step.next 33 4004 4000 (poke ccall_machine 4004 11) ∧
    step 29 25 4064 4068 moo_called =
      Step.next 28 4064 4068 (poke { moo_called with
        out := moo_called.out ++ bytes_of "moo: " ++ [104, 105] ++ bytes_of ".\r\n" } 4064 0) :=
  have h1 : get_proc_arity ccall_machine.the_store
      (fetch_wX ccall_machine.the_store (30 + 1)) = 2 := by decide
  have h2 : fetch_u8 ccall_machine.the_store 30 = CCALL := by decide
  have h3 : first_parameter [fetch_wV ccall_machine.the_store 4004,
      fetch_wV ccall_machine.the_store 4000] ccall_machine = some (11, ccall_machine) := by
    have e : fetch_wV ccall_machine.the_store 4004 = 11 := by decide
    simp [first_parameter, e]
  have k1 : get_proc_arity moo_called.the_store
      (fetch_wX moo_called.the_store (25 + 1)) = 1 := by decide!
  have k2 : fetch_u8 moo_called.the_store 25 = CCALL := by decide!
  have kp : fetch_wP moo_called.the_store (fetch_wX moo_called.the_store (25 + 1) + 1) =
      moo_ptr := by decide!
  have ka : fetch_wV moo_called.the_store 4064 = 22 := by decide!
  have kr : read_string moo_called.the_store 22 = some [104, 105] := by decide!
  have k3 : host_apply (fetch_wP moo_called.the_store
      (fetch_wX moo_called.the_store (25 + 1) + 1)) [fetch_wV moo_called.the_store 4064]
      moo_called = some (0, { moo_called with
        out := moo_called.out ++ bytes_of "moo: " ++ [104, 105] ++ bytes_of ".\r\n" }) := by
    rw [kp, ka]
    simp [host_apply, moo, kr]
  have hA := C34_ccall_stack_effect (fun _ => first_parameter) 50 30 4000 4000 ccall_machine 2
    h2 h1
  have hB := C34_ccall_stack_effect host_apply 29 25 4064 4068 moo_called 1 k2 k1
  ⟨⟨⟨h2, h1, h3⟩, ⟨k2, k1, k3⟩⟩, (hA.2.1 11 ccall_machine (by decide) h3).1 (by decide),
    hB.2.2.2.trans ((hB.2.1 0 _ (by decide) k3).1 (by decide))⟩

/-! ## Claim C35: the compiler and the dictionary -/

set_option maxRecDepth 1000000 in
/-- Claim C35 at the failing input. After `fun f = '...'` with a string of
4039 letters the cursors are 4063 and 4066, no complaint is latched, and the
header of `f` at 4066 holds the binding 21, the kind and length byte 16 and
the name. Compiling `if 1 then 2 else 3` there, `PUSHB 1` and `BRANCH` take
the three free bytes; `forward_ref` then moves `code_idx` to 4068 without
asking `available`, the next `gen` latches `Store exhausted`, and the second
`forward_ref` moves `code_idx` to 4070, above `dict_idx`; the two `resolve`
write 4 and 2 over the four bytes at 4066, the header of `f`. After the
command the cursors are back at 4063 and 4066, the header is overwritten,
`lookup` finds no `f`, and the command `f` is refused with
`Unknown identifier`. -/
theorem C35_forward_ref_on_a_full_store :
    (cursors full_store = (4063, 4066) ∧ full_store.complaint = none ∧
      bytes_at full_store 4066 = [21, 0, 16, 102] ∧
      lookup full_store.the_store (dict_idx full_store) store_capacity (bytes_of "f") =
        some 4066) ∧
    (parse_expr 4100 (-1) full_store).map (fun t => (cursors t, t.complaint, bytes_at t 4066)) =
      some ((4070, 4066), some "Store exhausted", [4, 0, 2, 0]) ∧
    (repl_turn 4100 full_store).map (fun u => (cursors u, bytes_at u 4066,
        lookup u.the_store (dict_idx u) store_capacity (bytes_of "f"))) =
      some ((4063, 4066), [4, 0, 2, 0], none) ∧
    command_result 4100 full_store_script 2 =
      some (some "Unknown identifier", bytes_of "Unknown identifier\r\n") := by
  decide!

/-! ## Claim C36: parameters and the return -/

set_option maxRecDepth 1000000 in
theorem sel_ready_table :
    (List.range 17).all (fun n => (List.range n).all (fun i =>
      decide (sel_ready n i (sel_called n i)))) = true := by
  decide!

theorem sel_ready_all (n i : Nat) (hn : n ≤ 16) (hi : i < n) :
    sel_ready n i (sel_called n i) := by
  have h := sel_ready_table
  rw [List.all_eq_true] at h
  have h2 := h n (List.mem_range.2 (by omega))
  rw [List.all_eq_true] at h2
  exact of_decide_eq_true (h2 i (List.mem_range.2 hi))

theorem next_arg (fuel : Nat) (s : State) (b : Nat) (rest : List Nat)
    (hP : Pending s (b :: rest)) (hb : b < 2147483648) (hf : 15 ≤ fuel) :
    ∃ s', next fuel s = some s' ∧ Lexed s s' ∧ s'.token = 1 ∧ s'.token_value = b ∧
      Pending s' rest := by
  obtain ⟨d0, ds, e, N⟩ := decimal_numeral b hb
  obtain ⟨hi, hf0⟩ := hP
  cases rest with
  | nil =>
    have hf1 : s.in_file = (d0 :: ds) ++ 10 :: [] := by rw [hf0, args_text, e]
    obtain ⟨s', n1, L1, t1, v1, i1, f1⟩ := lexed_number_read fuel s d0 ds 10 [] hi hf1 N.digits
      (by omega) (by omega) (by omega) (by rw [N.value]; exact N.small)
      (by have := N.short; omega)
    rw [N.value] at v1
    exact ⟨s', n1, L1, t1, v1, by simpa using i1, f1⟩
  | cons b' r' =>
    have hf1 : s.in_file = (d0 :: ds) ++ 32 :: args_text (b' :: r') := by
      rw [hf0, args_text, e]
    obtain ⟨s', n1, L1, t1, v1, i1, f1⟩ := lexed_number_read fuel s d0 ds 32 _ hi hf1 N.digits
      (by omega) (by omega) (by omega) (by rw [N.value]; exact N.small)
      (by have := N.short; omega)
    rw [N.value] at v1
    exact ⟨s', n1, L1, t1, v1, by simpa using i1, f1⟩

theorem PushesAt.le {m : Nat} : ∀ {vs : List Nat} {pc e : Nat}, PushesAt m pc vs e → pc ≤ e := by
  intro vs
  induction vs with
  | nil =>
    intro pc e h
    have h' : pc = e := h
    omega
  | cons v vs ih =>
    intro pc e h
    obtain ⟨len, -, -, -, h4⟩ := h
    have := ih h4
    omega

theorem PushesAt.carried {m m' : Nat} : ∀ {vs : List Nat} {pc e : Nat}, PushesAt m pc vs e →
    (∀ k q, pc ≤ q → q + k ≤ e → fetch_bytes k m' q = fetch_bytes k m q) →
    PushesAt m' pc vs e := by
  intro vs
  induction vs with
  | nil =>
    intro pc e h _
    exact h
  | cons v vs ih =>
    intro pc e h hf
    obtain ⟨len, h2, h5, P, h4⟩ := h
    have hle := PushesAt.le h4
    exact ⟨len, h2, h5, P.frame (fun k q h1 h2 => hf k q h1 (by omega)),
      ih h4 (fun k q h1 h2 => hf k q (by omega) h2)⟩

/-- The arguments of a call when they are literals: `parse_arguments`
compiles one push for each. -/
theorem parse_args_literals : ∀ (vs : List Nat) (v : Nat) (s : State) (c F : Nat),
    s.complaint = none → s.token = 1 → s.token_value = v → Pending s vs →
    v < 2147483648 → (∀ a ∈ vs, a < 2147483648) → code_idx s = c → 8 ≤ c →
    c + 5 * (vs.length + 1) ≤ dict_idx s → 20 + vs.length ≤ F →
    ∃ S L, parse_arguments F (vs.length + 1) s = some S ∧ Emitted s S c L ∧
      L ≤ 5 * (vs.length + 1) ∧ PushesAt S.the_store c (v :: vs) (c + L) ∧ S.token = 10 ∧
      S.input_char = unread ∧ S.in_file = [] := by
  intro vs
  induction vs with
  | nil =>
    intro v s c F hc ht hv hP hv31 _ hci h8 hroom hF
    obtain ⟨f, rfl⟩ : ∃ f, F = f + 4 := ⟨F - 4, by omega⟩
    obtain ⟨len, h2, h5, E, P, -⟩ := gen_literal_spec s c v hci h8
      (by simp only [List.length_nil] at hroom; omega) hv (by omega)
    obtain ⟨l1, -, -, -, l5⟩ := gen_literal_lexer s
    obtain ⟨sN, nN, LN, tN, iN, fN⟩ := lexed_newline f (gen_literal s) (l1.trans hP.1)
    have pe : parse_expr (f + 3) 20 s = some sN := parse_expr_literal_stop f 20 s sN hc ht nN
      (by rw [tN]; rfl) (Or.inr (by decide))
    refine ⟨sN, len, ?_, E.lexed LN, by simp only [List.length_nil]; omega,
      ⟨len, h2, h5, by rw [LN.the_store]; exact P, rfl⟩, tN, iN, fN.trans (l5.trans hP.2)⟩
    rw [parse_arguments]
    simp only [List.length_nil, Nat.zero_add, if_neg (by decide : ¬ (1 = 0)), pe]
    rw [parse_arguments]
    simp
  | cons b rest ih =>
    intro v s c F hc ht hv hP hv31 hvs hci h8 hroom hF
    simp only [List.length_cons] at hroom hF
    obtain ⟨f, rfl⟩ : ∃ f, F = f + 4 := ⟨F - 4, by omega⟩
    obtain ⟨len, h2, h5, E, P, -⟩ := gen_literal_spec s c v hci h8 (by omega) hv (by omega)
    obtain ⟨l1, -, -, -, l5⟩ := gen_literal_lexer s
    have hP' : Pending (gen_literal s) (b :: rest) := ⟨l1.trans hP.1, l5.trans hP.2⟩
    obtain ⟨s1, n1, L1, t1, v1, P1⟩ := next_arg (f + 1) (gen_literal s) b rest hP'
      (hvs b (List.mem_cons_self _ _)) (by omega)
    have pe : parse_expr (f + 3) 20 s = some s1 := parse_expr_literal_stop f 20 s s1 hc ht n1
      (by rw [t1]; rfl) (Or.inr (by decide))
    have E1 : Emitted s s1 c len := E.lexed L1
    obtain ⟨S, L, hS, ES, hL, PS, tS, iS, fS⟩ := ih b s1 (c + len) (f + 3) (E1.complaint.trans hc)
      t1 v1 P1 (hvs b (List.mem_cons_self _ _))
      (fun a ha => hvs a (List.mem_cons_of_mem _ ha)) E1.code (by omega)
      (by rw [E1.dict]; omega) (by omega)
    refine ⟨S, len + L, ?_, E1.trans ES, by simp only [List.length_cons]; omega,
      ⟨len, h2, h5, ?_, ?_⟩, tS, iS, fS⟩
    · rw [parse_arguments]
      simp only [List.length_cons, if_neg (Nat.succ_ne_zero _), pe, Nat.add_sub_cancel]
      exact hS
    · have : PushAt s1.the_store c v len := by rw [L1.the_store]; exact P
      exact this.emitted ES h8 (by omega)
    · have e : c + (len + L) = c + len + L := by omega
      rw [e]
      exact PS

/-- The identifier case of `parse_factor` for a procedure of the user
dictionary: the arguments, then `CALL` and the binding. -/
theorem parse_factor_call (f : Nat) (s s1 s2 : State) (h bnd n : Nat)
    (ht : s.token = 97)
    (hl : lookup s.the_store (dict_idx s) store_capacity s.token_name = some h)
    (hn : next (f + 1) s = some s1) (hs : s1.the_store = s.the_store)
    (hk : get_header_kind s.the_store h = a_procedure)
    (hb : get_header_binding s.the_store h = bnd)
    (ha : get_proc_arity s.the_store bnd = n)
    (hp : parse_arguments (f + 1) n s1 = some s2) :
    parse_factor (f + 2) s = some (gen_ushort (gen s2 CALL) bnd) := by
  have k0 : skip_newline (f + 1) s = some s := by simp [skip_newline, ht]
  have hlb : lookup_both s = some (HeaderRef.user h) := by
    unfold lookup_both
    rw [hl]
  rw [parse_factor, k0]
  simp only [ht, hlb, hn, header_memory, hs, hk, hb, ha, hp]
  simp [a_procedure, a_global, a_local]

/-- The call of `sel` with literal arguments, compiled after its definition:
one push for each argument, then `CALL` and the binding 21. -/
theorem sel_compiled (n i : Nat) (D : State) (a : Nat) (rest : List Nat) (F : Nat)
    (R : sel_ready n i D) (hlen : rest.length + 1 = n) (hn : n ≤ 16)
    (ha : ∀ x ∈ a :: rest, x < 2147483648) (hF : 40 ≤ F) :
    ∃ S L, parse_expr F (-1) { D with in_file := args_text (a :: rest) } = some S ∧
      Emitted { D with in_file := args_text (a :: rest) } S (sel_return i + 1) (L + 3) ∧
      L ≤ 5 * n ∧
      PushesAt S.the_store (sel_return i + 1) (a :: rest) (sel_return i + 1 + L) ∧
      fetch_u8 S.the_store (sel_return i + 1 + L) = CALL ∧
      fetch_wX S.the_store (sel_return i + 1 + L + 1) = 21 ∧ S.token = 10 := by
  obtain ⟨rc, rt, rn, ri, rci, rdi, rl, rk, rb, ra, -, -, -⟩ := R
  obtain ⟨g, rfl⟩ : ∃ g, F = g + 3 := ⟨F - 3, by omega⟩
  generalize hs : ({ D with in_file := args_text (a :: rest) } : State) = s
  have sc : s.complaint = none := by subst hs; exact rc
  have st : s.token = 97 := by subst hs; exact rt
  have sst : s.the_store = D.the_store := by subst hs; rfl
  have sci : code_idx s = sel_return i + 1 := by subst hs; exact rci
  have sdi : dict_idx s = 4064 := by subst hs; exact rdi
  have sl : lookup s.the_store (dict_idx s) store_capacity s.token_name = some 4064 := by
    subst hs
    have e : dict_idx ({ D with in_file := args_text (a :: rest) } : State) = 4064 := rdi
    rw [e]
    exact (congrArg (lookup D.the_store 4064 store_capacity) rn).trans rl
  have sP : Pending s (a :: rest) := by subst hs; exact ⟨ri, rfl⟩
  have hr : sel_return i ≤ 24 := by unfold sel_return; split_ifs <;> omega
  have hr2 : 23 ≤ sel_return i := by unfold sel_return; split_ifs <;> omega
  obtain ⟨s1, n1, L1, t1, v1, P1⟩ := next_arg (g + 1) s a rest sP
    (ha a (List.mem_cons_self _ _)) (by omega)
  obtain ⟨S1, L, hS1, E1, hL, PS, tS, -, -⟩ := parse_args_literals rest a s1 (sel_return i + 1)
    (g + 1) (L1.complaint.trans sc) t1 v1 P1 (ha a (List.mem_cons_self _ _))
    (fun x hx => ha x (List.mem_cons_of_mem _ hx)) (L1.cursors.1.trans sci) (by omega)
    (by rw [L1.cursors.2, sdi]; omega) (by omega)
  rw [hlen] at hS1 hL
  have hfac : parse_factor (g + 2) s = some (gen_ushort (gen S1 CALL) 21) :=
    parse_factor_call g s s1 S1 4064 21 n st sl n1 L1.the_store (by rw [sst]; exact rk)
      (by rw [sst]; exact rb) (by rw [sst]; exact ra) hS1
  have d1 : dict_idx S1 = 4064 := by rw [E1.dict, L1.cursors.2, sdi]
  obtain ⟨Eg, Oc⟩ := (Emitted.refl S1 (sel_return i + 1 + L) E1.code).gen CALL (by omega)
    (by rw [d1]; omega) (by decide)
  have eu := gen_ushort_eq (gen S1 CALL) 21 (by rw [Eg.code, Eg.dict, d1]; omega)
  obtain ⟨Eu, Cu, -⟩ := emit_spec 2 (gen S1 CALL) 21 (sel_return i + 1 + L + (0 + 1))
    (gen S1 CALL).prev_instruc Eg.code (by omega) (by rw [Eg.dict, d1]; omega)
  rw [← eu] at Eu Cu
  have tF : (gen_ushort (gen S1 CALL) 21).token = 10 := by
    rw [eu]
    exact (gen_lexer S1 CALL).2.1.trans tS
  have hloop : parse_expr_loop (g + 2) (-1) (gen_ushort (gen S1 CALL) 21) =
      some (gen_ushort (gen S1 CALL) 21) :=
    loop_stop (g + 1) (-1) _ (by decide) (Or.inl (by rw [tF]; rfl))
  have hparse : parse_expr (g + 3) (-1) s = some (gen_ushort (gen S1 CALL) 21) := by
    rw [parse_expr_unfold (g + 2) (-1) s sc, hfac, Option.some_bind, hloop]
  have EE : Emitted s (gen_ushort (gen S1 CALL) 21) (sel_return i + 1) (L + 3) :=
    ((Emitted.of_lexed L1 E1).trans (Eg.trans Eu)).cast rfl (by omega)
  refine ⟨_, L, hparse, EE, hL, ?_, ?_, ?_, tF⟩
  · exact PS.carried (fun k q h1 h2 => (Eg.trans Eu).frame k q (by omega) (by omega))
  · rw [fetch_u8_eq, Eu.frame 1 _ (by omega) (by omega), ← fetch_u8_eq]
    exact Oc
  · rw [fetch_wX_eq]
    have e : sel_return i + 1 + L + 1 = sel_return i + 1 + L + (0 + 1) := by omega
    rw [e, Cu]
    decide

theorem step_return (end_ pc sp bp : Nat) (s : State) (h : fetch_u8 s.the_store pc = RETURN) :
    step end_ pc sp bp s =
      Step.next (fetch_wX s.the_store (sp + 6)) bp (fetch_wX s.the_store (sp + 4))
        { s with the_store := write_wV s.the_store bp (fetch_wV s.the_store sp) } := by
  simp [step, step_with, h, HALT, PUSH, POP, PUSH_STRING, GLOBAL_FETCH, GLOBAL_STORE, LOCAL_FETCH, TCALL,
    CALL, RETURN, BRANCH, JUMP, ADD, SUB, MUL, DIV, MOD, UMUL, UDIV, UMOD, NEGATE, EQ, LT, ULT,
    AND, OR, XOR, SLA, SRA, SRL, GETC, PUTC, REFB, REFV, SETV, LOCAL_FETCH_0, LOCAL_FETCH_1,
    PUSHW, PUSHB, CCALL, REFX, SETX, SETB]

/-- The fetch of parameter `i`, in any of its three encodings. -/
theorem step_local_fetch (end_ pc sp bp : Nat) (s : State) (i : Nat)
    (h : fetch_u8 s.the_store pc = local_fetch_op i)
    (h2 : 2 ≤ i → fetch_u8 s.the_store (pc + 1) = i) :
    step end_ pc sp bp s =
      push end_ (pc + (if i < 2 then 1 else 2)) sp bp s (fetch_wV s.the_store (bp - 4 * i)) := by
  unfold local_fetch_op at h
  by_cases h0 : i = 0
  · subst h0
    simp [step, step_with, h, HALT, PUSH, POP, PUSH_STRING, GLOBAL_FETCH, GLOBAL_STORE, LOCAL_FETCH, TCALL,
      CALL, RETURN, BRANCH, JUMP, LOCAL_FETCH_0, LOCAL_FETCH_1, PUSHW, PUSHB]
  · by_cases h1 : i = 1
    · subst h1
      simp [step, step_with, h, HALT, PUSH, POP, PUSH_STRING, GLOBAL_FETCH, GLOBAL_STORE, LOCAL_FETCH, TCALL,
        CALL, RETURN, BRANCH, JUMP, LOCAL_FETCH_0, LOCAL_FETCH_1, PUSHW, PUSHB]
    · rw [if_neg h0, if_neg h1] at h
      have hi : ¬ i < 2 := by omega
      have e : pc + 1 + 1 = pc + 2 := by omega
      simp [step, step_with, h, h2 (by omega), hi, e, HALT, PUSH, POP, PUSH_STRING, GLOBAL_FETCH,
        GLOBAL_STORE, LOCAL_FETCH, TCALL, CALL, RETURN, BRANCH, JUMP, LOCAL_FETCH_0,
        LOCAL_FETCH_1, PUSHW, PUSHB]

theorem skip_jumps_here (m cont : Nat) (h1 : cont < store_capacity)
    (h2 : fetch_u8 m cont ≠ JUMP) : skip_jumps m store_capacity cont = some cont := by
  have e : store_capacity = 4095 + 1 := rfl
  have h3 : ¬ store_capacity ≤ cont := by omega
  rw [e, skip_jumps]
  simp only [h3, h2, if_false]

theorem run_steps_add (end_ : Nat) : ∀ (n m pc sp bp : Nat) (s : State) (pc' sp' bp' : Nat)
    (s' : State), run_steps end_ n pc sp bp s = Step.next pc' sp' bp' s' →
    run_steps end_ (n + m) pc sp bp s = run_steps end_ m pc' sp' bp' s' := by
  intro n
  induction n with
  | zero =>
    intro m pc sp bp s pc' sp' bp' s' h
    rw [run_steps] at h
    cases h
    rw [Nat.zero_add]
  | succ n ih =>
    intro m pc sp bp s pc' sp' bp' s' h
    rw [Nat.succ_add, run_steps]
    rw [run_steps] at h
    cases hs : step end_ pc sp bp s with
    | next a b c d =>
      rw [hs] at h
      exact ih m a b c d pc' sp' bp' s' h
    | done v d =>
      rw [hs] at h
      cases h
    | undefined =>
      rw [hs] at h
      cases h

theorem run_loop_of_steps (end_ : Nat) : ∀ (n m pc sp bp : Nat) (s : State) (pc' sp' bp' : Nat)
    (s' : State), run_steps end_ n pc sp bp s = Step.next pc' sp' bp' s' →
    run_loop end_ (n + m) pc sp bp s = run_loop end_ m pc' sp' bp' s' := by
  intro n
  induction n with
  | zero =>
    intro m pc sp bp s pc' sp' bp' s' h
    rw [run_steps] at h
    cases h
    rw [Nat.zero_add]
  | succ n ih =>
    intro m pc sp bp s pc' sp' bp' s' h
    rw [Nat.succ_add, run_loop]
    rw [run_steps] at h
    cases hs : step end_ pc sp bp s with
    | next a b c d =>
      rw [hs] at h
      exact ih m a b c d pc' sp' bp' s' h
    | done v d =>
      rw [hs] at h
      cases h
    | undefined =>
      rw [hs] at h
      cases h

/-- Running the pushes of the words `vs`: they come to lie on the stack, the
first one deepest, and nothing else is written. -/
theorem run_steps_pushes (end_ bp : Nat) : ∀ (vs : List Nat) (pc sp e : Nat) (s : State),
    PushesAt s.the_store pc vs e → e ≤ end_ → end_ + 4 * vs.length ≤ sp →
    (∀ a ∈ vs, a < 4294967296) →
    ∃ s', run_steps end_ vs.length pc sp bp s = Step.next e (sp - 4 * vs.length) bp s' ∧
      (∀ j, j < vs.length → fetch_wV s'.the_store (sp - 4 * (j + 1)) = vs.getD j 0) ∧
      (∀ k q, q + k ≤ sp - 4 * vs.length ∨ sp ≤ q →
        fetch_bytes k s'.the_store q = fetch_bytes k s.the_store q) ∧
      s'.complaint = s.complaint ∧ s'.out = s.out ∧ s'.stdin_ = s.stdin_ ∧
      s'.token = s.token ∧ s'.input_char = s.input_char ∧ s'.in_file = s.in_file := by
  intro vs
  induction vs with
  | nil =>
    intro pc sp e s hP _ _ _
    have hpe : pc = e := hP
    subst hpe
    exact ⟨s, rfl, fun j hj => absurd hj (by simp), fun _ _ _ => rfl, rfl, rfl, rfl, rfl, rfl, rfl⟩
  | cons v vs ih =>
    intro pc sp e s hP he hs hv
    obtain ⟨len, h2, h5, P, PR⟩ := hP
    simp only [List.length_cons] at hs ⊢
    have hst : step end_ pc sp bp s = Step.next (pc + len) (sp - 4) bp (poke s (sp - 4) v) := by
      rw [step_push _ _ _ _ _ _ _ P, push_room _ _ _ _ _ _ (by omega)]
      rfl
    have hle := PushesAt.le PR
    obtain ⟨s', r1, r2, r3, r4, r5, r6, r7, r8, r9⟩ := ih (pc + len) (sp - 4) e
      (poke s (sp - 4) v)
      (PR.carried (fun k q _ h2 => poke_fetch_disjoint s (sp - 4) v k q (by omega))) he
      (by omega) (fun a ha => hv a (List.mem_cons_of_mem _ ha))
    refine ⟨s', ?_, ?_, ?_, r4, r5, r6, r7, r8, r9⟩
    · rw [run_steps, hst]
      simp only []
      rw [r1]
      congr 1
      omega
    · intro j hj
      cases j with
      | zero =>
        rw [fetch_wV_eq, r3 4 (sp - 4) (Or.inr (by omega)), ← fetch_wV_eq,
          poke_fetch_same s (sp - 4) v (hv v (List.mem_cons_self _ _))]
        rfl
      | succ j =>
        have := r2 j (by omega)
        have e1 : sp - 4 * (j + 1 + 1) = sp - 4 - 4 * (j + 1) := by omega
        rw [e1, this]
        rfl
    · intro k q hq
      rw [r3 k q (by omega), poke_fetch_disjoint s (sp - 4) v k q (by omega)]

/-- Running the call of `sel`: the pushes of the arguments, the `CALL`, the
fetch of parameter `i` and the `RETURN`, which leaves the result in the cell
of the first argument and the machine of the caller as it was. -/
theorem sel_runs (n i : Nat) (args : List Nat) (c e : Nat) (V : State)
    (hn : n ≤ 16) (hi : i < n) (hlen : args.length = n)
    (hv : ∀ a ∈ args, a < 2147483648)
    (PA : PushesAt V.the_store c args e) (hc : 24 ≤ c) (he : e + 4 ≤ 3900)
    (OC : fetch_u8 V.the_store e = CALL) (RC : fetch_wX V.the_store (e + 1) = 21)
    (OH : fetch_u8 V.the_store (e + 3) = HALT)
    (AR : get_proc_arity V.the_store 21 = n) (BO : fetch_u8 V.the_store 22 = local_fetch_op i)
    (BI : 2 ≤ i → fetch_u8 V.the_store 23 = i)
    (BR : fetch_u8 V.the_store (sel_return i) = RETURN) :
    (run_steps (e + 4) (n + 2) c 4064 4064 V).regs =
        some (sel_return i, 4064 - 4 * n - 8, 4060, RETURN) ∧
      ∃ V', run_steps (e + 4) (n + 3) c 4064 4064 V = Step.next (e + 3) 4060 4064 V' ∧
        fetch_wV V'.the_store 4060 = args.getD i 0 ∧ fetch_u8 V'.the_store (e + 3) = HALT ∧
        V'.complaint = V.complaint ∧ V'.out = V.out ∧ code_idx V' = code_idx V ∧
        dict_idx V' = dict_idx V ∧ V'.token = V.token ∧ V'.input_char = V.input_char ∧
        V'.in_file = V.in_file := by
  have hr : sel_return i = 22 + (if i < 2 then 1 else 2) := by
    unfold sel_return
    split_ifs <;> rfl
  have hr24 : sel_return i ≤ 24 := by unfold sel_return; split_ifs <;> omega
  have hce := PushesAt.le PA
  -- the pushes
  obtain ⟨V1, r1, cells, F1, c1, o1, -, t1, i1, f1⟩ := run_steps_pushes (e + 4) 4064 args c 4064 e V
    PA (by omega) (by rw [hlen]; omega) (fun a ha => by have := hv a ha; omega)
  rw [hlen] at r1 cells F1
  have B1 : ∀ k q, q + k ≤ 3900 → fetch_bytes k V1.the_store q = fetch_bytes k V.the_store q :=
    fun k q h => F1 k q (Or.inl (by omega))
  have hval : fetch_wV V1.the_store (4064 - 4 * (i + 1)) = args.getD i 0 := cells i hi
  have hval32 : args.getD i 0 < 4294967296 := by
    have hlt : i < args.length := by omega
    rw [List.getD_eq_getElem _ _ hlt]
    have := hv _ (List.getElem_mem hlt)
    omega
  -- the call
  have OC1 : fetch_u8 V1.the_store e = CALL := by
    rw [fetch_u8_eq, B1 1 e (by omega), ← fetch_u8_eq]; exact OC
  have OH1 : fetch_u8 V1.the_store (e + 3) = HALT := by
    rw [fetch_u8_eq, B1 1 _ (by omega), ← fetch_u8_eq]; exact OH
  have RC1 : fetch_wX V1.the_store (e + 1) = 21 := by
    rw [fetch_wX_eq, B1 2 _ (by omega), ← fetch_wX_eq]; exact RC
  have AR1 : get_proc_arity V1.the_store 21 = n := by
    unfold get_proc_arity at AR ⊢
    rw [fetch_u8_eq, B1 1 _ (by omega), ← fetch_u8_eq]; exact AR
  have hsk : skip_jumps V1.the_store store_capacity (e + 3) = some (e + 3) :=
    skip_jumps_here _ _ (by unfold store_capacity; omega) (by rw [OH1]; decide)
  have hnr : ¬ fetch_u8 V1.the_store (e + 3) = RETURN := by rw [OH1]; decide
  have hroom1 : ¬ 4064 - 4 * n < e + 4 + 4 := by omega
  obtain ⟨V2, hV2⟩ : ∃ V2 : State, V2 =
      { V1 with
        the_store :=
          write_wX (write_wX V1.the_store (4064 - 4 * n - 4) 4064) (4064 - 4 * n - 4 + 2)
            (e + 3) } :=
    ⟨_, rfl⟩
  have hcall : step (e + 4) e (4064 - 4 * n) 4064 V1 = Step.next 22 (4064 - 4 * n - 4) 4060 V2 := by
    rw [step_call _ _ _ _ _ OC1, hsk]
    simp only [hnr, hroom1, if_false, RC1, AR1]
    rw [hV2]
    congr 1
    omega
  have B2 : ∀ k q, q + k ≤ 4064 - 4 * n - 4 ∨ 4064 - 4 * n ≤ q →
      fetch_bytes k V2.the_store q = fetch_bytes k V1.the_store q := by
    intro k q hq
    rw [hV2]
    simp only [write_wX_eq]
    rw [fetch_bytes_write_bytes_disjoint _ _ _ _ _ _ (by omega),
      fetch_bytes_write_bytes_disjoint _ _ _ _ _ _ (by omega)]
  have f0 : fetch_wX V2.the_store (4064 - 4 * n - 4) = 4064 := by
    rw [hV2]
    simp only [fetch_wX_eq, write_wX_eq]
    rw [fetch_bytes_write_bytes_disjoint _ _ _ _ _ _ (by omega), fetch_bytes_write_bytes_same]
    decide
  have f1' : fetch_wX V2.the_store (4064 - 4 * n - 4 + 2) = e + 3 := by
    rw [hV2]
    simp only [fetch_wX_eq, write_wX_eq]
    rw [fetch_bytes_write_bytes_same]
    have : (1 : Nat) <<< (8 * 2) = 65536 := by decide
    rw [this]
    exact Nat.mod_eq_of_lt (by omega)
  -- the body
  have BO2 : fetch_u8 V2.the_store 22 = local_fetch_op i := by
    rw [fetch_u8_eq, B2 1 _ (Or.inl (by omega)), B1 1 _ (by omega), ← fetch_u8_eq]; exact BO
  have BI2 : 2 ≤ i → fetch_u8 V2.the_store (22 + 1) = i := by
    intro h
    rw [fetch_u8_eq, B2 1 _ (Or.inl (by omega)), B1 1 _ (by omega), ← fetch_u8_eq]
    exact BI h
  have hval2 : fetch_wV V2.the_store (4060 - 4 * i) = args.getD i 0 := by
    rw [fetch_wV_eq, B2 4 _ (Or.inr (by omega)), ← fetch_wV_eq, ← hval]
    congr 1
    omega
  have hfetch : step (e + 4) 22 (4064 - 4 * n - 4) 4060 V2 =
      Step.next (sel_return i) (4064 - 4 * n - 8) 4060
        (poke V2 (4064 - 4 * n - 8) (args.getD i 0)) := by
    rw [step_local_fetch _ _ _ _ _ i BO2 BI2, hval2, push_room _ _ _ _ _ _ (by omega), ← hr]
    have e1 : 4064 - 4 * n - 4 - 4 = 4064 - 4 * n - 8 := by omega
    rw [e1]
    rfl
  have B3 : ∀ k q, q + k ≤ 4064 - 4 * n - 8 ∨ 4064 - 4 * n - 4 ≤ q →
      fetch_bytes k (poke V2 (4064 - 4 * n - 8) (args.getD i 0)).the_store q =
        fetch_bytes k V2.the_store q :=
    fun k q hq => poke_fetch_disjoint V2 _ _ k q (by omega)
  have BR3 : fetch_u8 (poke V2 (4064 - 4 * n - 8) (args.getD i 0)).the_store (sel_return i) =
      RETURN := by
    rw [fetch_u8_eq, B3 1 _ (Or.inl (by omega)), B2 1 _ (Or.inl (by omega)), B1 1 _ (by omega),
      ← fetch_u8_eq]
    exact BR
  have h2 : run_steps (e + 4) (n + 2) c 4064 4064 V =
      Step.next (sel_return i) (4064 - 4 * n - 8) 4060
        (poke V2 (4064 - 4 * n - 8) (args.getD i 0)) := by
    have := run_steps_add (e + 4) args.length 2 c 4064 4064 V _ _ _ _ (by rw [hlen]; exact r1)
    rw [hlen] at this
    rw [this, run_steps, hcall]
    simp only []
    rw [run_steps, hfetch]
    rfl
  refine ⟨by rw [h2]; simp only [Step.regs, BR3], ?_⟩
  -- the return
  have hret : step (e + 4) (sel_return i) (4064 - 4 * n - 8) 4060
      (poke V2 (4064 - 4 * n - 8) (args.getD i 0)) =
      Step.next (e + 3) 4060 4064
        (poke (poke V2 (4064 - 4 * n - 8) (args.getD i 0)) 4060 (args.getD i 0)) := by
    rw [step_return _ _ _ _ _ BR3, poke_fetch_same _ _ _ hval32]
    have e4 : 4064 - 4 * n - 8 + 4 = 4064 - 4 * n - 4 := by omega
    have e6 : 4064 - 4 * n - 8 + 6 = 4064 - 4 * n - 4 + 2 := by omega
    rw [e4, e6, fetch_wX_eq, fetch_wX_eq, B3 2 _ (Or.inr (by omega)), B3 2 _ (Or.inr (by omega)),
      ← fetch_wX_eq, ← fetch_wX_eq, f0, f1']
    rfl
  have h3 : run_steps (e + 4) (n + 3) c 4064 4064 V =
      Step.next (e + 3) 4060 4064
        (poke (poke V2 (4064 - 4 * n - 8) (args.getD i 0)) 4060 (args.getD i 0)) := by
    have := run_steps_add (e + 4) (n + 2) 1 c 4064 4064 V _ _ _ _ h2
    rw [this, run_steps, hret]
    rfl
  have B4 : ∀ k q, q + k ≤ 3900 →
      fetch_bytes k (poke (poke V2 (4064 - 4 * n - 8) (args.getD i 0)) 4060
        (args.getD i 0)).the_store q = fetch_bytes k V.the_store q := by
    intro k q hq
    rw [poke_fetch_disjoint _ _ _ k q (by omega), B3 k q (Or.inl (by omega)),
      B2 k q (Or.inl (by omega)), B1 k q hq]
  refine ⟨_, h3, poke_fetch_same _ _ _ hval32, ?_, ?_, ?_, ?_, ?_, ?_, ?_, ?_⟩
  · rw [fetch_u8_eq, B4 1 _ (by omega), ← fetch_u8_eq]
    exact OH
  · show V2.complaint = V.complaint
    rw [hV2]
    exact c1
  · show V2.out = V.out
    rw [hV2]
    exact o1
  · simp only [code_idx, fetch_wV_eq]
    exact B4 4 0 (by omega)
  · simp only [dict_idx, fetch_wV_eq]
    exact B4 4 4 (by omega)
  · show V2.token = V.token
    rw [hV2]
    exact t1
  · show V2.input_char = V.input_char
    rw [hV2]
    exact i1
  · show V2.in_file = V.in_file
    rw [hV2]
    exact f1

/-- The call of `sel` with literal arguments, from any state in which the
definition of `sel` is ready and the name `sel` has been read. -/
theorem sel_evaluates (n i : Nat) (D : State) (args : List Nat) (fuel : Nat)
    (R : sel_ready n i D)
    (hn1 : 1 ≤ n) (hn : n ≤ 16) (hi : i < n) (hlen : args.length = n)
    (hv : ∀ a ∈ args, a < 2147483648) (hfuel : 60 ≤ fuel) :
    ∃ S s', parse_expr fuel (-1) { D with in_file := args_text args } = some S ∧
      scratch_expr fuel { D with in_file := args_text args } = some (args.getD i 0, s') ∧
      s'.complaint = none ∧
      cursors D = (sel_return i + 1, 4064) ∧
      fetch_u8 S.the_store (code_idx S - 3) = CALL ∧
      (run_steps (code_idx S + 1) (n + 2) (sel_return i + 1) 4064 4064
          (rewound (sel_return i + 1) S)).regs =
        some (sel_return i, 4064 - 4 * n - 8, 4060, RETURN) ∧
      ∃ V', run_steps (code_idx S + 1) (n + 3) (sel_return i + 1) 4064 4064
            (rewound (sel_return i + 1) S) = Step.next (code_idx S) 4060 4064 V' ∧
        fetch_wV V'.the_store 4060 = args.getD i 0 := by
  obtain ⟨a, rest, rfl⟩ : ∃ a rest, args = a :: rest := by
    cases args with
    | nil => simp only [List.length_nil] at hlen; omega
    | cons a rest => exact ⟨a, rest, rfl⟩
  have hlen' : rest.length + 1 = n := by simpa using hlen
  obtain ⟨S, L, hp, E, hL, PA, OC, RC, tS⟩ := sel_compiled n i D a rest fuel R
    hlen' hn hv (by omega)
  obtain ⟨rc, -, -, -, rci, rdi, -, -, -, ra, rbo, rbi, rbr⟩ := R
  have hr24 : sel_return i ≤ 24 := by unfold sel_return; split_ifs <;> omega
  have hr23 : 23 ≤ sel_return i := by unfold sel_return; split_ifs <;> omega
  generalize hs : ({ D with in_file := args_text (a :: rest) } : State) = s at hp E ⊢
  have sci : code_idx s = sel_return i + 1 := by rw [← hs]; exact rci
  have sdi : dict_idx s = 4064 := by rw [← hs]; exact rdi
  have sc : s.complaint = none := by rw [← hs]; exact rc
  have sst : s.the_store = D.the_store := by rw [← hs]
  -- the machine the code is run on
  have hpd : parse_done S = S := by simp [parse_done, tS]
  obtain ⟨EH, OH⟩ := E.gen HALT (by omega) (by rw [sdi]; omega) (by decide)
  obtain ⟨S1, S2, S3⟩ := set_code_idx_spec (gen S HALT) (sel_return i + 1) (by omega)
  have hV : rewound (sel_return i + 1) S = set_code_idx (gen S HALT) (sel_return i + 1) := by
    unfold rewound
    rw [hpd]
  have BS : ∀ k q, 8 ≤ q → q + k ≤ sel_return i + 1 + (L + 3) →
      fetch_bytes k (rewound (sel_return i + 1) S).the_store q = fetch_bytes k S.the_store q := by
    intro k q h8 hq
    rw [hV, S3 k q (by omega)]
    have EG : Emitted S (gen S HALT) (sel_return i + 1 + (L + 3)) 1 := by
      rw [gen_eq S HALT (by rw [E.code, E.dict, sdi]; omega)]
      exact (emit_spec 1 S HALT _ _ E.code (by omega) (by rw [E.dict, sdi]; omega)).1
    exact EG.frame k q h8 (Or.inl hq)
  have BD : ∀ k q, 8 ≤ q → q + k ≤ sel_return i + 1 →
      fetch_bytes k (rewound (sel_return i + 1) S).the_store q =
        fetch_bytes k D.the_store q := by
    intro k q h8 hq
    rw [BS k q h8 (by omega), E.frame k q h8 (Or.inl hq), sst]
  have cV : (rewound (sel_return i + 1) S).complaint = none := by
    rw [hV]
    exact EH.complaint.trans sc
  have dV : dict_idx (rewound (sel_return i + 1) S) = 4064 := by
    rw [hV, S2, EH.dict, sdi]
  have eS : code_idx S = sel_return i + 1 + L + 3 := by rw [E.code]; omega
  obtain ⟨hregs, V', h3, hval, OH', c', -, -, -, -, -, -⟩ := sel_runs n i (a :: rest)
    (sel_return i + 1) (sel_return i + 1 + L) (rewound (sel_return i + 1) S) hn hi hlen hv
    (PA.carried (fun k q h1 h2 => BS k q (by omega) (by omega))) (by omega) (by omega)
    (by rw [fetch_u8_eq, BS 1 _ (by omega) (by omega), ← fetch_u8_eq]; exact OC)
    (by rw [fetch_wX_eq, BS 2 _ (by omega) (by omega), ← fetch_wX_eq]; exact RC)
    (by
      rw [hV, fetch_u8_eq, S3 1 _ (by omega), ← fetch_u8_eq,
        show sel_return i + 1 + L + 3 = sel_return i + 1 + (L + 3) by omega]
      exact OH)
    (by
      unfold get_proc_arity at ra ⊢
      rw [fetch_u8_eq, BD 1 _ (by omega) (by omega), ← fetch_u8_eq]; exact ra)
    (by rw [fetch_u8_eq, BD 1 _ (by omega) (by omega), ← fetch_u8_eq]; exact rbo)
    (fun h => by rw [fetch_u8_eq, BD 1 _ (by omega) (by omega), ← fetch_u8_eq]; exact rbi h)
    (by rw [fetch_u8_eq, BD 1 _ (by omega) (by omega), ← fetch_u8_eq]; exact rbr)
  have e4 : sel_return i + 1 + L + 4 = code_idx S + 1 := by omega
  have e3 : sel_return i + 1 + L + 3 = code_idx S := by omega
  rw [e4] at hregs h3
  rw [e3] at h3 OH'
  -- the command
  have hscr : scratch_expr fuel s = some ((a :: rest).getD i 0, V') := by
    unfold scratch_expr
    rw [hp]
    simp only []
    rw [hpd, sci, ← hV]
    simp only [cV, Option.isSome_none, Bool.false_eq_true, if_false]
    unfold run
    rw [dV, EH.code]
    have ec : sel_return i + 1 + (L + 3 + 1) = code_idx S + 1 := by omega
    rw [ec]
    obtain ⟨m, rfl⟩ : ∃ m, fuel = (n + 3) + (m + 1) := ⟨fuel - (n + 3) - 1, by omega⟩
    rw [run_loop_of_steps (code_idx S + 1) (n + 3) (m + 1) _ _ _ _ _ _ _ _ h3,
      run_halt m _ _ _ _ _ OH', hval]
  refine ⟨S, V', hp, hscr, c'.trans cV, ?_, ?_, hregs, V', h3, hval⟩
  · unfold cursors
    rw [rci, rdi]
  · have : code_idx S - 3 = sel_return i + 1 + L := by omega
    rw [this]
    exact OC

/-- Claim C36. Parameters are bound positionally and a call returns cleanly:
for every `n` in `1..16` and every `i < n`, in the state left by
`fun sel p0 ... p(n-1) = p_i` when the name `sel` of a call has been read, and
for all decimal literals `a0 ... a(n-1)` that follow as its arguments, the
call compiles, with `CALL` as its last instruction, and evaluates to `a_i`
with no complaint. The run starts at `code_idx` with `sp = bp = 4064`; after
`n + 2` instructions it is at the `RETURN` of `sel` with `bp` at the cell of
the first argument, 4060, and the `RETURN` restores `bp = 4064`, resumes at
the instruction after the operand of the `CALL`, and leaves `sp = 4060`: the
`n` argument cells have become the one cell of the result, which is `a_i`. -/
theorem C36_parameters_are_positional (n i : Nat) (args : List Nat) (fuel : Nat)
    (hn1 : 1 ≤ n) (hn : n ≤ 16) (hi : i < n) (hlen : args.length = n)
    (hv : ∀ a ∈ args, a < 2147483648) (hfuel : 60 ≤ fuel) :
    ∃ S s', parse_expr fuel (-1) (sel_call n i args) = some S ∧
      scratch_expr fuel (sel_call n i args) = some (args.getD i 0, s') ∧
      s'.complaint = none ∧
      cursors (sel_called n i) = (sel_return i + 1, 4064) ∧
      fetch_u8 S.the_store (code_idx S - 3) = CALL ∧
      (run_steps (code_idx S + 1) (n + 2) (sel_return i + 1) 4064 4064
          (rewound (sel_return i + 1) S)).regs =
        some (sel_return i, 4064 - 4 * n - 8, 4060, RETURN) ∧
      ∃ V', run_steps (code_idx S + 1) (n + 3) (sel_return i + 1) 4064 4064
            (rewound (sel_return i + 1) S) = Step.next (code_idx S) 4060 4064 V' ∧
        fetch_wV V'.the_store 4060 = args.getD i 0 := by
  unfold sel_call
  exact sel_evaluates n i (sel_called n i) args fuel (sel_ready_all n i hn hi) hn1 hn hi hlen hv
    hfuel

set_option maxRecDepth 1000000 in
/-- An instance of claim C36: after `fun sel p0 p1 p2 = p1` the call
`sel 7 8 9` evaluates to 8. The state the claim is stated for is the state
of the session that has the call on its second line, and the two commands
typed at the prompt give 8 as well; so it is with the sixteen parameters of
`fun sel p0 ... p15 = p15` and the call `sel 1 2 ... 16`, which gives 16. -/
theorem C36_sel_7_8_9 :
    ((1 ≤ 3 ∧ 3 ≤ 16 ∧ 1 < 3 ∧ [7, 8, 9].length = 3 ∧ 60 ≤ 60) ∧
      (∀ a ∈ [7, 8, 9], a < 2147483648)) ∧
    (sel_definition 3 1 = bytes_of "fun sel p0 p1 p2 = p1\n" ∧
      args_text [7, 8, 9] = bytes_of "7 8 9\n") ∧
    (∃ s', scratch_expr 60 (sel_call 3 1 [7, 8, 9]) = some (8, s') ∧ s'.complaint = none) ∧
    ((state_of (repl_after 60 (bytes_of "fun sel p0 p1 p2 = p1\nsel 7 8 9\n") 1)).fields ==
      (sel_call 3 1 [7, 8, 9]).fields) = true ∧
    command_value 60 (bytes_of "fun sel p0 p1 p2 = p1\nsel 7 8 9\n") 1 = some 8 ∧
    ((state_of (repl_after 60 (sel_definition 16 15 ++
        bytes_of "sel 1 2 3 4 5 6 7 8 9 10 11 12 13 14 15 16\n") 1)).fields ==
      (sel_call 16 15 [1, 2, 3, 4, 5, 6, 7, 8, 9, 10, 11, 12, 13, 14, 15, 16]).fields) = true ∧
    command_value 60 (sel_definition 16 15 ++
      bytes_of "sel 1 2 3 4 5 6 7 8 9 10 11 12 13 14 15 16\n") 1 = some 16 :=
  have hv : ∀ a ∈ [7, 8, 9], a < 2147483648 := by decide
  have h1 : ((state_of (repl_after 60 (bytes_of "fun sel p0 p1 p2 = p1\nsel 7 8 9\n") 1)).fields ==
      (sel_call 3 1 [7, 8, 9]).fields) = true := by decide!
  have h2 : command_value 60 (bytes_of "fun sel p0 p1 p2 = p1\nsel 7 8 9\n") 1 = some 8 := by
    decide!
  have h3 : ((state_of (repl_after 60 (sel_definition 16 15 ++
        bytes_of "sel 1 2 3 4 5 6 7 8 9 10 11 12 13 14 15 16\n") 1)).fields ==
      (sel_call 16 15 [1, 2, 3, 4, 5, 6, 7, 8, 9, 10, 11, 12, 13, 14, 15, 16]).fields) = true := by
    decide!
  have h4 : command_value 60 (sel_definition 16 15 ++
      bytes_of "sel 1 2 3 4 5 6 7 8 9 10 11 12 13 14 15 16\n") 1 = some 16 := by
    decide!
  match C36_parameters_are_positional 3 1 [7, 8, 9] 60 (by decide) (by decide) (by decide)
    (by decide) hv (by decide) with
  | ⟨_, s', _, hs, hc, _⟩ =>
    ⟨⟨by decide, hv⟩, ⟨by decide, by decide⟩, ⟨s', hs, hc⟩, h1, h2, h3, h4⟩

/-! ## Claim C37: a failed `let` -/

set_option maxRecDepth 1000000 in
/-- Claim C37 at the failing input. At the first prompt the cursors are 21
and 4070 and `x` is not bound. The command `let x = y`, `y` being unknown,
ends with `Unknown identifier` latched; after it the cursors are 25 and 4066,
`x` is bound by the header at 4066 to the cell at 21, which holds 0, and the
command `x` prints 0. -/
theorem C37_failed_let_keeps_the_name :
    (repl_after 40 let_x_unknown 0).map (fun t =>
        (cursors t, lookup t.the_store (dict_idx t) store_capacity (bytes_of "x"))) =
      some ((21, 4070), none) ∧
    command_result 40 let_x_unknown 0 =
      some (some "Unknown identifier", bytes_of "Unknown identifier\r\n") ∧
    (repl_after 40 let_x_unknown 1).map (fun t =>
        (cursors t, lookup t.the_store (dict_idx t) store_capacity (bytes_of "x"),
          get_header_kind t.the_store 4066, get_header_binding t.the_store 4066,
          fetch_wV t.the_store 21)) =
      some ((25, 4066), some 4066, a_global, 21, 0) ∧
    command_result 40 let_x_unknown 1 = some (none, bytes_of "0\n") := by
  decide!

/-! ## Claim C38: a command that fails to compile -/

theorem lex_string_ends_in (fuel : Nat) : ∀ (p : Nat) (s s' : State),
    lex_string fuel p s = some s' → s'.token = 39 ∨ s'.token = EOF ∨ s'.token = 10 := by
  induction fuel with
  | zero => intro p s s' h; cases h
  | succ f ih =>
    intro p s s' h
    rw [lex_string] at h
    generalize ch s = r at h
    obtain ⟨c, s1⟩ := r
    simp only [] at h
    split_ifs at h
    · cases h
      exact Or.inl rfl
    · cases h
      exact Or.inr (Or.inl rfl)
    · generalize ha : available s1 (p + 2 - code_idx s1) = r2 at h
      obtain ⟨b, s2⟩ := r2
      cases b with
      | false =>
        cases h
        exact Or.inr (Or.inr rfl)
      | true => exact ih (p + 1) _ _ h

/-- A token that is neither a string nor the end of a line or of the input
is read without a store. -/
theorem next_plain (fuel : Nat) : ∀ (s s' : State), next fuel s = some s' →
    s'.token ≠ 39 → s'.token ≠ 10 → s'.token ≠ EOF → s'.the_store = s.the_store := by
  induction fuel with
  | zero => intro s s' h; cases h
  | succ f ih =>
    intro s s' h t1 t2 t3
    have hst := ch_store s
    rw [next] at h
    generalize ch s = r at h hst
    obtain ⟨c, s1⟩ := r
    simp only [] at h hst
    split_ifs at h
    · exact (lex_number_store f _ _ h).trans hst
    · generalize hl : lex_ident f [] s1 = r2 at h
      cases r2 with
      | none => cases h
      | some q =>
        obtain ⟨name, s2⟩ := q
        cases h
        exact (lex_ident_store f _ _ _ _ hl).trans hst
    · rcases lex_string_ends_in f _ _ _ h with e | e | e
      · exact absurd e t1
      · exact absurd e t3
      · exact absurd e t2
    · cases h
      exact (next_char_store _).trans hst
    · rw [ih _ _ h t1 t2 t3, next_char_store, hst]
    · generalize hl : skip_line f s1 = r2 at h
      cases r2 with
      | none => cases h
      | some s2 =>
        simp only [] at h
        rw [ih _ _ h t1 t2 t3, skip_line_store f _ _ hl, hst]
    · cases h
      exact absurd rfl t2

/-- The prompt's `skip_newline`, when it stops at a token that is neither a
string nor the end of the input, has stored nothing. -/
theorem skip_newline_plain (fuel : Nat) : ∀ (s s' : State), skip_newline fuel s = some s' →
    s'.token ≠ 39 → s'.token ≠ 10 → s'.token ≠ EOF → s'.the_store = s.the_store := by
  induction fuel with
  | zero => intro s s' h; cases h
  | succ f ih =>
    intro s s' h t1 t2 t3
    rw [skip_newline] at h
    split_ifs at h with hx
    · generalize hl : next f s = r at h
      cases r with
      | none => cases h
      | some s1 =>
        simp only [] at h
        have e1 := ih s1 s' h t1 t2 t3
        by_cases hq : s1.complaint.isNone = true ∧ s1.token = 10
        · rw [e1]
          exact (next_end f s s1 hl).2 (by
            cases hc : s1.complaint with
            | none => rfl
            | some m => rw [hc] at hq; exact absurd hq.1 (by simp)) (Or.inl hq.2)
        · have e2 : s' = s1 := by
            cases f with
            | zero => cases h
            | succ g =>
              rw [skip_newline, if_neg hq] at h
              cases h
              rfl
          rw [e2] at t1 t2 t3 ⊢
          exact next_plain f s s1 hl t1 t2 t3
    · cases h
      rfl

theorem set_code_idx_complaint (s : State) (v : Nat) :
    (set_code_idx s v).complaint = s.complaint := rfl

/-- What a `run_let` that ends with no complaint has done, when it is entered
past the cells of the four globals and with the cursors in order: the cell
and the header had room, the initializer compiled and ran, the machine it ran
on had `code_idx` past the cell and `dict_idx` at the header, and from the
header on its store was as `bind` left it. -/
theorem run_let_done (fuel : Nat) (s s' : State) (h16 : 16 ≤ code_idx s)
    (hcd : code_idx s ≤ dict_idx s) (hS : dict_idx s ≤ store_capacity)
    (hl2 : s.token_name.length ≤ 16) (hr : run_let fuel s = some s') (hn : s'.complaint = none) :
    s.token = 97 ∧ code_idx s + 4 + (3 + s.token_name.length) ≤ dict_idx s ∧
    ∃ u e V v V', let_operand fuel s = some u ∧ scratch_machine fuel u = some (e, V) ∧
      run fuel (code_idx V) e V = some (v, V') ∧
      s' = { V' with the_store := write_wV V'.the_store (code_idx s) v } ∧
      V'.complaint = none ∧
      code_idx V = code_idx s + 4 ∧
      dict_idx V = dict_idx s - (3 + s.token_name.length) ∧
      (∀ k q, dict_idx s - (3 + s.token_name.length) ≤ q →
        fetch_bytes k V.the_store q =
          fetch_bytes k (bind (gen_value s 0) s.token_name a_global (code_idx s)).2.the_store
            q) := by
  have hcap : store_capacity = 4096 := rfl
  unfold run_let at hr
  unfold let_operand
  by_cases ht : s.token = 97
  swap
  · rw [expect_neg s 97 _ ht] at hr
    cases hr
    exact absurd (complain_latched s _) (not_latched _ hn)
  rw [expect_pos s 97 _ ht] at hr ⊢
  simp only [] at hr ⊢
  by_cases hav : code_idx s + 4 ≤ dict_idx s
  swap
  · rw [available_no s 4 hav (by omega)] at hr
    cases hr
    exact absurd (complain_latched s _) (not_latched _ hn)
  rw [available_ok s 4 hav] at hr ⊢
  simp only [] at hr ⊢
  have e3 : gen_value s 0 = emit 4 s 0 s.prev_instruc := gen_value_eq s 0 hav
  obtain ⟨em, -, -⟩ := emit_spec 4 s 0 (code_idx s) s.prev_instruc rfl (by omega) hav
  rw [← e3] at em
  generalize hs1 : gen_value s 0 = s1 at hr em ⊢
  have hn1 : s1.token_name = s.token_name := by
    rw [← hs1, e3]
    rfl
  rw [hn1] at hr ⊢
  generalize hb : bind s1 s.token_name a_global (code_idx s) = rb at hr ⊢
  obtain ⟨fb, s2⟩ := rb
  simp only [] at hr ⊢
  cases hx : next fuel s2 with
  | none =>
    try rw [hx] at hr
    cases hr
  | some s3 =>
    try rw [hx] at hr
    try rw [hx]
    simp only [] at hr ⊢
    by_cases t3 : s3.token = 61
    swap
    · rw [expect_neg s3 61 _ t3] at hr
      cases hr
      exact absurd (complain_latched s3 _) (not_latched _ hn)
    rw [expect_pos s3 61 _ t3] at hr ⊢
    simp only [] at hr ⊢
    cases hx4 : next fuel s3 with
    | none =>
      try rw [hx4] at hr
      cases hr
    | some s4 =>
      try rw [hx4] at hr
      try rw [hx4]
      simp only [] at hr ⊢
      unfold scratch_expr at hr
      cases hpe : parse_expr fuel (-1) s4 with
      | none =>
        try rw [hpe] at hr
        cases hr
      | some S =>
        try rw [hpe] at hr
        try rw [hpe]
        simp only [] at hr ⊢
        have hW : set_code_idx (gen (parse_done S) HALT) (code_idx s4) =
            rewound (code_idx s4) S := rfl
        rw [hW] at hr
        by_cases hq : (rewound (code_idx s4) S).complaint.isSome = true
        · rw [if_pos hq] at hr
          cases hr
          exact absurd hq (not_latched _ hn)
        rw [if_neg hq] at hr
        have cW := rewound_code_idx s4 S
        cases hrun : run fuel (code_idx s4) (code_idx (gen (parse_done S) HALT))
            (rewound (code_idx s4) S) with
        | none =>
          try rw [hrun] at hr
          cases hr
        | some pr =>
          obtain ⟨v, V'⟩ := pr
          try rw [hrun] at hr
          simp only [] at hr
          cases hr
          have nW : (rewound (code_idx s4) S).complaint = none := none_of_not_latched _ hq
          have n7 : (gen (parse_done S) HALT).complaint = none := nW
          have n6 := before_gen _ _ n7
          obtain ⟨e6, tok6⟩ := parse_done_none S n6
          rw [e6] at n7 n6
          have n4 := before_parse_expr fuel _ _ S hpe n6
          have n3 := before_next fuel s3 s4 hx4 n4
          have n2 := before_next fuel s2 s3 hx n3
          have hroom : code_idx s1 + (3 + s.token_name.length) ≤ dict_idx s1 := by
            by_contra hno
            rw [bind_refused s1 _ a_global (code_idx s) hno (by rw [em.code]; omega)]
              at hb
            cases hb
            exact absurd (complain_latched s1 _) (not_latched _ n2)
          obtain ⟨t, e, d1, c1, fr, te⟩ :=
            bind_frame s1 s.token_name a_global (code_idx s) hroom (by rw [em.code]; omega)
          rw [hb] at e
          cases e
          rw [em.code, em.dict] at hroom
          rw [em.dict] at d1
          rw [em.code] at c1
          have g2 : Good s2 := ⟨by omega, by omega, by omega⟩
          obtain ⟨-, i2, i3, -, -, i6⟩ := next_spec fuel s2 s3 hx n3 (by omega) (by omega)
            (by omega)
          have st3 : s3.the_store = s2.the_store := i6 (by rw [t3]; decide)
          have g3 : Good s3 := ⟨by omega, by omega, by omega⟩
          obtain ⟨a1, a2, -, -⟩ := next_step fuel s3 s4 hx4 n4 g3 (by rw [t3]; decide)
          have g4 := a1.good g3
          obtain ⟨p1, -, -, -⟩ := (parse_spec fuel).2.2.1 (-1) _ S hpe n6 g4
          have g6 := p1.good g4
          obtain ⟨k1, k2, -, k4, -, k6, -⟩ := gen_step S HALT g6 n7
          have c37 := (a1.seq p1).seq k1
          have pe : pending_end (gen S HALT) = code_idx (gen S HALT) :=
            pending_end_of_ne _ (by
              rw [k4]
              rcases tok6 with tq | tq
              · rw [tq]
                decide
              · rw [tq]
                decide)
          have t37 := c37.touched
          rw [pe] at t37
          have d6 : dict_idx S = dict_idx s3 := by rw [p1.dict, a1.dict]
          obtain ⟨w1, w2, w3⟩ := set_code_idx_spec (gen S HALT) (code_idx s4) (code_idx_lt s4)
          have hV : rewound (code_idx s4) S = set_code_idx (gen S HALT) (code_idx s4) := by
            rw [← hW, e6]
          have hsm : scratch_machine fuel s4 = some (code_idx (gen (parse_done S) HALT),
              rewound (code_idx s4) S) := by
            unfold scratch_machine
            rw [hpe]
            exact if_neg hq
          refine ⟨ht, by omega, s4, _, _, v, V', rfl, hsm, ?_, rfl, hn, ?_, ?_, ?_⟩
          · rw [cW]
            exact hrun
          · rw [cW, a2, i2, c1]
          · rw [hV, w2, c37.dict, i3, d1]
          · intro k q hq
            rw [hV, w3 k q (by omega), t37 k q (by omega) (Or.inr (by omega)), st3]

theorem fetch_bytes_of_block (n m m' p : Nat) (h : fetch_bytes n m' p = fetch_bytes n m p)
    (k q : Nat) (h1 : p ≤ q) (h2 : q + k ≤ p + n) :
    fetch_bytes k m' q = fetch_bytes k m q := by
  have e := congrArg (fun x => fetch_bytes k x (q - p)) h
  simp only [] at e
  rw [fetch_bytes_fetch_bytes k n m' p (q - p) (by omega),
    fetch_bytes_fetch_bytes k n m p (q - p) (by omega)] at e
  rw [show p + (q - p) = q by omega] at e
  exact e

/-- What `same_block` says, byte by byte. -/
theorem same_block_spec (lo hi m m' : Nat) (h : same_block lo hi m m' = true) :
    (∀ k q, q + k ≤ 8 → fetch_bytes k m' q = fetch_bytes k m q) ∧
    (∀ k q, lo ≤ q → q + k ≤ hi → fetch_bytes k m' q = fetch_bytes k m q) := by
  simp only [same_block, Bool.and_eq_true, beq_iff_eq] at h
  exact ⟨fun k q hq => fetch_bytes_of_block 8 m m' 0 h.1 k q (by omega) (by omega),
    fun k q h1 h2 => fetch_bytes_of_block (hi - lo) m m' lo h.2 k q h1 (by omega)⟩

theorem cursors_of_cells (s s' : State)
    (h : ∀ k q, q + k ≤ 8 → fetch_bytes k s'.the_store q = fetch_bytes k s.the_store q) :
    code_idx s' = code_idx s ∧ dict_idx s' = dict_idx s := by
  simp only [code_idx, dict_idx, fetch_wV_eq]
  exact ⟨h 4 0 (by omega), h 4 4 (by omega)⟩

/-- The search of `lookup` that finds the header `h` reads the store from
`dict` up to the end of the name of `h` only. -/
theorem lookup_loop_upto (m m' : Nat) (name : List Nat) (end_ d0 hi : Nat)
    (hf : ∀ k q, d0 ≤ q → q + k ≤ hi → fetch_bytes k m' q = fetch_bytes k m q) (fuel : Nat) :
    ∀ dict h, d0 ≤ dict → lookup_loop m name end_ fuel dict = some h →
      h + 3 + name.length ≤ hi → lookup_loop m' name end_ fuel dict = some h := by
  induction fuel with
  | zero => intro dict h _ hl; cases hl
  | succ f ih =>
    intro dict h hd hl hh
    have hge := (lookup_loop_ge m name end_ (f + 1) dict h hl).1
    have e1 : get_header_name_length m' dict = get_header_name_length m dict := by
      simp only [get_header_name_length, fetch_u8_eq]
      rw [hf 1 (dict + 2) (by omega) (by omega)]
    rw [lookup_loop] at hl ⊢
    split_ifs at hl with h1 h2
    · cases hl
      have e2 : fetch_bytes name.length m' (dict + sizeof_Header) =
          fetch_bytes name.length m (dict + sizeof_Header) :=
        hf _ _ (by omega) (by simp only [sizeof_Header]; omega)
      rw [if_pos h1, e1, e2, if_pos h2]
    · have hnx := (lookup_loop_ge m name end_ f _ h hl).1
      simp only [next_header, sizeof_Header, get_header_name_length] at hnx
      have e2 : fetch_bytes name.length m' (dict + sizeof_Header) =
          fetch_bytes name.length m (dict + sizeof_Header) :=
        hf _ _ (by omega) (by simp only [sizeof_Header]; omega)
      have e3 : next_header m' dict = next_header m dict := by
        simp only [next_header, e1]
      rw [if_pos h1, e1, e2, if_neg h2, e3]
      exact ih _ h (by simp only [next_header]; omega) hl hh

theorem lookup_upto (m m' : Nat) (name : List Nat) (dict end_ hi h : Nat)
    (hf : ∀ k q, dict ≤ q → q + k ≤ hi → fetch_bytes k m' q = fetch_bytes k m q)
    (hl : lookup m dict end_ name = some h) (hh : h + 3 + name.length ≤ hi) :
    lookup m' dict end_ name = some h :=
  lookup_loop_upto m m' name end_ dict hi hf _ dict h (Nat.le_refl _) hl hh

theorem set_dict_idx_code (s : State) (v : Nat) : code_idx (set_dict_idx s v) = code_idx s := by
  simp only [code_idx, set_dict_idx, fetch_wV_eq, write_wV_eq]
  rw [fetch_bytes_write_bytes_disjoint _ _ _ _ _ _ (by omega)]

/-- The cursors after a `run_fun` that ends with no complaint: `code_idx` has
not decreased and is at most `dict_idx`. -/
theorem run_fun_cursors (fuel : Nat) (s s' : State) (h16 : 16 ≤ code_idx s)
    (hcd : code_idx s ≤ dict_idx s) (hS : dict_idx s ≤ store_capacity)
    (hl2 : s.token_name.length ≤ 16) (hr : run_fun fuel s = some s')
    (hn : s'.complaint = none) :
    code_idx s ≤ code_idx s' ∧ code_idx s' ≤ dict_idx s' := by
  have hcap : store_capacity = 4096 := rfl
  unfold run_fun at hr
  by_cases ht : s.token = 97
  · rw [expect_pos s 97 _ ht] at hr
    simp only [] at hr
    by_cases hroom : code_idx s + (3 + s.token_name.length) ≤ dict_idx s
    · obtain ⟨t, e, d1, c1, fr, te⟩ :=
        bind_frame s s.token_name a_procedure (code_idx s) hroom (by omega)
      rw [e] at hr
      simp only [] at hr
      cases hx : next fuel t with
      | none =>
        rw [hx] at hr
        cases hr
      | some s2 =>
        rw [hx] at hr
        simp only [] at hr
        have hr1 := restore_ok _ _ _ _ hr hn
        cases hbp : bind_parameters fuel 0 s2 with
        | none =>
          rw [hbp] at hr1
          cases hr1
        | some pr =>
          obtain ⟨arity, s3⟩ := pr
          rw [hbp] at hr1
          simp only [] at hr1
          by_cases t3 : s3.token = 61
          · rw [expect_pos s3 61 _ t3] at hr1
            simp only [] at hr1
            cases hx4 : next fuel s3 with
            | none =>
              rw [hx4] at hr1
              cases hr1
            | some s4 =>
              rw [hx4] at hr1
              simp only [] at hr1
              cases hpe : parse_expr fuel (-1) (gen_ubyte s4 arity) with
              | none =>
                rw [hpe] at hr1
                cases hr1
              | some s6 =>
                rw [hpe] at hr1
                cases hr1
                have n7 : (gen (parse_done s6) RETURN).complaint = none := hn
                have n6' := before_gen _ _ n7
                obtain ⟨e6, tok6⟩ := parse_done_none s6 n6'
                rw [e6] at n7 n6' ⊢
                have n5 := before_parse_expr fuel _ _ s6 hpe n6'
                have n4 := before_gen_ubyte s4 arity n5
                have n3 := before_next fuel s3 s4 hx4 n4
                have gt : Good t := ⟨by omega, by omega, by omega⟩
                have c2 := next_code_idx fuel t s2 (by omega) hx
                have d2 := next_dict_idx fuel t s2 (by omega) hx
                have tn : t.token_name = s.token_name := by
                  rw [te]
                obtain ⟨j1, j2, j3, j4, j5, j6⟩ := bind_parameters_spec fuel 0 s2 arity s3 hbp
                  n3 t3 (good_next fuel t s2 hx gt) (by omega)
                  (next_name_length fuel t s2 hx (by rw [tn]; exact hl2))
                have tu : s2.token ≠ 39 := by
                  rcases j2 with j2 | j2
                  · rw [j2]
                    decide
                  · rw [← j2, t3]
                    decide
                obtain ⟨i1, -, -, -, -, i6⟩ := next_spec fuel t s2 hx j1 (by omega) (by omega)
                  (by omega)
                have sc : s.complaint = none := by
                  rw [te] at i1
                  exact i1
                have g3 : Good s3 := ⟨by omega, by omega, by omega⟩
                obtain ⟨a1, a2, -, -⟩ := next_step fuel s3 s4 hx4 n4 g3 (by rw [t3]; decide)
                have g4 := a1.good g3
                obtain ⟨b1, b2, -, b4, -⟩ := gen_ubyte_step s4 arity g4 n5
                have g5 := b1.good g4
                obtain ⟨p1, p2, -, -⟩ := (parse_spec fuel).2.2.1 (-1) _ s6 hpe n6' g5
                have g6 := p1.good g5
                obtain ⟨k1, k2, -, k4, -, k6, -⟩ := gen_step s6 RETURN g6 n7
                have c37 := ((a1.seq b1).seq p1).seq k1
                have d6 : dict_idx s6 = dict_idx s3 := by
                  rw [p1.dict, b1.dict, a1.dict]
                have pe : pending_end (gen s6 RETURN) = code_idx (gen s6 RETURN) :=
                  pending_end_of_ne _ (by
                    rw [k4]
                    rcases tok6 with tq | tq
                    · rw [tq]
                      decide
                    · rw [tq]
                      decide)
                have t37 := c37.touched
                rw [pe] at t37
                obtain ⟨sd1, sd2⟩ := set_dict_idx_spec (gen s6 RETURN) (dict_idx s2 % 65536)
                  (by omega)
                have cs : code_idx (set_dict_idx (gen s6 RETURN) (dict_idx s2 % 65536)) =
                    code_idx (gen s6 RETURN) := set_dict_idx_code _ _
                have hc := c37.code
                rw [cs, sd1, Nat.mod_eq_of_lt (by omega)]
                exact ⟨by omega, by omega⟩
          · rw [expect_neg s3 61 _ t3] at hr1
            cases hr1
            exact absurd (complain_latched s3 _) (not_latched _ hn)
    · rw [bind_refused s s.token_name a_procedure (code_idx s) hroom (by omega)] at hr
      simp only [] at hr
      cases hx : next fuel (complain s "Store exhausted") with
      | none =>
        rw [hx] at hr
        cases hr
      | some s2 =>
        rw [hx] at hr
        simp only [] at hr
        have l2 := (next_end fuel _ s2 hx).1 (complain_latched s _)
        rw [if_pos l2] at hr
        cases hr
        exact absurd l2 (not_latched _ hn)
  · rw [expect_neg s 97 _ ht] at hr
    cases hr
    exact absurd (complain_latched s _) (not_latched _ hn)

theorem skip_newline_idle (fuel : Nat) (s : State) (h : s.token ≠ 10) :
    skip_newline (fuel + 1) s = some s := by
  rw [skip_newline, if_neg]
  rintro ⟨-, e⟩
  exact h e

/-- What a definition that ends with no complaint has done, when it is run
with the cursors in order and past the cells of the four globals: it has
pushed the header of its name, whose binding is the `code_idx` it started
with, `code_idx` has not decreased and is at most `dict_idx`, and the bytes
of `[dict_idx, d)` are as they were. -/
theorem definition_done (fuel d : Nat) (n : List Nat) (s s' : State)
    (h16 : 16 ≤ code_idx s) (hcd : code_idx s ≤ dict_idx s) (hd : dict_idx s ≤ d)
    (hS : d ≤ store_capacity) (hdef : defines fuel d n s)
    (hr : run_command fuel true s = some s') :
    s'.complaint = none ∧ 1 ≤ n.length ∧ code_idx s ≤ code_idx s' ∧
    code_idx s' ≤ dict_idx s' ∧ dict_idx s' + (3 + n.length) = dict_idx s ∧
    get_header_binding s'.the_store (dict_idx s') = code_idx s ∧
    get_header_name_length s'.the_store (dict_idx s') = n.length ∧
    fetch_bytes n.length s'.the_store (dict_idx s' + 3) = pack n ∧
    (∀ k q, dict_idx s ≤ q → q + k ≤ d →
      fetch_bytes k s'.the_store q = fetch_bytes k s.the_store q) := by
  have hcap : store_capacity = 4096 := rfl
  obtain ⟨htok, hname, hquiet, hkept⟩ := hdef
  have hn : s'.complaint = none := by
    rw [hr] at hquiet
    exact Option.some.inj hquiet
  cases fuel with
  | zero => cases hr
  | succ f =>
    have hsk : skip_newline (f + 1) s = some s := skip_newline_idle f s (by
      rcases htok with e | e <;> rw [e] <;> decide)
    cases hnx : next (f + 1) s with
    | none =>
      rw [hnx] at hname
      cases hname
    | some t =>
      rw [hnx] at hname
      have tn : t.token_name = n := Option.some.inj hname
      have ct := next_code_idx (f + 1) s t (by omega) hnx
      have dt := next_dict_idx (f + 1) s t (by omega) hnx
      unfold run_command at hr
      rw [hsk] at hr
      simp only [] at hr
      rcases htok with hf | hf
      · rw [if_pos hf, hnx] at hr
        simp only [] at hr
        cases hx : run_fun (f + 1) t with
        | none =>
          rw [hx] at hr
          cases hr
        | some u =>
          rw [hx] at hr
          simp only [] at hr
          have hu : u = s' := run_command_quiet (f + 1) u s' hr hn
          rw [hu] at hx
          have ht : t.token = 97 := by
            by_contra hne
            unfold run_fun at hx
            rw [expect_neg t 97 _ hne] at hx
            cases hx
            exact absurd (complain_latched t _) (not_latched _ hn)
          obtain ⟨l1, l2⟩ := next_ident (f + 1) s t hnx ht
          have hst : t.the_store = s.the_store :=
            next_plain (f + 1) s t hnx (by rw [ht]; decide) (by rw [ht]; decide)
              (by rw [ht]; decide)
          obtain ⟨b1, -, b3, b4, b5, -, -⟩ :=
            run_fun_binds (f + 1) t s' (by omega) (by omega) (by omega) l1 l2 hx hn
          obtain ⟨-, -, hroom, hd', fr⟩ :=
            run_fun_done (f + 1) t s' (by omega) (by omega) (by omega) l2 hx hn
          obtain ⟨q1, q2⟩ :=
            run_fun_cursors (f + 1) t s' (by omega) (by omega) (by omega) l2 hx hn
          obtain ⟨t2, e, -, -, fb, -⟩ := bind_frame t t.token_name a_procedure (code_idx t) hroom
            (by omega)
          rw [e] at fr
          simp only [] at fr
          rw [tn] at l1 b1 b4 b5 fr hroom
          rw [ct] at b3 q1
          rw [dt] at b1 fr hroom
          refine ⟨hn, l1, q1, q2, b1, b3, b4, b5, ?_⟩
          intro k q hq _
          rw [fr k q (by omega), fb k q (by omega) (Or.inr (by omega)), hst]
      · have h102 : ¬ s.token = 102 := by rw [hf]; decide
        rw [if_neg h102, if_pos hf, hnx] at hr
        simp only [] at hr
        cases hx : run_let (f + 1) t with
        | none =>
          rw [hx] at hr
          cases hr
        | some u =>
          rw [hx] at hr
          simp only [] at hr
          have hu : u = s' := run_command_quiet (f + 1) u s' hr hn
          rw [hu] at hx
          have ht : t.token = 97 := by
            by_contra hne
            unfold run_let at hx
            rw [expect_neg t 97 _ hne] at hx
            cases hx
            exact absurd (complain_latched t _) (not_latched _ hn)
          obtain ⟨l1, l2⟩ := next_ident (f + 1) s t hnx ht
          have hst : t.the_store = s.the_store :=
            next_plain (f + 1) s t hnx (by rw [ht]; decide) (by rw [ht]; decide)
              (by rw [ht]; decide)
          obtain ⟨-, hroom, u4, e, V, v, V', lo, sm, hrun, es, nV, cV, dV, fV⟩ :=
            run_let_done (f + 1) t s' (by omega) (by omega) (by omega) l2 hx hn
          have hm : command_machine (f + 1) s = some (e, V) := by
            unfold command_machine
            rw [hsk]
            simp only []
            rw [if_neg (by rw [hf]; decide), if_pos hf, hnx]
            show (let_operand (f + 1) t).bind (scratch_machine (f + 1)) = some (e, V)
            rw [lo]
            exact sm
          have hk := hkept e V (v, V') hm hrun
          obtain ⟨k1, k2⟩ := same_block_spec _ _ _ _ hk
          obtain ⟨cc, cd⟩ := cursors_of_cells V V' k1
          simp only [tn, ct, dt] at hroom cV dV fV
          rw [tn] at l1 l2
          rw [ct] at es
          have hav : code_idx s + 4 ≤ dict_idx s := by omega
          have e3 : gen_value t 0 = emit 4 t 0 t.prev_instruc :=
            gen_value_eq t 0 (by rw [ct, dt]; exact hav)
          obtain ⟨em, -, -⟩ := emit_spec 4 t 0 (code_idx t) t.prev_instruc rfl (by omega)
            (by rw [ct, dt]; exact hav)
          rw [← e3, ct] at em
          have emd := em.dict
          rw [dt] at emd
          obtain ⟨t2, eb, -, -, fb, b4, b5, b6, b7, -⟩ :=
            bind_ok (gen_value t 0) n a_global (code_idx s) (by rw [em.code, emd]; omega)
              (by rw [em.code]; omega) l1 l2 (by decide) (by omega)
          rw [eb] at fV
          simp only [] at fV
          rw [emd] at fb b4 b5 b6 b7
          generalize hH : dict_idx s - (3 + n.length) = h at *
          have hh : h + (3 + n.length) = dict_idx s := by omega
          have cs : code_idx s' = code_idx V' ∧ dict_idx s' = dict_idx V' := by
            rw [es]
            have := cur_write_wV V' (code_idx s) v (by omega)
            simp only [cursors, Prod.mk.injEq] at this
            exact this
          have fs : ∀ k q, h ≤ q → q + k ≤ d →
              fetch_bytes k s'.the_store q = fetch_bytes k t2.the_store q := by
            intro k q h1 h2
            rw [es]
            show fetch_bytes k (write_wV V'.the_store (code_idx s) v) q = _
            rw [write_wV_eq, fetch_bytes_write_bytes_disjoint _ _ _ _ _ _ (by omega),
              k2 k q (by omega) h2, fV k q h1]
          have ds : dict_idx s' = h := by rw [cs.2, cd, dV]
          refine ⟨hn, l1, by rw [cs.1, cc, cV]; omega, by rw [cs.1, cc, cV, ds]; omega,
            by rw [ds]; exact hh, ?_, ?_, ?_, ?_⟩
          · rw [ds, ← b6]
            simp only [get_header_binding, fetch_wX_eq]
            exact fs 2 h (by omega) (by omega)
          · rw [ds, ← b5]
            simp only [get_header_name_length, fetch_u8_eq]
            rw [fs 1 (h + 2) (by omega) (by omega)]
          · rw [ds, ← b7]
            exact fs _ _ (by omega) (by omega)
          · intro k q h1 h2
            rw [fs k q (by omega) h2, fb k q (by omega) (Or.inr h1),
              em.frame k q (by omega) (Or.inr (by omega)), hst]

/-- The first definition: after it the header of `name` is in the dictionary
as it was made. -/
theorem defined_first (fuel c d : Nat) (name : List Nat) (s s' : State)
    (hcur : cursors s = (c, d)) (h16 : 16 ≤ c) (hcd : c ≤ d) (hS : d ≤ store_capacity)
    (hdef : defines fuel d name s) (hr : run_command fuel true s = some s') :
    Defined c d name s' := by
  have hcap : store_capacity = 4096 := rfl
  simp only [cursors, Prod.mk.injEq] at hcur
  obtain ⟨ec, ed⟩ := hcur
  obtain ⟨a1, a2, a3, a4, a5, a6, a7, a8, -⟩ := definition_done fuel d name s s'
    (by omega) (by omega) (by omega) hS hdef hr
  have hh : d - (3 + name.length) = dict_idx s' := by omega
  unfold Defined
  rw [hh]
  exact ⟨by omega, a4, by omega, hS, a1, lookup_first _ _ _ _ (by omega) a7 a8, by rw [a6, ec],
    a7⟩

/-- A further definition, of another name, keeps the header of `name`. -/
theorem defined_kept (fuel c d : Nat) (name n : List Nat) (s s' : State)
    (hD : Defined c d name s) (hne : n.length = name.length → pack n ≠ pack name)
    (hdef : defines fuel d n s) (hr : run_command fuel true s = some s') :
    Defined c d name s' := by
  have hcap : store_capacity = 4096 := rfl
  obtain ⟨d1, d2, d3, d4, -, d6, d7, d8⟩ := hD
  obtain ⟨a1, a2, a3, a4, a5, a6, a7, a8, a9⟩ := definition_done fuel d n s s'
    d1 d2 (by omega) d4 hdef hr
  have hmis : ¬ (get_header_name_length s'.the_store (dict_idx s') = name.length ∧
      fetch_bytes name.length s'.the_store (dict_idx s' + sizeof_Header) = pack name) := by
    rintro ⟨e1, e2⟩
    rw [a7] at e1
    have e3 := hne e1
    rw [← e1] at e2
    exact e3 (a8.symm.trans e2)
  have hnx : next_header s'.the_store (dict_idx s') = dict_idx s := by
    simp only [next_header, a7, sizeof_Header]
    omega
  refine ⟨by omega, a4, by omega, d4, a1, ?_, ?_, ?_⟩
  · rw [lookup_skip _ _ store_capacity name hmis (by omega), hnx]
    exact lookup_upto _ _ name _ _ d _ a9 d6 (by omega)
  · refine Eq.trans ?_ d7
    simp only [get_header_binding, fetch_wX_eq]
    exact a9 2 _ (by omega) (by omega)
  · refine Eq.trans ?_ d8
    simp only [get_header_name_length, fetch_u8_eq]
    rw [a9 1 _ (by omega) (by omega)]

/-- The prompt that follows a command, when the next command starts with a
keyword, keeps the header of `name`. -/
theorem defined_prompt (fuel c d : Nat) (name : List Nat) (s s' : State) (o : List Nat)
    (hD : Defined c d name s) (hk : skip_newline fuel { s with out := o } = some s')
    (ht : s'.token = 102 ∨ s'.token = 108 ∨ s'.token = 111) :
    Defined c d name { s' with complaint := none } := by
  have hst : s'.the_store = s.the_store :=
    skip_newline_plain fuel { s with out := o } s' hk (by rcases ht with e | e | e <;> rw [e] <;> decide)
      (by rcases ht with e | e | e <;> rw [e] <;> decide)
      (by rcases ht with e | e | e <;> rw [e] <;> decide)
  obtain ⟨d1, d2, d3, d4, -, d6, d7, d8⟩ := hD
  have hc : code_idx { s' with complaint := none } = code_idx s := code_idx_of_store _ _ hst
  have hd : dict_idx { s' with complaint := none } = dict_idx s := dict_idx_of_store _ _ hst
  refine ⟨by rw [hc]; exact d1, by rw [hc, hd]; exact d2, by rw [hd]; exact d3, d4, rfl, ?_, ?_,
    ?_⟩
  · rw [hd]
    show lookup s'.the_store _ _ _ = _
    rw [hst]
    exact d6
  · show get_header_binding s'.the_store _ = _
    rw [hst]
    exact d7
  · show get_header_name_length s'.the_store _ = _
    rw [hst]
    exact d8

/-- The `forget` of `name`, when it ends with no complaint, sets the cursors
back to those of the definition. -/
theorem defined_forget (fuel c d : Nat) (name : List Nat) (s t s' : State)
    (hD : Defined c d name s) (ht : s.token = 111) (hnx : next fuel s = some t)
    (hname : t.token_name = name) (hr : run_command fuel true s = some s')
    (hn : s'.complaint = none) : cursors s' = (c, d) := by
  have hcap : store_capacity = 4096 := rfl
  obtain ⟨d1, d2, d3, d4, -, d6, d7, d8⟩ := hD
  cases fuel with
  | zero => cases hr
  | succ f =>
    have hsk : skip_newline (f + 1) s = some s := skip_newline_idle f s (by rw [ht]; decide)
    unfold run_command at hr
    rw [hsk] at hr
    simp only [] at hr
    rw [if_neg (by rw [ht]; decide), if_neg (by rw [ht]; decide), if_pos ht, hnx] at hr
    simp only [] at hr
    cases hx : run_forget (f + 1) t with
    | none =>
      rw [hx] at hr
      cases hr
    | some u =>
      rw [hx] at hr
      simp only [] at hr
      have hu : u = s' := run_command_quiet (f + 1) u s' hr hn
      rw [hu] at hx
      have h97 : t.token = 97 := by
        by_contra hne
        unfold run_forget at hx
        rw [expect_neg t 97 _ hne] at hx
        cases hx
        exact absurd (complain_latched t _) (not_latched _ hn)
      have hst : t.the_store = s.the_store :=
        next_plain (f + 1) s t hnx (by rw [h97]; decide) (by rw [h97]; decide)
          (by rw [h97]; decide)
      obtain ⟨h, hl, -, -, -, hs'⟩ := run_forget_ok (f + 1) t s' hx hn
      rw [hname, dict_idx_of_store s t hst, hst, d6] at hl
      cases hl
      rw [hst, d7] at hs'
      have hnh : next_header s.the_store (d - (3 + name.length)) = d := by
        simp only [next_header, d8, sizeof_Header]
        omega
      rw [hnh] at hs'
      obtain ⟨g1, g2, -⟩ := forget_cursors s.the_store c d (by
        have := d7
        simp only [get_header_binding] at this
        have := fetch_bytes_lt 2 s.the_store (d - (3 + name.length))
        rw [← fetch_wX_eq] at this
        have e : (1 : Nat) <<< (8 * 2) = 65536 := by decide
        omega) (by omega)
      simp only [cursors, code_idx, dict_idx, hs', Prod.mk.injEq]
      exact ⟨g1, g2⟩

theorem defined_turn (fuel c d : Nat) (name : List Nat) (s s1 : State)
    (hturn : repl_turn fuel s = some s1)
    (ht : s1.token = 102 ∨ s1.token = 108 ∨ s1.token = 111)
    (hstep : ∀ s', run_command fuel true s = some s' → Defined c d name s') :
    Defined c d name s1 := by
  unfold repl_turn at hturn
  cases hr : run_command fuel true s with
  | none =>
    rw [hr] at hturn
    cases hturn
  | some s' =>
    rw [hr] at hturn
    simp only [] at hturn
    cases hk : skip_newline fuel { s' with out := s'.out ++ bytes_of "> " } with
    | none =>
      rw [hk] at hturn
      cases hturn
    | some s'' =>
      rw [hk] at hturn
      cases hturn
      exact defined_prompt fuel c d name s' s'' _ (hstep s' hr) hk ht

theorem repl_after_succ (fuel : Nat) (script : List Nat) (k : Nat) (s s1 : State)
    (h : repl_after fuel script k = some s) (h1 : repl_after fuel script (k + 1) = some s1) :
    repl_turn fuel s = some s1 := by
  rw [repl_after, h] at h1
  exact h1

/-- The header of `name` is in the dictionary after any number of further
definitions of other names. -/
theorem defined_chain (fuel : Nat) (script : List Nat) (a : Nat) (name : List Nat) (c d : Nat)
    (sa : State) (ha : repl_after fuel script a = some sa) (hcur : cursors sa = (c, d))
    (h16 : 16 ≤ c) (hcd : c ≤ d) (hS : d ≤ store_capacity) (hdef : defines fuel d name sa) :
    ∀ j,
      (∀ k, a < k → k < a + 1 + j → ∃ s n, repl_after fuel script k = some s ∧
        (n.length = name.length → pack n ≠ pack name) ∧ defines fuel d n s) →
      ∀ s, repl_after fuel script (a + 1 + j) = some s →
        (s.token = 102 ∨ s.token = 108 ∨ s.token = 111) → Defined c d name s := by
  intro j
  induction j with
  | zero =>
    intro _ s hs ht
    exact defined_turn fuel c d name sa s (repl_after_succ fuel script a sa s ha hs) ht
      (fun s' hr => defined_first fuel c d name sa s' hcur h16 hcd hS hdef hr)
  | succ j ih =>
    intro hmore s hs ht
    obtain ⟨sk, n, hk, hne, hd⟩ := hmore (a + 1 + j) (by omega) (by omega)
    have hD := ih (fun k h1 h2 => hmore k h1 (by omega)) sk hk (by
      rcases hd.1 with e | e
      · exact Or.inl e
      · exact Or.inr (Or.inl e))
    exact defined_turn fuel c d name sk s (repl_after_succ fuel script (a + 1 + j) sk s hk hs) ht
      (fun s' hr => defined_kept fuel c d name n sk s' hD hne hd hr)

/-- Claim C12, amended. Forget undoes definition, as long as the programs
that run in between leave the dictionary and the cursors alone. In a session
at the prompt let command number `a` be a definition of NAME, by `let` or by
`fun`, made when the cursors are `(c, d)` with `16 <= c <= d <= S`, let every
command after it and before command number `b` be a definition of another
name (a name of another length, or of other bytes), and let command number
`b` be `forget NAME`; all these commands end with no complaint. If the run
of the initializer of each `let` among the definitions leaves the two cursor
cells and the headers pushed since, the bytes of `[dict_idx, d)`, as they
were when it started, then the `forget` leaves `code_idx = c` and
`dict_idx = d`. -/
theorem C12_forget_undoes_definition (fuel : Nat) (script : List Nat) (a b : Nat)
    (name : List Nat) (c d : Nat) (sa sb : State) (hab : a < b)
    (ha : repl_after fuel script a = some sa) (hb : repl_after fuel script b = some sb)
    (hcur : cursors sa = (c, d)) (h16 : 16 ≤ c) (hcd : c ≤ d) (hS : d ≤ store_capacity)
    (hdef : defines fuel d name sa)
    (hmore : ∀ k, a < k → k < b → ∃ s n, repl_after fuel script k = some s ∧
      (n.length = name.length → pack n ≠ pack name) ∧ defines fuel d n s)
    (hforget : forgets fuel name sb) :
    ∃ s', run_command fuel true sb = some s' ∧ s'.complaint = none ∧ cursors s' = (c, d) := by
  obtain ⟨j, rfl⟩ : ∃ j, b = a + 1 + j := ⟨b - a - 1, by omega⟩
  obtain ⟨ft, fn, fq⟩ := hforget
  have hD := defined_chain fuel script a name c d sa ha hcur h16 hcd hS hdef j hmore sb hb
    (Or.inr (Or.inr ft))
  cases hr : run_command fuel true sb with
  | none =>
    rw [hr] at fq
    cases fq
  | some s' =>
    rw [hr] at fq
    have hn : s'.complaint = none := Option.some.inj fq
    cases hnx : next fuel sb with
    | none =>
      rw [hnx] at fn
      cases fn
    | some t =>
      rw [hnx] at fn
      exact ⟨s', rfl, hn, defined_forget fuel c d name sb t s' hD ft hnx (Option.some.inj fn) hr
        hn⟩

theorem defines_of_checks (fuel d : Nat) (name : List Nat) (s : State)
    (h1 : s.token = 102 ∨ s.token = 108)
    (h2 : (next fuel s).map (fun t => t.token_name) = some name)
    (h3 : (run_command fuel true s).map (fun s' => s'.complaint) = some none)
    (h4 : (command_machine fuel s).isNone = true ∨
      (command_machine fuel s).bind (fun p => (run fuel (code_idx p.2) p.1 p.2).map
        (fun r => same_block (dict_idx p.2) d p.2.the_store r.2.the_store)) = some true) :
    defines fuel d name s := by
  refine ⟨h1, h2, h3, fun e V r hm hr => ?_⟩
  rcases h4 with h4 | h4
  · rw [hm] at h4
    cases h4
  · rw [hm] at h4
    simp only [Option.some_bind] at h4
    rw [hr] at h4
    exact Option.some.inj h4

set_option maxRecDepth 1000000 in
/-- An instance of claim C12: in the session `let x = 1`, `fun f n = n + x`,
`let y = f 2`, `forget x` the cursors are (21, 4070) when `x` is defined and
again after the `forget`. -/
theorem C12_define_and_forget_x :
    (0 < 3 ∧ repl_after 40 define_and_forget 0 = some (define_and_forget_at 0) ∧
      repl_after 40 define_and_forget 3 = some (define_and_forget_at 3) ∧
      cursors (define_and_forget_at 0) = (21, 4070) ∧
      defines 40 4070 [120] (define_and_forget_at 0) ∧
      defines 40 4070 [102] (define_and_forget_at 1) ∧
      defines 40 4070 [121] (define_and_forget_at 2) ∧
      forgets 40 [120] (define_and_forget_at 3)) ∧
    ∃ s', run_command 40 true (define_and_forget_at 3) = some s' ∧ s'.complaint = none ∧
      cursors s' = (21, 4070) :=
  have i0 : (repl_after 40 define_and_forget 0).isSome = true := by decide!
  have i1 : (repl_after 40 define_and_forget 1).isSome = true := by decide!
  have i2 : (repl_after 40 define_and_forget 2).isSome = true := by decide!
  have i3 : (repl_after 40 define_and_forget 3).isSome = true := by decide!
  have hc : cursors (define_and_forget_at 0) = (21, 4070) := by decide!
  have d0 : defines 40 4070 [120] (define_and_forget_at 0) :=
    defines_of_checks 40 4070 [120] _ (Or.inr (by decide!)) (by decide!) (by decide!)
      (Or.inr (by decide!))
  have d1 : defines 40 4070 [102] (define_and_forget_at 1) :=
    defines_of_checks 40 4070 [102] _ (Or.inl (by decide!)) (by decide!) (by decide!)
      (Or.inl (by decide!))
  have d2 : defines 40 4070 [121] (define_and_forget_at 2) :=
    defines_of_checks 40 4070 [121] _ (Or.inr (by decide!)) (by decide!) (by decide!)
      (Or.inr (by decide!))
  have f3 : forgets 40 [120] (define_and_forget_at 3) := ⟨by decide!, by decide!, by decide!⟩
  ⟨⟨by decide, some_state_of _ i0, some_state_of _ i3, hc, d0, d1, d2, f3⟩,
    C12_forget_undoes_definition 40 define_and_forget 0 3 [120] 21 4070
      (define_and_forget_at 0) (define_and_forget_at 3) (by decide) (some_state_of _ i0)
      (some_state_of _ i3) hc (by decide) (by decide) (by decide) d0
      (fun k h1 h2 => by
        obtain rfl | rfl : k = 1 ∨ k = 2 := by omega
        · exact ⟨define_and_forget_at 1, [102], some_state_of _ i1, fun _ => by decide, d1⟩
        · exact ⟨define_and_forget_at 2, [121], some_state_of _ i2, fun _ => by decide, d2⟩)
      f3⟩

set_option maxRecDepth 1000000 in
/-- Claim C12, the failing inputs: three sessions in which `x` is defined
when the cursors are (21, 4070), one more definition follows, every command
ends with no complaint, and `forget x` does not leave the cursors at
(21, 4070). In the first the second definition has stored 25 in the binding
of the header of `x`, at 4066. In the second it has stored the letter `x`
over the name of its own header, at 4065, which `forget x` then finds first.
In the third it has made a header named `x` at 3000, in the free space, and
has stored 3000 in `dict_idx`. -/
theorem C12_forget_after_a_store_to_the_header :
    ((repl_after 40 (bytes_of "let x = 1\nlet y = setx 4066 25\nforget x\n") 0).map cursors =
        some (21, 4070) ∧
      (List.range 3).map (fun k =>
          ((repl_after 40 (bytes_of "let x = 1\nlet y = setx 4066 25\nforget x\n") k).bind
            (run_command 40 true)).map (fun s => (s.complaint, cursors s))) =
        [some (none, (25, 4066)), some (none, (29, 4062)), some (none, (25, 4070))]) ∧
    ((repl_after 40 (bytes_of "let x = 0\nlet y = setb 4065 120\nforget x\n") 0).map cursors =
        some (21, 4070) ∧
      (List.range 3).map (fun k =>
          ((repl_after 40 (bytes_of "let x = 0\nlet y = setb 4065 120\nforget x\n") k).bind
            (run_command 40 true)).map (fun s => (s.complaint, cursors s))) =
        [some (none, (25, 4066)), some (none, (29, 4062)), some (none, (25, 4066))]) ∧
    ((repl_after 40 (bytes_of
          "let x = 0\nlet y = setx 3000 77 ; setb 3002 32 ; setb 3003 120 ; dp : 3000\nforget x\n")
          0).map cursors = some (21, 4070) ∧
      (List.range 3).map (fun k =>
          ((repl_after 40 (bytes_of
            "let x = 0\nlet y = setx 3000 77 ; setb 3002 32 ; setb 3003 120 ; dp : 3000\nforget x\n")
            k).bind (run_command 40 true)).map (fun s => (s.complaint, cursors s))) =
        [some (none, (25, 4066)), some (none, (29, 3000)), some (none, (77, 3004))]) := by
  decide!

/-! ## Claim C9: the cursors -/

theorem reach_of_le (s : State) (h : code_idx s ≤ store_capacity + 2) :
    reach s = store_capacity + 2 := Nat.max_eq_right h

theorem Kept.nothing {s : State} (hs : Safe s) : Kept 0 s s :=
  ⟨hs, rfl, Nat.le_refl _, fun h => h⟩

/-- A step that leaves the cursors and `prev_instruc` as they are and clears
no complaint. -/
theorem Kept.of_cursors {s s' : State} (hs : Safe s) (hc : code_idx s' = code_idx s)
    (hd : dict_idx s' = dict_idx s) (hp : s'.prev_instruc = s.prev_instruc)
    (hl : s.complaint.isSome = true → s'.complaint.isSome = true) : Kept 0 s s' := by
  obtain ⟨s1, s2, s3, s4⟩ := hs
  refine ⟨⟨by rw [hc]; exact s1, by rw [hd]; exact s2, by rw [hp]; exact s3, fun hn => ?_⟩, hd,
    by simp only [reach, hc]; omega, hl⟩
  rw [hc]
  exact s4 (none_of_not_latched s (fun hx => not_latched s' hn (hl hx)))

theorem complain_kept (s : State) (msg : String) (hs : Safe s) : Kept 0 s (complain s msg) :=
  Kept.of_cursors hs (code_idx_of_store _ _ (complain_store s msg))
    (dict_idx_of_store _ _ (complain_store s msg)) (complain_prev s msg)
    (fun _ => complain_latched s msg)

theorem expect_kept (s : State) (t : Int) (msg : String) (hs : Safe s) :
    Kept 0 s (expect s t msg).2 := by
  unfold expect
  split_ifs
  · exact Kept.nothing hs
  · exact complain_kept s msg hs

theorem Kept.bound {n : Nat} {s s' : State} (h : Kept n s s') (hr : reach s + n ≤ 65533) :
    reach s' ≤ 65533 := by
  have := h.grown
  omega

theorem lex_string_prev (fuel : Nat) : ∀ (p : Nat) (s s' : State),
    lex_string fuel p s = some s' → s'.prev_instruc = s.prev_instruc := by
  induction fuel with
  | zero => intro p s s' h; cases h
  | succ f ih =>
    intro p s s' h
    have hc := ch_prev s
    rw [lex_string] at h
    generalize ch s = r at h hc
    obtain ⟨c, s1⟩ := r
    simp only [] at h hc
    split_ifs at h
    · cases h
      show (next_char s1).prev_instruc = _
      rw [next_char_prev, hc]
    · cases h
      show (complain s1 _).prev_instruc = _
      rw [complain_prev, hc]
    · generalize ha : available s1 (p + 2 - code_idx s1) = r2 at h
      obtain ⟨b, s2⟩ := r2
      have e2 : s2.prev_instruc = s1.prev_instruc := by
        have : s2 = (available s1 (p + 2 - code_idx s1)).2 := by rw [ha]
        rw [this]
        unfold available
        split_ifs
        · rfl
        · exact complain_prev s1 _
      cases b with
      | false =>
        cases h
        show s2.prev_instruc = _
        rw [e2, hc]
      | true =>
        simp only [] at h
        rw [ih (p + 1) _ _ h, next_char_prev]
        show s2.prev_instruc = _
        rw [e2, hc]

theorem next_prev (fuel : Nat) : ∀ (s s' : State), next fuel s = some s' →
    s'.prev_instruc = s.prev_instruc := by
  induction fuel with
  | zero => intro s s' h; cases h
  | succ f ih =>
    intro s s' h
    have hc := ch_prev s
    rw [next] at h
    generalize ch s = r at h hc
    obtain ⟨c, s1⟩ := r
    simp only [] at h hc
    split_ifs at h
    · exact (lex_number_prev f _ _ h).trans hc
    · generalize hl : lex_ident f [] s1 = r2 at h
      cases r2 with
      | none => cases h
      | some q =>
        obtain ⟨name, s2⟩ := q
        cases h
        exact (lex_ident_prev f _ _ _ _ hl).trans hc
    · rw [lex_string_prev f _ _ _ h, next_char_prev, hc]
    · cases h
      exact (next_char_prev _).trans hc
    · rw [ih _ _ h, next_char_prev, hc]
    · generalize hl : skip_line f s1 = r2 at h
      cases r2 with
      | none => cases h
      | some s2 =>
        simp only [] at h
        rw [ih _ _ h, skip_line_prev f _ _ hl, hc]
    · cases h
      exact (complain_prev s1 _).trans hc

theorem Ordered.safe {s : State} (ho : Ordered s) (h16 : 16 ≤ code_idx s) : Safe s :=
  ⟨h16, ho.2.1, ho.2.2, fun _ => by have := ho.1; have := ho.2.1; omega⟩

theorem Ordered.reach {s : State} (ho : Ordered s) : reach s = store_capacity + 2 :=
  reach_of_le s (by have := ho.1; have := ho.2.1; omega)

theorem Ordered.of_same {s s' : State} (ho : Ordered s) (hm : cursors s' = cursors s)
    (hp : s'.prev_instruc = s.prev_instruc) : Ordered s' := by
  simp only [cursors, Prod.mk.injEq] at hm
  unfold Ordered
  rw [hm.1, hm.2, hp]
  exact ho

theorem next_cursors (fuel : Nat) (s s' : State) (h : next fuel s = some s')
    (h7 : 7 ≤ code_idx s) : cursors s' = cursors s :=
  Prod.ext (next_code_idx fuel s s' (by omega) h) (next_dict_idx fuel s s' h7 h)

theorem complain_cursors (s : State) (msg : String) : cursors (complain s msg) = cursors s :=
  cursors_of_store s _ (complain_store s msg)

theorem Ordered.complain {s : State} (ho : Ordered s) (msg : String) :
    Ordered (complain s msg) :=
  ho.of_same (complain_cursors s msg) (complain_prev s msg)

/-- What `bind` does to the cursors, whether it has room or not. -/
theorem bind_cursors (s : State) (name : List Nat) (kind binding : Nat) (h8 : 8 ≤ code_idx s)
    (hb : code_idx s ≤ 65533) (hl : name.length ≤ 16) :
    code_idx (bind s name kind binding).2 = code_idx s ∧
    dict_idx (bind s name kind binding).2 ≤ dict_idx s ∧
    (code_idx s ≤ dict_idx s → code_idx s ≤ dict_idx (bind s name kind binding).2) ∧
    (bind s name kind binding).2.prev_instruc = s.prev_instruc := by
  by_cases hroom : code_idx s + (3 + name.length) ≤ dict_idx s
  · obtain ⟨t, e, d1, c1, -, te⟩ := bind_frame s name kind binding hroom h8
    rw [e]
    refine ⟨c1, by rw [d1]; omega, fun _ => by rw [d1]; omega, ?_⟩
    show t.prev_instruc = _
    rw [te]
  · rw [bind_refused s name kind binding hroom (by omega)]
    have hc := complain_cursors s "Store exhausted"
    simp only [cursors, Prod.mk.injEq] at hc
    exact ⟨hc.1, by rw [hc.2], fun h => by rw [hc.2]; exact h, complain_prev s _⟩

theorem Ordered.bind {s : State} (ho : Ordered s) (name : List Nat) (kind binding : Nat)
    (h8 : 8 ≤ code_idx s) (hl : name.length ≤ 16) :
    Ordered (bind s name kind binding).2 ∧
      code_idx (bind s name kind binding).2 = code_idx s := by
  have hcap : store_capacity = 4096 := rfl
  obtain ⟨o1, o2, o3⟩ := ho
  obtain ⟨b1, b2, b3, b4⟩ := bind_cursors s name kind binding h8 (by omega) hl
  exact ⟨⟨by rw [b1]; exact b3 o1, by omega, by rw [b4]; exact o3⟩, b1⟩

theorem Ordered.next {s s' : State} (ho : Ordered s) (fuel : Nat) (h : next fuel s = some s')
    (h7 : 7 ≤ code_idx s) : Ordered s' ∧ code_idx s' = code_idx s :=
  ⟨ho.of_same (next_cursors fuel s s' h h7) (next_prev fuel s s' h),
    next_code_idx fuel s s' (by omega) h⟩

end Wren
